import Mathlib

/-! CurveFS client: deferred inode synchronisation and path resolution.

A shallow embedding of `curvefs/src/client/filesystem/defer_sync.{h,cpp}` and of
the path walk of `curvefs/src/client/vfs/vfs.cpp`, followed by the properties
proved about them.

Conventions
* `uint64_t` inode ids, addresses and counters are `Nat`.
* A `std::shared_ptr<InodeWrapper>` is an `InodeWrapperPtr`: the address of the
  shared object together with the (immutable) inode id it was created for.  The
  mutable part of the object lives in a heap indexed by the address, so two
  handles are the same reference exactly when they are equal.
* Calls that leave the component (remote synchronisation, thread launch, ...)
  are recorded in a trace, oldest first.
-/

namespace CurveFS

/-! ## Data model -/

abbrev Ino := Nat

/-- The file types of `FsFileType` that the client distinguishes. -/
inductive FsFileType where
  | TYPE_DIRECTORY
  | TYPE_FILE
  | TYPE_SYM_LINK
  | TYPE_S3
  deriving DecidableEq, Repr

/-- The fields of the protobuf message `InodeAttr` that the embedded code reads. -/
structure InodeAttr where
  inodeid : Ino
  type : FsFileType
  mode : Nat
  uid : Nat
  gid : Nat
  length : Nat
  mtime : Nat
  mtime_ns : Nat
  deriving DecidableEq, Repr

/-- The struct `TimeSpec(seconds, nanoSeconds)`. -/
structure TimeSpec where
  seconds : Nat
  nanoSeconds : Nat
  deriving DecidableEq, Repr

/-- The struct `DeferAttr` of defer_sync.h with its converting constructor below. -/
structure DeferAttr where
  mtime : TimeSpec
  length : Nat
  deriving DecidableEq, Repr

/-- The constructor `explicit DeferAttr(const InodeAttr& attr)`. -/
def DeferAttr.ofInodeAttr (attr : InodeAttr) : DeferAttr :=
  { mtime := TimeSpec.mk attr.mtime attr.mtime_ns, length := attr.length }

/-- A non-null `std::shared_ptr<InodeWrapper>`: the address of the shared object
and the inode id returned by `GetInodeId()`. -/
structure InodeWrapperPtr where
  addr : Nat
  ino : Ino
  deriving DecidableEq, Repr

/-- The accessor `InodeWrapper::GetInodeId`. -/
def InodeWrapperPtr.GetInodeId (inode : InodeWrapperPtr) : Ino := inode.ino

/-! ## `absl::btree_map<Ino, std::shared_ptr<InodeWrapper>>`

The map is the list of its entries in key order. -/

abbrev BtreeMap := List (Ino × InodeWrapperPtr)

namespace BtreeMap

/-- The lookup `find(ino)`: the value of the entry with that key, `none` for `end()`. -/
def find : BtreeMap → Ino → Option InodeWrapperPtr
  | [], _ => none
  | (k, v) :: rest, ino => if k = ino then some v else find rest ino

/-- The insertion `emplace(key, value)`: inserts at the key's place when the key
is absent (second component `true`), leaves the map alone otherwise (`false`). -/
def emplace : BtreeMap → Ino → InodeWrapperPtr → BtreeMap × Bool
  | [], key, value => ([(key, value)], true)
  | (k, v) :: rest, key, value =>
    if key < k then ((key, value) :: (k, v) :: rest, true)
    else if key = k then ((k, v) :: rest, false)
    else ((k, v) :: (emplace rest key value).1, (emplace rest key value).2)

/-- The assignment `iter->second = value` for the iterator at `key`. -/
def assign : BtreeMap → Ino → InodeWrapperPtr → BtreeMap
  | [], _, _ => []
  | (k, v) :: rest, key, value =>
    if k = key then (k, value) :: rest else (k, v) :: assign rest key value

/-- The removal `erase(iter)` for the iterator at `key`: removes that one entry. -/
def erase : BtreeMap → Ino → BtreeMap
  | [], _ => []
  | (k, v) :: rest, key => if k = key then rest else (k, v) :: erase rest key

/-- The keys of the map, in order. -/
def keys (m : BtreeMap) : List Ino := m.map Prod.fst

/-- Well-formedness of the container: keys strictly increasing (hence unique). -/
def WF (m : BtreeMap) : Prop := (keys m).Pairwise (· < ·)

instance (m : BtreeMap) : Decidable (WF m) := by
  unfold WF; infer_instance

end BtreeMap

/-! ## `DeferInodes` -/

/-- The class `DeferInodes`: the registry `inodes_` (the lock is not modelled,
every member function runs under it as one step). -/
structure DeferInodes where
  inodes_ : BtreeMap
  deriving DecidableEq, Repr

namespace DeferInodes

/-- The predicate `DeferInodes::ModifiedSince`: constantly true. -/
def ModifiedSince (_now : InodeWrapperPtr) (_old : Option InodeWrapperPtr) : Bool := true

/-- The member `DeferInodes::Add`: returns the new registry and the result. -/
def Add (self : DeferInodes) (inode : InodeWrapperPtr) : DeferInodes × Bool :=
  let ret := self.inodes_.emplace inode.GetInodeId inode
  let yes := ret.2
  if yes then
    ({ inodes_ := ret.1 }, true)
  else if ModifiedSince inode (ret.1.find inode.GetInodeId) then
    ({ inodes_ := ret.1.assign inode.GetInodeId inode }, true)
  else
    ({ inodes_ := ret.1 }, false)

/-- The member `DeferInodes::Get`: the result and the value of the out-parameter
`*inode` afterwards (`out` is its value before the call; `none` is a null pointer). -/
def Get (self : DeferInodes) (ino : Ino) (out : Option InodeWrapperPtr) :
    Bool × Option InodeWrapperPtr :=
  match self.inodes_.find ino with
  | none => (false, out)
  | some v => (true, some v)

/-- The member `DeferInodes::Remove`: returns the new registry and the result. -/
def Remove (self : DeferInodes) (ino : Ino) : DeferInodes × Bool :=
  match self.inodes_.find ino with
  | none => (self, false)
  | some _ => ({ inodes_ := self.inodes_.erase ino }, true)

end DeferInodes

/-! ## `DeferSync` -/

/-- Modelled from the spec: `InterruptibleSleeper` (src/common/interruptible_sleeper.h
is not among the sources).  The background task "sleeps for a configurable delay
or until interrupted" and `Stop` "signals the background task to wake
immediately": the sleeper is the flag set by `interrupt()`. -/
structure InterruptibleSleeper where
  interrupted : Bool
  deriving DecidableEq, Repr

/-- Modelled from the spec: `InterruptibleSleeper::interrupt` sets the stop signal. -/
def InterruptibleSleeper.interrupt (_self : InterruptibleSleeper) : InterruptibleSleeper :=
  { interrupted := true }

/-- Modelled from the spec: `InterruptibleSleeper::wait_for` returns `true` when the
delay elapsed and `false` when the stop signal has been given ("until an explicit stop
signal has been observed"). -/
def InterruptibleSleeper.wait_for (self : InterruptibleSleeper) : Bool :=
  !self.interrupted

/-- Where the thread running `DeferSync::SyncTask` stands; `syncing` is the part of
the local vector the `for` loop has not visited yet. -/
inductive TaskPc where
  | sleeping
  | woken (running : Bool)
  | flushing (running : Bool) (syncing : List InodeWrapperPtr)
  | exited
  deriving DecidableEq, Repr

/-- The class `DeferSync` (`option_` only sets the real-time delay; `mutex_` is not
modelled, each critical section is one step).  `thread_` is `none` when the
`std::thread` object is not joinable. -/
structure DeferSync where
  running_ : Bool
  thread_ : Option TaskPc
  sleeper_ : InterruptibleSleeper
  inodes_ : DeferInodes
  pending_ : List InodeWrapperPtr
  deriving DecidableEq, Repr

/-- The constructor `DeferSync::DeferSync`. -/
def DeferSync.new : DeferSync :=
  { running_ := false
    thread_ := none
    sleeper_ := { interrupted := false }
    inodes_ := { inodes_ := [] }
    pending_ := [] }

/-- What is observable of a run: every return of `Push`, every call of
`InodeWrapper::Async` with the object's state at the call and (only for the record,
the code never sees it) whether the remote synchronisation it starts succeeds, and
the thread operations of `Start` and `Stop`. -/
inductive Ev where
  | push (inode : InodeWrapperPtr)
  | async (inode : InodeWrapperPtr) (state : InodeAttr) (ok : Bool)
  | launch
  | interrupt
  | join
  deriving DecidableEq, Repr

/-- A `DeferSync` in its environment: the heap holding the mutable state of every
`InodeWrapper` object, and the trace so far (oldest first). -/
structure System where
  ds : DeferSync
  heap : Nat → InodeAttr
  trace : List Ev

/-- A fresh `DeferSync` over the given heap. -/
def System.init (heap : Nat → InodeAttr) : System :=
  { ds := DeferSync.new, heap := heap, trace := [] }

/-- A foreground thread changes the in-memory state of the object at `addr`
(under the object's lock, hence one step). -/
def Mutate (s : System) (addr : Nat) (state : InodeAttr) : System :=
  { s with heap := Function.update s.heap addr state }

namespace DeferSync

/-- The member `DeferSync::DoSync`: takes the object's lock and calls
`inode->Async(nullptr, true)`; nothing is returned.  `asyncOk` tells for each trace
position whether the synchronisation started there succeeds. -/
def DoSync (asyncOk : Nat → Bool) (s : System) (inode : InodeWrapperPtr) : System :=
  { s with trace := s.trace ++ [Ev.async inode (s.heap inode.addr) (asyncOk s.trace.length)] }

/-- One step of the thread running `DeferSync::SyncTask`:
`sleeping`: `wait_for` returns; `woken`: `syncing.swap(pending_)` under the mutex;
`flushing` with a remaining member: `DoSync` then `inodes_->Remove`;
`flushing` with none left: `syncing.clear()` and the test of `running`. -/
def SyncTaskStep (asyncOk : Nat → Bool) (s : System) : System :=
  match s.ds.thread_ with
  | none => s
  | some TaskPc.exited => s
  | some TaskPc.sleeping =>
    { s with ds := { s.ds with thread_ := some (TaskPc.woken s.ds.sleeper_.wait_for) } }
  | some (TaskPc.woken running) =>
    { s with ds := { s.ds with thread_ := some (TaskPc.flushing running s.ds.pending_),
                               pending_ := [] } }
  | some (TaskPc.flushing running (inode :: rest)) =>
    let s1 := DoSync asyncOk s inode
    { s1 with ds := { s1.ds with inodes_ := (s1.ds.inodes_.Remove inode.GetInodeId).1,
                                 thread_ := some (TaskPc.flushing running rest) } }
  | some (TaskPc.flushing running []) =>
    { s with ds := { s.ds with thread_ := some (if running then TaskPc.sleeping
                                                else TaskPc.exited) } }

/-- The member `DeferSync::Push`. -/
def Push (s : System) (inode : InodeWrapperPtr) : System :=
  { s with ds := { s.ds with inodes_ := (s.ds.inodes_.Add inode).1,
                             pending_ := s.ds.pending_ ++ [inode] },
           trace := s.trace ++ [Ev.push inode] }

/-- The overload `DeferSync::IsDefered(Ino, std::shared_ptr<InodeWrapper>*)`. -/
def IsDefered (s : System) (ino : Ino) (out : Option InodeWrapperPtr) :
    Bool × Option InodeWrapperPtr :=
  s.ds.inodes_.Get ino out

/-- The overload `DeferSync::IsDefered(Ino, DeferAttr*)`: the result and `*attr`
afterwards (`attr` is its value before); `none` when the function dereferences the
null `inode`. -/
def IsDeferedAttr (s : System) (ino : Ino) (attr : DeferAttr) : Option (Bool × DeferAttr) :=
  let inode : Option InodeWrapperPtr := none
  let r := s.ds.inodes_.Get ino inode
  let yes := r.1
  if yes then
    some (false, attr)
  else
    match r.2 with
    | none => none
    | some p => some (true, DeferAttr.ofInodeAttr (s.heap p.addr))

/-- The members of `syncing` the task has not synchronised yet. -/
def batch (s : System) : List InodeWrapperPtr :=
  match s.ds.thread_ with
  | some (TaskPc.flushing _ syncing) => syncing
  | _ => []

/-- Runs the task for `n` steps with no other thread interleaved. -/
def runTask (asyncOk : Nat → Bool) : Nat → System → System
  | 0, s => s
  | n + 1, s => runTask asyncOk n (SyncTaskStep asyncOk s)

/-- One flush cycle of a sleeping task with no other thread interleaved:
wake-up, swap, one flush per swapped handle, end of the iteration. -/
def flushCycle (asyncOk : Nat → Bool) (s : System) : System :=
  runTask asyncOk (s.ds.pending_.length + 3) s

/-- The call `thread_.join()`: fails (`none`) when the thread is not joinable, and
when the task has not left its loop after the steps that an interrupted task needs
at most (it would block for ever). -/
def Join (asyncOk : Nat → Bool) (s : System) : Option System :=
  match s.ds.thread_ with
  | none => none
  | some _ =>
    let s1 := runTask asyncOk (s.ds.pending_.length + (batch s).length + 6) s
    if s1.ds.thread_ = some TaskPc.exited then
      some { s1 with ds := { s1.ds with thread_ := none }, trace := s1.trace ++ [Ev.join] }
    else
      none

/-- The member `DeferSync::Start`; `none` when a joinable `thread_` is assigned to
(`std::terminate`). -/
def Start (s : System) : Option System :=
  if !s.ds.running_ then
    match s.ds.thread_ with
    | some _ => none
    | none =>
      some { s with ds := { s.ds with running_ := true, thread_ := some TaskPc.sleeping },
                    trace := s.trace ++ [Ev.launch] }
  else
    some s

/-- The member `DeferSync::Stop`. -/
def Stop (asyncOk : Nat → Bool) (s : System) : Option System :=
  if s.ds.running_ then
    let s1 : System :=
      { s with ds := { s.ds with running_ := false, sleeper_ := s.ds.sleeper_.interrupt },
               trace := s.trace ++ [Ev.interrupt] }
    Join asyncOk s1
  else
    some s

end DeferSync

/-- What foreground threads and the background task do while the `DeferSync` runs. -/
inductive Op where
  | push (inode : InodeWrapperPtr)
  | mutate (addr : Nat) (state : InodeAttr)
  | task
  deriving DecidableEq, Repr

/-- Executes one operation. -/
def Op.exec (asyncOk : Nat → Bool) (s : System) : Op → System
  | Op.push inode => DeferSync.Push s inode
  | Op.mutate addr state => Mutate s addr state
  | Op.task => DeferSync.SyncTaskStep asyncOk s

/-- Executes an interleaving, given as the list of its steps. -/
def runOps (asyncOk : Nat → Bool) (s : System) (ops : List Op) : System :=
  ops.foldl (Op.exec asyncOk) s

/-- A call of the lifecycle interface, or a step while running. -/
inductive Call where
  | start
  | stop
  | op (o : Op)
  deriving DecidableEq, Repr

/-- Executes one call; `none` when it fails. -/
def Call.exec (asyncOk : Nat → Bool) (s : System) : Call → Option System
  | Call.start => DeferSync.Start s
  | Call.stop => DeferSync.Stop asyncOk s
  | Call.op o => some (o.exec asyncOk s)

/-- Executes a sequence of calls; `none` as soon as one fails. -/
def runCalls (asyncOk : Nat → Bool) : System → List Call → Option System
  | s, [] => some s
  | s, c :: cs =>
    match c.exec asyncOk s with
    | none => none
    | some s1 => runCalls asyncOk s1 cs

/-- The `(handle, state)` arguments of the `Async` calls of a trace, in order. -/
def asyncCalls : List Ev → List (InodeWrapperPtr × InodeAttr)
  | [] => []
  | Ev.async inode state _ :: rest => (inode, state) :: asyncCalls rest
  | _ :: rest => asyncCalls rest

/-- The number of events of a trace equal to `e`. -/
def countEv (e : Ev) (trace : List Ev) : Nat := trace.count e

/-- The state right after `Start()` on a fresh `DeferSync`. -/
def DeferSync.started (heap : Nat → InodeAttr) : System :=
  (DeferSync.Start (System.init heap)).getD (System.init heap)

/-- The handles pushed by an interleaving, in push order. -/
def pushesOf : List Op → List InodeWrapperPtr
  | [] => []
  | Op.push inode :: rest => inode :: pushesOf rest
  | _ :: rest => pushesOf rest

/-- The number of task steps of an interleaving. -/
def taskSteps : List Op → Nat
  | [] => 0
  | Op.task :: rest => taskSteps rest + 1
  | _ :: rest => taskSteps rest

/-! ### Sample data for the concrete evaluations -/

/-- Sample state of inode 7: length 10, mtime 5 s 6 ns. -/
def sampleAttr : InodeAttr :=
  { inodeid := 7, type := FsFileType.TYPE_FILE, mode := 420, uid := 1000, gid := 1000,
    length := 10, mtime := 5, mtime_ns := 6 }

/-- Sample later state of inode 7: length 20, mtime 8 s 9 ns. -/
def sampleAttrLater : InodeAttr :=
  { inodeid := 7, type := FsFileType.TYPE_FILE, mode := 420, uid := 1000, gid := 1000,
    length := 20, mtime := 8, mtime_ns := 9 }

/-- Sample heap: every object is in the state `sampleAttr`. -/
def sampleHeap : Nat → InodeAttr := fun _ => sampleAttr

/-- Sample handle: the object at address 100, inode 7. -/
def sampleInode : InodeWrapperPtr := { addr := 100, ino := 7 }

/-- Sample value of a caller's `DeferAttr` before a query. -/
def sampleDeferAttr : DeferAttr := { mtime := { seconds := 0, nanoSeconds := 0 }, length := 0 }

/-- The handles of the recorded returns of `Push` of a trace, in order. -/
def pushCalls : List Ev → List InodeWrapperPtr
  | [] => []
  | Ev.push inode :: rest => inode :: pushCalls rest
  | _ :: rest => pushCalls rest

/-- The interleaving in which a foreground thread, for each state of the list in
turn, brings the object of `inode` into that state and pushes `inode`. -/
def pushRounds (inode : InodeWrapperPtr) : List InodeAttr → List Op
  | [] => []
  | state :: rest => Op.mutate inode.addr state :: Op.push inode :: pushRounds inode rest

/-- Sample state during `Stop()`: the flag is cleared and the sleeper interrupted, the
caller is blocked in `join`, the task has woken with `running` false and is about to
swap; inode 7 is pending. -/
def sampleStopping : System :=
  { ds := { running_ := false, thread_ := some (TaskPc.woken false),
            sleeper_ := { interrupted := true },
            inodes_ := { inodes_ := [(7, sampleInode)] }, pending_ := [sampleInode] },
    heap := sampleHeap, trace := [Ev.launch, Ev.push sampleInode, Ev.interrupt] }

/-! ### Invariants of the flush loop -/

/-- The registry is a well-formed map and every registered id belongs to a handle
that is in the pending queue or is a member of the batch not synchronised yet. -/
def RegInv (s : System) : Prop :=
  s.ds.inodes_.inodes_.WF ∧
  ∀ id, s.ds.inodes_.inodes_.find id ≠ none →
    ∃ h, (h ∈ s.ds.pending_ ∨ h ∈ DeferSync.batch s) ∧ h.ino = id

/-- Every recorded push of a trace is followed in it by an `Async` call on the pushed
handle, or the handle is still queued. -/
def TraceOK (tr : List Ev) (queued : InodeWrapperPtr → Prop) : Prop :=
  ∀ (i : Nat) (inode : InodeWrapperPtr), tr[i]? = some (Ev.push inode) →
    (∃ (j : Nat) (state : InodeAttr) (ok : Bool),
      i < j ∧ tr[j]? = some (Ev.async inode state ok)) ∨ queued inode

/-- The trace invariant of a state: queued means pending, or in the batch and not
yet synchronised. -/
def TraceInv (s : System) : Prop :=
  TraceOK s.trace (fun inode => inode ∈ s.ds.pending_ ∨ inode ∈ DeferSync.batch s)

/-- The task of a started, not yet stopped `DeferSync`: the flag is set, the sleeper
is not interrupted, and the task is in its loop with `running` true. -/
def RunInv (s : System) : Prop :=
  s.ds.running_ = true ∧ s.ds.sleeper_.interrupted = false ∧
  (s.ds.thread_ = some TaskPc.sleeping ∨ s.ds.thread_ = some (TaskPc.woken true) ∨
    ∃ syncing, s.ds.thread_ = some (TaskPc.flushing true syncing))

/-- The number of steps an interrupted task still takes before it leaves its loop. -/
def stepsToExit (s : System) : Nat :=
  match s.ds.thread_ with
  | none => 0
  | some TaskPc.exited => 0
  | some (TaskPc.flushing false syncing) => syncing.length + 1
  | some (TaskPc.woken false) => s.ds.pending_.length + 2
  | some TaskPc.sleeping => s.ds.pending_.length + 3
  | some (TaskPc.flushing true syncing) => syncing.length + s.ds.pending_.length + 4
  | some (TaskPc.woken true) => s.ds.pending_.length + 5

/-- An interrupted task in its last iteration has left nothing in the pending queue
unless a push arrived after its swap: here, the states in which it has not. -/
def DrainInv (s : System) : Prop :=
  s.ds.sleeper_.interrupted = true ∧ s.ds.thread_ ≠ none ∧
  ((s.ds.thread_ = some TaskPc.exited ∨ ∃ syncing, s.ds.thread_ = some (TaskPc.flushing false syncing))
    → s.ds.pending_ = [])

/-- The lifecycle invariant: a thread object is joinable exactly while the running
flag is set; the launches of the trace exceed the joins by the one live task, if any;
every interrupt has been followed by its join. -/
def LifeInv (s : System) : Prop :=
  (s.ds.running_ = true → ∃ pc, s.ds.thread_ = some pc) ∧
  (s.ds.running_ = false → s.ds.thread_ = none) ∧
  countEv Ev.launch s.trace = countEv Ev.join s.trace + (if s.ds.running_ then 1 else 0) ∧
  countEv Ev.interrupt s.trace = countEv Ev.join s.trace

/-! ## The VFS layer: `VFS::Lookup` and what it calls -/

/-- The codes of `CURVEFS_ERROR` that the embedded sources name (the enumeration is
declared in filesystem/error.h, which is not among the sources). -/
inductive CURVEFS_ERROR where
  | OK
  | INTERNAL
  | NOTEXIST
  | EXISTS
  | NOT_A_DIRECTORY
  | NOTEMPTY
  | NO_PERMISSION
  | NAMETOOLONG
  | BAD_FD
  | END_OF_FILE
  | INVALID_PARAM
  | INVALIDPARAM
  | OUT_OF_RANGE
  | NODATA
  | NOSYS
  deriving DecidableEq, Repr

/-- Modelled from the spec: the "fixed well-known root inode" `ROOT_INO` (its
declaration is not among the sources; CurveFS numbers the root inode 1). -/
def ROOT_INO : Ino := 1

/-- Modelled from the spec: the access request `WANT_EXEC` of the permission checker
("read/write/execute, bitwise-combinable"); the constant is not among the sources. -/
def WANT_EXEC : Nat := 1

/-- The default-constructed `InodeAttr` message. -/
def InodeAttr.empty : InodeAttr :=
  { inodeid := 0, type := FsFileType.TYPE_DIRECTORY, mode := 0, uid := 0, gid := 0,
    length := 0, mtime := 0, mtime_ns := 0 }

/-- The struct `Entry` of vfs/meta.h as `VFS::Lookup` uses it: inode id and attributes. -/
structure Entry where
  ino : Ino
  attr : InodeAttr
  deriving DecidableEq, Repr

/-- The value `Entry()`. -/
def Entry.empty : Entry := { ino := 0, attr := InodeAttr.empty }

/-- The struct `EntryOut` as `VFS::DoLookup` reads it. -/
structure EntryOut where
  attr : InodeAttr
  entryTimeout : Nat
  attrTimeout : Nat
  deriving DecidableEq, Repr

/-- The struct `AttrOut` as `VFS::DoGetAttr` reads it. -/
structure AttrOut where
  attr : InodeAttr
  attrTimeout : Nat
  deriving DecidableEq, Repr

/-- The predicate `IsSymlink` of filesystem/utils.h. -/
def IsSymlink (attr : InodeAttr) : Bool := decide (attr.type = FsFileType.TYPE_SYM_LINK)

/-- The collaborator `op_` as the path walk uses it: the answers of the metadata side,
each a result code and the filled out-parameter. -/
structure Operations where
  Lookup : Ino → String → CURVEFS_ERROR × EntryOut
  GetAttr : Ino → CURVEFS_ERROR × AttrOut
  ReadLink : Ino → CURVEFS_ERROR × String

/-- The collaborator `permission_` (class `Permission`, not among the sources), taken
as given: `Check(attr, want)` returning a code and `Check(ino, want, &attr)` returning a
flag, both without side effect (the spec: "a pure function with no observable side
effect ... operates on an immutable snapshot"). -/
structure Permission where
  Check : InodeAttr → Nat → CURVEFS_ERROR
  CheckIno : Ino → Nat → InodeAttr → Bool

/-- What surrounds a `VFS` during a call: its collaborators and the indeterminate
value that the uninitialised local `rc` of `VFS::Lookup` holds. -/
structure Env where
  op_ : Operations
  permission_ : Permission
  uninitRc : CURVEFS_ERROR

/-- One record of the entry cache. -/
structure EntryRecord where
  parent : Ino
  name : String
  ino : Ino
  expire : Nat
  deriving DecidableEq, Repr

/-- Modelled from the spec: `EntryCache` (vfs/cache.h is not among the sources), a
"bounded-capacity, least-recently-used eviction, TTL expiry checked on every read"
map from (parent inode, child name) to child inode; most recently used first. -/
structure EntryCache where
  capacity : Nat
  records : List EntryRecord
  deriving DecidableEq, Repr

/-- Whether a record is the one of the key `(parent, name)`. -/
def EntryRecord.isKey (parent : Ino) (name : String) (r : EntryRecord) : Bool :=
  decide (r.parent = parent) && decide (r.name = name)

/-- Modelled from the spec: `EntryCache::Get` "returns not found both for absent and
for expired records (expired records may be lazily purged on access)"; a hit makes
the record the most recently used.  Returns the flag, `*ino` afterwards, the cache. -/
def EntryCache.Get (c : EntryCache) (now : Nat) (parent : Ino) (name : String) (out : Ino) :
    Bool × Ino × EntryCache :=
  match c.records.find? (EntryRecord.isKey parent name) with
  | none => (false, out, c)
  | some r =>
    if now < r.expire then
      (true, r.ino,
        { c with records := r :: c.records.filter (fun x => !EntryRecord.isKey parent name x) })
    else
      (false, out,
        { c with records := c.records.filter (fun x => !EntryRecord.isKey parent name x) })

/-- Modelled from the spec: `EntryCache::Put` "overwrites any existing record and
resets its expiry"; the least recently used records beyond the capacity are evicted. -/
def EntryCache.Put (c : EntryCache) (now : Nat) (parent : Ino) (name : String) (ino : Ino)
    (timeout : Nat) : EntryCache :=
  { c with records :=
      (({ parent := parent, name := name, ino := ino, expire := now + timeout } : EntryRecord) ::
        c.records.filter (fun x => !EntryRecord.isKey parent name x)).take c.capacity }

/-- Modelled from the spec: `EntryCache::Delete` "removes a record if present (no-op if
absent)". -/
def EntryCache.Delete (c : EntryCache) (parent : Ino) (name : String) : EntryCache :=
  { c with records := c.records.filter (fun x => !EntryRecord.isKey parent name x) }

/-- One record of the attribute cache. -/
structure AttrRecord where
  ino : Ino
  attr : InodeAttr
  expire : Nat
  deriving DecidableEq, Repr

/-- Modelled from the spec: `AttrCache` (vfs/cache.h is not among the sources), the
same bounded LRU cache with TTL from inode id to attribute snapshot. -/
structure AttrCache where
  capacity : Nat
  records : List AttrRecord
  deriving DecidableEq, Repr

/-- Modelled from the spec: `AttrCache::Get`, as `EntryCache::Get`. -/
def AttrCache.Get (c : AttrCache) (now : Nat) (ino : Ino) (out : InodeAttr) :
    Bool × InodeAttr × AttrCache :=
  match c.records.find? (fun x => decide (x.ino = ino)) with
  | none => (false, out, c)
  | some r =>
    if now < r.expire then
      (true, r.attr, { c with records := r :: c.records.filter (fun x => !decide (x.ino = ino)) })
    else
      (false, out, { c with records := c.records.filter (fun x => !decide (x.ino = ino)) })

/-- Modelled from the spec: `AttrCache::Put`, as `EntryCache::Put`. -/
def AttrCache.Put (c : AttrCache) (now : Nat) (ino : Ino) (attr : InodeAttr) (timeout : Nat) :
    AttrCache :=
  { c with records :=
      (({ ino := ino, attr := attr, expire := now + timeout } : AttrRecord) ::
        c.records.filter (fun x => !decide (x.ino = ino))).take c.capacity }

/-- Modelled from the spec: `AttrCache::Delete`, as `EntryCache::Delete`. -/
def AttrCache.Delete (c : AttrCache) (ino : Ino) : AttrCache :=
  { c with records := c.records.filter (fun x => !decide (x.ino = ino)) }

/-- The fields of `struct stat` that the embedded functions assign before handing it to
`op_->SetAttr`; a field left unassigned holds an indeterminate value, written `none`. -/
structure Stat where
  st_mode : Option Nat
  st_uid : Option Nat
  st_gid : Option Nat
  deriving DecidableEq, Repr

/-- The calls a path walk makes on its caches and collaborators, with their arguments,
followed by the calls that the other operations of `VFS` make on `op_` and by the
deletions from the two caches. -/
inductive VfsEv where
  | permCheck (attr : InodeAttr) (want : Nat)
  | permCheckIno (ino : Ino) (want : Nat) (attr : InodeAttr)
  | entryCacheGet (parent : Ino) (name : String)
  | opLookup (parent : Ino) (name : String)
  | attrCacheGet (ino : Ino)
  | opGetAttr (ino : Ino)
  | opReadLink (ino : Ino)
  | opMkDir (parent : Ino) (name : String) (mode : Nat)
  | opRmDir (parent : Ino) (name : String)
  | opOpenDir (ino : Ino)
  | opReadDir (ino : Ino) (fh : Nat)
  | opCreate (parent : Ino) (name : String) (mode : Nat)
  | opRead (ino : Ino) (offset : Nat) (count : Nat)
  | opWrite (ino : Ino) (offset : Nat) (count : Nat)
  | opFlush (ino : Ino)
  | opClose (ino : Ino)
  | opUnlink (parent : Ino) (name : String)
  | opSetAttr (ino : Ino) (stat : Stat) (toSet : Nat)
  | opRename (parent : Ino) (name : String) (newparent : Ino) (newname : String)
  | entryCacheDelete (parent : Ino) (name : String)
  | attrCacheDelete (ino : Ino)
  deriving DecidableEq, Repr

/-- The members of class `VFS` that the path walk touches, the clock the caches read
(it does not advance during a call) and the log of the calls made so far, oldest first. -/
structure VFS where
  entryCache_ : EntryCache
  attrCache_ : AttrCache
  now : Nat
  log : List VfsEv
  deriving DecidableEq, Repr

/-- Appends a call to the log. -/
def VFS.record (vfs : VFS) (e : VfsEv) : VFS := { vfs with log := vfs.log ++ [e] }

/-! ### String helpers (`strings::`, `filepath::`; vfs/utils.h is not among the sources) -/

/-- The components of a character list cut at every slash, empty ones dropped; `cur`
is the component being read, reversed. -/
def splitAux : List Char → List Char → List String
  | [], cur => if cur = [] then [] else [String.mk cur.reverse]
  | c :: rest, cur =>
    if c = '/' then
      (if cur = [] then splitAux rest [] else String.mk cur.reverse :: splitAux rest [])
    else splitAux rest (c :: cur)

/-- Modelled from the spec: `filepath::Split`, the components of "a slash-separated
path", left to right. -/
def filepath.Split (path : String) : List String := splitAux path.data []

/-- Modelled from the spec: `strings::HasPrefix(str, "/")` tells an absolute link
target ("absolute targets resolve from root"). -/
def strings.HasPrefix (str pre : String) : Bool := pre.data.isPrefixOf str.data

/-- Modelled from the spec: `strings::Join(strs, delim)`, the strings joined by the
delimiter. -/
def strings.Join (strs : List String) (delim : String) : String := delim.intercalate strs

/-- Modelled from the spec: `strings::Join(names, start, end, delim)`: the join of the
components from index `start` up to, not including, index `finish` (the link's
"containing directory" when called with 0 and the link's index). -/
def strings.JoinRange (strs : List String) (start finish : Nat) (delim : String) : String :=
  delim.intercalate ((strs.take finish).drop start)

namespace VFS

/-- The member `VFS::DoLookup`: the code, `*ino` afterwards, the new state. -/
def DoLookup (env : Env) (vfs : VFS) (parent : Ino) (name : String) (ino : Ino) :
    CURVEFS_ERROR × Ino × VFS :=
  let got := vfs.entryCache_.Get vfs.now parent name ino
  let vfs1 := { vfs with entryCache_ := got.2.2 }.record (VfsEv.entryCacheGet parent name)
  if got.1 then
    (CURVEFS_ERROR.OK, got.2.1, vfs1)
  else
    let res := env.op_.Lookup parent name
    let vfs2 := vfs1.record (VfsEv.opLookup parent name)
    if res.1 ≠ CURVEFS_ERROR.OK then
      (res.1, got.2.1, vfs2)
    else
      let ino1 := res.2.attr.inodeid
      (CURVEFS_ERROR.OK, ino1,
        { vfs2 with
          entryCache_ := vfs2.entryCache_.Put vfs2.now parent name ino1 res.2.entryTimeout,
          attrCache_ := vfs2.attrCache_.Put vfs2.now ino1 res.2.attr res.2.attrTimeout })

/-- The member `VFS::DoGetAttr`: the code, `*attr` afterwards, the new state. -/
def DoGetAttr (env : Env) (vfs : VFS) (ino : Ino) (attr : InodeAttr) :
    CURVEFS_ERROR × InodeAttr × VFS :=
  let got := vfs.attrCache_.Get vfs.now ino attr
  let vfs1 := { vfs with attrCache_ := got.2.2 }.record (VfsEv.attrCacheGet ino)
  if got.1 then
    (CURVEFS_ERROR.OK, got.2.1, vfs1)
  else
    let res := env.op_.GetAttr ino
    let vfs2 := vfs1.record (VfsEv.opGetAttr ino)
    if res.1 ≠ CURVEFS_ERROR.OK then
      (res.1, got.2.1, vfs2)
    else
      (CURVEFS_ERROR.OK, res.2.attr,
        { vfs2 with attrCache_ := vfs2.attrCache_.Put vfs2.now ino res.2.attr res.2.attrTimeout })

/-- The member `VFS::DoReadLink`: the code, `*target` afterwards, the new state. -/
def DoReadLink (env : Env) (vfs : VFS) (ino : Ino) (dir : String) (target : String) :
    CURVEFS_ERROR × String × VFS :=
  let res := env.op_.ReadLink ino
  let link := res.2
  let vfs1 := vfs.record (VfsEv.opReadLink ino)
  if res.1 ≠ CURVEFS_ERROR.OK then
    (res.1, target, vfs1)
  else if strings.HasPrefix link "/" then
    (CURVEFS_ERROR.OK, link, vfs1)
  else
    (CURVEFS_ERROR.OK, strings.Join [dir, link] "/", vfs1)

end VFS

/-- What a call of `VFS::Lookup` leaves: the code, `*entry`, the new state. -/
structure LookupResult where
  rc : CURVEFS_ERROR
  entry : Entry
  vfs : VFS
  deriving DecidableEq, Repr

/-- How one iteration of the `for` loop of `VFS::Lookup` ends: at its end (with the new
`parent`, `rc` being OK), by `break`, by `return`, or not at all (the recursive call on
a link target does not return). -/
inductive Flow where
  | next (parent : Ino) (entry : Entry) (vfs : VFS)
  | brk (rc : CURVEFS_ERROR) (entry : Entry) (vfs : VFS)
  | ret (rc : CURVEFS_ERROR) (entry : Entry) (vfs : VFS)
  | diverge
  deriving DecidableEq, Repr

namespace VFS

/-- The body of the `for` loop of `VFS::Lookup` for the component `names[i]`; `recur`
is the recursive call `Lookup(target, followSymlink, entry)`.  The unsigned tests
`i == names.size() - 1` and `i == names.size() - 2` hold exactly when `i + 1`,
respectively `i + 2`, is the size (the wrapped value for a shorter list is out of the
range of the `int i`). -/
def LookupBody (env : Env) (recur : VFS → String → Bool → Entry → Option LookupResult)
    (names : List String) (followSymlink : Bool) (i : Nat) (name : String)
    (parent : Ino) (entry : Entry) (vfs : VFS) : Flow :=
  let rcCheck := env.permission_.Check entry.attr WANT_EXEC
  if parent ≠ ROOT_INO ∧ rcCheck ≠ CURVEFS_ERROR.OK then
    Flow.ret rcCheck entry (vfs.record (VfsEv.permCheck entry.attr WANT_EXEC))
  else
    let vfs0 := if parent ≠ ROOT_INO then vfs.record (VfsEv.permCheck entry.attr WANT_EXEC)
                else vfs
    let r1 := DoLookup env vfs0 parent name entry.ino
    let entry1 : Entry := { entry with ino := r1.2.1 }
    if r1.1 ≠ CURVEFS_ERROR.OK then
      Flow.brk r1.1 entry1 r1.2.2
    else
      let r2 := DoGetAttr env r1.2.2 entry1.ino entry1.attr
      let entry2 : Entry := { entry1 with attr := r2.2.1 }
      if r2.1 ≠ CURVEFS_ERROR.OK then
        Flow.brk r2.1 entry2 r2.2.2
      else
        let last := decide (i + 1 = names.length)
        let penultimate (parent1 : Ino) (entry3 : Entry) (vfs3 : VFS) : Flow :=
          if i + 2 = names.length then
            let yes := env.permission_.CheckIno parent1 WANT_EXEC entry3.attr
            let vfs4 := vfs3.record (VfsEv.permCheckIno parent1 WANT_EXEC entry3.attr)
            if !yes then Flow.ret CURVEFS_ERROR.NO_PERMISSION entry3 vfs4
            else Flow.next parent1 entry3 vfs4
          else
            Flow.next parent1 entry3 vfs3
        if (!last || followSymlink) && IsSymlink entry2.attr then
          let dir := strings.JoinRange names 0 i "/"
          let r3 := DoReadLink env r2.2.2 entry2.ino dir ""
          if r3.1 ≠ CURVEFS_ERROR.OK then
            Flow.brk r3.1 entry2 r3.2.2
          else
            match recur r3.2.2 r3.2.1 followSymlink entry2 with
            | none => Flow.diverge
            | some r4 =>
              if r4.rc ≠ CURVEFS_ERROR.OK then
                Flow.brk r4.rc r4.entry r4.vfs
              else
                penultimate r4.entry.ino r4.entry r4.vfs
        else
          penultimate entry2.ino entry2 r2.2.2

/-- The code of `VFS::Lookup` after its loop: the reset of `*entry` and the return. -/
def LookupEnd (rc : CURVEFS_ERROR) (entry : Entry) (vfs : VFS) : LookupResult :=
  if rc ≠ CURVEFS_ERROR.OK then { rc := rc, entry := Entry.empty, vfs := vfs }
  else { rc := rc, entry := entry, vfs := vfs }

/-- The `for` loop of `VFS::Lookup` from index `i` on, `rest` being the components
from that index; `none` when it does not terminate. -/
def LookupLoop (env : Env) (recur : VFS → String → Bool → Entry → Option LookupResult)
    (names : List String) (followSymlink : Bool) :
    List String → Nat → Ino → CURVEFS_ERROR → Entry → VFS → Option LookupResult
  | [], _, _, rc, entry, vfs => some (LookupEnd rc entry vfs)
  | name :: rest, i, parent, _, entry, vfs =>
    match LookupBody env recur names followSymlink i name parent entry vfs with
    | Flow.next parent1 entry1 vfs1 =>
      LookupLoop env recur names followSymlink rest (i + 1) parent1 CURVEFS_ERROR.OK entry1 vfs1
    | Flow.brk rc entry1 vfs1 => some (LookupEnd rc entry1 vfs1)
    | Flow.ret rc entry1 vfs1 => some { rc := rc, entry := entry1, vfs := vfs1 }
    | Flow.diverge => none

/-- The member `VFS::Lookup`, with `fuel` bounding the depth of its recursion on link
targets: `none` when the depth is exceeded.  `entry` is `*entry` before the call. -/
def Lookup (env : Env) : Nat → VFS → String → Bool → Entry → Option LookupResult
  | 0, _, _, _, _ => none
  | fuel + 1, vfs, path, followSymlink, entry =>
    if path = "/" then
      let entry1 : Entry := { entry with ino := ROOT_INO }
      let r := DoGetAttr env vfs entry1.ino entry1.attr
      some { rc := r.1, entry := { entry1 with attr := r.2.1 }, vfs := r.2.2 }
    else
      LookupLoop env (Lookup env fuel) (filepath.Split path) followSymlink
        (filepath.Split path) 0 ROOT_INO env.uninitRc entry vfs

end VFS

/-- The attributes of the sample inodes. -/
def sampleFsAttr (ino : Ino) : InodeAttr :=
  if ino = 1 then
    { inodeid := 1, type := FsFileType.TYPE_DIRECTORY, mode := 448, uid := 0, gid := 0,
      length := 4096, mtime := 1, mtime_ns := 0 }
  else if ino = 2 then
    { inodeid := 2, type := FsFileType.TYPE_SYM_LINK, mode := 511, uid := 0, gid := 0,
      length := 1, mtime := 1, mtime_ns := 0 }
  else if ino = 3 then
    { inodeid := 3, type := FsFileType.TYPE_DIRECTORY, mode := 493, uid := 0, gid := 0,
      length := 4096, mtime := 1, mtime_ns := 0 }
  else
    { inodeid := 4, type := FsFileType.TYPE_FILE, mode := 420, uid := 0, gid := 0,
      length := 10, mtime := 1, mtime_ns := 0 }

/-- The metadata side of the sample file system; every answer may be cached for one
time unit. -/
def sampleOp : Operations :=
  { Lookup := fun parent name =>
      if parent = 1 ∧ name = "a" then
        (CURVEFS_ERROR.OK, { attr := sampleFsAttr 2, entryTimeout := 1, attrTimeout := 1 })
      else if parent = 1 ∧ name = "b" then
        (CURVEFS_ERROR.OK, { attr := sampleFsAttr 3, entryTimeout := 1, attrTimeout := 1 })
      else if parent = 3 ∧ name = "c" then
        (CURVEFS_ERROR.OK, { attr := sampleFsAttr 4, entryTimeout := 1, attrTimeout := 1 })
      else
        (CURVEFS_ERROR.NOTEXIST, { attr := InodeAttr.empty, entryTimeout := 0, attrTimeout := 0 })
    GetAttr := fun ino =>
      if 1 ≤ ino ∧ ino ≤ 4 then (CURVEFS_ERROR.OK, { attr := sampleFsAttr ino, attrTimeout := 1 })
      else (CURVEFS_ERROR.NOTEXIST, { attr := InodeAttr.empty, attrTimeout := 0 })
    ReadLink := fun ino =>
      if ino = 2 then (CURVEFS_ERROR.OK, "/") else (CURVEFS_ERROR.INTERNAL, "") }

/-- A permission checker for a caller who is neither owner nor in the group of any
sample inode: execute access is what the mode grants to others (its lowest bit). -/
def samplePermission : Permission :=
  { Check := fun attr _ =>
      if attr.mode % 2 = 1 then CURVEFS_ERROR.OK else CURVEFS_ERROR.NO_PERMISSION
    CheckIno := fun _ _ attr => decide (attr.mode % 2 = 1) }

/-- The sample surroundings. -/
def sampleEnv : Env :=
  { op_ := sampleOp, permission_ := samplePermission, uninitRc := CURVEFS_ERROR.INTERNAL }

/-- A `VFS` with empty caches of capacity 8 at time 0. -/
def sampleVfs : VFS :=
  { entryCache_ := { capacity := 8, records := [] },
    attrCache_ := { capacity := 8, records := [] },
    now := 0, log := [] }

/-! ### Table-driven sample file systems -/

/-- One object of a sample file system: its directory entry `(parent, name)`, its inode
id, type and mode, and for a symbolic link its text. -/
structure SampleNode where
  parent : Ino
  name : String
  ino : Ino
  type : FsFileType
  mode : Nat
  link : String
  deriving DecidableEq, Repr

/-- The attributes of a sample object. -/
def SampleNode.attr (n : SampleNode) : InodeAttr :=
  { inodeid := n.ino, type := n.type, mode := n.mode, uid := 0, gid := 0,
    length := n.link.length, mtime := 1, mtime_ns := 0 }

/-- The attributes of the root of a table-driven sample file system (mode 0755). -/
def sampleRootAttr : InodeAttr :=
  { inodeid := ROOT_INO, type := FsFileType.TYPE_DIRECTORY, mode := 493, uid := 0, gid := 0,
    length := 4096, mtime := 1, mtime_ns := 0 }

/-- The metadata side of the file system made of the root and the listed objects; every
answer may be cached for `timeout` time units; a missing name or inode is NOTEXIST. -/
def tableOp (nodes : List SampleNode) (timeout : Nat) : Operations :=
  { Lookup := fun parent name =>
      match nodes.find? (fun n => decide (n.parent = parent) && decide (n.name = name)) with
      | some n => (CURVEFS_ERROR.OK,
          { attr := n.attr, entryTimeout := timeout, attrTimeout := timeout })
      | none => (CURVEFS_ERROR.NOTEXIST,
          { attr := InodeAttr.empty, entryTimeout := 0, attrTimeout := 0 })
    GetAttr := fun ino =>
      if ino = ROOT_INO then (CURVEFS_ERROR.OK, { attr := sampleRootAttr, attrTimeout := timeout })
      else match nodes.find? (fun n => decide (n.ino = ino)) with
        | some n => (CURVEFS_ERROR.OK, { attr := n.attr, attrTimeout := timeout })
        | none => (CURVEFS_ERROR.NOTEXIST, { attr := InodeAttr.empty, attrTimeout := 0 })
    ReadLink := fun ino =>
      match nodes.find? (fun n => decide (n.ino = ino) &&
          decide (n.type = FsFileType.TYPE_SYM_LINK)) with
      | some n => (CURVEFS_ERROR.OK, n.link)
      | none => (CURVEFS_ERROR.NOTEXIST, "") }

/-- A permission checker that allows everything. -/
def allowAll : Permission :=
  { Check := fun _ _ => CURVEFS_ERROR.OK, CheckIno := fun _ _ _ => true }

/-- A permission checker that denies everything. -/
def denyAll : Permission :=
  { Check := fun _ _ => CURVEFS_ERROR.NO_PERMISSION, CheckIno := fun _ _ _ => false }

/-- The file system of the path-resolution example: directory `/a` (inode 2), `/a/b` a
symbolic link with text `c` (inode 3), file `/a/c` (inode 4). -/
def exampleNodes : List SampleNode :=
  [ { parent := 1, name := "a", ino := 2, type := FsFileType.TYPE_DIRECTORY, mode := 493, link := "" },
    { parent := 2, name := "b", ino := 3, type := FsFileType.TYPE_SYM_LINK, mode := 511, link := "c" },
    { parent := 2, name := "c", ino := 4, type := FsFileType.TYPE_FILE, mode := 420, link := "" } ]

/-- The example file system with every permission check passing. -/
def exampleEnv : Env :=
  { op_ := tableOp exampleNodes 1, permission_ := allowAll, uninitRc := CURVEFS_ERROR.INTERNAL }

/-- The same file system for a caller to whom every permission check fails. -/
def exampleDenyEnv : Env :=
  { op_ := tableOp exampleNodes 1, permission_ := denyAll, uninitRc := CURVEFS_ERROR.INTERNAL }

/-- A metadata side on which every call fails with INTERNAL. -/
def failingOp : Operations :=
  { Lookup := fun _ _ => (CURVEFS_ERROR.INTERNAL,
      { attr := InodeAttr.empty, entryTimeout := 0, attrTimeout := 0 })
    GetAttr := fun _ => (CURVEFS_ERROR.INTERNAL, { attr := InodeAttr.empty, attrTimeout := 0 })
    ReadLink := fun _ => (CURVEFS_ERROR.INTERNAL, "") }

/-- Surroundings whose metadata side is unreachable. -/
def failingEnv : Env :=
  { op_ := failingOp, permission_ := allowAll, uninitRc := CURVEFS_ERROR.INTERNAL }

/-- A chain of links: `/l1` a link to `/l2` (inode 2), `/l2` a link to `/d` (inode 3),
`/d` a directory (inode 4), `/d/f` a file (inode 5). -/
def chainNodes : List SampleNode :=
  [ { parent := 1, name := "l1", ino := 2, type := FsFileType.TYPE_SYM_LINK, mode := 511, link := "/l2" },
    { parent := 1, name := "l2", ino := 3, type := FsFileType.TYPE_SYM_LINK, mode := 511, link := "/d" },
    { parent := 1, name := "d", ino := 4, type := FsFileType.TYPE_DIRECTORY, mode := 493, link := "" },
    { parent := 4, name := "f", ino := 5, type := FsFileType.TYPE_FILE, mode := 420, link := "" } ]

/-- The chain file system with every permission check passing. -/
def chainEnv : Env :=
  { op_ := tableOp chainNodes 1, permission_ := allowAll, uninitRc := CURVEFS_ERROR.INTERNAL }

/-- A link to itself: `/l` a symbolic link with text `/l` (inode 2); nothing may be
cached (timeout 0). -/
def loopNodes : List SampleNode :=
  [ { parent := 1, name := "l", ino := 2, type := FsFileType.TYPE_SYM_LINK, mode := 511, link := "/l" } ]

/-- The self-link file system with every permission check passing. -/
def loopEnv : Env :=
  { op_ := tableOp loopNodes 0, permission_ := allowAll, uninitRc := CURVEFS_ERROR.INTERNAL }

/-- The attributes a table-driven sample file system reports for an object that is not
a link: owner and group 0, length 0, mtime 1 s. -/
def sampleAttrOf (ino : Ino) (type : FsFileType) (mode : Nat) (length : Nat) : InodeAttr :=
  { inodeid := ino, type := type, mode := mode, uid := 0, gid := 0,
    length := length, mtime := 1, mtime_ns := 0 }

/-- Every record of both caches has expired. -/
def AllExpired (vfs : VFS) : Prop :=
  (∀ r ∈ vfs.entryCache_.records, r.expire ≤ vfs.now) ∧
  (∀ r ∈ vfs.attrCache_.records, r.expire ≤ vfs.now)

/-- No record of the attribute cache holds the attributes of a symbolic link. -/
def NoLinkCached (vfs : VFS) : Prop :=
  ∀ r ∈ vfs.attrCache_.records, IsSymlink r.attr = false

/-- The iteration ends, and the state it leaves has the property `P`. -/
def Flow.Keeps (P : VFS → Prop) : Flow → Prop
  | Flow.next _ _ v2 => P v2
  | Flow.brk _ _ v2 => P v2
  | Flow.ret _ _ v2 => P v2
  | Flow.diverge => False

/-- A file system without links: directory `/d` (inode 2) and file `/d/f` (inode 3). -/
def plainNodes : List SampleNode :=
  [ { parent := 1, name := "d", ino := 2, type := FsFileType.TYPE_DIRECTORY, mode := 493, link := "" },
    { parent := 2, name := "f", ino := 3, type := FsFileType.TYPE_FILE, mode := 420, link := "" } ]

/-- The link-free file system with every permission check passing. -/
def plainEnv : Env :=
  { op_ := tableOp plainNodes 1, permission_ := allowAll, uninitRc := CURVEFS_ERROR.INTERNAL }

/-! ## Permission contexts: `VFS::SetPermission` and `OperationsImpl::NewFuseContext` -/

/-- The struct `PermissionOption` as `VFS::SetPermission` initialises it. -/
structure PermissionOption where
  uid : Nat
  gid : Nat
  gids : List Nat
  umask : Nat
  needCheck : Bool
  deriving DecidableEq, Repr

/-- The member `VFS::SetPermission`: the code and the option it stores in `psOption_`,
wraps in `permission_` and hands to `op_`.  The initialiser reads `gids[0]` whatever the
size of the vector: `none` when that reads the first element of an empty vector. -/
def VFS.SetPermission (uid : Nat) (gids : List Nat) (umask : Nat) (needCheck : Bool) :
    Option (CURVEFS_ERROR × PermissionOption) :=
  match gids[0]? with
  | none => none
  | some gid0 =>
    some (CURVEFS_ERROR.OK,
      { uid := uid, gid := gid0, gids := gids, umask := umask, needCheck := needCheck })

/-- The struct `UserPermissionOption` held in `OperationsImpl::userPerm_`. -/
structure UserPermissionOption where
  uid : Nat
  gids : List Nat
  umask : Nat
  deriving DecidableEq, Repr

/-- What `FuseContext(uid, gid, umask)` is constructed from. -/
structure FuseContext where
  uid : Nat
  gid : Nat
  umask : Nat
  deriving DecidableEq, Repr

/-- The member `OperationsImpl::NewFuseContext`; the read of `gids[0]` is under the
test `gids.size() > 0`, which the index carries as its bound. -/
def OperationsImpl.NewFuseContext (userPerm_ : UserPermissionOption) : FuseContext :=
  let gids := userPerm_.gids
  let gid : Nat := if h : gids.length > 0 then gids[0] else 0
  { uid := userPerm_.uid, gid := gid, umask := userPerm_.umask }

/-! ## `FuseClient`: node creation, removal, links and rename -/

/-- The enumeration `NlinkChange`. -/
inductive NlinkChange where
  | kAddOne
  | kSubOne
  deriving DecidableEq, Repr

/-- Modelled from the spec: the struct `InodeParam`, with the fields that the embedded
functions assign; its declaration is not among the sources, and a field a function
leaves unassigned is taken to be zero or empty. -/
structure InodeParam where
  fsId : Nat
  length : Nat
  uid : Nat
  gid : Nat
  mode : Nat
  type : FsFileType
  rdev : Nat
  parent : Ino
  symlink : String
  deriving DecidableEq, Repr

/-- Modelled from the spec: the message `Dentry`, with the fields that the embedded
functions set and read; its declaration is not among the sources.  The field `fileFlag`
tells whether `set_flag(DentryFlag::TYPE_FILE_FLAG)` was called. -/
structure Dentry where
  fsid : Nat
  inodeid : Ino
  parentinodeid : Ino
  name : String
  type : FsFileType
  fileFlag : Bool
  deriving DecidableEq, Repr

/-- The keys of the directory summary inserted into an `XAttr`. -/
inductive XAttrKey where
  | XATTRENTRIES
  | XATTRSUBDIRS
  | XATTRFILES
  | XATTRFBYTES
  deriving DecidableEq, Repr

/-- The member functions of `RenameOperator` that `FuseOpRename` calls. -/
inductive RenameStep where
  | GetTxId
  | Precheck
  | RecordOldInodeInfo
  | LinkDestParentInode
  | PrepareTx
  | CommitTx
  | UnlinkSrcParentInode
  | UnlinkOldInode
  | UpdateInodeParent
  | UpdateCache
  deriving DecidableEq, Repr

/-- The calls the embedded functions of `FuseClient` make on their collaborators (inode
manager, dentry manager, inode wrappers, xattr manager, rename operator), with their
arguments; an `XAttr` is the list of its inserted pairs, a value being the number whose
decimal text is inserted. -/
inductive FuseEv where
  | createInode (param : InodeParam)
  | deleteInode (ino : Ino)
  | getInode (ino : Ino)
  | createDentry (dentry : Dentry)
  | getDentry (parent : Ino) (name : String)
  | listDentry (ino : Ino) (limit : Nat)
  | deleteDentry (parent : Ino) (name : String) (type : FsFileType)
  | updateTimestamp (ino : Ino)
  | updateNlink (ino : Ino) (change : NlinkChange)
  | shipToFlush (ino : Ino)
  | syncAttr (ino : Ino)
  | link (ino : Ino) (parent : Ino)
  | unLink (ino : Ino) (parent : Ino)
  | updateParentInodeXattr (parent : Ino) (xattr : List (XAttrKey × Nat)) (direction : Bool)
  | renameOperator (parent : Ino) (name : String) (newparent : Ino) (newname : String)
  | rename (step : RenameStep)
  | updateParentXattrAfterRename (parent : Ino) (newparent : Ino) (newname : String)
  | fsReadDir (ino : Ino) (fh : Nat)
  deriving DecidableEq, Repr

/-- The collaborators of a `FuseClient`, as answers that may depend on every call made
so far (the history ends with the call being answered): the code it returns, the id of
the inode a `CreateInode` made, the in-memory attributes of an inode's wrapper, the
dentry a `GetDentry` found and the list a `ListDentry` filled. -/
structure FuseWorld where
  rc : List FuseEv → CURVEFS_ERROR
  newIno : List FuseEv → Ino
  attrOf : List FuseEv → Ino → InodeAttr
  dentryOf : List FuseEv → Dentry
  dentries : List FuseEv → List Dentry

/-- The configuration and members of `FuseClient` that the embedded functions read. -/
structure FuseClientOption where
  maxNameLength : Nat
  listDentryLimit : Nat
  deferDirMtime : Bool
  enableSumInDir_ : Bool
  fsid : Nat
  deriving DecidableEq, Repr

/-- The context `fuse_req_ctx(req)` of a request. -/
structure FuseCtx where
  uid : Nat
  gid : Nat
  deriving DecidableEq, Repr

/-- The C function `strlen` on a name: its length in bytes. -/
def strlen (name : String) : Nat := name.utf8ByteSize

namespace FuseClient

/-- The member `FuseClient::UpdateParentMCTimeAndNlink`: the code and the calls made. -/
def UpdateParentMCTimeAndNlink (w : FuseWorld) (option_ : FuseClientOption)
    (tr : List FuseEv) (parent : Ino) (type : FsFileType) (nlink : NlinkChange) :
    CURVEFS_ERROR × List FuseEv :=
  let tr1 := tr ++ [FuseEv.getInode parent]
  let ret := w.rc tr1
  if ret ≠ CURVEFS_ERROR.OK then
    (ret, tr1)
  else
    let tr2 := tr1 ++ [FuseEv.updateTimestamp parent]
    let tr3 := if FsFileType.TYPE_DIRECTORY = type then tr2 ++ [FuseEv.updateNlink parent nlink]
               else tr2
    if option_.deferDirMtime then
      (CURVEFS_ERROR.OK, tr3 ++ [FuseEv.shipToFlush parent])
    else
      (w.rc (tr3 ++ [FuseEv.syncAttr parent]), tr3 ++ [FuseEv.syncAttr parent])

/-- The `XAttr` with which a parent's summary is updated for one child. -/
def summaryXattr (fileLike : Bool) (length : Nat) : List (XAttrKey × Nat) :=
  [(XAttrKey.XATTRENTRIES, 1),
   (if fileLike then XAttrKey.XATTRFILES else XAttrKey.XATTRSUBDIRS, 1),
   (XAttrKey.XATTRFBYTES, length)]

/-- The member `FuseClient::MakeNode`: the code, the inode id behind `inodeWrapper`
afterwards (`none` is a null handle; a `CreateInode` that fails is taken to leave the
handle as it was) and the calls made. -/
def MakeNode (w : FuseWorld) (option_ : FuseClientOption) (ctx : FuseCtx) (tr : List FuseEv)
    (parent : Ino) (name : String) (mode : Nat) (type : FsFileType) (rdev : Nat)
    (inodeWrapper : Option Ino) : CURVEFS_ERROR × Option Ino × List FuseEv :=
  if strlen name > option_.maxNameLength then
    (CURVEFS_ERROR.NAMETOOLONG, inodeWrapper, tr)
  else
    let param : InodeParam :=
      { fsId := option_.fsid,
        length := if FsFileType.TYPE_DIRECTORY = type then 4096 else 0,
        uid := ctx.uid, gid := ctx.gid, mode := mode, type := type, rdev := rdev,
        parent := parent, symlink := "" }
    let tr1 := tr ++ [FuseEv.createInode param]
    let ret := w.rc tr1
    if ret ≠ CURVEFS_ERROR.OK then
      (ret, inodeWrapper, tr1)
    else
      let ino := w.newIno tr1
      let dentry : Dentry :=
        { fsid := option_.fsid, inodeid := ino, parentinodeid := parent, name := name,
          type := (w.attrOf tr1 ino).type,
          fileFlag := decide (type = FsFileType.TYPE_FILE) || decide (type = FsFileType.TYPE_S3) }
      let tr2 := tr1 ++ [FuseEv.createDentry dentry]
      let ret2 := w.rc tr2
      if ret2 ≠ CURVEFS_ERROR.OK then
        (ret2, some ino, tr2 ++ [FuseEv.deleteInode ino])
      else
        let up := UpdateParentMCTimeAndNlink w option_ tr2 parent type NlinkChange.kAddOne
        if up.1 ≠ CURVEFS_ERROR.OK then
          (up.1, some ino, up.2)
        else if option_.enableSumInDir_ then
          (up.1, some ino,
            up.2 ++ [FuseEv.updateParentInodeXattr parent
              (summaryXattr (decide (type ≠ FsFileType.TYPE_DIRECTORY))
                (w.attrOf up.2 ino).length) true])
        else
          (up.1, some ino, up.2)

/-- The member `FuseClient::RemoveNode`: the code and the calls made. -/
def RemoveNode (w : FuseWorld) (option_ : FuseClientOption) (tr : List FuseEv)
    (parent : Ino) (name : String) (type : FsFileType) : CURVEFS_ERROR × List FuseEv :=
  if strlen name > option_.maxNameLength then
    (CURVEFS_ERROR.NAMETOOLONG, tr)
  else
    let tr1 := tr ++ [FuseEv.getDentry parent name]
    let ret := w.rc tr1
    if ret ≠ CURVEFS_ERROR.OK then
      (ret, tr1)
    else
      let ino := (w.dentryOf tr1).inodeid
      let tr2 := if FsFileType.TYPE_DIRECTORY = type
                 then tr1 ++ [FuseEv.listDentry ino option_.listDentryLimit] else tr1
      if FsFileType.TYPE_DIRECTORY = type ∧ w.rc tr2 ≠ CURVEFS_ERROR.OK then
        (w.rc tr2, tr2)
      else if FsFileType.TYPE_DIRECTORY = type ∧ w.dentries tr2 ≠ [] then
        (CURVEFS_ERROR.NOTEMPTY, tr2)
      else
        let tr3 := tr2 ++ [FuseEv.deleteDentry parent name type]
        let ret3 := w.rc tr3
        if ret3 ≠ CURVEFS_ERROR.OK then
          (ret3, tr3)
        else
          let up := UpdateParentMCTimeAndNlink w option_ tr3 parent type NlinkChange.kSubOne
          if up.1 ≠ CURVEFS_ERROR.OK then
            (up.1, up.2)
          else
            let tr5 := up.2 ++ [FuseEv.getInode ino]
            let ret5 := w.rc tr5
            if ret5 ≠ CURVEFS_ERROR.OK then
              (ret5, tr5)
            else
              let tr6 := tr5 ++ [FuseEv.unLink ino parent]
              let ret6 := w.rc tr6
              if option_.enableSumInDir_ then
                (ret6, tr6 ++ [FuseEv.updateParentInodeXattr parent
                  (summaryXattr (decide (FsFileType.TYPE_DIRECTORY ≠ type))
                    (w.attrOf tr6 ino).length) false])
              else
                (ret6, tr6)

/-- The member `FuseClient::FuseOpRmDir`. -/
def FuseOpRmDir (w : FuseWorld) (option_ : FuseClientOption) (tr : List FuseEv)
    (parent : Ino) (name : String) : CURVEFS_ERROR × List FuseEv :=
  RemoveNode w option_ tr parent name FsFileType.TYPE_DIRECTORY

/-- The member `FuseClient::FuseOpSymlink`: the code, `entryOut->attr` afterwards and
the calls made; `symlinkMode` is the constant `S_IFLNK | 0777`. -/
def FuseOpSymlink (w : FuseWorld) (option_ : FuseClientOption) (ctx : FuseCtx)
    (tr : List FuseEv) (link : String) (parent : Ino) (name : String) (attr : InodeAttr) :
    CURVEFS_ERROR × InodeAttr × List FuseEv :=
  if strlen name > option_.maxNameLength then
    (CURVEFS_ERROR.NAMETOOLONG, attr, tr)
  else
    let param : InodeParam :=
      { fsId := option_.fsid, length := strlen link, uid := ctx.uid, gid := ctx.gid,
        mode := 40960 + 511, type := FsFileType.TYPE_SYM_LINK, rdev := 0,
        parent := parent, symlink := link }
    let tr1 := tr ++ [FuseEv.createInode param]
    let ret := w.rc tr1
    if ret ≠ CURVEFS_ERROR.OK then
      (ret, attr, tr1)
    else
      let ino := w.newIno tr1
      let dentry : Dentry :=
        { fsid := option_.fsid, inodeid := ino, parentinodeid := parent, name := name,
          type := (w.attrOf tr1 ino).type, fileFlag := false }
      let tr2 := tr1 ++ [FuseEv.createDentry dentry]
      let ret2 := w.rc tr2
      if ret2 ≠ CURVEFS_ERROR.OK then
        (ret2, attr, tr2 ++ [FuseEv.deleteInode ino])
      else
        let up := UpdateParentMCTimeAndNlink w option_ tr2 parent FsFileType.TYPE_SYM_LINK
          NlinkChange.kAddOne
        if up.1 ≠ CURVEFS_ERROR.OK then
          (up.1, attr, up.2)
        else
          let tr4 := if option_.enableSumInDir_ then
              up.2 ++ [FuseEv.updateParentInodeXattr parent
                (summaryXattr true (w.attrOf up.2 ino).length) true]
            else up.2
          (up.1, w.attrOf tr4 ino, tr4)

/-- The member `FuseClient::FuseOpLink`: the code, `entryOut->attr` afterwards and the
calls made. -/
def FuseOpLink (w : FuseWorld) (option_ : FuseClientOption) (tr : List FuseEv)
    (ino : Ino) (newparent : Ino) (newname : String) (type : FsFileType) (attr : InodeAttr) :
    CURVEFS_ERROR × InodeAttr × List FuseEv :=
  if strlen newname > option_.maxNameLength then
    (CURVEFS_ERROR.NAMETOOLONG, attr, tr)
  else
    let tr1 := tr ++ [FuseEv.getInode ino]
    let ret := w.rc tr1
    if ret ≠ CURVEFS_ERROR.OK then
      (ret, attr, tr1)
    else
      let tr2 := tr1 ++ [FuseEv.link ino newparent]
      let ret2 := w.rc tr2
      if ret2 ≠ CURVEFS_ERROR.OK then
        (ret2, attr, tr2)
      else
        let dentry : Dentry :=
          { fsid := option_.fsid, inodeid := (w.attrOf tr2 ino).inodeid,
            parentinodeid := newparent, name := newname, type := (w.attrOf tr2 ino).type,
            fileFlag := false }
        let tr3 := tr2 ++ [FuseEv.createDentry dentry]
        let ret3 := w.rc tr3
        if ret3 ≠ CURVEFS_ERROR.OK then
          (ret3, attr, tr3 ++ [FuseEv.unLink ino newparent])
        else
          let up := UpdateParentMCTimeAndNlink w option_ tr3 newparent type NlinkChange.kAddOne
          if up.1 ≠ CURVEFS_ERROR.OK then
            (up.1, attr, up.2)
          else
            let tr5 := if option_.enableSumInDir_ then
                up.2 ++ [FuseEv.updateParentInodeXattr newparent
                  (summaryXattr true (w.attrOf up.2 ino).length) true]
              else up.2
            (up.1, w.attrOf tr5 ino, tr5)

/-- The macro `RETURN_IF_UNSUCCESS` applied to the listed steps in turn: the code of the
first step that does not return OK, or OK after the last, and the calls made. -/
def returnIfUnsuccess (w : FuseWorld) : List RenameStep → List FuseEv →
    CURVEFS_ERROR × List FuseEv
  | [], tr => (CURVEFS_ERROR.OK, tr)
  | step :: rest, tr =>
    let tr1 := tr ++ [FuseEv.rename step]
    if w.rc tr1 ≠ CURVEFS_ERROR.OK then (w.rc tr1, tr1)
    else returnIfUnsuccess w rest tr1

/-- The member `FuseClient::FuseOpRename`: the code and the calls made. -/
def FuseOpRename (w : FuseWorld) (option_ : FuseClientOption) (tr : List FuseEv)
    (parent : Ino) (name : String) (newparent : Ino) (newname : String) (flags : Nat) :
    CURVEFS_ERROR × List FuseEv :=
  if flags ≠ 0 then
    (CURVEFS_ERROR.INVALIDPARAM, tr)
  else if strlen name > option_.maxNameLength ∨ strlen newname > option_.maxNameLength then
    (CURVEFS_ERROR.NAMETOOLONG, tr)
  else
    let tr0 := tr ++ [FuseEv.renameOperator parent name newparent newname]
    let tx := returnIfUnsuccess w
      [RenameStep.GetTxId, RenameStep.Precheck, RenameStep.RecordOldInodeInfo,
       RenameStep.LinkDestParentInode, RenameStep.PrepareTx, RenameStep.CommitTx] tr0
    if tx.1 ≠ CURVEFS_ERROR.OK then
      (tx.1, tx.2)
    else
      let tr1 := tx.2 ++ [FuseEv.rename RenameStep.UnlinkSrcParentInode,
                          FuseEv.rename RenameStep.UnlinkOldInode]
      let tr2 := if parent ≠ newparent then tr1 ++ [FuseEv.rename RenameStep.UpdateInodeParent]
                 else tr1
      let tr3 := tr2 ++ [FuseEv.rename RenameStep.UpdateCache]
      let tr4 := if option_.enableSumInDir_ then
          tr3 ++ [FuseEv.updateParentXattrAfterRename parent newparent newname]
        else tr3
      (tx.1, tr4)

end FuseClient

/-! ### Sample collaborators for the concrete evaluations -/

/-- Collaborators that answer OK to everything: a created inode gets the id 10, the
dentry found under any parent and name is that of a directory with inode 10, and a
listing holds one dentry. -/
def sampleWorld : FuseWorld :=
  { rc := fun _ => CURVEFS_ERROR.OK
    newIno := fun _ => 10
    attrOf := fun _ ino => sampleAttrOf ino FsFileType.TYPE_DIRECTORY 493 4096
    dentryOf := fun tr =>
      match tr.getLast? with
      | some (FuseEv.getDentry parent name) =>
        { fsid := 1, inodeid := 10, parentinodeid := parent, name := name,
          type := FsFileType.TYPE_DIRECTORY, fileFlag := false }
      | _ =>
        { fsid := 1, inodeid := 10, parentinodeid := 1, name := "",
          type := FsFileType.TYPE_DIRECTORY, fileFlag := false }
    dentries := fun _ =>
      [{ fsid := 1, inodeid := 11, parentinodeid := 10, name := "child",
         type := FsFileType.TYPE_FILE, fileFlag := true }] }

/-- A client whose names may be at most 3 bytes long. -/
def sampleOption : FuseClientOption :=
  { maxNameLength := 3, listDentryLimit := 1, deferDirMtime := false,
    enableSumInDir_ := false, fsid := 1 }

/-! ### The rename transaction -/

/-- The steps that `FuseOpRename` runs under `RETURN_IF_UNSUCCESS`, in program order. -/
def txSteps : List RenameStep :=
  [RenameStep.GetTxId, RenameStep.Precheck, RenameStep.RecordOldInodeInfo,
   RenameStep.LinkDestParentInode, RenameStep.PrepareTx, RenameStep.CommitTx]

/-- The calls recorded once the first `k` steps of the transaction have been invoked
on the operator constructed after the calls `tr`. -/
def txLog (tr : List FuseEv) (parent : Ino) (name : String) (newparent : Ino)
    (newname : String) (k : Nat) : List FuseEv :=
  tr ++ [FuseEv.renameOperator parent name newparent newname] ++
    (txSteps.take k).map FuseEv.rename

/-- The calls that `FuseOpRename` makes after `CommitTx` returned OK. -/
def postCommit (option_ : FuseClientOption) (parent : Ino) (newparent : Ino)
    (newname : String) : List FuseEv :=
  [FuseEv.rename RenameStep.UnlinkSrcParentInode, FuseEv.rename RenameStep.UnlinkOldInode] ++
    (if parent ≠ newparent then [FuseEv.rename RenameStep.UpdateInodeParent] else []) ++
    [FuseEv.rename RenameStep.UpdateCache] ++
    (if option_.enableSumInDir_ then
      [FuseEv.updateParentXattrAfterRename parent newparent newname] else [])

/-- Collaborators as `sampleWorld`, except that the step `PrepareTx` of a rename
operator answers INTERNAL and every call after `CommitTx` answers INTERNAL too. -/
def prepareFailWorld : FuseWorld :=
  { sampleWorld with
    rc := fun tr =>
      match tr.getLast? with
      | some (FuseEv.rename RenameStep.PrepareTx) => CURVEFS_ERROR.INTERNAL
      | some (FuseEv.rename RenameStep.UnlinkSrcParentInode) => CURVEFS_ERROR.INTERNAL
      | some (FuseEv.rename RenameStep.UnlinkOldInode) => CURVEFS_ERROR.INTERNAL
      | some (FuseEv.rename RenameStep.UpdateInodeParent) => CURVEFS_ERROR.INTERNAL
      | some (FuseEv.rename RenameStep.UpdateCache) => CURVEFS_ERROR.INTERNAL
      | _ => CURVEFS_ERROR.OK }

/-- Collaborators as `sampleWorld`, except that every call after `CommitTx` answers
INTERNAL. -/
def postCommitFailWorld : FuseWorld :=
  { sampleWorld with
    rc := fun tr =>
      match tr.getLast? with
      | some (FuseEv.rename RenameStep.UnlinkSrcParentInode) => CURVEFS_ERROR.INTERNAL
      | some (FuseEv.rename RenameStep.UnlinkOldInode) => CURVEFS_ERROR.INTERNAL
      | some (FuseEv.rename RenameStep.UpdateInodeParent) => CURVEFS_ERROR.INTERNAL
      | some (FuseEv.rename RenameStep.UpdateCache) => CURVEFS_ERROR.INTERNAL
      | _ => CURVEFS_ERROR.OK }

/-! ## `FuseClient::FuseOpReadDir` -/

/-- The struct `DirEntry` of filesystem/meta.h: one entry of a directory listing. -/
structure DirEntry where
  ino : Ino
  name : String
  attr : InodeAttr
  deriving DecidableEq, Repr

/-- What `fs_->FindHandler(fi->fh)` returns for an open directory, as `FuseOpReadDir`
uses it: the bytes `p[0 .. size)` of its `DirBufferHead` and the flag `padding`. -/
structure DirHandler where
  buffer : List Nat
  padding : Bool
  deriving DecidableEq, Repr

/-- The collaborator `fs_` (class `FileSystem`, not among the sources) as
`FuseOpReadDir` uses it: what `ReadDir` answers after the calls made so far (the code
and the entries), and how `AddDirEntry` and `AddDirEntryPlus` change the bytes of a
buffer. -/
structure FileSystem where
  ReadDir : List FuseEv → CURVEFS_ERROR × List DirEntry
  AddDirEntry : List Nat → DirEntry → List Nat
  AddDirEntryPlus : List Nat → DirEntry → List Nat

/-- What a call of `FuseOpReadDir` leaves: the code, `*bufferOut` as an offset into the
handler's buffer (`none` is the null pointer), `*rSize`, the handler and the calls made. -/
structure ReadDirOut where
  rc : CURVEFS_ERROR
  bufferOut : Option Nat
  rSize : Nat
  handler : DirHandler
  calls : List FuseEv
  deriving DecidableEq, Repr

namespace FuseClient

/-- The member `FuseClient::FuseOpReadDir` on the handler of an open directory; `off` is
a non-negative offset, `bufferOut` and `rSize` are the values behind the two
out-pointers before the call. -/
def FuseOpReadDir (fs_ : FileSystem) (tr : List FuseEv) (handler : DirHandler) (ino : Ino)
    (fh : Nat) (size : Nat) (off : Nat) (plus : Bool) (bufferOut : Option Nat) (rSize : Nat) :
    ReadDirOut :=
  let fetched : CURVEFS_ERROR × DirHandler × List FuseEv :=
    if !handler.padding then
      let tr1 := tr ++ [FuseEv.fsReadDir ino fh]
      let out := fs_.ReadDir tr1
      if out.1 ≠ CURVEFS_ERROR.OK then
        (out.1, handler, tr1)
      else
        (CURVEFS_ERROR.OK,
          { buffer := out.2.foldl
              (fun buffer dirEntry =>
                if plus then fs_.AddDirEntryPlus buffer dirEntry
                else fs_.AddDirEntry buffer dirEntry)
              handler.buffer,
            padding := true },
          tr1)
    else (CURVEFS_ERROR.OK, handler, tr)
  if fetched.1 ≠ CURVEFS_ERROR.OK then
    { rc := fetched.1, bufferOut := bufferOut, rSize := rSize, handler := fetched.2.1,
      calls := fetched.2.2 }
  else if off < fetched.2.1.buffer.length then
    { rc := CURVEFS_ERROR.OK, bufferOut := some off,
      rSize := min (fetched.2.1.buffer.length - off) size,
      handler := fetched.2.1, calls := fetched.2.2 }
  else
    { rc := CURVEFS_ERROR.OK, bufferOut := none, rSize := 0,
      handler := fetched.2.1, calls := fetched.2.2 }

/-- A sequence of calls of `FuseOpReadDir` on the same handler, each given by its
`size`, `off` and `plus`: the results in order, the handler and the calls at the end. -/
def readDirCalls (fs_ : FileSystem) (ino : Ino) (fh : Nat) :
    List (Nat × Nat × Bool) → DirHandler → List FuseEv →
      List ReadDirOut × DirHandler × List FuseEv
  | [], handler, tr => ([], handler, tr)
  | (size, off, plus) :: rest, handler, tr =>
    let out := FuseOpReadDir fs_ tr handler ino fh size off plus none 0
    let more := readDirCalls fs_ ino fh rest out.handler out.calls
    (out :: more.1, more.2)

end FuseClient

/-- The bytes that a result of `FuseOpReadDir` designates in a buffer. -/
def ReadDirOut.window (out : ReadDirOut) (buffer : List Nat) : List Nat :=
  match out.bufferOut with
  | none => []
  | some off => (buffer.drop off).take out.rSize

/-- A directory listing of two entries, the inodes 11 and 12. -/
def sampleEntries : List DirEntry :=
  [{ ino := 11, name := "x", attr := sampleAttrOf 11 FsFileType.TYPE_FILE 420 0 },
   { ino := 12, name := "y", attr := sampleAttrOf 12 FsFileType.TYPE_FILE 420 0 }]

/-- A file system whose first `ReadDir` fails with INTERNAL and whose later ones return
the sample listing; an entry takes two bytes of a buffer, three in the plus format. -/
def sampleFs : FileSystem :=
  { ReadDir := fun tr =>
      if tr.length ≤ 1 then (CURVEFS_ERROR.INTERNAL, []) else (CURVEFS_ERROR.OK, sampleEntries)
    AddDirEntry := fun buffer dirEntry => buffer ++ [dirEntry.ino, 0]
    AddDirEntryPlus := fun buffer dirEntry => buffer ++ [dirEntry.ino, 0, 1] }

/-! ## The operations of `VFS` on paths, descriptors and directory streams -/

/-- Modelled from the spec: the access request `WANT_WRITE` of the permission checker
("read/write/execute, bitwise-combinable"); the constant is not among the sources. -/
def WANT_WRITE : Nat := 2

/-- Modelled from the spec: the access request `WANT_READ` of the permission checker
("read/write/execute, bitwise-combinable"); the constant is not among the sources. -/
def WANT_READ : Nat := 4

/-- The predicate `IsDir` of filesystem/utils.h. -/
def IsDir (attr : InodeAttr) : Bool := decide (attr.type = FsFileType.TYPE_DIRECTORY)

/-- The file type bits `S_IFDIR` of a mode (octal 040000). -/
def S_IFDIR : Nat := 16384

/-- The file type bits `S_IFREG` of a mode (octal 100000). -/
def S_IFREG : Nat := 32768

/-- The flag `VFS_SET_ATTR_MODE` handed to `op_->SetAttr` by `Chmod` (bit 0, as
`FUSE_SET_ATTR_MODE`; the constant is not among the sources). -/
def VFS_SET_ATTR_MODE : Nat := 1

/-- The flag `FUSE_SET_ATTR_UID` (bit 1). -/
def FUSE_SET_ATTR_UID : Nat := 2

/-- The flag `FUSE_SET_ATTR_GID` (bit 2). -/
def FUSE_SET_ATTR_GID : Nat := 4

/-- The value `SEEK_SET` of `whence`. -/
def SEEK_SET : Int := 0

/-- The value `SEEK_CUR` of `whence`. -/
def SEEK_CUR : Int := 1

/-- The value `SEEK_END` of `whence`. -/
def SEEK_END : Int := 2

/-- The members of the collaborator `op_` that the operations beyond the path walk call:
each answer is the code, with the filled out-parameter where there is one.  The bytes
that `Read` and `Write` transfer are left out; `OpenDir` is given the value behind `fh`
and answers the value after, `Read` and `Write` likewise for the count behind `nread`
and `nwritten`. -/
structure FileOperations where
  MkDir : Ino → String → Nat → CURVEFS_ERROR × EntryOut
  RmDir : Ino → String → CURVEFS_ERROR
  OpenDir : Ino → Nat → CURVEFS_ERROR × Nat
  ReadDir : Ino → Nat → CURVEFS_ERROR × List DirEntry
  Create : Ino → String → Nat → CURVEFS_ERROR × EntryOut
  Read : Ino → Nat → Nat → Nat → CURVEFS_ERROR × Nat
  Write : Ino → Nat → Nat → Nat → CURVEFS_ERROR × Nat
  Flush : Ino → CURVEFS_ERROR
  Close : Ino → CURVEFS_ERROR
  Unlink : Ino → String → CURVEFS_ERROR
  SetAttr : Ino → Stat → Nat → CURVEFS_ERROR
  Rename : Ino → String → Ino → String → CURVEFS_ERROR
  Attr2Stat : InodeAttr → Stat

/-- What surrounds a `VFS` across its operations and is not among the sources.  The
metadata side changes with the calls made on it, so what `op_` and `permission_` answer
to a call is a function of the calls logged before it (`env` for the calls of the path
walk, `ops` for the others); `GetMode` is `permission_.GetMode`, and `ParentDir` and
`Filename` are the helpers of `filepath::`. -/
structure World where
  env : List VfsEv → Env
  ops : List VfsEv → FileOperations
  GetMode : Nat → Nat → Nat
  ParentDir : String → String
  Filename : String → String

/-- One open file of the handle table: its inode and its cursor. -/
structure FileHandler where
  ino : Ino
  offset : Nat
  deriving DecidableEq, Repr

/-- Modelled from the spec: the file handle table `FileHandlers` (vfs/handlers.h is not
among the sources), "process-local integers" bound to an inode and an offset; `nextFd`
is the next descriptor to hand out. -/
structure FileHandlers where
  nextFd : Nat
  handlers : List (Nat × FileHandler)
  deriving DecidableEq, Repr

/-- Modelled from the spec: "`NextHandler(ino, initialOffset) -> fd` allocates a new
descriptor bound to the given inode and offset". -/
def FileHandlers.NextHandler (h : FileHandlers) (ino : Ino) (offset : Nat) :
    Nat × FileHandlers :=
  (h.nextFd,
    { nextFd := h.nextFd + 1,
      handlers := (h.nextFd, { ino := ino, offset := offset }) :: h.handlers })

/-- Modelled from the spec: "`GetHandler(fd) -> (handle, found)`"; `none` is not found. -/
def FileHandlers.GetHandler (h : FileHandlers) (fd : Nat) : Option FileHandler :=
  (h.handlers.find? (fun x => decide (x.1 = fd))).map (fun x => x.2)

/-- Modelled from the spec: "`FreeHandler(fd)` releases the descriptor; subsequent
`GetHandler` on it returns not-found". -/
def FileHandlers.FreeHandler (h : FileHandlers) (fd : Nat) : FileHandlers :=
  { h with handlers := h.handlers.filter (fun x => !decide (x.1 = fd)) }

/-- An assignment to `fh->offset` through the shared handle of descriptor `fd`. -/
def FileHandlers.setOffset (h : FileHandlers) (fd : Nat) (offset : Nat) : FileHandlers :=
  { h with handlers :=
      h.handlers.map (fun x => if x.1 = fd then (x.1, { x.2 with offset := offset }) else x) }

/-- The struct `DirStream` of vfs/meta.h as `OpenDir` and `ReadDir` use it. -/
structure DirStream where
  ino : Ino
  fh : Nat
  offset : Nat
  deriving DecidableEq, Repr

namespace VFS

/-- The member `VFS::PurgeAttrCache`. -/
def PurgeAttrCache (vfs : VFS) (ino : Ino) : VFS :=
  { vfs with attrCache_ := vfs.attrCache_.Delete ino }.record (VfsEv.attrCacheDelete ino)

/-- The member `VFS::PurgeEntryCache`. -/
def PurgeEntryCache (vfs : VFS) (parent : Ino) (name : String) : VFS :=
  { vfs with entryCache_ := vfs.entryCache_.Delete parent name }.record
    (VfsEv.entryCacheDelete parent name)

/-- The member `VFS::DoMkDir`: the code and the new state; `none` when a path walk does
not return within `fuel`.  The access log guards of this and the following members are
left out, their messages reading only the arguments, `rc` and what the caller's
pointers hold; the one of `LSeek`, which reads through the handle, is embedded there. -/
def DoMkDir (w : World) (fuel : Nat) (vfs : VFS) (path : String) (mode : Nat) :
    Option (CURVEFS_ERROR × VFS) :=
  match Lookup (w.env vfs.log) fuel vfs path true Entry.empty with
  | none => none
  | some r1 =>
    if r1.rc = CURVEFS_ERROR.OK then
      some (CURVEFS_ERROR.EXISTS, r1.vfs)
    else
      match Lookup (w.env r1.vfs.log) fuel r1.vfs (w.ParentDir path) true Entry.empty with
      | none => none
      | some r2 =>
        if r2.rc ≠ CURVEFS_ERROR.OK then
          some (r2.rc, r2.vfs)
        else if !IsDir r2.entry.attr then
          some (CURVEFS_ERROR.NOT_A_DIRECTORY, r2.vfs)
        else
          let rc3 := (w.env r2.vfs.log).permission_.Check r2.entry.attr WANT_WRITE
          let vfs3 := r2.vfs.record (VfsEv.permCheck r2.entry.attr WANT_WRITE)
          if rc3 ≠ CURVEFS_ERROR.OK then
            some (rc3, vfs3)
          else
            let mode1 := w.GetMode S_IFDIR mode % 65536
            let rc4 := ((w.ops vfs3.log).MkDir r2.entry.ino (w.Filename path) mode1).1
            let vfs4 := vfs3.record (VfsEv.opMkDir r2.entry.ino (w.Filename path) mode1)
            if rc4 = CURVEFS_ERROR.OK then
              some (rc4, vfs4.PurgeEntryCache r2.entry.ino (w.Filename path))
            else
              some (rc4, vfs4)

/-- The member `VFS::MkDir`. -/
def MkDir (w : World) (fuel : Nat) (vfs : VFS) (path : String) (mode : Nat) :
    Option (CURVEFS_ERROR × VFS) :=
  DoMkDir w fuel vfs path mode

/-- The member `VFS::MkDirs`, with `depth` bounding its recursion on parent
directories: `none` when the depth is exceeded or a path walk does not return. -/
def MkDirs (w : World) (fuel : Nat) : Nat → VFS → String → Nat → Option (CURVEFS_ERROR × VFS)
  | 0, _, _, _ => none
  | depth + 1, vfs, path, mode =>
    if path = "/" then
      some (CURVEFS_ERROR.OK, vfs)
    else
      match MkDirs w fuel depth vfs (w.ParentDir path) mode with
      | none => none
      | some r =>
        if r.1 ≠ CURVEFS_ERROR.OK ∧ r.1 ≠ CURVEFS_ERROR.EXISTS then
          some r
        else
          DoMkDir w fuel r.2 path mode

/-- The member `VFS::OpenDir`: the code, `*stream` afterwards and the new state. -/
def OpenDir (w : World) (fuel : Nat) (vfs : VFS) (path : String) (stream : DirStream) :
    Option (CURVEFS_ERROR × DirStream × VFS) :=
  match Lookup (w.env vfs.log) fuel vfs path true Entry.empty with
  | none => none
  | some r =>
    if r.rc ≠ CURVEFS_ERROR.OK then
      some (r.rc, stream, r.vfs)
    else
      let out := (w.ops r.vfs.log).OpenDir r.entry.ino stream.fh
      some (out.1, { ino := r.entry.ino, fh := out.2, offset := 0 },
        r.vfs.record (VfsEv.opOpenDir r.entry.ino))

/-- The member `VFS::ReadDir`: the code, `*stream` and `*dirEntry` afterwards and the
new state.  `entries->At(offset, dirEntry)` copies the entry at that index; the
increment of the offset, which is below the size of the list, cannot wrap. -/
def ReadDir (w : World) (vfs : VFS) (stream : DirStream) (dirEntry : DirEntry) :
    CURVEFS_ERROR × DirStream × DirEntry × VFS :=
  let out := (w.ops vfs.log).ReadDir stream.ino stream.fh
  let vfs1 := vfs.record (VfsEv.opReadDir stream.ino stream.fh)
  if out.1 ≠ CURVEFS_ERROR.OK then
    (out.1, stream, dirEntry, vfs1)
  else if stream.offset ≥ out.2.length then
    (CURVEFS_ERROR.END_OF_FILE, stream, dirEntry, vfs1)
  else
    (CURVEFS_ERROR.OK, { stream with offset := stream.offset + 1 },
      out.2.getD stream.offset dirEntry, vfs1)

/-- The member `VFS::RmDir`. -/
def RmDir (w : World) (fuel : Nat) (vfs : VFS) (path : String) :
    Option (CURVEFS_ERROR × VFS) :=
  match Lookup (w.env vfs.log) fuel vfs (w.ParentDir path) true Entry.empty with
  | none => none
  | some r1 =>
    if r1.rc ≠ CURVEFS_ERROR.OK then
      some (r1.rc, r1.vfs)
    else
      match Lookup (w.env r1.vfs.log) fuel r1.vfs path true Entry.empty with
      | none => none
      | some r2 =>
        if r2.rc ≠ CURVEFS_ERROR.OK then
          some (r2.rc, r2.vfs)
        else
          let rc3 := (w.env r2.vfs.log).permission_.Check r1.entry.attr WANT_WRITE
          let vfs3 := r2.vfs.record (VfsEv.permCheck r1.entry.attr WANT_WRITE)
          if rc3 ≠ CURVEFS_ERROR.OK then
            some (rc3, vfs3)
          else
            let rc4 := (w.ops vfs3.log).RmDir r1.entry.ino (w.Filename path)
            let vfs4 := vfs3.record (VfsEv.opRmDir r1.entry.ino (w.Filename path))
            if rc4 = CURVEFS_ERROR.OK then
              some (rc4, vfs4.PurgeEntryCache r1.entry.ino (w.Filename path))
            else
              some (rc4, vfs4)

/-- The member `VFS::Create`. -/
def Create (w : World) (fuel : Nat) (vfs : VFS) (path : String) (mode : Nat) :
    Option (CURVEFS_ERROR × VFS) :=
  match Lookup (w.env vfs.log) fuel vfs (w.ParentDir path) true Entry.empty with
  | none => none
  | some r1 =>
    if r1.rc ≠ CURVEFS_ERROR.OK then
      some (r1.rc, r1.vfs)
    else
      let rc2 := (w.env r1.vfs.log).permission_.Check r1.entry.attr WANT_WRITE
      let vfs2 := r1.vfs.record (VfsEv.permCheck r1.entry.attr WANT_WRITE)
      if rc2 ≠ CURVEFS_ERROR.OK then
        some (rc2, vfs2)
      else
        let mode1 := w.GetMode S_IFREG mode % 65536
        let rc3 := ((w.ops vfs2.log).Create r1.entry.ino (w.Filename path) mode1).1
        let vfs3 := vfs2.record (VfsEv.opCreate r1.entry.ino (w.Filename path) mode1)
        if rc3 = CURVEFS_ERROR.OK then
          some (rc3, vfs3.PurgeEntryCache r1.entry.ino (w.Filename path))
        else
          some (rc3, vfs3)

/-- The member `VFS::Unlink`. -/
def Unlink (w : World) (fuel : Nat) (vfs : VFS) (path : String) :
    Option (CURVEFS_ERROR × VFS) :=
  match Lookup (w.env vfs.log) fuel vfs (w.ParentDir path) true Entry.empty with
  | none => none
  | some r1 =>
    if r1.rc ≠ CURVEFS_ERROR.OK then
      some (r1.rc, r1.vfs)
    else
      let yes := (w.env r1.vfs.log).permission_.CheckIno r1.entry.ino WANT_WRITE r1.entry.attr
      let vfs2 := r1.vfs.record (VfsEv.permCheckIno r1.entry.ino WANT_WRITE r1.entry.attr)
      if !yes then
        some (CURVEFS_ERROR.NO_PERMISSION, vfs2)
      else
        let rc3 := (w.ops vfs2.log).Unlink r1.entry.ino (w.Filename path)
        let vfs3 := vfs2.record (VfsEv.opUnlink r1.entry.ino (w.Filename path))
        if rc3 = CURVEFS_ERROR.OK then
          some (rc3, vfs3.PurgeEntryCache r1.entry.ino (w.Filename path))
        else
          some (rc3, vfs3)

/-- The member `VFS::SetAttr`. -/
def SetAttr (w : World) (fuel : Nat) (vfs : VFS) (path : String) (stat : Stat) (toSet : Nat) :
    Option (CURVEFS_ERROR × VFS) :=
  match Lookup (w.env vfs.log) fuel vfs path true Entry.empty with
  | none => none
  | some r1 =>
    if r1.rc ≠ CURVEFS_ERROR.OK then
      some (r1.rc, r1.vfs)
    else
      let yes := (w.env r1.vfs.log).permission_.CheckIno r1.entry.ino WANT_WRITE r1.entry.attr
      let vfs2 := r1.vfs.record (VfsEv.permCheckIno r1.entry.ino WANT_WRITE r1.entry.attr)
      if !yes then
        some (CURVEFS_ERROR.NO_PERMISSION, vfs2)
      else
        let rc3 := (w.ops vfs2.log).SetAttr r1.entry.ino stat toSet
        let vfs3 := vfs2.record (VfsEv.opSetAttr r1.entry.ino stat toSet)
        if rc3 = CURVEFS_ERROR.OK then
          some (rc3, vfs3.PurgeAttrCache r1.entry.ino)
        else
          some (rc3, vfs3)

/-- The member `VFS::Chmod`; of the local `stat` only `st_mode` is assigned. -/
def Chmod (w : World) (fuel : Nat) (vfs : VFS) (path : String) (mode : Nat) :
    Option (CURVEFS_ERROR × VFS) :=
  match Lookup (w.env vfs.log) fuel vfs path true Entry.empty with
  | none => none
  | some r1 =>
    if r1.rc ≠ CURVEFS_ERROR.OK then
      some (r1.rc, r1.vfs)
    else
      let yes := (w.env r1.vfs.log).permission_.CheckIno r1.entry.ino WANT_WRITE r1.entry.attr
      let vfs2 := r1.vfs.record (VfsEv.permCheckIno r1.entry.ino WANT_WRITE r1.entry.attr)
      if !yes then
        some (CURVEFS_ERROR.NO_PERMISSION, vfs2)
      else
        let stat : Stat :=
          { st_mode := some (((r1.entry.attr.mode >>> 9) <<< 9) ||| mode),
            st_uid := none, st_gid := none }
        let rc3 := (w.ops vfs2.log).SetAttr r1.entry.ino stat VFS_SET_ATTR_MODE
        let vfs3 := vfs2.record (VfsEv.opSetAttr r1.entry.ino stat VFS_SET_ATTR_MODE)
        if rc3 = CURVEFS_ERROR.OK then
          some (rc3, vfs3.PurgeAttrCache r1.entry.ino)
        else
          some (rc3, vfs3)

/-- The member `VFS::Chown`; of the local `stat` only `st_uid` and `st_gid` are
assigned. -/
def Chown (w : World) (fuel : Nat) (vfs : VFS) (path : String) (uid : Nat) (gid : Nat) :
    Option (CURVEFS_ERROR × VFS) :=
  match Lookup (w.env vfs.log) fuel vfs path true Entry.empty with
  | none => none
  | some r1 =>
    if r1.rc ≠ CURVEFS_ERROR.OK then
      some (r1.rc, r1.vfs)
    else
      let yes := (w.env r1.vfs.log).permission_.CheckIno r1.entry.ino WANT_WRITE r1.entry.attr
      let vfs2 := r1.vfs.record (VfsEv.permCheckIno r1.entry.ino WANT_WRITE r1.entry.attr)
      if !yes then
        some (CURVEFS_ERROR.NO_PERMISSION, vfs2)
      else
        let stat : Stat := { st_mode := none, st_uid := some uid, st_gid := some gid }
        let toSet := FUSE_SET_ATTR_UID ||| FUSE_SET_ATTR_GID
        let rc3 := (w.ops vfs2.log).SetAttr r1.entry.ino stat toSet
        some (rc3, vfs2.record (VfsEv.opSetAttr r1.entry.ino stat toSet))

/-- The member `VFS::Rename`. -/
def Rename (w : World) (fuel : Nat) (vfs : VFS) (oldpath : String) (newpath : String) :
    Option (CURVEFS_ERROR × VFS) :=
  match Lookup (w.env vfs.log) fuel vfs oldpath true Entry.empty with
  | none => none
  | some r1 =>
    if r1.rc ≠ CURVEFS_ERROR.OK then
      some (r1.rc, r1.vfs)
    else
      let yes := (w.env r1.vfs.log).permission_.CheckIno r1.entry.ino WANT_WRITE r1.entry.attr
      let vfs2 := r1.vfs.record (VfsEv.permCheckIno r1.entry.ino WANT_WRITE r1.entry.attr)
      if !yes then
        some (CURVEFS_ERROR.NO_PERMISSION, vfs2)
      else
        match Lookup (w.env vfs2.log) fuel vfs2 (w.ParentDir oldpath) true Entry.empty with
        | none => none
        | some r3 =>
          if r3.rc ≠ CURVEFS_ERROR.OK then
            some (r3.rc, r3.vfs)
          else
            match Lookup (w.env r3.vfs.log) fuel r3.vfs (w.ParentDir newpath) true
                Entry.empty with
            | none => none
            | some r4 =>
              if r4.rc ≠ CURVEFS_ERROR.OK then
                some (r4.rc, r4.vfs)
              else
                let rc5 := (w.ops r4.vfs.log).Rename r3.entry.ino (w.Filename oldpath)
                  r4.entry.ino (w.Filename newpath)
                let vfs5 := r4.vfs.record (VfsEv.opRename r3.entry.ino (w.Filename oldpath)
                  r4.entry.ino (w.Filename newpath))
                if rc5 = CURVEFS_ERROR.OK then
                  some (rc5,
                    (vfs5.PurgeEntryCache r3.entry.ino (w.Filename oldpath)).PurgeEntryCache
                      r4.entry.ino (w.Filename newpath))
                else
                  some (rc5, vfs5)

/-- The message lambda that `VFS::LSeek` hands to its access log guard: the values that
`StrFormat("lseek (%d,%d,%d): %s (%d)", fd, offset, whence, StrErr(rc), fh->offset)`
formats, `rc` and `fh` being the locals it captures by reference; `none` when `fh` is
null, which `fh->offset` dereferences. -/
def LSeekMessage (fd offset : Nat) (whence : Int) (rc : CURVEFS_ERROR)
    (fh : Option FileHandler) : Option (Nat × Nat × Int × CURVEFS_ERROR × Nat) :=
  match fh with
  | none => none
  | some h => some (fd, offset, whence, rc, h.offset)

/-- A return from `VFS::LSeek` with `result`: the guard `log`, declared after `fh`, is
destroyed first and builds its message from the values that `rc` and `fh` have then
(class `AccessLogGuard` is not among the sources; its message formats `rc`, which the
function only assigns on its way, so it is built when the guard's life ends).  `none`
when the message is not defined, `result` otherwise. -/
def LSeekReturn (fd offset : Nat) (whence : Int) (rc : CURVEFS_ERROR)
    (fh : Option FileHandler) (result : CURVEFS_ERROR × VFS × FileHandlers) :
    Option (CURVEFS_ERROR × VFS × FileHandlers) :=
  match LSeekMessage fd offset whence rc fh with
  | none => none
  | some _ => some result

/-- The member `VFS::LSeek`: the code, the new state and the handle table afterwards;
`offset` is an unsigned 64-bit value.  Every return passes the value of the local `rc`
and the handler that `fh` points to at that moment to the access log guard: `fh` stays
null when the descriptor is not found, and `return CURVEFS_ERROR::NO_PERMISSION` leaves
`rc` at the OK of the attribute fetch.  `none` when the function has no defined
return. -/
def LSeek (w : World) (vfs : VFS) (handlers_ : FileHandlers) (fd : Nat) (offset : Nat)
    (whence : Int) : Option (CURVEFS_ERROR × VFS × FileHandlers) :=
  match handlers_.GetHandler fd with
  | none =>
    LSeekReturn fd offset whence CURVEFS_ERROR.BAD_FD none
      (CURVEFS_ERROR.BAD_FD, vfs, handlers_)
  | some fh =>
    let out := (w.env vfs.log).op_.GetAttr fh.ino
    let vfs1 := vfs.record (VfsEv.opGetAttr fh.ino)
    if out.1 ≠ CURVEFS_ERROR.OK then
      LSeekReturn fd offset whence out.1 (some fh) (out.1, vfs1, handlers_)
    else
      let yes := (w.env vfs1.log).permission_.CheckIno fh.ino WANT_WRITE out.2.attr
      let vfs2 := vfs1.record (VfsEv.permCheckIno fh.ino WANT_WRITE out.2.attr)
      if !yes then
        LSeekReturn fd offset whence out.1 (some fh)
          (CURVEFS_ERROR.NO_PERMISSION, vfs2, handlers_)
      else if whence = SEEK_SET then
        LSeekReturn fd offset whence CURVEFS_ERROR.OK (some { fh with offset := offset })
          (CURVEFS_ERROR.OK, vfs2, handlers_.setOffset fd offset)
      else if whence = SEEK_CUR then
        LSeekReturn fd offset whence CURVEFS_ERROR.OK
          (some { fh with offset := (fh.offset + offset) % 2 ^ 64 })
          (CURVEFS_ERROR.OK, vfs2, handlers_.setOffset fd ((fh.offset + offset) % 2 ^ 64))
      else if whence = SEEK_END then
        let out2 := (w.env vfs2.log).op_.GetAttr fh.ino
        let vfs3 := vfs2.record (VfsEv.opGetAttr fh.ino)
        if out2.1 ≠ CURVEFS_ERROR.OK then
          LSeekReturn fd offset whence out2.1 (some fh) (out2.1, vfs3, handlers_)
        else
          LSeekReturn fd offset whence CURVEFS_ERROR.OK
            (some { fh with offset := (out2.2.attr.length + offset) % 2 ^ 64 })
            (CURVEFS_ERROR.OK, vfs3,
              handlers_.setOffset fd ((out2.2.attr.length + offset) % 2 ^ 64))
      else
        LSeekReturn fd offset whence CURVEFS_ERROR.INVALID_PARAM (some fh)
          (CURVEFS_ERROR.INVALID_PARAM, vfs2, handlers_)

/-- The member `VFS::Read`: the code, the count behind `nread`, the new state and the
handle table afterwards. -/
def Read (w : World) (vfs : VFS) (handlers_ : FileHandlers) (fd : Nat) (count : Nat)
    (nread : Nat) : CURVEFS_ERROR × Nat × VFS × FileHandlers :=
  match handlers_.GetHandler fd with
  | none => (CURVEFS_ERROR.BAD_FD, nread, vfs, handlers_)
  | some fh =>
    let out := (w.env vfs.log).op_.GetAttr fh.ino
    let vfs1 := vfs.record (VfsEv.opGetAttr fh.ino)
    if out.1 ≠ CURVEFS_ERROR.OK then
      (out.1, nread, vfs1, handlers_)
    else
      let yes := (w.env vfs1.log).permission_.CheckIno fh.ino WANT_READ out.2.attr
      let vfs2 := vfs1.record (VfsEv.permCheckIno fh.ino WANT_READ out.2.attr)
      if !yes then
        (CURVEFS_ERROR.NO_PERMISSION, nread, vfs2, handlers_)
      else
        let rd := (w.ops vfs2.log).Read fh.ino fh.offset count nread
        let vfs3 := vfs2.record (VfsEv.opRead fh.ino fh.offset count)
        if rd.1 = CURVEFS_ERROR.OK then
          (rd.1, rd.2, vfs3, handlers_.setOffset fd ((fh.offset + rd.2) % 2 ^ 64))
        else
          (rd.1, rd.2, vfs3, handlers_)

/-- The member `VFS::Write`: the code, the count behind `nwritten`, the new state and
the handle table afterwards. -/
def Write (w : World) (vfs : VFS) (handlers_ : FileHandlers) (fd : Nat) (count : Nat)
    (nwritten : Nat) : CURVEFS_ERROR × Nat × VFS × FileHandlers :=
  match handlers_.GetHandler fd with
  | none => (CURVEFS_ERROR.BAD_FD, nwritten, vfs, handlers_)
  | some fh =>
    let out := (w.env vfs.log).op_.GetAttr fh.ino
    let vfs1 := vfs.record (VfsEv.opGetAttr fh.ino)
    if out.1 ≠ CURVEFS_ERROR.OK then
      (out.1, nwritten, vfs1, handlers_)
    else
      let yes := (w.env vfs1.log).permission_.CheckIno fh.ino WANT_WRITE out.2.attr
      let vfs2 := vfs1.record (VfsEv.permCheckIno fh.ino WANT_WRITE out.2.attr)
      if !yes then
        (CURVEFS_ERROR.NO_PERMISSION, nwritten, vfs2, handlers_)
      else
        let wr := (w.ops vfs2.log).Write fh.ino fh.offset count nwritten
        let vfs3 := vfs2.record (VfsEv.opWrite fh.ino fh.offset count)
        if wr.1 = CURVEFS_ERROR.OK then
          (wr.1, wr.2, vfs3.PurgeAttrCache fh.ino,
            handlers_.setOffset fd ((fh.offset + wr.2) % 2 ^ 64))
        else
          (wr.1, wr.2, vfs3, handlers_)

/-- The member `VFS::FSync`. -/
def FSync (w : World) (vfs : VFS) (handlers_ : FileHandlers) (fd : Nat) :
    CURVEFS_ERROR × VFS × FileHandlers :=
  match handlers_.GetHandler fd with
  | none => (CURVEFS_ERROR.BAD_FD, vfs, handlers_)
  | some fh =>
    let out := (w.env vfs.log).op_.GetAttr fh.ino
    let vfs1 := vfs.record (VfsEv.opGetAttr fh.ino)
    if out.1 ≠ CURVEFS_ERROR.OK then
      (out.1, vfs1, handlers_)
    else
      let yes := (w.env vfs1.log).permission_.CheckIno fh.ino WANT_WRITE out.2.attr
      let vfs2 := vfs1.record (VfsEv.permCheckIno fh.ino WANT_WRITE out.2.attr)
      if !yes then
        (CURVEFS_ERROR.NO_PERMISSION, vfs2, handlers_)
      else
        ((w.ops vfs2.log).Flush fh.ino, vfs2.record (VfsEv.opFlush fh.ino), handlers_)

/-- The member `VFS::FStat`: the code, `*stat` afterwards, the new state and the handle
table. -/
def FStat (w : World) (vfs : VFS) (handlers_ : FileHandlers) (fd : Nat) (stat : Stat) :
    CURVEFS_ERROR × Stat × VFS × FileHandlers :=
  match handlers_.GetHandler fd with
  | none => (CURVEFS_ERROR.BAD_FD, stat, vfs, handlers_)
  | some fh =>
    let out := (w.env vfs.log).op_.GetAttr fh.ino
    let vfs1 := vfs.record (VfsEv.opGetAttr fh.ino)
    if out.1 ≠ CURVEFS_ERROR.OK then
      (out.1, stat, vfs1, handlers_)
    else
      let yes := (w.env vfs1.log).permission_.CheckIno fh.ino WANT_READ out.2.attr
      let vfs2 := vfs1.record (VfsEv.permCheckIno fh.ino WANT_READ out.2.attr)
      if !yes then
        (CURVEFS_ERROR.NO_PERMISSION, stat, vfs2, handlers_)
      else
        (out.1, (w.ops vfs2.log).Attr2Stat out.2.attr, vfs2, handlers_)

/-- The member `VFS::Close`. -/
def Close (w : World) (vfs : VFS) (handlers_ : FileHandlers) (fd : Nat) :
    CURVEFS_ERROR × VFS × FileHandlers :=
  match handlers_.GetHandler fd with
  | none => (CURVEFS_ERROR.BAD_FD, vfs, handlers_)
  | some fh =>
    let rc := (w.ops vfs.log).Flush fh.ino
    let vfs1 := vfs.record (VfsEv.opFlush fh.ino)
    if rc ≠ CURVEFS_ERROR.OK then
      (rc, vfs1, handlers_)
    else
      let rc2 := (w.ops vfs1.log).Close fh.ino
      let vfs2 := vfs1.record (VfsEv.opClose fh.ino)
      if rc2 = CURVEFS_ERROR.OK then
        (rc2, vfs2, handlers_.FreeHandler fd)
      else
        (rc2, vfs2, handlers_)

end VFS

/-- Successive calls of `VFS::ReadDir` on a stream: the codes and entries returned, in
order, with the stream and the state at the end. -/
def readDirs (w : World) : Nat → VFS → DirStream → DirEntry →
    List (CURVEFS_ERROR × DirEntry) × DirStream × VFS
  | 0, vfs, stream, _ => ([], stream, vfs)
  | n + 1, vfs, stream, dirEntry =>
    let out := VFS.ReadDir w vfs stream dirEntry
    let more := readDirs w n out.2.2.2 out.2.1 out.2.2.1
    ((out.1, out.2.2.1) :: more.1, more.2)

/-! ### Sample surroundings for the operations -/

/-- A sample `filepath::ParentDir`: the path of all components but the last. -/
def sampleParentDir (path : String) : String :=
  "/" ++ strings.Join (filepath.Split path).dropLast "/"

/-- A sample `filepath::Filename`: the last component of the path. -/
def sampleFilename (path : String) : String :=
  (filepath.Split path).getLast?.getD ""

/-- A metadata side on which every mutation succeeds; a directory stream lists the
sample entries, a read or write transfers the whole count. -/
def okOps : FileOperations :=
  { MkDir := fun _ _ mode =>
      (CURVEFS_ERROR.OK,
        { attr := sampleAttrOf 100 FsFileType.TYPE_DIRECTORY mode 4096,
          entryTimeout := 1, attrTimeout := 1 })
    RmDir := fun _ _ => CURVEFS_ERROR.OK
    OpenDir := fun _ _ => (CURVEFS_ERROR.OK, 5)
    ReadDir := fun _ _ => (CURVEFS_ERROR.OK, sampleEntries)
    Create := fun _ _ mode =>
      (CURVEFS_ERROR.OK,
        { attr := sampleAttrOf 100 FsFileType.TYPE_FILE mode 0, entryTimeout := 1,
          attrTimeout := 1 })
    Read := fun _ _ count _ => (CURVEFS_ERROR.OK, count)
    Write := fun _ _ count _ => (CURVEFS_ERROR.OK, count)
    Flush := fun _ => CURVEFS_ERROR.OK
    Close := fun _ => CURVEFS_ERROR.OK
    Unlink := fun _ _ => CURVEFS_ERROR.OK
    SetAttr := fun _ _ _ => CURVEFS_ERROR.OK
    Rename := fun _ _ _ _ => CURVEFS_ERROR.OK
    Attr2Stat := fun attr =>
      { st_mode := some attr.mode, st_uid := some attr.uid, st_gid := some attr.gid } }

/-- A metadata side on which every mutation fails with INTERNAL. -/
def failOps : FileOperations :=
  { okOps with
    MkDir := fun _ _ _ =>
      (CURVEFS_ERROR.INTERNAL, { attr := InodeAttr.empty, entryTimeout := 0, attrTimeout := 0 })
    RmDir := fun _ _ => CURVEFS_ERROR.INTERNAL
    OpenDir := fun _ fh => (CURVEFS_ERROR.INTERNAL, fh)
    ReadDir := fun _ _ => (CURVEFS_ERROR.INTERNAL, [])
    Create := fun _ _ _ =>
      (CURVEFS_ERROR.INTERNAL, { attr := InodeAttr.empty, entryTimeout := 0, attrTimeout := 0 })
    Read := fun _ _ _ nread => (CURVEFS_ERROR.INTERNAL, nread)
    Write := fun _ _ _ _ => (CURVEFS_ERROR.INTERNAL, 0)
    Flush := fun _ => CURVEFS_ERROR.INTERNAL
    Close := fun _ => CURVEFS_ERROR.INTERNAL
    Unlink := fun _ _ => CURVEFS_ERROR.INTERNAL
    SetAttr := fun _ _ _ => CURVEFS_ERROR.INTERNAL
    Rename := fun _ _ _ _ => CURVEFS_ERROR.INTERNAL }

/-- Surroundings that answer the same whatever was called before. -/
def constWorld (env : Env) (ops : FileOperations) : World :=
  { env := fun _ => env
    ops := fun _ => ops
    GetMode := fun type mode => type ||| mode
    ParentDir := sampleParentDir
    Filename := sampleFilename }

/-- The example file system (directory `a`, link `a/b`, file `a/c`) with every mutation
succeeding. -/
def exampleWorld : World := constWorld exampleEnv okOps

/-- The example file system with every mutation failing. -/
def exampleFailWorld : World := constWorld exampleEnv failOps

/-- The directories that the calls of `op_->MkDir` logged so far have made, the call at
index `i` of the log making inode `100 + i`. -/
def madeDirs : List VfsEv → Nat → List SampleNode
  | [], _ => []
  | VfsEv.opMkDir parent name mode :: rest, i =>
    { parent := parent, name := name, ino := 100 + i, type := FsFileType.TYPE_DIRECTORY,
      mode := mode % 4096, link := "" } :: madeDirs rest (i + 1)
  | _ :: rest, i => madeDirs rest (i + 1)

/-- A metadata side that starts with the root alone and changes with the calls: a
`MkDir` under an existing directory makes the directory, which the later path walks
find, and fails with EXISTS for a name already there.  Nothing may be cached. -/
def growingWorld : World :=
  { env := fun log =>
      { op_ := tableOp (madeDirs log 0) 0, permission_ := allowAll,
        uninitRc := CURVEFS_ERROR.INTERNAL }
    ops := fun log =>
      { okOps with
        MkDir := fun parent name mode =>
          if ((madeDirs log 0).find?
              (fun n => decide (n.parent = parent) && decide (n.name = name))).isSome then
            (CURVEFS_ERROR.EXISTS,
              { attr := InodeAttr.empty, entryTimeout := 0, attrTimeout := 0 })
          else
            (CURVEFS_ERROR.OK,
              { attr := sampleAttrOf (100 + log.length) FsFileType.TYPE_DIRECTORY
                  (mode % 4096) 0,
                entryTimeout := 0, attrTimeout := 0 }) }
    GetMode := fun type mode => type ||| mode
    ParentDir := sampleParentDir
    Filename := sampleFilename }

/-- A handle table with descriptor 3 open on inode 4 at offset 5. -/
def sampleHandlers : FileHandlers :=
  { nextFd := 4, handlers := [(3, { ino := 4, offset := 5 })] }

/-- What an operation of `VFS` on a name returns once its remote mutation has answered
`rc` in the state `vfs`: that code, with the state after `PurgeEntryCache` of the listed
keys, in order, when the code is OK and the state as it is otherwise. -/
def VFS.mutated (rc : CURVEFS_ERROR) (vfs : VFS) (keys : List (Ino × String)) :
    CURVEFS_ERROR × VFS :=
  (rc,
    if rc = CURVEFS_ERROR.OK then keys.foldl (fun v k => v.PurgeEntryCache k.1 k.2) vfs
    else vfs)

/-- Whether a logged call is one that a path walk makes: a permission check, a cache
lookup, or a remote lookup, attribute fetch or link read. -/
def VfsEv.isWalk : VfsEv → Bool
  | VfsEv.permCheck _ _ => true
  | VfsEv.permCheckIno _ _ _ => true
  | VfsEv.entryCacheGet _ _ => true
  | VfsEv.opLookup _ _ => true
  | VfsEv.attrCacheGet _ => true
  | VfsEv.opGetAttr _ => true
  | VfsEv.opReadLink _ => true
  | _ => false

/-- The log of `v2` is the log of `v1` followed by calls of a path walk only. -/
def WalkExt (v1 v2 : VFS) : Prop :=
  ∃ evs, v2.log = v1.log ++ evs ∧ ∀ e ∈ evs, e.isWalk = true

/-- The state an iteration leaves, when it ends, extends the log of `v` by calls of a
path walk only. -/
def Flow.Walks (v : VFS) : Flow → Prop
  | Flow.next _ _ v2 => WalkExt v v2
  | Flow.brk _ _ v2 => WalkExt v v2
  | Flow.ret _ _ v2 => WalkExt v v2
  | Flow.diverge => True

/-- The iterate of `ParentDir`: the ancestor `k` levels up. -/
def World.ancestor (w : World) : Nat → String → String
  | 0, path => path
  | k + 1, path => w.ancestor k (w.ParentDir path)

/-! ## `AllocStatisticHelper::CalculateSegmentAlloc` (mds/nameserver2/allocstatistic) -/

/-- The constant `GETBUNDLE`. -/
def GETBUNDLE : Nat := 1000

/-- The code `EtcdErrCode::OK`. -/
def EtcdErrCode.OK : Int := 0

/-- The fields of the message `PageFileSegment` that the accounting reads. -/
structure PageFileSegment where
  logicalpoolid : Nat
  segmentsize : Nat
  deriving DecidableEq, Repr

/-- What a call of `ListWithLimitAndRevision` leaves: its code, and `values` and
`lastKey`, which the caller cleared before the call. -/
structure ListOut where
  res : Int
  values : List String
  lastKey : String
  deriving DecidableEq, Repr

/-- The etcd client (class `EtcdClientImp`, not among the sources) as the accounting
uses it: the answer of `ListWithLimitAndRevision` to a start key, an end key, a limit
and a revision. -/
abbrev EtcdClient := String → String → Nat → Int → ListOut

/-- What surrounds the accounting and is not among the sources: the two key constants
of namespace_helper.h and `NameSpaceStorageCodec::DecodeSegment`, `none` being a value
that does not decode. -/
structure SegmentCodec where
  SEGMENTINFOKEYPREFIX : String
  SEGMENTINFOKEYEND : String
  DecodeSegment : String → Option PageFileSegment

/-- The map `std::map<PoolIdType, uint64_t>` read through `operator[]`: a pool without
entry reads 0. -/
abbrev AllocMap := Nat → Nat

/-- The statement `(*out)[pool] += size` on unsigned 64-bit values. -/
def AllocMap.add (out : AllocMap) (pool : Nat) (size : Nat) : AllocMap :=
  fun p => if p = pool then (out p + size) % 2 ^ 64 else out p

/-- The map after `(*out)[pool] += size` for each of the segments in order. -/
def AllocMap.addAll (out : AllocMap) (segs : List PageFileSegment) : AllocMap :=
  segs.foldl (fun o s => o.add s.logicalpoolid s.segmentsize) out

namespace AllocStatisticHelper

/-- The `for` loop over the values of one page, from `startPos` on: whether every value
decoded, and the map when the loop was left. -/
def decodeFrom (codec : SegmentCodec) : List String → AllocMap → Bool × AllocMap
  | [], out => (true, out)
  | value :: rest, out =>
    match codec.DecodeSegment value with
    | none => (false, out)
    | some segment =>
      decodeFrom codec rest (out.add segment.logicalpoolid segment.segmentsize)

/-- The `do ... while` loop of `CalculateSegmentAlloc` with pages of at most `bundle`
values, from the iteration that lists from `startKey`: the returned value, the map and
the start keys listed so far, oldest first; `none` when the loop does not end within
`fuel` iterations. -/
def CalculateLoop (codec : SegmentCodec) (bundle : Nat) (revision : Int) (client : EtcdClient) :
    Nat → String → AllocMap → List String → Option (Int × AllocMap × List String)
  | 0, _, _, _ => none
  | fuel + 1, startKey, out, listed =>
    let page := client startKey codec.SEGMENTINFOKEYEND bundle revision
    let listed1 := listed ++ [startKey]
    if page.res ≠ EtcdErrCode.OK then
      some (-1, out, listed1)
    else
      let startPos := if startKey = codec.SEGMENTINFOKEYPREFIX then 0 else 1
      let done := decodeFrom codec (page.values.drop startPos) out
      if !done.1 then
        some (-1, done.2, listed1)
      else if page.values.length ≥ bundle then
        CalculateLoop codec bundle revision client fuel page.lastKey done.2 listed1
      else
        some (0, done.2, listed1)

/-- The function `AllocStatisticHelper::CalculateSegmentAlloc`: the returned value, the
map `*out` afterwards and the start keys listed. -/
def CalculateSegmentAlloc (codec : SegmentCodec) (fuel : Nat) (revision : Int)
    (client : EtcdClient) (out : AllocMap) : Option (Int × AllocMap × List String) :=
  CalculateLoop codec GETBUNDLE revision client fuel codec.SEGMENTINFOKEYPREFIX out []

end AllocStatisticHelper

/-- The page that a listing of at most `bundle` values answers from the pairs of key
and value `kvs`, taken in order: their values and the key of the last of them. -/
def pageOf (bundle : Nat) (kvs : List (String × String)) : ListOut :=
  { res := EtcdErrCode.OK
    values := (kvs.take bundle).map (fun kv => kv.2)
    lastKey := ((kvs.take bundle).getLast?.map (fun kv => kv.1)).getD "" }

/-- The sum of the sizes of the segments of a logical pool. -/
def sumPool (segs : List PageFileSegment) (pool : Nat) : Nat :=
  ((segs.filter (fun s => decide (s.logicalpoolid = pool))).map (fun s => s.segmentsize)).sum

/-- A client over the store `kvs`, given in key order: a listing from the start key
`first` answers from the whole store, one from a key of the store answers from that key
on, and one from any other key fails. -/
def storeClient (first : String) (kvs : List (String × String)) : EtcdClient :=
  fun startKey _ limit _ =>
    if startKey = first then pageOf limit kvs
    else
      match kvs.findIdx? (fun kv => decide (kv.1 = startKey)) with
      | some i => pageOf limit (kvs.drop i)
      | none => { res := 1, values := [], lastKey := "" }

/-- A codec with the keys `03` and `04` whose values are `pool:size` pairs of digits:
the value of two characters `ps` is a segment of size `s` in pool `p`. -/
def sampleCodec : SegmentCodec :=
  { SEGMENTINFOKEYPREFIX := "03"
    SEGMENTINFOKEYEND := "04"
    DecodeSegment := fun value =>
      match value.data with
      | [p, s] =>
        if p.isDigit ∧ s.isDigit then
          some { logicalpoolid := p.toNat - 48, segmentsize := s.toNat - 48 }
        else none
      | _ => none }

/-- A store of five segments: sizes 1, 2 and 4 in pool 1, sizes 3 and 5 in pool 2. -/
def sampleStore : List (String × String) :=
  [("03a", "11"), ("03b", "23"), ("03c", "12"), ("03d", "25"), ("03e", "14")]

/-- A client over a store: a listing answers, from the pairs of `kvs` whose key is at or
after the start key and before the end key, the first `limit` in the order of `kvs`. -/
def rangeClient (kvs : List (String × String)) : EtcdClient :=
  fun startKey endKey limit _ =>
    pageOf limit (kvs.filter (fun kv => decide (startKey ≤ kv.1) && decide (kv.1 < endKey)))

/-- The invariant of a `DeferSync` whose sleeper no `Stop()` has interrupted yet: the
registry and trace invariants hold, a set running flag comes with a task in its loop,
and a clear one with no thread. -/
def FreshInv (s : System) : Prop :=
  s.ds.sleeper_.interrupted = false →
    RegInv s ∧ TraceInv s ∧ (s.ds.running_ = true → RunInv s) ∧
    (s.ds.running_ = false → s.ds.thread_ = none)

/-! ## Lemmas on the container -/

namespace BtreeMap

theorem find_emplace_self (m : BtreeMap) (key : Ino) (value : InodeWrapperPtr) :
    (m.emplace key value).2 = true → find (m.emplace key value).1 key = some value := by
  induction m with
  | nil => intro _; simp [emplace, find]
  | cons p rest ih =>
    obtain ⟨k, v⟩ := p
    intro h
    by_cases h1 : key < k
    · simp [emplace, h1, find]
    · by_cases h2 : key = k
      · simp [emplace, h1, h2] at h
      · have h3 : ¬ k = key := fun e => h2 e.symm
        simp only [emplace, h1, h2, if_false] at h ⊢
        simp only [find, h3, if_false]
        exact ih h

theorem find_emplace_false (m : BtreeMap) (key : Ino) (value : InodeWrapperPtr) :
    (m.emplace key value).2 = false → (m.emplace key value).1 = m := by
  induction m with
  | nil => intro h; simp [emplace] at h
  | cons p rest ih =>
    obtain ⟨k, v⟩ := p
    intro h
    by_cases h1 : key < k
    · simp [emplace, h1] at h
    · by_cases h2 : key = k
      · simp [emplace, h1, h2]
      · simp only [emplace, h1, h2, if_false] at h ⊢
        rw [ih h]

theorem find_emplace_other (m : BtreeMap) (key : Ino) (value : InodeWrapperPtr) (j : Ino)
    (hj : j ≠ key) : find (m.emplace key value).1 j = find m j := by
  induction m with
  | nil =>
    have : ¬ key = j := fun e => hj e.symm
    simp [emplace, find, this]
  | cons p rest ih =>
    obtain ⟨k, v⟩ := p
    have hkj : ¬ key = j := fun e => hj e.symm
    by_cases h1 : key < k
    · simp [emplace, h1, find, hkj]
    · by_cases h2 : key = k
      · simp [emplace, h1, h2]
      · simp only [emplace, h1, h2, if_false, find]
        rw [ih]

theorem find_assign_self (m : BtreeMap) (key : Ino) (value : InodeWrapperPtr) :
    find m key ≠ none → find (m.assign key value) key = some value := by
  induction m with
  | nil => intro h; simp [find] at h
  | cons p rest ih =>
    obtain ⟨k, v⟩ := p
    intro h
    by_cases h1 : k = key
    · simp [assign, h1, find]
    · simp only [find, h1, if_false] at h
      simp only [assign, h1, if_false, find]
      exact ih h

theorem find_assign_other (m : BtreeMap) (key : Ino) (value : InodeWrapperPtr) (j : Ino)
    (hj : j ≠ key) : find (m.assign key value) j = find m j := by
  induction m with
  | nil => simp [assign]
  | cons p rest ih =>
    obtain ⟨k, v⟩ := p
    by_cases h1 : k = key
    · have : ¬ key = j := fun e => hj e.symm
      simp [assign, h1, find, this]
    · simp only [assign, h1, if_false, find]
      rw [ih]

theorem find_ne_none_of_emplace_false (m : BtreeMap) (key : Ino) (value : InodeWrapperPtr) :
    (m.emplace key value).2 = false → find m key ≠ none := by
  induction m with
  | nil => intro h; simp [emplace] at h
  | cons p rest ih =>
    obtain ⟨k, v⟩ := p
    intro h
    by_cases h1 : key < k
    · simp [emplace, h1] at h
    · by_cases h2 : key = k
      · simp [find, h2]
      · have h3 : ¬ k = key := fun e => h2 e.symm
        simp only [emplace, h1, h2, if_false] at h
        simp only [find, h3, if_false]
        exact ih h

theorem find_none_of_lt (m : BtreeMap) (key : Ino) (h : ∀ k ∈ keys m, key < k) :
    find m key = none := by
  induction m with
  | nil => rfl
  | cons p rest ih =>
    obtain ⟨k, v⟩ := p
    have hk : key < k := h k (by simp [keys])
    have h1 : ¬ k = key := fun e => Nat.lt_irrefl key (e ▸ hk)
    simp only [find, h1, if_false]
    exact ih (fun k' hk' => h k' (by simp [keys] at hk' ⊢; exact Or.inr hk'))

theorem find_erase_self (m : BtreeMap) (key : Ino) (hwf : WF m) :
    find (m.erase key) key = none := by
  induction m with
  | nil => rfl
  | cons p rest ih =>
    obtain ⟨k, v⟩ := p
    have hp : (∀ k' ∈ keys rest, k < k') ∧ WF rest := by
      simpa [WF, keys] using hwf
    by_cases h1 : k = key
    · simp only [erase, h1, if_true]
      exact find_none_of_lt rest key (fun k' hk' => h1 ▸ hp.1 k' hk')
    · simp only [erase, h1, if_false, find]
      exact ih hp.2

theorem find_erase_other (m : BtreeMap) (key j : Ino) (hj : j ≠ key) :
    find (m.erase key) j = find m j := by
  induction m with
  | nil => rfl
  | cons p rest ih =>
    obtain ⟨k, v⟩ := p
    by_cases h1 : k = key
    · have : ¬ key = j := fun e => hj e.symm
      simp [erase, h1, find, this]
    · simp only [erase, h1, if_false, find]
      rw [ih]

theorem mem_keys_of_find (m : BtreeMap) (key : Ino) (v : InodeWrapperPtr)
    (h : find m key = some v) : key ∈ keys m := by
  induction m with
  | nil => simp [find] at h
  | cons p rest ih =>
    obtain ⟨k, w⟩ := p
    by_cases h1 : k = key
    · simp [keys, h1]
    · simp only [find, h1, if_false] at h
      have := ih h
      simp [keys] at this ⊢
      exact Or.inr this

theorem find_ne_none_of_mem_keys (m : BtreeMap) (key : Ino) (h : key ∈ keys m) :
    find m key ≠ none := by
  induction m with
  | nil => simp [keys] at h
  | cons p rest ih =>
    obtain ⟨k, w⟩ := p
    by_cases h1 : k = key
    · simp [find, h1]
    · simp only [find, h1, if_false]
      apply ih
      simp [keys] at h ⊢
      rcases h with h | h
      · exact absurd h.symm h1
      · exact h

end BtreeMap

namespace BtreeMap

theorem keys_erase (m : BtreeMap) (key : Ino) : keys (m.erase key) = (keys m).erase key := by
  induction m with
  | nil => rfl
  | cons p rest ih =>
    obtain ⟨k, v⟩ := p
    by_cases h1 : k = key
    · simp [erase, h1, keys]
    · have ih1 : List.map Prod.fst (erase rest key) = (List.map Prod.fst rest).erase key := ih
      simp [erase, h1, keys, List.erase_cons, ih1]

theorem keys_assign (m : BtreeMap) (key : Ino) (value : InodeWrapperPtr) :
    keys (m.assign key value) = keys m := by
  induction m with
  | nil => rfl
  | cons p rest ih =>
    obtain ⟨k, v⟩ := p
    have ih1 : List.map Prod.fst (assign rest key value) = List.map Prod.fst rest := ih
    by_cases h1 : k = key
    · simp [assign, h1, keys]
    · simp [assign, h1, keys, ih1]

theorem mem_keys_emplace (m : BtreeMap) (key : Ino) (value : InodeWrapperPtr) (j : Ino) :
    j ∈ keys (m.emplace key value).1 ↔ j = key ∨ j ∈ keys m := by
  induction m with
  | nil => simp [emplace, keys]
  | cons p rest ih =>
    obtain ⟨k, v⟩ := p
    have ih1 : j ∈ List.map Prod.fst (emplace rest key value).1 ↔
        j = key ∨ j ∈ List.map Prod.fst rest := ih
    by_cases h1 : key < k
    · simp [emplace, h1, keys]
    · by_cases h2 : key = k
      · subst h2
        simp [emplace, keys]
      · simp only [emplace, h1, h2, if_false, keys, List.map_cons, List.mem_cons, ih1]
        tauto

theorem WF_erase (m : BtreeMap) (key : Ino) (hwf : WF m) : WF (m.erase key) := by
  unfold WF at *
  rw [keys_erase]
  exact hwf.sublist (List.erase_sublist _ _)

theorem WF_assign (m : BtreeMap) (key : Ino) (value : InodeWrapperPtr) (hwf : WF m) :
    WF (m.assign key value) := by
  unfold WF at *
  rw [keys_assign]
  exact hwf

theorem WF_emplace (m : BtreeMap) (key : Ino) (value : InodeWrapperPtr) (hwf : WF m) :
    WF (m.emplace key value).1 := by
  induction m with
  | nil => simp [emplace, WF, keys]
  | cons p rest ih =>
    obtain ⟨k, v⟩ := p
    have hp : (∀ k1 ∈ keys rest, k < k1) ∧ WF rest := by
      simpa [WF, keys] using hwf
    by_cases h1 : key < k
    · have hw : List.Pairwise (· < ·) (key :: keys ((k, v) :: rest)) := by
        refine List.Pairwise.cons ?_ hwf
        intro a ha
        have ha1 : a = k ∨ a ∈ keys rest := by simpa [keys] using ha
        rcases ha1 with ha1 | ha1
        · exact ha1 ▸ h1
        · exact Nat.lt_trans h1 (hp.1 a ha1)
      simpa [emplace, h1, WF, keys] using hw
    · by_cases h2 : key = k
      · simpa [emplace, h1, h2] using hwf
      · have hlt : k < key := by
          rcases Nat.lt_trichotomy key k with h | h | h
          · exact absurd h h1
          · exact absurd h h2
          · exact h
        have hw : List.Pairwise (· < ·) (k :: keys (emplace rest key value).1) := by
          refine List.Pairwise.cons ?_ (ih hp.2)
          intro a ha
          rcases (mem_keys_emplace rest key value a).1 ha with ha1 | ha1
          · exact ha1 ▸ hlt
          · exact hp.1 a ha1
        simpa [emplace, h1, h2, WF, keys] using hw

end BtreeMap

namespace DeferInodes

theorem Add_fst (self : DeferInodes) (inode : InodeWrapperPtr) :
    (self.Add inode).1.inodes_ =
      if (self.inodes_.emplace inode.ino inode).2 then (self.inodes_.emplace inode.ino inode).1
      else self.inodes_.assign inode.ino inode := by
  unfold Add
  by_cases h : (self.inodes_.emplace inode.GetInodeId inode).2 = true
  · simp [h, InodeWrapperPtr.GetInodeId] at *
  · have h1 : (self.inodes_.emplace inode.GetInodeId inode).2 = false := by simpa using h
    have h2 := BtreeMap.find_emplace_false _ _ _ h1
    simp only [InodeWrapperPtr.GetInodeId] at *
    simp [h1, h2, ModifiedSince]

theorem Add_WF (self : DeferInodes) (inode : InodeWrapperPtr) (hwf : self.inodes_.WF) :
    (self.Add inode).1.inodes_.WF := by
  rw [Add_fst]
  split
  · exact BtreeMap.WF_emplace _ _ _ hwf
  · exact BtreeMap.WF_assign _ _ _ hwf

theorem find_Add_self (self : DeferInodes) (inode : InodeWrapperPtr) :
    (self.Add inode).1.inodes_.find inode.ino = some inode := by
  rw [Add_fst]
  split
  · next h => exact BtreeMap.find_emplace_self _ _ _ h
  · next h =>
    have h1 : (self.inodes_.emplace inode.ino inode).2 = false := by simpa using h
    exact BtreeMap.find_assign_self _ _ _ (BtreeMap.find_ne_none_of_emplace_false _ _ _ h1)

theorem find_Add_other (self : DeferInodes) (inode : InodeWrapperPtr) (j : Ino)
    (hj : j ≠ inode.ino) : (self.Add inode).1.inodes_.find j = self.inodes_.find j := by
  rw [Add_fst]
  split
  · exact BtreeMap.find_emplace_other _ _ _ _ hj
  · exact BtreeMap.find_assign_other _ _ _ _ hj

theorem Add_snd (self : DeferInodes) (inode : InodeWrapperPtr) : (self.Add inode).2 = true := by
  unfold Add
  by_cases h : (self.inodes_.emplace inode.GetInodeId inode).2 = true
  · simp [h]
  · simp [h, ModifiedSince]

theorem mem_keys_Add (self : DeferInodes) (inode : InodeWrapperPtr) (j : Ino) :
    j ∈ (self.Add inode).1.inodes_.keys ↔ j = inode.ino ∨ j ∈ self.inodes_.keys := by
  rw [Add_fst]
  split
  · exact BtreeMap.mem_keys_emplace _ _ _ _
  · next h =>
    have h1 : (self.inodes_.emplace inode.ino inode).2 = false := by simpa using h
    rw [BtreeMap.keys_assign]
    constructor
    · exact Or.inr
    · rintro (h2 | h2)
      · have h3 := BtreeMap.find_ne_none_of_emplace_false _ _ _ h1
        cases h4 : self.inodes_.find inode.ino with
        | none => exact absurd h4 h3
        | some v => exact h2 ▸ BtreeMap.mem_keys_of_find _ _ _ h4
      · exact h2

theorem Remove_fst (self : DeferInodes) (ino : Ino) :
    (self.Remove ino).1.inodes_ = self.inodes_.erase ino := by
  unfold Remove
  cases h : self.inodes_.find ino with
  | some v => rfl
  | none =>
    simp only
    have : ∀ m : BtreeMap, BtreeMap.find m ino = none → m.erase ino = m := by
      intro m
      induction m with
      | nil => intro _; rfl
      | cons p rest ih =>
        obtain ⟨k, v⟩ := p
        intro hf
        by_cases h1 : k = ino
        · simp [BtreeMap.find, h1] at hf
        · simp only [BtreeMap.find, h1, if_false] at hf
          simp only [BtreeMap.erase, h1, if_false, ih hf]
    rw [this _ h]

theorem Remove_WF (self : DeferInodes) (ino : Ino) (hwf : self.inodes_.WF) :
    (self.Remove ino).1.inodes_.WF := by
  rw [Remove_fst]
  exact BtreeMap.WF_erase _ _ hwf

end DeferInodes

/-! ## Properties of the registry -/

/-- C6 (insert-or-replace): for every registry and handle, `DeferInodes::Add` returns
true; afterwards `Get` of the handle's id returns true with exactly that handle,
whatever was stored under the id before, and `Get` of every other id returns what it
returned before. -/
theorem DeferInodes.add_insert_or_replace (self : DeferInodes) (inode : InodeWrapperPtr) :
    (self.Add inode).2 = true ∧
    (∀ out, (self.Add inode).1.Get inode.GetInodeId out = (true, some inode)) ∧
    (∀ j out, j ≠ inode.GetInodeId → (self.Add inode).1.Get j out = self.Get j out) := by
  refine ⟨DeferInodes.Add_snd self inode, ?_, ?_⟩
  · intro out
    simp [DeferInodes.Get, InodeWrapperPtr.GetInodeId, DeferInodes.find_Add_self]
  · intro j out hj
    simp only [DeferInodes.Get]
    rw [DeferInodes.find_Add_other self inode j hj]

/-- C6 at a concrete registry: re-adding id 7 through another handle replaces the
reference and leaves id 9 alone. -/
theorem DeferInodes.add_insert_or_replace_witness :
    (DeferInodes.Add { inodes_ := [(7, ⟨100, 7⟩), (9, ⟨300, 9⟩)] } ⟨200, 7⟩).2 = true ∧
    (DeferInodes.Add { inodes_ := [(7, ⟨100, 7⟩), (9, ⟨300, 9⟩)] } ⟨200, 7⟩).1.Get 7 none
      = (true, some ⟨200, 7⟩) ∧
    (DeferInodes.Add { inodes_ := [(7, ⟨100, 7⟩), (9, ⟨300, 9⟩)] } ⟨200, 7⟩).1.Get 9 none
      = (true, some ⟨300, 9⟩) := by
  have h := DeferInodes.add_insert_or_replace { inodes_ := [(7, ⟨100, 7⟩), (9, ⟨300, 9⟩)] } ⟨200, 7⟩
  refine ⟨h.1, h.2.1 none, ?_⟩
  rw [h.2.2 9 none (by decide)]
  decide

/-- C7 (idempotent removal): on a well-formed registry, `DeferInodes::Remove` of an
absent id returns false and changes nothing; of a present id it returns true, removes
that key and no other, and a second `Remove` returns false and changes nothing; in
both cases `Get` of the id afterwards returns false and leaves its out-parameter. -/
theorem DeferInodes.remove_idempotent (self : DeferInodes) (ino : Ino)
    (hwf : self.inodes_.WF) :
    ((self.Get ino none).1 = false → self.Remove ino = (self, false)) ∧
    ((self.Get ino none).1 = true →
      (self.Remove ino).2 = true ∧
      (self.Remove ino).1.inodes_.keys = self.inodes_.keys.erase ino ∧
      (∀ j out, j ≠ ino → (self.Remove ino).1.Get j out = self.Get j out) ∧
      (self.Remove ino).1.Remove ino = ((self.Remove ino).1, false)) ∧
    (∀ out, (self.Remove ino).1.Get ino out = (false, out)) := by
  have hgone : (self.Remove ino).1.inodes_.find ino = none := by
    rw [DeferInodes.Remove_fst]
    exact BtreeMap.find_erase_self _ _ hwf
  refine ⟨?_, ?_, ?_⟩
  · intro h
    cases hf : self.inodes_.find ino with
    | none => simp [DeferInodes.Remove, hf]
    | some v => simp [DeferInodes.Get, hf] at h
  · intro h
    refine ⟨?_, ?_, ?_, ?_⟩
    · cases hf : self.inodes_.find ino with
      | none => simp [DeferInodes.Get, hf] at h
      | some v => simp [DeferInodes.Remove, hf]
    · rw [DeferInodes.Remove_fst, BtreeMap.keys_erase]
    · intro j out hj
      simp only [DeferInodes.Get]
      rw [DeferInodes.Remove_fst, BtreeMap.find_erase_other _ _ _ hj]
    · generalize self.Remove ino = r at hgone
      simp [DeferInodes.Remove, hgone]
  · intro out
    simp [DeferInodes.Get, hgone]

/-- C7 at a concrete registry holding ids 7 and 9: removing 7 twice, and removing the
absent id 8. -/
theorem DeferInodes.remove_idempotent_witness :
    BtreeMap.WF [(7, ⟨100, 7⟩), (9, ⟨300, 9⟩)] ∧
    DeferInodes.Remove { inodes_ := [(7, ⟨100, 7⟩), (9, ⟨300, 9⟩)] } 8
      = ({ inodes_ := [(7, ⟨100, 7⟩), (9, ⟨300, 9⟩)] }, false) ∧
    (DeferInodes.Remove { inodes_ := [(7, ⟨100, 7⟩), (9, ⟨300, 9⟩)] } 7).2 = true ∧
    (DeferInodes.Remove { inodes_ := [(7, ⟨100, 7⟩), (9, ⟨300, 9⟩)] } 7).1.Remove 7
      = ((DeferInodes.Remove { inodes_ := [(7, ⟨100, 7⟩), (9, ⟨300, 9⟩)] } 7).1, false) ∧
    (DeferInodes.Remove { inodes_ := [(7, ⟨100, 7⟩), (9, ⟨300, 9⟩)] } 7).1.Get 7 none
      = (false, none) := by
  have hwf : BtreeMap.WF [(7, ⟨100, 7⟩), (9, ⟨300, 9⟩)] := by decide
  have h8 := DeferInodes.remove_idempotent { inodes_ := [(7, ⟨100, 7⟩), (9, ⟨300, 9⟩)] } 8 hwf
  have h7 := DeferInodes.remove_idempotent { inodes_ := [(7, ⟨100, 7⟩), (9, ⟨300, 9⟩)] } 7 hwf
  have p7 := h7.2.1 (by decide)
  exact ⟨hwf, h8.1 (by decide), p7.1, p7.2.2.2, h7.2.2 none⟩

/-! ## Evaluations of the flush loop at concrete inputs -/

/-- C1 fails as stated: two pushes of the same handle followed by one flush cycle make
two calls of `Async` for it, not one. -/
theorem DeferSync.coalescing_counterexample :
    (asyncCalls (DeferSync.flushCycle (fun _ => true)
      (runOps (fun _ => true) (DeferSync.started sampleHeap)
        [Op.push sampleInode, Op.push sampleInode])).trace).length = 2 := by
  decide

/-- C3 fails as stated: a handle whose synchronisation fails is no longer registered
after the cycle, and the next cycle makes no call for it. -/
theorem DeferSync.failed_flush_counterexample :
    (DeferSync.flushCycle (fun _ => false)
      (runOps (fun _ => false) (DeferSync.started sampleHeap) [Op.push sampleInode])).trace
      = [Ev.launch, Ev.push sampleInode, Ev.async sampleInode sampleAttr false] ∧
    DeferSync.IsDefered (DeferSync.flushCycle (fun _ => false)
      (runOps (fun _ => false) (DeferSync.started sampleHeap) [Op.push sampleInode]))
      7 none = (false, none) ∧
    (DeferSync.flushCycle (fun _ => false) (DeferSync.flushCycle (fun _ => false)
      (runOps (fun _ => false) (DeferSync.started sampleHeap) [Op.push sampleInode]))).trace
      = [Ev.launch, Ev.push sampleInode, Ev.async sampleInode sampleAttr false] := by
  decide

/-- C4 fails as stated: after push, wake-up, swap, a second push of the same handle
and the flush of the first entry, the handle is in the pending queue while its inode
id is not registered. -/
theorem DeferSync.registry_invariant_counterexample :
    sampleInode ∈ (runOps (fun _ => true) (DeferSync.started sampleHeap)
      [Op.push sampleInode, Op.task, Op.task, Op.push sampleInode, Op.task]).ds.pending_ ∧
    (DeferSync.IsDefered (runOps (fun _ => true) (DeferSync.started sampleHeap)
      [Op.push sampleInode, Op.task, Op.task, Op.push sampleInode, Op.task])
      sampleInode.ino none).1 = false := by
  decide

/-- C8, the code at the failing inputs: with inode 7 registered, the handle overload
of `IsDefered` returns true with the handle, while the attribute overload returns
false and leaves `*attr`; for the unregistered inode 8 the attribute overload
dereferences the null handle. -/
theorem DeferSync.isDefered_attr_inverted :
    DeferSync.IsDefered (DeferSync.Push (System.init sampleHeap) sampleInode) 7 none
      = (true, some sampleInode) ∧
    DeferSync.IsDeferedAttr (DeferSync.Push (System.init sampleHeap) sampleInode) 7
      sampleDeferAttr = some (false, sampleDeferAttr) ∧
    DeferSync.IsDefered (DeferSync.Push (System.init sampleHeap) sampleInode) 8 none
      = (false, none) ∧
    DeferSync.IsDeferedAttr (DeferSync.Push (System.init sampleHeap) sampleInode) 8
      sampleDeferAttr = none := by
  decide

/-! ## Lemmas on the flush loop -/

namespace DeferSync

theorem step_none (asyncOk : Nat → Bool) (s : System) (h : s.ds.thread_ = none) :
    SyncTaskStep asyncOk s = s := by
  simp [SyncTaskStep, h]

theorem step_exited (asyncOk : Nat → Bool) (s : System) (h : s.ds.thread_ = some TaskPc.exited) :
    SyncTaskStep asyncOk s = s := by
  simp [SyncTaskStep, h]

theorem step_sleeping (asyncOk : Nat → Bool) (s : System)
    (h : s.ds.thread_ = some TaskPc.sleeping) :
    SyncTaskStep asyncOk s =
      { s with ds := { s.ds with thread_ := some (TaskPc.woken s.ds.sleeper_.wait_for) } } := by
  simp [SyncTaskStep, h]

theorem step_woken (asyncOk : Nat → Bool) (s : System) (r : Bool)
    (h : s.ds.thread_ = some (TaskPc.woken r)) :
    SyncTaskStep asyncOk s =
      { s with ds := { s.ds with thread_ := some (TaskPc.flushing r s.ds.pending_),
                                 pending_ := [] } } := by
  simp [SyncTaskStep, h]

theorem step_flush_cons (asyncOk : Nat → Bool) (s : System) (r : Bool)
    (inode : InodeWrapperPtr) (rest : List InodeWrapperPtr)
    (h : s.ds.thread_ = some (TaskPc.flushing r (inode :: rest))) :
    SyncTaskStep asyncOk s =
      { s with ds := { s.ds with inodes_ := (s.ds.inodes_.Remove inode.ino).1,
                                 thread_ := some (TaskPc.flushing r rest) },
               trace := s.trace ++
                 [Ev.async inode (s.heap inode.addr) (asyncOk s.trace.length)] } := by
  simp [SyncTaskStep, h, DoSync, InodeWrapperPtr.GetInodeId]

theorem step_flush_nil (asyncOk : Nat → Bool) (s : System) (r : Bool)
    (h : s.ds.thread_ = some (TaskPc.flushing r [])) :
    SyncTaskStep asyncOk s =
      { s with ds := { s.ds with thread_ := some (if r then TaskPc.sleeping
                                                  else TaskPc.exited) } } := by
  simp [SyncTaskStep, h]

theorem batch_flushing (s : System) (r : Bool) (syncing : List InodeWrapperPtr)
    (h : s.ds.thread_ = some (TaskPc.flushing r syncing)) : batch s = syncing := by
  simp [batch, h]

end DeferSync

theorem RegInv_step (asyncOk : Nat → Bool) (s : System) (hinv : RegInv s) :
    RegInv (DeferSync.SyncTaskStep asyncOk s) := by
  obtain ⟨hwf, hreg⟩ := hinv
  cases hth : s.ds.thread_ with
  | none => rw [DeferSync.step_none _ _ hth]; exact ⟨hwf, hreg⟩
  | some pc =>
    cases pc with
    | exited => rw [DeferSync.step_exited _ _ hth]; exact ⟨hwf, hreg⟩
    | sleeping =>
      rw [DeferSync.step_sleeping _ _ hth]
      refine ⟨hwf, ?_⟩
      intro id hid
      obtain ⟨h, hm, he⟩ := hreg id hid
      refine ⟨h, ?_, he⟩
      simpa [DeferSync.batch, hth] using hm
    | woken r =>
      rw [DeferSync.step_woken _ _ _ hth]
      refine ⟨hwf, ?_⟩
      intro id hid
      obtain ⟨h, hm, he⟩ := hreg id hid
      refine ⟨h, ?_, he⟩
      simpa [DeferSync.batch, hth] using hm
    | flushing r syncing =>
      cases syncing with
      | nil =>
        rw [DeferSync.step_flush_nil _ _ _ hth]
        refine ⟨hwf, ?_⟩
        intro id hid
        obtain ⟨h, hm, he⟩ := hreg id hid
        refine ⟨h, ?_, he⟩
        have hm1 : h ∈ s.ds.pending_ := by simpa [DeferSync.batch, hth] using hm
        exact Or.inl hm1
      | cons inode rest =>
        rw [DeferSync.step_flush_cons _ _ _ _ _ hth]
        refine ⟨DeferInodes.Remove_WF _ _ hwf, ?_⟩
        intro id hid
        simp only [DeferInodes.Remove_fst] at hid
        have hne : id ≠ inode.ino := by
          intro e
          rw [e] at hid
          exact hid (BtreeMap.find_erase_self _ _ hwf)
        rw [BtreeMap.find_erase_other _ _ _ hne] at hid
        obtain ⟨h, hm, he⟩ := hreg id hid
        refine ⟨h, ?_, he⟩
        have hm1 : h ∈ s.ds.pending_ ∨ h = inode ∨ h ∈ rest := by
          simpa [DeferSync.batch, hth] using hm
        rcases hm1 with hm1 | hm1 | hm1
        · exact Or.inl hm1
        · exact absurd (hm1 ▸ he).symm hne
        · exact Or.inr (by simpa [DeferSync.batch] using hm1)

theorem RegInv_Push (s : System) (inode : InodeWrapperPtr) (hinv : RegInv s) :
    RegInv (DeferSync.Push s inode) := by
  obtain ⟨hwf, hreg⟩ := hinv
  refine ⟨DeferInodes.Add_WF _ _ hwf, ?_⟩
  intro id hid
  by_cases he : id = inode.ino
  · exact ⟨inode, Or.inl (by simp [DeferSync.Push]), he.symm⟩
  · have hid1 : s.ds.inodes_.inodes_.find id ≠ none := by
      have := DeferInodes.find_Add_other s.ds.inodes_ inode id he
      simp only [DeferSync.Push] at hid
      rwa [this] at hid
    obtain ⟨h, hm, hh⟩ := hreg id hid1
    refine ⟨h, ?_, hh⟩
    rcases hm with hm | hm
    · exact Or.inl (by simp [DeferSync.Push, hm])
    · exact Or.inr (by simpa [DeferSync.Push, DeferSync.batch] using hm)

theorem RegInv_exec (asyncOk : Nat → Bool) (s : System) (o : Op) (hinv : RegInv s) :
    RegInv (o.exec asyncOk s) := by
  cases o with
  | push inode => exact RegInv_Push s inode hinv
  | mutate addr state => exact hinv
  | task => exact RegInv_step asyncOk s hinv

theorem RegInv_runOps (asyncOk : Nat → Bool) (ops : List Op) :
    ∀ s, RegInv s → RegInv (runOps asyncOk s ops) := by
  induction ops with
  | nil => intro s h; exact h
  | cons o rest ih =>
    intro s h
    exact ih _ (RegInv_exec asyncOk s o h)

theorem RegInv_runTask (asyncOk : Nat → Bool) (n : Nat) :
    ∀ s, RegInv s → RegInv (DeferSync.runTask asyncOk n s) := by
  induction n with
  | zero => intro s h; exact h
  | succ n ih =>
    intro s h
    exact ih _ (RegInv_step asyncOk s h)

theorem getElem?_append_of_some {α : Type} (l l2 : List α) (i : Nat) (a : α)
    (h : l[i]? = some a) : (l ++ l2)[i]? = some a := by
  have hi : i < l.length := by
    by_contra hc
    rw [List.getElem?_eq_none (Nat.le_of_not_lt hc)] at h
    exact Option.noConfusion h
  rw [List.getElem?_append_left hi]
  exact h

theorem getElem?_append_singleton {α : Type} (l : List α) (e a : α) (i : Nat)
    (h : (l ++ [e])[i]? = some a) : l[i]? = some a ∨ (i = l.length ∧ a = e) := by
  by_cases hi : i < l.length
  · rw [List.getElem?_append_left hi] at h
    exact Or.inl h
  · have hle : l.length ≤ i := Nat.le_of_not_lt hi
    rw [List.getElem?_append_right hle] at h
    by_cases h0 : i - l.length = 0
    · rw [h0] at h
      simp at h
      exact Or.inr ⟨by omega, h.symm⟩
    · obtain ⟨k, hk⟩ := Nat.exists_eq_succ_of_ne_zero h0
      rw [hk] at h
      simp at h

theorem getElem?_lt_of_some {α : Type} (l : List α) (i : Nat) (a : α)
    (h : l[i]? = some a) : i < l.length := by
  by_contra hc
  rw [List.getElem?_eq_none (Nat.le_of_not_lt hc)] at h
  exact Option.noConfusion h

theorem TraceOK_mono (tr : List Ev) (q q2 : InodeWrapperPtr → Prop)
    (h : TraceOK tr q) (hq : ∀ x, q x → q2 x) : TraceOK tr q2 := by
  intro i inode hi
  rcases h i inode hi with h1 | h1
  · exact Or.inl h1
  · exact Or.inr (hq _ h1)

theorem TraceOK_append_push (tr : List Ev) (q q2 : InodeWrapperPtr → Prop)
    (inode : InodeWrapperPtr) (h : TraceOK tr q) (hq : ∀ x, q x → q2 x) (hn : q2 inode) :
    TraceOK (tr ++ [Ev.push inode]) q2 := by
  intro i x hi
  rcases getElem?_append_singleton _ _ _ _ hi with h1 | ⟨_, h1⟩
  · rcases h i x h1 with ⟨j, state, ok, hlt, hj⟩ | h2
    · exact Or.inl ⟨j, state, ok, hlt, getElem?_append_of_some _ _ _ _ hj⟩
    · exact Or.inr (hq _ h2)
  · have hx : x = inode := by injection h1
    exact Or.inr (hx ▸ hn)

theorem TraceOK_append_async (tr : List Ev) (q q2 : InodeWrapperPtr → Prop)
    (inode : InodeWrapperPtr) (state : InodeAttr) (ok : Bool) (h : TraceOK tr q)
    (hq : ∀ x, q x → x = inode ∨ q2 x) :
    TraceOK (tr ++ [Ev.async inode state ok]) q2 := by
  intro i x hi
  rcases getElem?_append_singleton _ _ _ _ hi with h1 | ⟨_, h1⟩
  · rcases h i x h1 with ⟨j, st, o, hlt, hj⟩ | h2
    · exact Or.inl ⟨j, st, o, hlt, getElem?_append_of_some _ _ _ _ hj⟩
    · rcases hq _ h2 with h3 | h3
      · refine Or.inl ⟨tr.length, state, ok, getElem?_lt_of_some _ _ _ h1, ?_⟩
        rw [h3]
        simp
      · exact Or.inr h3
  · exact Ev.noConfusion h1

theorem TraceOK_append_other (tr : List Ev) (q q2 : InodeWrapperPtr → Prop) (e : Ev)
    (he : ∀ inode, e ≠ Ev.push inode) (h : TraceOK tr q) (hq : ∀ x, q x → q2 x) :
    TraceOK (tr ++ [e]) q2 := by
  intro i x hi
  rcases getElem?_append_singleton _ _ _ _ hi with h1 | ⟨_, h1⟩
  · rcases h i x h1 with ⟨j, st, o, hlt, hj⟩ | h2
    · exact Or.inl ⟨j, st, o, hlt, getElem?_append_of_some _ _ _ _ hj⟩
    · exact Or.inr (hq _ h2)
  · exact absurd h1.symm (he x)

theorem TraceInv_step (asyncOk : Nat → Bool) (s : System) (hinv : TraceInv s) :
    TraceInv (DeferSync.SyncTaskStep asyncOk s) := by
  unfold TraceInv at *
  cases hth : s.ds.thread_ with
  | none => rw [DeferSync.step_none _ _ hth]; exact hinv
  | some pc =>
    cases pc with
    | exited => rw [DeferSync.step_exited _ _ hth]; exact hinv
    | sleeping =>
      rw [DeferSync.step_sleeping _ _ hth]
      refine TraceOK_mono _ _ _ hinv ?_
      intro x hx
      simpa [DeferSync.batch, hth] using hx
    | woken r =>
      rw [DeferSync.step_woken _ _ _ hth]
      refine TraceOK_mono _ _ _ hinv ?_
      intro x hx
      simpa [DeferSync.batch, hth] using hx
    | flushing r syncing =>
      cases syncing with
      | nil =>
        rw [DeferSync.step_flush_nil _ _ _ hth]
        refine TraceOK_mono _ _ _ hinv ?_
        intro x hx
        have hx1 : x ∈ s.ds.pending_ := by simpa [DeferSync.batch, hth] using hx
        exact Or.inl hx1
      | cons inode rest =>
        rw [DeferSync.step_flush_cons _ _ _ _ _ hth]
        refine TraceOK_append_async _ _ _ _ _ _ hinv ?_
        intro x hx
        have hx1 : x ∈ s.ds.pending_ ∨ x = inode ∨ x ∈ rest := by
          simpa [DeferSync.batch, hth] using hx
        rcases hx1 with hx1 | hx1 | hx1
        · exact Or.inr (Or.inl hx1)
        · exact Or.inl hx1
        · exact Or.inr (Or.inr (by simpa [DeferSync.batch] using hx1))

theorem TraceInv_Push (s : System) (inode : InodeWrapperPtr) (hinv : TraceInv s) :
    TraceInv (DeferSync.Push s inode) := by
  unfold TraceInv at *
  refine TraceOK_append_push _ _ _ _ hinv ?_ ?_
  · intro x hx
    rcases hx with hx | hx
    · exact Or.inl (by simp [DeferSync.Push, hx])
    · exact Or.inr (by simpa [DeferSync.Push, DeferSync.batch] using hx)
  · exact Or.inl (by simp [DeferSync.Push])

theorem TraceInv_exec (asyncOk : Nat → Bool) (s : System) (o : Op) (hinv : TraceInv s) :
    TraceInv (o.exec asyncOk s) := by
  cases o with
  | push inode => exact TraceInv_Push s inode hinv
  | mutate addr state => exact hinv
  | task => exact TraceInv_step asyncOk s hinv

theorem TraceInv_runOps (asyncOk : Nat → Bool) (ops : List Op) :
    ∀ s, TraceInv s → TraceInv (runOps asyncOk s ops) := by
  induction ops with
  | nil => intro s h; exact h
  | cons o rest ih =>
    intro s h
    exact ih _ (TraceInv_exec asyncOk s o h)

theorem TraceInv_runTask (asyncOk : Nat → Bool) (n : Nat) :
    ∀ s, TraceInv s → TraceInv (DeferSync.runTask asyncOk n s) := by
  induction n with
  | zero => intro s h; exact h
  | succ n ih =>
    intro s h
    exact ih _ (TraceInv_step asyncOk s h)

theorem RunInv_exec (asyncOk : Nat → Bool) (s : System) (o : Op) (hinv : RunInv s) :
    RunInv (o.exec asyncOk s) := by
  obtain ⟨hr, hi, hth⟩ := hinv
  cases o with
  | push inode => exact ⟨hr, hi, hth⟩
  | mutate addr state => exact ⟨hr, hi, hth⟩
  | task =>
    simp only [Op.exec]
    rcases hth with hth | hth | ⟨syncing, hth⟩
    · rw [DeferSync.step_sleeping _ _ hth]
      exact ⟨hr, hi, Or.inr (Or.inl (by simp [InterruptibleSleeper.wait_for, hi]))⟩
    · rw [DeferSync.step_woken _ _ _ hth]
      exact ⟨hr, hi, Or.inr (Or.inr ⟨_, rfl⟩)⟩
    · cases syncing with
      | nil =>
        rw [DeferSync.step_flush_nil _ _ _ hth]
        exact ⟨hr, hi, Or.inl (by simp)⟩
      | cons inode rest =>
        rw [DeferSync.step_flush_cons _ _ _ _ _ hth]
        exact ⟨hr, hi, Or.inr (Or.inr ⟨_, rfl⟩)⟩

theorem RunInv_runOps (asyncOk : Nat → Bool) (ops : List Op) :
    ∀ s, RunInv s → RunInv (runOps asyncOk s ops) := by
  induction ops with
  | nil => intro s h; exact h
  | cons o rest ih =>
    intro s h
    exact ih _ (RunInv_exec asyncOk s o h)

theorem DrainInv_step (asyncOk : Nat → Bool) (s : System) (hinv : DrainInv s) :
    DrainInv (DeferSync.SyncTaskStep asyncOk s) ∧
    stepsToExit (DeferSync.SyncTaskStep asyncOk s) ≤ stepsToExit s - 1 := by
  obtain ⟨hi, hne, hp⟩ := hinv
  cases hth : s.ds.thread_ with
  | none => exact absurd hth hne
  | some pc =>
    cases pc with
    | exited =>
      rw [DeferSync.step_exited _ _ hth]
      exact ⟨⟨hi, hne, hp⟩, by simp [stepsToExit, hth]⟩
    | sleeping =>
      rw [DeferSync.step_sleeping _ _ hth]
      refine ⟨⟨hi, by simp, ?_⟩, ?_⟩
      · simp [InterruptibleSleeper.wait_for, hi]
      · simp [stepsToExit, hth, InterruptibleSleeper.wait_for, hi]
    | woken r =>
      rw [DeferSync.step_woken _ _ _ hth]
      refine ⟨⟨hi, by simp, fun _ => rfl⟩, ?_⟩
      cases r <;> simp [stepsToExit, hth]
    | flushing r syncing =>
      cases syncing with
      | nil =>
        rw [DeferSync.step_flush_nil _ _ _ hth]
        cases r with
        | false =>
          refine ⟨⟨hi, by simp, fun _ => hp (Or.inr ⟨[], hth⟩)⟩, ?_⟩
          simp [stepsToExit, hth]
        | true =>
          refine ⟨⟨hi, by simp, ?_⟩, ?_⟩
          · simp
          · simp [stepsToExit, hth]
      | cons inode rest =>
        rw [DeferSync.step_flush_cons _ _ _ _ _ hth]
        cases r with
        | false =>
          refine ⟨⟨hi, by simp, fun _ => hp (Or.inr ⟨_, hth⟩)⟩, ?_⟩
          simp [stepsToExit, hth]
        | true =>
          refine ⟨⟨hi, by simp, ?_⟩, ?_⟩
          · simp
          · simp [stepsToExit, hth]
            omega

theorem runTask_drains (asyncOk : Nat → Bool) (n : Nat) :
    ∀ s, DrainInv s → stepsToExit s ≤ n →
      (DeferSync.runTask asyncOk n s).ds.thread_ = some TaskPc.exited ∧
      (DeferSync.runTask asyncOk n s).ds.pending_ = [] := by
  induction n with
  | zero =>
    intro s hinv hn
    obtain ⟨hi, hne, hp⟩ := hinv
    have hex : s.ds.thread_ = some TaskPc.exited := by
      cases hth : s.ds.thread_ with
      | none => exact absurd hth hne
      | some pc =>
        cases pc with
        | exited => rfl
        | sleeping => simp [stepsToExit, hth] at hn
        | woken r => cases r <;> simp [stepsToExit, hth] at hn
        | flushing r syncing => cases r <;> simp [stepsToExit, hth] at hn
    exact ⟨hex, hp (Or.inl hex)⟩
  | succ n ih =>
    intro s hinv hn
    have h := DrainInv_step asyncOk s hinv
    exact ih _ h.1 (by omega)

theorem eq_nil_of_find_none (m : BtreeMap) (h : ∀ id, BtreeMap.find m id = none) : m = [] := by
  cases m with
  | nil => rfl
  | cons p rest =>
    obtain ⟨k, v⟩ := p
    have := h k
    simp [BtreeMap.find] at this

theorem pushCalls_append (tr : List Ev) (e : Ev) :
    pushCalls (tr ++ [e]) = pushCalls tr ++ pushCalls [e] := by
  induction tr with
  | nil => simp [pushCalls]
  | cons a rest ih =>
    cases a <;> simp [pushCalls, ih]

theorem pushCalls_step (asyncOk : Nat → Bool) (s : System) :
    pushCalls (DeferSync.SyncTaskStep asyncOk s).trace = pushCalls s.trace := by
  cases hth : s.ds.thread_ with
  | none => rw [DeferSync.step_none _ _ hth]
  | some pc =>
    cases pc with
    | exited => rw [DeferSync.step_exited _ _ hth]
    | sleeping => rw [DeferSync.step_sleeping _ _ hth]
    | woken r => rw [DeferSync.step_woken _ _ _ hth]
    | flushing r syncing =>
      cases syncing with
      | nil => rw [DeferSync.step_flush_nil _ _ _ hth]
      | cons inode rest =>
        rw [DeferSync.step_flush_cons _ _ _ _ _ hth]
        simp [pushCalls_append, pushCalls]

theorem pushCalls_runTask (asyncOk : Nat → Bool) (n : Nat) :
    ∀ s, pushCalls (DeferSync.runTask asyncOk n s).trace = pushCalls s.trace := by
  induction n with
  | zero => intro s; rfl
  | succ n ih =>
    intro s
    simp only [DeferSync.runTask]
    rw [ih, pushCalls_step]

theorem pushCalls_runOps (asyncOk : Nat → Bool) (ops : List Op) :
    ∀ s, pushCalls (runOps asyncOk s ops).trace = pushCalls s.trace ++ pushesOf ops := by
  induction ops with
  | nil => intro s; simp [runOps, pushesOf]
  | cons o rest ih =>
    intro s
    have h := ih (o.exec asyncOk s)
    simp only [runOps, List.foldl_cons] at h ⊢
    rw [h]
    cases o with
    | push inode => simp [Op.exec, DeferSync.Push, pushesOf, pushCalls_append, pushCalls]
    | mutate addr state => simp [Op.exec, Mutate, pushesOf]
    | task => simp [Op.exec, pushesOf, pushCalls_step]

theorem started_RunInv (heap : Nat → InodeAttr) : RunInv (DeferSync.started heap) :=
  ⟨rfl, rfl, Or.inl rfl⟩

theorem started_RegInv (heap : Nat → InodeAttr) : RegInv (DeferSync.started heap) := by
  refine ⟨by simp [DeferSync.started, DeferSync.Start, System.init, DeferSync.new, BtreeMap.WF,
    BtreeMap.keys], ?_⟩
  intro id hid
  exact absurd rfl hid

theorem started_TraceInv (heap : Nat → InodeAttr) : TraceInv (DeferSync.started heap) := by
  intro i inode hi
  have h1 : (DeferSync.started heap).trace = [Ev.launch] := rfl
  rw [h1] at hi
  cases i with
  | zero => simp at hi
  | succ i => simp at hi

theorem step_frame (asyncOk : Nat → Bool) (s : System) :
    (DeferSync.SyncTaskStep asyncOk s).ds.running_ = s.ds.running_ ∧
    (DeferSync.SyncTaskStep asyncOk s).ds.sleeper_ = s.ds.sleeper_ ∧
    (DeferSync.SyncTaskStep asyncOk s).heap = s.heap := by
  cases hth : s.ds.thread_ with
  | none => rw [DeferSync.step_none _ _ hth]; exact ⟨rfl, rfl, rfl⟩
  | some pc =>
    cases pc with
    | exited => rw [DeferSync.step_exited _ _ hth]; exact ⟨rfl, rfl, rfl⟩
    | sleeping => rw [DeferSync.step_sleeping _ _ hth]; exact ⟨rfl, rfl, rfl⟩
    | woken r => rw [DeferSync.step_woken _ _ _ hth]; exact ⟨rfl, rfl, rfl⟩
    | flushing r syncing =>
      cases syncing with
      | nil => rw [DeferSync.step_flush_nil _ _ _ hth]; exact ⟨rfl, rfl, rfl⟩
      | cons inode rest => rw [DeferSync.step_flush_cons _ _ _ _ _ hth]; exact ⟨rfl, rfl, rfl⟩

theorem runTask_frame (asyncOk : Nat → Bool) (n : Nat) :
    ∀ s, (DeferSync.runTask asyncOk n s).ds.running_ = s.ds.running_ ∧
      (DeferSync.runTask asyncOk n s).ds.sleeper_ = s.ds.sleeper_ ∧
      (DeferSync.runTask asyncOk n s).heap = s.heap := by
  induction n with
  | zero => intro s; exact ⟨rfl, rfl, rfl⟩
  | succ n ih =>
    intro s
    obtain ⟨h1, h2, h3⟩ := ih (DeferSync.SyncTaskStep asyncOk s)
    obtain ⟨g1, g2, g3⟩ := step_frame asyncOk s
    exact ⟨h1.trans g1, h2.trans g2, h3.trans g3⟩

theorem Stop_of_RunInv (asyncOk : Nat → Bool) (s : System)
    (hrun : RunInv s) (hreg : RegInv s) (htr : TraceInv s) :
    ∃ s2, DeferSync.Stop asyncOk s = some s2 ∧
      s2.ds.pending_ = [] ∧ s2.ds.inodes_.inodes_ = [] ∧ s2.ds.thread_ = none ∧
      s2.ds.running_ = false ∧ TraceOK s2.trace (fun _ => False) ∧
      pushCalls s2.trace = pushCalls s.trace := by
  obtain ⟨hr, hi, hth⟩ := hrun
  let s1 : System :=
    { s with ds := { s.ds with running_ := false, sleeper_ := s.ds.sleeper_.interrupt },
             trace := s.trace ++ [Ev.interrupt] }
  have hstop : DeferSync.Stop asyncOk s = DeferSync.Join asyncOk s1 := by
    simp [DeferSync.Stop, hr, s1]
  have hth1 : s1.ds.thread_ = s.ds.thread_ := rfl
  have hp1 : s1.ds.pending_ = s.ds.pending_ := rfl
  have hb1 : DeferSync.batch s1 = DeferSync.batch s := rfl
  have hdrain : DrainInv s1 := by
    refine ⟨rfl, ?_, ?_⟩
    · rw [hth1]
      rcases hth with h | h | ⟨_, h⟩ <;> simp [h]
    · rw [hth1]
      rcases hth with h | h | ⟨_, h⟩ <;> simp [h]
  have hfuel : stepsToExit s1 ≤ s1.ds.pending_.length + (DeferSync.batch s1).length + 6 := by
    rw [hb1, hp1]
    unfold stepsToExit
    rw [hth1]
    rcases hth with h | h | ⟨syncing, h⟩
    · simp [h]; omega
    · simp [h]; omega
    · simp [h, DeferSync.batch]; omega
  have hreg1 : RegInv s1 := hreg
  have htr1 : TraceInv s1 := by
    unfold TraceInv
    exact TraceOK_append_other _ _ _ _ (fun _ => by simp) htr (fun x hx => hx)
  obtain ⟨hex, hpend⟩ := runTask_drains asyncOk _ s1 hdrain hfuel
  have hreg2 := RegInv_runTask asyncOk (s1.ds.pending_.length + (DeferSync.batch s1).length + 6)
    s1 hreg1
  have htr2 := TraceInv_runTask asyncOk (s1.ds.pending_.length + (DeferSync.batch s1).length + 6)
    s1 htr1
  have hpc2 := pushCalls_runTask asyncOk (s1.ds.pending_.length + (DeferSync.batch s1).length + 6)
    s1
  obtain ⟨t, ht⟩ : ∃ t, DeferSync.runTask asyncOk
      (s1.ds.pending_.length + (DeferSync.batch s1).length + 6) s1 = t := ⟨_, rfl⟩
  rw [ht] at hex hpend hreg2 htr2 hpc2
  have hsome : ∃ pc, s1.ds.thread_ = some pc := by
    rw [hth1]
    rcases hth with h | h | ⟨_, h⟩ <;> exact ⟨_, h⟩
  obtain ⟨pc, hpc⟩ := hsome
  have hjoin : DeferSync.Join asyncOk s1 =
      some { t with ds := { t.ds with thread_ := none }, trace := t.trace ++ [Ev.join] } := by
    unfold DeferSync.Join
    rw [hpc]
    simp only []
    rw [ht]
    simp [hex]
  refine ⟨_, hstop.trans hjoin, hpend, ?_, rfl, ?_, ?_, ?_⟩
  · apply eq_nil_of_find_none
    intro id
    by_contra hc
    obtain ⟨h, hm, _⟩ := hreg2.2 id hc
    rw [hpend] at hm
    simp [DeferSync.batch, hex] at hm
  · have h1 := (runTask_frame asyncOk
      (s1.ds.pending_.length + (DeferSync.batch s1).length + 6) s1).1
    rw [ht] at h1
    exact h1
  · refine TraceOK_append_other _ _ _ _ (fun _ => by simp) htr2 ?_
    intro x hx
    rw [hpend] at hx
    simp [DeferSync.batch, hex] at hx
  · simp only [pushCalls_append, hpc2]
    simp [pushCalls, s1, pushCalls_append]

theorem asyncCalls_append (tr : List Ev) (e : Ev) :
    asyncCalls (tr ++ [e]) = asyncCalls tr ++ asyncCalls [e] := by
  induction tr with
  | nil => simp [asyncCalls]
  | cons a rest ih =>
    cases a <;> simp [asyncCalls, ih]

theorem erase_of_find_none (m : BtreeMap) (key : Ino) (h : BtreeMap.find m key = none) :
    m.erase key = m := by
  induction m with
  | nil => rfl
  | cons p rest ih =>
    obtain ⟨k, v⟩ := p
    by_cases h1 : k = key
    · simp [BtreeMap.find, h1] at h
    · simp only [BtreeMap.find, h1, if_false] at h
      simp only [BtreeMap.erase, h1, if_false, ih h]

theorem find_erase_none (m : BtreeMap) (key id : Ino) (h : BtreeMap.find m id = none) :
    BtreeMap.find (m.erase key) id = none := by
  by_cases hk : id = key
  · rw [← hk, erase_of_find_none m id h]
    exact h
  · rw [BtreeMap.find_erase_other _ _ _ hk]
    exact h

theorem find_none_step (asyncOk : Nat → Bool) (s : System) (id : Ino)
    (h : s.ds.inodes_.inodes_.find id = none) :
    (DeferSync.SyncTaskStep asyncOk s).ds.inodes_.inodes_.find id = none := by
  cases hth : s.ds.thread_ with
  | none => rw [DeferSync.step_none _ _ hth]; exact h
  | some pc =>
    cases pc with
    | exited => rw [DeferSync.step_exited _ _ hth]; exact h
    | sleeping => rw [DeferSync.step_sleeping _ _ hth]; exact h
    | woken r => rw [DeferSync.step_woken _ _ _ hth]; exact h
    | flushing r syncing =>
      cases syncing with
      | nil => rw [DeferSync.step_flush_nil _ _ _ hth]; exact h
      | cons inode rest =>
        rw [DeferSync.step_flush_cons _ _ _ _ _ hth]
        simp only [DeferInodes.Remove_fst]
        exact find_erase_none _ _ _ h

theorem find_none_runTask (asyncOk : Nat → Bool) (id : Ino) (n : Nat) :
    ∀ s, s.ds.inodes_.inodes_.find id = none →
      (DeferSync.runTask asyncOk n s).ds.inodes_.inodes_.find id = none := by
  induction n with
  | zero => intro s h; exact h
  | succ n ih =>
    intro s h
    exact ih _ (find_none_step asyncOk s id h)

theorem find_none_runOps (asyncOk : Nat → Bool) (id : Ino) (ops : List Op) :
    ∀ s, s.ds.inodes_.inodes_.find id = none → (∀ x ∈ pushesOf ops, x.ino ≠ id) →
      (runOps asyncOk s ops).ds.inodes_.inodes_.find id = none := by
  induction ops with
  | nil => intro s h _; exact h
  | cons o rest ih =>
    intro s h hx
    cases o with
    | push inode =>
      have hne : id ≠ inode.ino := fun e => hx inode (by simp [pushesOf]) e.symm
      refine ih (DeferSync.Push s inode) ?_ (fun x hm => hx x (by simp [pushesOf, hm]))
      simp only [DeferSync.Push]
      rw [DeferInodes.find_Add_other _ _ _ hne]
      exact h
    | mutate addr state =>
      exact ih (Mutate s addr state) h (fun x hm => hx x (by simpa [pushesOf] using hm))
    | task =>
      exact ih _ (find_none_step asyncOk s id h) (fun x hm => hx x (by simpa [pushesOf] using hm))

theorem runTask_add (asyncOk : Nat → Bool) (a b : Nat) :
    ∀ s, DeferSync.runTask asyncOk (a + b) s
      = DeferSync.runTask asyncOk b (DeferSync.runTask asyncOk a s) := by
  induction a with
  | zero => intro s; simp [DeferSync.runTask]
  | succ a ih =>
    intro s
    have : a + 1 + b = (a + b) + 1 := by omega
    rw [this]
    simp only [DeferSync.runTask]
    exact ih _

theorem runTask_flushing (asyncOk : Nat → Bool) (syncing : List InodeWrapperPtr) :
    ∀ (s : System) (r : Bool), s.ds.thread_ = some (TaskPc.flushing r syncing) →
      (DeferSync.runTask asyncOk syncing.length s).ds.thread_ = some (TaskPc.flushing r []) ∧
      asyncCalls (DeferSync.runTask asyncOk syncing.length s).trace
        = asyncCalls s.trace ++ syncing.map (fun h => (h, s.heap h.addr)) ∧
      (DeferSync.runTask asyncOk syncing.length s).ds.pending_ = s.ds.pending_ ∧
      (s.ds.inodes_.inodes_.WF → ∀ h ∈ syncing,
        (DeferSync.runTask asyncOk syncing.length s).ds.inodes_.inodes_.find h.ino = none) := by
  induction syncing with
  | nil =>
    intro s r hth
    refine ⟨hth, by simp [DeferSync.runTask], rfl, ?_⟩
    intro _ h hh
    simp at hh
  | cons inode rest ih =>
    intro s r hth
    have hstep := DeferSync.step_flush_cons asyncOk s r inode rest hth
    simp only [List.length_cons, DeferSync.runTask]
    obtain ⟨h1, h2, h3, h4⟩ := ih (DeferSync.SyncTaskStep asyncOk s) r (by rw [hstep])
    refine ⟨h1, ?_, ?_, ?_⟩
    · rw [h2, hstep]
      simp [asyncCalls_append, asyncCalls]
    · rw [h3, hstep]
    · intro hwf h hh
      have hwf1 : (DeferSync.SyncTaskStep asyncOk s).ds.inodes_.inodes_.WF := by
        rw [hstep]
        exact DeferInodes.Remove_WF _ _ hwf
      rcases List.mem_cons.1 hh with he | hm
      · apply find_none_runTask
        rw [hstep, he]
        simp only [DeferInodes.Remove_fst]
        exact BtreeMap.find_erase_self _ _ hwf
      · exact h4 hwf1 h hm

theorem flushCycle_sleeping (asyncOk : Nat → Bool) (s : System)
    (hth : s.ds.thread_ = some TaskPc.sleeping) :
    asyncCalls (DeferSync.flushCycle asyncOk s).trace
      = asyncCalls s.trace ++ s.ds.pending_.map (fun h => (h, s.heap h.addr)) ∧
    (DeferSync.flushCycle asyncOk s).ds.pending_ = [] ∧
    (DeferSync.flushCycle asyncOk s).ds.thread_
      = some (if s.ds.sleeper_.wait_for then TaskPc.sleeping else TaskPc.exited) ∧
    (s.ds.inodes_.inodes_.WF → ∀ h ∈ s.ds.pending_,
      (DeferSync.flushCycle asyncOk s).ds.inodes_.inodes_.find h.ino = none) := by
  have e1 := DeferSync.step_sleeping asyncOk s hth
  obtain ⟨t1, ht1⟩ : ∃ t1, DeferSync.SyncTaskStep asyncOk s = t1 := ⟨_, rfl⟩
  have hth1 : t1.ds.thread_ = some (TaskPc.woken s.ds.sleeper_.wait_for) := by
    rw [← ht1, e1]
  have e2 := DeferSync.step_woken asyncOk t1 _ hth1
  obtain ⟨t2, ht2⟩ : ∃ t2, DeferSync.SyncTaskStep asyncOk t1 = t2 := ⟨_, rfl⟩
  have hp1 : t1.ds.pending_ = s.ds.pending_ := by rw [← ht1, e1]
  have hth2 : t2.ds.thread_ = some (TaskPc.flushing s.ds.sleeper_.wait_for s.ds.pending_) := by
    rw [← ht2, e2, ← hp1]
  have hp2 : t2.ds.pending_ = [] := by rw [← ht2, e2]
  have htr2 : t2.trace = s.trace := by rw [← ht2, e2, ← ht1, e1]
  have hheap2 : t2.heap = s.heap := by rw [← ht2, e2, ← ht1, e1]
  have hreg2 : t2.ds.inodes_ = s.ds.inodes_ := by rw [← ht2, e2, ← ht1, e1]
  have hcyc : DeferSync.flushCycle asyncOk s
      = DeferSync.SyncTaskStep asyncOk (DeferSync.runTask asyncOk s.ds.pending_.length t2) := by
    unfold DeferSync.flushCycle
    have : s.ds.pending_.length + 3 = (s.ds.pending_.length + 1) + 1 + 1 := by omega
    rw [this]
    simp only [DeferSync.runTask]
    rw [ht1, ht2]
    exact runTask_add asyncOk s.ds.pending_.length 1 t2
  obtain ⟨h1, h2, h3, h4⟩ := runTask_flushing asyncOk s.ds.pending_ t2 _ hth2
  obtain ⟨t3, ht3⟩ : ∃ t3, DeferSync.runTask asyncOk s.ds.pending_.length t2 = t3 := ⟨_, rfl⟩
  rw [ht3] at h1 h2 h3 h4 hcyc
  have e3 := DeferSync.step_flush_nil asyncOk t3 _ h1
  rw [hcyc, e3]
  refine ⟨?_, ?_, rfl, ?_⟩
  · simp only [h2, htr2, hheap2]
  · simp only [h3, hp2]
  · intro hwf h hh
    exact h4 (hreg2 ▸ hwf) h hh

theorem runOps_append (asyncOk : Nat → Bool) (s : System) (ops1 ops2 : List Op) :
    runOps asyncOk s (ops1 ++ ops2) = runOps asyncOk (runOps asyncOk s ops1) ops2 := by
  simp [runOps, List.foldl_append]

theorem pushRounds_append (inode : InodeWrapperPtr) (l1 l2 : List InodeAttr) :
    pushRounds inode (l1 ++ l2) = pushRounds inode l1 ++ pushRounds inode l2 := by
  induction l1 with
  | nil => rfl
  | cons a rest ih => simp [pushRounds, ih]

theorem runOps_pushRounds (asyncOk : Nat → Bool) (inode : InodeWrapperPtr)
    (states : List InodeAttr) :
    ∀ s, (runOps asyncOk s (pushRounds inode states)).ds.thread_ = s.ds.thread_ ∧
      (runOps asyncOk s (pushRounds inode states)).ds.sleeper_ = s.ds.sleeper_ ∧
      (runOps asyncOk s (pushRounds inode states)).ds.pending_
        = s.ds.pending_ ++ List.replicate states.length inode ∧
      asyncCalls (runOps asyncOk s (pushRounds inode states)).trace = asyncCalls s.trace ∧
      (∀ id, id ≠ inode.ino →
        (runOps asyncOk s (pushRounds inode states)).ds.inodes_.inodes_.find id
          = s.ds.inodes_.inodes_.find id) := by
  induction states with
  | nil => intro s; simp [pushRounds, runOps]
  | cons a rest ih =>
    intro s
    obtain ⟨h1, h2, h3, h4, h5⟩ := ih (DeferSync.Push (Mutate s inode.addr a) inode)
    have hrun : runOps asyncOk s (pushRounds inode (a :: rest))
        = runOps asyncOk (DeferSync.Push (Mutate s inode.addr a) inode) (pushRounds inode rest) := by
      simp [pushRounds, runOps, Op.exec]
    rw [hrun]
    refine ⟨h1, h2, ?_, ?_, ?_⟩
    · rw [h3]
      simp [DeferSync.Push, Mutate, List.replicate_succ]
    · rw [h4]
      simp [DeferSync.Push, Mutate, asyncCalls_append, asyncCalls]
    · intro id hid
      rw [h5 id hid]
      simp only [DeferSync.Push, Mutate]
      exact DeferInodes.find_Add_other _ _ _ hid

theorem eq_singleton_of_find (m : BtreeMap) (k : Ino) (v : InodeWrapperPtr)
    (hk : BtreeMap.find m k = some v) (ho : ∀ id, id ≠ k → BtreeMap.find m id = none)
    (hwf : m.WF) : m = [(k, v)] := by
  cases m with
  | nil => simp [BtreeMap.find] at hk
  | cons p rest =>
    obtain ⟨k1, v1⟩ := p
    have hk1 : k1 = k := by
      by_contra hc
      have := ho k1 hc
      simp [BtreeMap.find] at this
    subst hk1
    have hv : v1 = v := by simpa [BtreeMap.find] using hk
    subst hv
    cases rest with
    | nil => rfl
    | cons q rest2 =>
      obtain ⟨k2, v2⟩ := q
      have hlt : k1 < k2 := by
        have : (k1 < k2 ∧ ∀ a ∈ BtreeMap.keys rest2, k1 < a) ∧ BtreeMap.WF ((k2, v2) :: rest2) := by
          simpa [BtreeMap.WF, BtreeMap.keys] using hwf
        exact this.1.1
      have hne : k2 ≠ k1 := fun e => Nat.lt_irrefl k1 (e ▸ hlt)
      have := ho k2 hne
      simp [BtreeMap.find, hne.symm] at this

theorem flush_interleaved (asyncOk : Nat → Bool) (ops : List Op) :
    ∀ (s : System) (r : Bool) (syncing : List InodeWrapperPtr),
      s.ds.thread_ = some (TaskPc.flushing r syncing) → taskSteps ops = syncing.length →
      (runOps asyncOk s ops).ds.thread_ = some (TaskPc.flushing r []) ∧
      (runOps asyncOk s ops).ds.pending_ = s.ds.pending_ ++ pushesOf ops ∧
      (runOps asyncOk s ops).ds.sleeper_ = s.ds.sleeper_ ∧
      (asyncCalls (runOps asyncOk s ops).trace).map Prod.fst
        = (asyncCalls s.trace).map Prod.fst ++ syncing ∧
      (s.ds.inodes_.inodes_.WF → ∀ h ∈ syncing, (∀ x ∈ pushesOf ops, x.ino ≠ h.ino) →
        (runOps asyncOk s ops).ds.inodes_.inodes_.find h.ino = none) := by
  induction ops with
  | nil =>
    intro s r syncing hth hn
    have hnil : syncing = [] := by
      cases syncing with
      | nil => rfl
      | cons a l => simp [taskSteps] at hn
    subst hnil
    refine ⟨hth, by simp [runOps, pushesOf], rfl, by simp [runOps], ?_⟩
    intro _ h hh
    simp at hh
  | cons o rest ih =>
    intro s r syncing hth hn
    cases o with
    | push inode =>
      have hrun : runOps asyncOk s (Op.push inode :: rest)
          = runOps asyncOk (DeferSync.Push s inode) rest := rfl
      obtain ⟨h1, h2, h3, h4, h5⟩ := ih (DeferSync.Push s inode) r syncing hth
        (by simpa [taskSteps] using hn)
      rw [hrun]
      refine ⟨h1, ?_, h3, ?_, ?_⟩
      · rw [h2]
        simp [DeferSync.Push, pushesOf]
      · rw [h4]
        simp [DeferSync.Push, asyncCalls_append, asyncCalls]
      · intro hwf h hh hx
        exact h5 (DeferInodes.Add_WF _ _ hwf) h hh (fun x hm => hx x (by simp [pushesOf, hm]))
    | mutate addr state =>
      have hrun : runOps asyncOk s (Op.mutate addr state :: rest)
          = runOps asyncOk (Mutate s addr state) rest := rfl
      obtain ⟨h1, h2, h3, h4, h5⟩ := ih (Mutate s addr state) r syncing hth
        (by simpa [taskSteps] using hn)
      rw [hrun]
      refine ⟨h1, ?_, h3, h4, ?_⟩
      · rw [h2]
        simp [Mutate, pushesOf]
      · intro hwf h hh hx
        exact h5 hwf h hh (fun x hm => hx x (by simpa [pushesOf] using hm))
    | task =>
      cases syncing with
      | nil => simp [taskSteps] at hn
      | cons inode more =>
        have hstep := DeferSync.step_flush_cons asyncOk s r inode more hth
        have hrun : runOps asyncOk s (Op.task :: rest)
            = runOps asyncOk (DeferSync.SyncTaskStep asyncOk s) rest := rfl
        obtain ⟨h1, h2, h3, h4, h5⟩ := ih (DeferSync.SyncTaskStep asyncOk s) r more
          (by rw [hstep]) (by simpa [taskSteps] using hn)
        rw [hrun]
        refine ⟨h1, ?_, ?_, ?_, ?_⟩
        · rw [h2, hstep]
          simp [pushesOf]
        · rw [h3, hstep]
        · rw [h4, hstep]
          simp [asyncCalls_append, asyncCalls]
        · intro hwf h hh hx
          have hx1 : ∀ x ∈ pushesOf rest, x.ino ≠ h.ino :=
            fun x hm => hx x (by simpa [pushesOf] using hm)
          rcases List.mem_cons.1 hh with he | hm
          · apply find_none_runOps asyncOk h.ino rest _ _ hx1
            rw [hstep, he]
            simp only [DeferInodes.Remove_fst]
            exact BtreeMap.find_erase_self _ _ hwf
          · refine h5 ?_ h hm hx1
            rw [hstep]
            exact DeferInodes.Remove_WF _ _ hwf

theorem exit_step (asyncOk : Nat → Bool) (s : System)
    (hi : s.ds.sleeper_.interrupted = true) (hne : s.ds.thread_ ≠ none) :
    (DeferSync.SyncTaskStep asyncOk s).ds.sleeper_.interrupted = true ∧
    (DeferSync.SyncTaskStep asyncOk s).ds.thread_ ≠ none ∧
    stepsToExit (DeferSync.SyncTaskStep asyncOk s) ≤ stepsToExit s - 1 := by
  cases hth : s.ds.thread_ with
  | none => exact absurd hth hne
  | some pc =>
    cases pc with
    | exited =>
      rw [DeferSync.step_exited _ _ hth]
      exact ⟨hi, hne, by simp [stepsToExit, hth]⟩
    | sleeping =>
      rw [DeferSync.step_sleeping _ _ hth]
      exact ⟨hi, by simp, by simp [stepsToExit, hth, InterruptibleSleeper.wait_for, hi]⟩
    | woken r =>
      rw [DeferSync.step_woken _ _ _ hth]
      refine ⟨hi, by simp, ?_⟩
      cases r <;> simp [stepsToExit, hth]
    | flushing r syncing =>
      cases syncing with
      | nil =>
        rw [DeferSync.step_flush_nil _ _ _ hth]
        refine ⟨hi, by simp, ?_⟩
        cases r <;> simp [stepsToExit, hth]
      | cons inode rest =>
        rw [DeferSync.step_flush_cons _ _ _ _ _ hth]
        refine ⟨hi, by simp, ?_⟩
        cases r
        · simp [stepsToExit, hth]
        · simp [stepsToExit, hth]
          omega

theorem runTask_exits (asyncOk : Nat → Bool) (n : Nat) :
    ∀ s, s.ds.sleeper_.interrupted = true → s.ds.thread_ ≠ none → stepsToExit s ≤ n →
      (DeferSync.runTask asyncOk n s).ds.thread_ = some TaskPc.exited := by
  induction n with
  | zero =>
    intro s _ hne hn
    cases hth : s.ds.thread_ with
    | none => exact absurd hth hne
    | some pc =>
      cases pc with
      | exited => exact hth
      | sleeping => simp [stepsToExit, hth] at hn
      | woken r => cases r <;> simp [stepsToExit, hth] at hn
      | flushing r syncing => cases r <;> simp [stepsToExit, hth] at hn
  | succ n ih =>
    intro s hi hne hn
    obtain ⟨h1, h2, h3⟩ := exit_step asyncOk s hi hne
    exact ih _ h1 h2 (by omega)

theorem stepsToExit_le (s : System) :
    stepsToExit s ≤ s.ds.pending_.length + (DeferSync.batch s).length + 6 := by
  unfold stepsToExit DeferSync.batch
  cases hth : s.ds.thread_ with
  | none => simp
  | some pc =>
    cases pc with
    | exited => simp
    | sleeping => simp
    | woken r => cases r <;> simp
    | flushing r syncing => cases r <;> simp <;> omega

theorem countEv_append (e a : Ev) (tr : List Ev) :
    countEv e (tr ++ [a]) = countEv e tr + (if a = e then 1 else 0) := by
  unfold countEv
  rw [List.count_append, List.count_singleton]
  by_cases h : a = e
  · simp [h]
  · simp [h]

theorem countEv_step (asyncOk : Nat → Bool) (s : System) (e : Ev)
    (he : ∀ inode state ok, Ev.async inode state ok ≠ e) :
    countEv e (DeferSync.SyncTaskStep asyncOk s).trace = countEv e s.trace := by
  cases hth : s.ds.thread_ with
  | none => rw [DeferSync.step_none _ _ hth]
  | some pc =>
    cases pc with
    | exited => rw [DeferSync.step_exited _ _ hth]
    | sleeping => rw [DeferSync.step_sleeping _ _ hth]
    | woken r => rw [DeferSync.step_woken _ _ _ hth]
    | flushing r syncing =>
      cases syncing with
      | nil => rw [DeferSync.step_flush_nil _ _ _ hth]
      | cons inode rest =>
        rw [DeferSync.step_flush_cons _ _ _ _ _ hth]
        simp only [countEv_append, he, if_false, Nat.add_zero]

theorem countEv_runTask (asyncOk : Nat → Bool) (e : Ev)
    (he : ∀ inode state ok, Ev.async inode state ok ≠ e) (n : Nat) :
    ∀ s, countEv e (DeferSync.runTask asyncOk n s).trace = countEv e s.trace := by
  induction n with
  | zero => intro s; rfl
  | succ n ih =>
    intro s
    simp only [DeferSync.runTask]
    rw [ih, countEv_step asyncOk s e he]

theorem thread_isSome_step (asyncOk : Nat → Bool) (s : System) :
    ((DeferSync.SyncTaskStep asyncOk s).ds.thread_ = none ↔ s.ds.thread_ = none) := by
  cases hth : s.ds.thread_ with
  | none => rw [DeferSync.step_none _ _ hth]; simp [hth]
  | some pc =>
    cases pc with
    | exited => rw [DeferSync.step_exited _ _ hth]; simp [hth]
    | sleeping => rw [DeferSync.step_sleeping _ _ hth]; simp
    | woken r => rw [DeferSync.step_woken _ _ _ hth]; simp
    | flushing r syncing =>
      cases syncing with
      | nil => rw [DeferSync.step_flush_nil _ _ _ hth]; simp
      | cons inode rest => rw [DeferSync.step_flush_cons _ _ _ _ _ hth]; simp

theorem LifeInv_exec (asyncOk : Nat → Bool) (s : System) (o : Op) (hinv : LifeInv s) :
    LifeInv (o.exec asyncOk s) := by
  obtain ⟨h1, h2, h3, h4⟩ := hinv
  cases o with
  | push inode =>
    refine ⟨h1, h2, ?_, ?_⟩
    · simpa [Op.exec, DeferSync.Push, countEv_append] using h3
    · simpa [Op.exec, DeferSync.Push, countEv_append] using h4
  | mutate addr state => exact ⟨h1, h2, h3, h4⟩
  | task =>
    simp only [Op.exec]
    have hr := (step_frame asyncOk s).1
    refine ⟨?_, ?_, ?_, ?_⟩
    · intro hrun
      rw [hr] at hrun
      obtain ⟨pc, hpc⟩ := h1 hrun
      cases hn : (DeferSync.SyncTaskStep asyncOk s).ds.thread_ with
      | none =>
        rw [(thread_isSome_step asyncOk s).1 hn] at hpc
        exact Option.noConfusion hpc
      | some pc2 => exact ⟨pc2, rfl⟩
    · intro hrun
      rw [hr] at hrun
      exact (thread_isSome_step asyncOk s).2 (h2 hrun)
    · rw [hr, countEv_step _ _ _ (by simp), countEv_step _ _ _ (by simp)]
      exact h3
    · rw [countEv_step _ _ _ (by simp), countEv_step _ _ _ (by simp)]
      exact h4

theorem LifeInv_Start (s : System) (hinv : LifeInv s) :
    ∃ s2, DeferSync.Start s = some s2 ∧ LifeInv s2 := by
  obtain ⟨h1, h2, h3, h4⟩ := hinv
  cases hr : s.ds.running_ with
  | true => exact ⟨s, by simp [DeferSync.Start, hr], h1, h2, h3, h4⟩
  | false =>
    have hth := h2 hr
    refine ⟨_, by simp only [DeferSync.Start, hr, hth]; rfl, ?_, ?_, ?_, ?_⟩
    · intro _; exact ⟨_, rfl⟩
    · intro h; simp at h
    · simp only [countEv_append]
      rw [hr] at h3
      simpa using h3
    · simp only [countEv_append]
      simpa using h4

theorem LifeInv_Stop (asyncOk : Nat → Bool) (s : System) (hinv : LifeInv s) :
    ∃ s2, DeferSync.Stop asyncOk s = some s2 ∧ LifeInv s2 := by
  obtain ⟨h1, h2, h3, h4⟩ := hinv
  cases hr : s.ds.running_ with
  | false => exact ⟨s, by simp [DeferSync.Stop, hr], h1, h2, h3, h4⟩
  | true =>
    obtain ⟨pc, hpc⟩ := h1 hr
    let s1 : System :=
      { s with ds := { s.ds with running_ := false, sleeper_ := s.ds.sleeper_.interrupt },
               trace := s.trace ++ [Ev.interrupt] }
    have hstop : DeferSync.Stop asyncOk s = DeferSync.Join asyncOk s1 := by
      simp [DeferSync.Stop, hr, s1]
    have hpc1 : s1.ds.thread_ = some pc := hpc
    have hex := runTask_exits asyncOk (s1.ds.pending_.length + (DeferSync.batch s1).length + 6) s1
      rfl (by rw [hpc1]; simp) (stepsToExit_le s1)
    have hrun := (runTask_frame asyncOk
      (s1.ds.pending_.length + (DeferSync.batch s1).length + 6) s1).1
    have hc1 := countEv_runTask asyncOk Ev.launch (by simp)
      (s1.ds.pending_.length + (DeferSync.batch s1).length + 6) s1
    have hc2 := countEv_runTask asyncOk Ev.join (by simp)
      (s1.ds.pending_.length + (DeferSync.batch s1).length + 6) s1
    have hc3 := countEv_runTask asyncOk Ev.interrupt (by simp)
      (s1.ds.pending_.length + (DeferSync.batch s1).length + 6) s1
    obtain ⟨t, ht⟩ : ∃ t, DeferSync.runTask asyncOk
        (s1.ds.pending_.length + (DeferSync.batch s1).length + 6) s1 = t := ⟨_, rfl⟩
    rw [ht] at hex hrun hc1 hc2 hc3
    have hjoin : DeferSync.Join asyncOk s1 =
        some { t with ds := { t.ds with thread_ := none }, trace := t.trace ++ [Ev.join] } := by
      unfold DeferSync.Join
      rw [hpc1]
      simp only []
      rw [ht]
      simp [hex]
    have hrun1 : t.ds.running_ = false := hrun
    have e1 : countEv Ev.launch s1.trace = countEv Ev.launch s.trace := by
      simp [s1, countEv_append]
    have e2 : countEv Ev.join s1.trace = countEv Ev.join s.trace := by
      simp [s1, countEv_append]
    have e3 : countEv Ev.interrupt s1.trace = countEv Ev.interrupt s.trace + 1 := by
      simp [s1, countEv_append]
    rw [hr] at h3
    refine ⟨_, hstop.trans hjoin, ?_, ?_, ?_, ?_⟩
    · intro h
      rw [hrun1] at h
      exact Bool.noConfusion h
    · intro _; rfl
    · simp only [countEv_append, hrun1, hc1, hc2, e1, e2]
      simpa using h3
    · simp only [countEv_append, hc2, hc3, e2, e3, h4]
      simp

theorem LifeInv_runCalls (asyncOk : Nat → Bool) (calls : List Call) :
    ∀ s, LifeInv s → ∃ s2, runCalls asyncOk s calls = some s2 ∧ LifeInv s2 := by
  induction calls with
  | nil => intro s h; exact ⟨s, rfl, h⟩
  | cons c rest ih =>
    intro s h
    have hc : ∃ s1, c.exec asyncOk s = some s1 ∧ LifeInv s1 := by
      cases c with
      | start => exact LifeInv_Start s h
      | stop => exact LifeInv_Stop asyncOk s h
      | op o => exact ⟨_, rfl, LifeInv_exec asyncOk s o h⟩
    obtain ⟨s1, hs1, hl1⟩ := hc
    obtain ⟨s2, hs2, hl2⟩ := ih s1 hl1
    refine ⟨s2, ?_, hl2⟩
    simp only [runCalls, hs1]
    exact hs2

theorem trace_step (asyncOk : Nat → Bool) (s : System) :
    ∃ mid, (DeferSync.SyncTaskStep asyncOk s).trace = s.trace ++ mid ∧
      ∀ e ∈ mid, ∃ inode state ok, e = Ev.async inode state ok := by
  cases hth : s.ds.thread_ with
  | none => rw [DeferSync.step_none _ _ hth]; exact ⟨[], by simp, by simp⟩
  | some pc =>
    cases pc with
    | exited => rw [DeferSync.step_exited _ _ hth]; exact ⟨[], by simp, by simp⟩
    | sleeping => rw [DeferSync.step_sleeping _ _ hth]; exact ⟨[], by simp, by simp⟩
    | woken r => rw [DeferSync.step_woken _ _ _ hth]; exact ⟨[], by simp, by simp⟩
    | flushing r syncing =>
      cases syncing with
      | nil => rw [DeferSync.step_flush_nil _ _ _ hth]; exact ⟨[], by simp, by simp⟩
      | cons inode rest =>
        rw [DeferSync.step_flush_cons _ _ _ _ _ hth]
        refine ⟨[Ev.async inode (s.heap inode.addr) (asyncOk s.trace.length)], rfl, ?_⟩
        intro e he
        rw [List.mem_singleton] at he
        exact ⟨_, _, _, he⟩

theorem trace_runTask (asyncOk : Nat → Bool) (n : Nat) :
    ∀ s, ∃ mid, (DeferSync.runTask asyncOk n s).trace = s.trace ++ mid ∧
      ∀ e ∈ mid, ∃ inode state ok, e = Ev.async inode state ok := by
  induction n with
  | zero => intro s; exact ⟨[], by simp [DeferSync.runTask], by simp⟩
  | succ n ih =>
    intro s
    obtain ⟨m1, h1, g1⟩ := trace_step asyncOk s
    obtain ⟨m2, h2, g2⟩ := ih (DeferSync.SyncTaskStep asyncOk s)
    refine ⟨m1 ++ m2, ?_, ?_⟩
    · simp only [DeferSync.runTask]
      rw [h2, h1, List.append_assoc]
    · intro e he
      rcases List.mem_append.mp he with h | h
      · exact g1 e h
      · exact g2 e h

theorem Stop_running (asyncOk : Nat → Bool) (s : System) (hinv : LifeInv s)
    (hr : s.ds.running_ = true) :
    ∃ s2 mid, DeferSync.Stop asyncOk s = some s2 ∧ s2.ds.running_ = false ∧
      s2.ds.thread_ = none ∧ s2.ds.sleeper_.interrupted = true ∧
      s2.trace = s.trace ++ [Ev.interrupt] ++ mid ++ [Ev.join] ∧
      ∀ e ∈ mid, ∃ inode state ok, e = Ev.async inode state ok := by
  obtain ⟨h1, _, _, _⟩ := hinv
  obtain ⟨pc, hpc⟩ := h1 hr
  let s1 : System :=
    { s with ds := { s.ds with running_ := false, sleeper_ := s.ds.sleeper_.interrupt },
             trace := s.trace ++ [Ev.interrupt] }
  have hstop : DeferSync.Stop asyncOk s = DeferSync.Join asyncOk s1 := by
    simp [DeferSync.Stop, hr, s1]
  have hpc1 : s1.ds.thread_ = some pc := hpc
  have hex := runTask_exits asyncOk (s1.ds.pending_.length + (DeferSync.batch s1).length + 6) s1
    rfl (by rw [hpc1]; simp) (stepsToExit_le s1)
  obtain ⟨hrun, hsl, _⟩ := runTask_frame asyncOk
    (s1.ds.pending_.length + (DeferSync.batch s1).length + 6) s1
  obtain ⟨mid, hmid, gmid⟩ := trace_runTask asyncOk
    (s1.ds.pending_.length + (DeferSync.batch s1).length + 6) s1
  obtain ⟨t, ht⟩ : ∃ t, DeferSync.runTask asyncOk
      (s1.ds.pending_.length + (DeferSync.batch s1).length + 6) s1 = t := ⟨_, rfl⟩
  rw [ht] at hex hrun hsl hmid
  have hjoin : DeferSync.Join asyncOk s1 =
      some { t with ds := { t.ds with thread_ := none }, trace := t.trace ++ [Ev.join] } := by
    unfold DeferSync.Join
    rw [hpc1]
    simp only []
    rw [ht]
    simp [hex]
  refine ⟨_, mid, hstop.trans hjoin, hrun, rfl, ?_, ?_, gmid⟩
  · show t.ds.sleeper_.interrupted = true
    rw [hsl]
    rfl
  · show t.trace ++ [Ev.join] = s.trace ++ [Ev.interrupt] ++ mid ++ [Ev.join]
    rw [hmid]

theorem Start_stopped (s : System) (hinv : LifeInv s) (hr : s.ds.running_ = false) :
    DeferSync.Start s =
      some { s with ds := { s.ds with running_ := true, thread_ := some TaskPc.sleeping },
                    trace := s.trace ++ [Ev.launch] } := by
  obtain ⟨_, h2, _, _⟩ := hinv
  simp only [DeferSync.Start, hr, h2 hr]
  rfl

theorem exec_frame (asyncOk : Nat → Bool) (s : System) (o : Op) :
    (o.exec asyncOk s).ds.running_ = s.ds.running_ ∧
    (o.exec asyncOk s).ds.sleeper_ = s.ds.sleeper_ ∧
    ((o.exec asyncOk s).ds.thread_ = none ↔ s.ds.thread_ = none) := by
  cases o with
  | push inode => exact ⟨rfl, rfl, Iff.rfl⟩
  | mutate addr state => exact ⟨rfl, rfl, Iff.rfl⟩
  | task =>
    exact ⟨(step_frame asyncOk s).1, (step_frame asyncOk s).2.1, thread_isSome_step asyncOk s⟩

theorem FreshInv_init (heap : Nat → InodeAttr) : FreshInv (System.init heap) := by
  intro _
  refine ⟨⟨by simp [System.init, DeferSync.new, BtreeMap.WF, BtreeMap.keys], ?_⟩, ?_, ?_, ?_⟩
  · intro id hid
    exact absurd rfl hid
  · intro i inode hi
    have h1 : (System.init heap).trace = [] := rfl
    rw [h1] at hi
    simp at hi
  · intro h
    exact Bool.noConfusion h
  · intro _
    rfl

theorem FreshInv_op (asyncOk : Nat → Bool) (s : System) (o : Op) (hinv : FreshInv s) :
    FreshInv (o.exec asyncOk s) := by
  obtain ⟨hr, hs, ht⟩ := exec_frame asyncOk s o
  intro hfresh
  rw [hs] at hfresh
  obtain ⟨h1, h2, h3, h4⟩ := hinv hfresh
  refine ⟨RegInv_exec asyncOk s o h1, TraceInv_exec asyncOk s o h2, ?_, ?_⟩
  · intro h
    rw [hr] at h
    exact RunInv_exec asyncOk s o (h3 h)
  · intro h
    rw [hr] at h
    exact ht.mpr (h4 h)

theorem FreshInv_Start (s s1 : System) (h : DeferSync.Start s = some s1) (hinv : FreshInv s) :
    FreshInv s1 := by
  cases hr : s.ds.running_ with
  | true =>
    simp only [DeferSync.Start, hr, Bool.not_true, Bool.false_eq_true, if_false,
      Option.some.injEq] at h
    rw [← h]
    exact hinv
  | false =>
    cases hth : s.ds.thread_ with
    | some pc => simp [DeferSync.Start, hr, hth] at h
    | none =>
      simp only [DeferSync.Start, hr, hth, Bool.not_false, if_true, Option.some.injEq] at h
      rw [← h]
      intro hfresh
      obtain ⟨⟨hwf, hreg⟩, h2, _, _⟩ := hinv hfresh
      have hb : DeferSync.batch s = [] := by simp [DeferSync.batch, hth]
      refine ⟨⟨hwf, ?_⟩, ?_, ?_, ?_⟩
      · intro id hid
        obtain ⟨x, hx, hxi⟩ := hreg id hid
        rw [hb] at hx
        exact ⟨x, Or.inl (hx.resolve_right (by simp)), hxi⟩
      · refine TraceOK_append_other s.trace _ _ Ev.launch (by simp) h2 ?_
        intro x hx
        rw [hb] at hx
        exact Or.inl (hx.resolve_right (by simp))
      · intro _
        exact ⟨rfl, hfresh, Or.inl rfl⟩
      · intro hc
        exact Bool.noConfusion hc

theorem Stop_interrupted (asyncOk : Nat → Bool) (s s1 : System)
    (h : DeferSync.Stop asyncOk s = some s1) (hr : s.ds.running_ = true) :
    s1.ds.sleeper_.interrupted = true := by
  simp only [DeferSync.Stop, hr, if_true] at h
  unfold DeferSync.Join at h
  split at h
  · exact Option.noConfusion h
  · simp only [] at h
    split_ifs at h
    simp only [Option.some.injEq] at h
    rw [← h]
    show (DeferSync.runTask asyncOk _ _).ds.sleeper_.interrupted = true
    rw [(runTask_frame asyncOk _ _).2.1]
    rfl

theorem FreshInv_Stop (asyncOk : Nat → Bool) (s s1 : System)
    (h : DeferSync.Stop asyncOk s = some s1) (hinv : FreshInv s) : FreshInv s1 := by
  cases hr : s.ds.running_ with
  | false =>
    simp only [DeferSync.Stop, hr, Bool.false_eq_true, if_false, Option.some.injEq] at h
    rw [← h]
    exact hinv
  | true =>
    intro hfresh
    rw [Stop_interrupted asyncOk s s1 h hr] at hfresh
    exact Bool.noConfusion hfresh

theorem FreshInv_runCalls (asyncOk : Nat → Bool) (calls : List Call) :
    ∀ s s0, runCalls asyncOk s calls = some s0 → FreshInv s → FreshInv s0 := by
  induction calls with
  | nil =>
    intro s s0 h hinv
    simp only [runCalls, Option.some.injEq] at h
    rw [← h]
    exact hinv
  | cons c rest ih =>
    intro s s0 h hinv
    simp only [runCalls] at h
    cases hc : c.exec asyncOk s with
    | none => rw [hc] at h; exact Option.noConfusion h
    | some s1 =>
      rw [hc] at h
      refine ih s1 s0 h ?_
      cases c with
      | start => exact FreshInv_Start s s1 hc hinv
      | stop => exact FreshInv_Stop asyncOk s s1 hc hinv
      | op o =>
        simp only [Call.exec, Option.some.injEq] at hc
        rw [← hc]
        exact FreshInv_op asyncOk s o hinv

/-! ## Properties of the deferred synchronisation -/

/-- C2 fails as stated: a `DeferSync` that was started, stopped and started again is
a started one, yet its task leaves the loop in its first round, the sleeper being
interrupted since the first `Stop()`.  A push after that round is in the pending queue
and the registry when the following `Stop()` returns, and no `Async` call was made. -/
theorem DeferSync.restart_push_counterexample :
    (runCalls (fun _ => true) (System.init sampleHeap)
      [Call.start, Call.stop, Call.start, Call.op Op.task, Call.op Op.task,
        Call.op Op.task]).map (fun t => (t.ds.running_, t.ds.thread_))
      = some (true, some TaskPc.exited) ∧
    (runCalls (fun _ => true) (System.init sampleHeap)
      [Call.start, Call.stop, Call.start, Call.op Op.task, Call.op Op.task,
        Call.op Op.task, Call.op (Op.push sampleInode), Call.stop]).map
        (fun t => (t.ds.pending_, (DeferSync.IsDefered t 7 none).1, asyncCalls t.trace,
          t.trace))
      = some ([sampleInode], true, [],
          [Ev.launch, Ev.interrupt, Ev.join, Ev.launch, Ev.push sampleInode,
            Ev.interrupt, Ev.join]) := by
  decide

/-- C2 as amended (at-least-once before stop, for a sleeper not yet interrupted): let
a `DeferSync` be reached from its construction by any calls of `Start()`, `Stop()`,
pushes, foreground mutations and task steps, let it be running and let no `Stop()` have
interrupted its sleeper.  After any further interleaving of pushes, foreground mutations
and steps of the background task, `Stop()` returns; on return the pending queue and the
registry are empty (`IsDefered` is false for every id), the thread is joined, every push
of the interleaving is recorded after the earlier ones, and every recorded push is
followed by a call of `Async` on the pushed handle. -/
theorem DeferSync.stop_flushes_every_push (asyncOk : Nat → Bool) (heap : Nat → InodeAttr)
    (calls : List Call) (s0 : System) (ops : List Op)
    (hcalls : runCalls asyncOk (System.init heap) calls = some s0)
    (hrun : s0.ds.running_ = true)
    (hfresh : s0.ds.sleeper_.interrupted = false) :
    ∃ s, DeferSync.Stop asyncOk (runOps asyncOk s0 ops) = some s ∧
      s.ds.pending_ = [] ∧ s.ds.inodes_.inodes_ = [] ∧ s.ds.thread_ = none ∧
      (∀ ino out, DeferSync.IsDefered s ino out = (false, out)) ∧
      pushCalls s.trace = pushCalls s0.trace ++ pushesOf ops ∧
      (∀ (i : Nat) (inode : InodeWrapperPtr), s.trace[i]? = some (Ev.push inode) →
        ∃ (j : Nat) (state : InodeAttr) (ok : Bool),
          i < j ∧ s.trace[j]? = some (Ev.async inode state ok)) := by
  obtain ⟨h1, h2, h3, _⟩ :=
    FreshInv_runCalls asyncOk calls _ _ hcalls (FreshInv_init heap) hfresh
  obtain ⟨s, hs, hp, hreg, hth, _, htr, hpc⟩ :=
    Stop_of_RunInv asyncOk (runOps asyncOk s0 ops)
      (RunInv_runOps asyncOk ops _ (h3 hrun))
      (RegInv_runOps asyncOk ops _ h1)
      (TraceInv_runOps asyncOk ops _ h2)
  refine ⟨s, hs, hp, hreg, hth, ?_, ?_, ?_⟩
  · intro ino out
    simp [DeferSync.IsDefered, DeferInodes.Get, hreg, BtreeMap.find]
  · rw [hpc, pushCalls_runOps]
  · intro i inode hi
    rcases htr i inode hi with h | h
    · exact h
    · exact False.elim h

/-- C2 as amended, on a `DeferSync` that was stopped before its start and started
twice, which is the state right after the first start: two pushes of the sample handle
around a task step, then `Stop()`. -/
theorem DeferSync.stop_flushes_every_push_witness :
    runCalls (fun _ => true) (System.init sampleHeap) [Call.stop, Call.start, Call.start]
      = some (DeferSync.started sampleHeap) ∧
    (DeferSync.started sampleHeap).ds.running_ = true ∧
    (DeferSync.started sampleHeap).ds.sleeper_.interrupted = false ∧
    ∃ s, DeferSync.Stop (fun _ => true) (runOps (fun _ => true) (DeferSync.started sampleHeap)
        [Op.push sampleInode, Op.task, Op.push sampleInode]) = some s ∧
      s.ds.pending_ = [] ∧ s.ds.inodes_.inodes_ = [] ∧ s.ds.thread_ = none ∧
      (∀ ino out, DeferSync.IsDefered s ino out = (false, out)) ∧
      pushCalls s.trace = pushCalls (DeferSync.started sampleHeap).trace ++
        pushesOf [Op.push sampleInode, Op.task, Op.push sampleInode] ∧
      (∀ (i : Nat) (inode : InodeWrapperPtr), s.trace[i]? = some (Ev.push inode) →
        ∃ (j : Nat) (state : InodeAttr) (ok : Bool),
          i < j ∧ s.trace[j]? = some (Ev.async inode state ok)) :=
  ⟨rfl, rfl, rfl,
    DeferSync.stop_flushes_every_push (fun _ => true) sampleHeap
      [Call.stop, Call.start, Call.start] (DeferSync.started sampleHeap)
      [Op.push sampleInode, Op.task, Op.push sampleInode] rfl rfl rfl⟩

/-- C1 as amended (one call per queue entry, on the latest state): when a foreground
thread pushes the same handle `states.length + 1` times, changing the object's state
before each push, the registry holds exactly one entry for the inode; one flush cycle
then calls `Async` exactly `states.length + 1` times for it, each time with the last
state, empties the pending queue and unregisters the inode. -/
theorem DeferSync.pushes_flush_once_per_entry (asyncOk : Nat → Bool) (heap : Nat → InodeAttr)
    (inode : InodeWrapperPtr) (states : List InodeAttr) (last : InodeAttr) :
    (runOps asyncOk (DeferSync.started heap)
      (pushRounds inode (states ++ [last]))).ds.inodes_.inodes_ = [(inode.ino, inode)] ∧
    asyncCalls (DeferSync.flushCycle asyncOk (runOps asyncOk (DeferSync.started heap)
      (pushRounds inode (states ++ [last])))).trace
      = List.replicate (states.length + 1) (inode, last) ∧
    (DeferSync.flushCycle asyncOk (runOps asyncOk (DeferSync.started heap)
      (pushRounds inode (states ++ [last])))).ds.pending_ = [] ∧
    (∀ out, DeferSync.IsDefered (DeferSync.flushCycle asyncOk (runOps asyncOk
      (DeferSync.started heap) (pushRounds inode (states ++ [last])))) inode.ino out
      = (false, out)) := by
  obtain ⟨sA, hsA⟩ : ∃ sA, runOps asyncOk (DeferSync.started heap) (pushRounds inode states) = sA :=
    ⟨_, rfl⟩
  obtain ⟨a1, a2, a3, a4, a5⟩ := runOps_pushRounds asyncOk inode states (DeferSync.started heap)
  rw [hsA] at a1 a2 a3 a4 a5
  have hrun : runOps asyncOk (DeferSync.started heap) (pushRounds inode (states ++ [last]))
      = DeferSync.Push (Mutate sA inode.addr last) inode := by
    rw [pushRounds_append, runOps_append, hsA]
    rfl
  have hreg : RegInv (runOps asyncOk (DeferSync.started heap)
      (pushRounds inode (states ++ [last]))) := RegInv_runOps asyncOk _ _ (started_RegInv heap)
  rw [hrun] at hreg ⊢
  obtain ⟨sB, hsB⟩ : ∃ sB, DeferSync.Push (Mutate sA inode.addr last) inode = sB := ⟨_, rfl⟩
  have b1 : sB.ds.thread_ = some TaskPc.sleeping := by
    rw [← hsB]
    exact a1
  have b3 : sB.ds.pending_ = List.replicate (states.length + 1) inode := by
    rw [← hsB]
    simp only [DeferSync.Push, Mutate, a3]
    have : (DeferSync.started heap).ds.pending_ = [] := rfl
    rw [this, List.replicate_succ']
    rfl
  have b4 : asyncCalls sB.trace = [] := by
    rw [← hsB]
    simp only [DeferSync.Push, Mutate, asyncCalls_append, a4]
    rfl
  have b5 : sB.heap inode.addr = last := by
    rw [← hsB]
    simp [DeferSync.Push, Mutate]
  have b6 : sB.ds.inodes_.inodes_.find inode.ino = some inode := by
    rw [← hsB]
    exact DeferInodes.find_Add_self _ _
  have b7 : ∀ id, id ≠ inode.ino → sB.ds.inodes_.inodes_.find id = none := by
    intro id hid
    rw [← hsB]
    simp only [DeferSync.Push, Mutate]
    rw [DeferInodes.find_Add_other _ _ _ hid, a5 id hid]
    rfl
  rw [hsB] at hreg ⊢
  obtain ⟨c1, c2, _, c4⟩ := flushCycle_sleeping asyncOk sB b1
  refine ⟨eq_singleton_of_find _ _ _ b6 b7 hreg.1, ?_, c2, ?_⟩
  · rw [c1, b4, b3]
    simp [b5]
  · intro out
    have := c4 hreg.1 inode (by rw [b3]; simp)
    simp [DeferSync.IsDefered, DeferInodes.Get, this]

/-- C3 as amended (the result of the synchronisation is not observed): the flush of a
batch member calls `Async` on it and then removes its inode id from the registry,
whether the synchronisation started by that call succeeds or fails; afterwards
`IsDefered` of the id is false, and the handle is put back nowhere: the pending queue
is unchanged and the task goes on with the rest of the batch. -/
theorem DeferSync.flush_unregisters_whatever_the_result (asyncOk : Nat → Bool) (s : System)
    (r : Bool) (inode : InodeWrapperPtr) (rest : List InodeWrapperPtr)
    (hth : s.ds.thread_ = some (TaskPc.flushing r (inode :: rest)))
    (hwf : s.ds.inodes_.inodes_.WF) :
    (DeferSync.SyncTaskStep asyncOk s).trace
      = s.trace ++ [Ev.async inode (s.heap inode.addr) (asyncOk s.trace.length)] ∧
    (∀ out, DeferSync.IsDefered (DeferSync.SyncTaskStep asyncOk s) inode.ino out = (false, out)) ∧
    (DeferSync.SyncTaskStep asyncOk s).ds.pending_ = s.ds.pending_ ∧
    (DeferSync.SyncTaskStep asyncOk s).ds.thread_ = some (TaskPc.flushing r rest) := by
  rw [DeferSync.step_flush_cons asyncOk s r inode rest hth]
  refine ⟨rfl, ?_, rfl, rfl⟩
  intro out
  have : ((s.ds.inodes_.Remove inode.ino).1).inodes_.find inode.ino = none := by
    rw [DeferInodes.Remove_fst]
    exact BtreeMap.find_erase_self _ _ hwf
  simp [DeferSync.IsDefered, DeferInodes.Get, this]

/-- C3 as amended, at a concrete state: inode 7 registered and first in the batch, the
synchronisation failing. -/
theorem DeferSync.flush_unregisters_whatever_the_result_witness :
    (DeferSync.SyncTaskStep (fun _ => false)
      { ds := { running_ := true, thread_ := some (TaskPc.flushing true [sampleInode]),
                sleeper_ := { interrupted := false },
                inodes_ := { inodes_ := [(7, sampleInode)] }, pending_ := [] },
        heap := sampleHeap, trace := [Ev.launch, Ev.push sampleInode] }).trace
      = [Ev.launch, Ev.push sampleInode, Ev.async sampleInode sampleAttr false] ∧
    DeferSync.IsDefered (DeferSync.SyncTaskStep (fun _ => false)
      { ds := { running_ := true, thread_ := some (TaskPc.flushing true [sampleInode]),
                sleeper_ := { interrupted := false },
                inodes_ := { inodes_ := [(7, sampleInode)] }, pending_ := [] },
        heap := sampleHeap, trace := [Ev.launch, Ev.push sampleInode] }) 7 none
      = (false, none) := by
  have h := DeferSync.flush_unregisters_whatever_the_result (fun _ => false)
    { ds := { running_ := true, thread_ := some (TaskPc.flushing true [sampleInode]),
              sleeper_ := { interrupted := false },
              inodes_ := { inodes_ := [(7, sampleInode)] }, pending_ := [] },
      heap := sampleHeap, trace := [Ev.launch, Ev.push sampleInode] }
    true sampleInode [] rfl (by decide)
  exact ⟨h.1, h.2.1 none⟩

/-- C4 as amended (registered ids are outstanding): in every state reached from a
started `DeferSync` by an interleaving of pushes, foreground mutations and steps of
the background task, an inode id that is registered belongs to a handle that is in
the pending queue or is a member of the batch not synchronised yet. -/
theorem DeferSync.registered_ids_are_outstanding (asyncOk : Nat → Bool)
    (heap : Nat → InodeAttr) (ops : List Op) (id : Ino)
    (hreg : (DeferSync.IsDefered (runOps asyncOk (DeferSync.started heap) ops) id none).1 = true) :
    ∃ h, (h ∈ (runOps asyncOk (DeferSync.started heap) ops).ds.pending_ ∨
        h ∈ DeferSync.batch (runOps asyncOk (DeferSync.started heap) ops)) ∧
      h.GetInodeId = id := by
  have hinv := RegInv_runOps asyncOk ops _ (started_RegInv heap)
  apply hinv.2 id
  intro hc
  simp [DeferSync.IsDefered, DeferInodes.Get, hc] at hreg

/-- C4 as amended, at a concrete interleaving: push, wake-up, swap; inode 7 is
registered and its handle is in the batch. -/
theorem DeferSync.registered_ids_are_outstanding_witness :
    ∃ h, (h ∈ (runOps (fun _ => true) (DeferSync.started sampleHeap)
          [Op.push sampleInode, Op.task, Op.task]).ds.pending_ ∨
        h ∈ DeferSync.batch (runOps (fun _ => true) (DeferSync.started sampleHeap)
          [Op.push sampleInode, Op.task, Op.task])) ∧
      h.GetInodeId = 7 :=
  DeferSync.registered_ids_are_outstanding (fun _ => true) sampleHeap
    [Op.push sampleInode, Op.task, Op.task] 7 (by decide)

/-- C5 fails as stated for the last cycle of the task: in the sample state the task
swaps with `running` false; a handle for inode 9 pushed after the swap is in the new
pending queue, but the task leaves its loop after this cycle, so however long it is
run the handle stays queued and registered and no `Async` call is made for it. -/
theorem DeferSync.flush_cycle_last_counterexample :
    (DeferSync.runTask (fun _ => true) 10 (runOps (fun _ => true) sampleStopping
      [Op.task, Op.push ⟨300, 9⟩, Op.task, Op.task])).ds.thread_ = some TaskPc.exited ∧
    (DeferSync.runTask (fun _ => true) 10 (runOps (fun _ => true) sampleStopping
      [Op.task, Op.push ⟨300, 9⟩, Op.task, Op.task])).ds.pending_ = [⟨300, 9⟩] ∧
    (asyncCalls (DeferSync.runTask (fun _ => true) 10 (runOps (fun _ => true) sampleStopping
      [Op.task, Op.push ⟨300, 9⟩, Op.task, Op.task])).trace).map Prod.fst = [sampleInode] ∧
    DeferSync.IsDefered (DeferSync.runTask (fun _ => true) 10 (runOps (fun _ => true)
      sampleStopping [Op.task, Op.push ⟨300, 9⟩, Op.task, Op.task])) 9 none
      = (true, some ⟨300, 9⟩) := by
  decide

/-- C5 as amended (one flush cycle; the next one only when the task goes on): when the
task is about to swap, the swap moves the whole pending queue, in push order, into the
batch and leaves the queue empty.  Whatever pushes and foreground mutations are
interleaved with the flushes of that batch, the cycle calls `Async` once for each
taken handle, in order, and for no other; a taken handle's inode id is unregistered
unless it was pushed again meanwhile; the handles pushed after the swap are exactly
the new pending queue, and when the task goes on (`running` true) its next swap takes
exactly them and leaves the queue empty. -/
theorem DeferSync.flush_cycle_takes_pending (asyncOk : Nat → Bool) (s : System) (r : Bool)
    (ops : List Op) (hth : s.ds.thread_ = some (TaskPc.woken r))
    (hwf : s.ds.inodes_.inodes_.WF) (hsteps : taskSteps ops = s.ds.pending_.length) :
    (DeferSync.SyncTaskStep asyncOk s).ds.thread_ = some (TaskPc.flushing r s.ds.pending_) ∧
    (DeferSync.SyncTaskStep asyncOk s).ds.pending_ = [] ∧
    (asyncCalls (runOps asyncOk (DeferSync.SyncTaskStep asyncOk s) ops).trace).map Prod.fst
      = (asyncCalls s.trace).map Prod.fst ++ s.ds.pending_ ∧
    (runOps asyncOk (DeferSync.SyncTaskStep asyncOk s) ops).ds.thread_
      = some (TaskPc.flushing r []) ∧
    (runOps asyncOk (DeferSync.SyncTaskStep asyncOk s) ops).ds.pending_ = pushesOf ops ∧
    (∀ h ∈ s.ds.pending_, (∀ x ∈ pushesOf ops, x.ino ≠ h.ino) →
      ∀ out, DeferSync.IsDefered (runOps asyncOk (DeferSync.SyncTaskStep asyncOk s) ops)
        h.ino out = (false, out)) ∧
    (r = true →
      (DeferSync.runTask asyncOk 3 (runOps asyncOk (DeferSync.SyncTaskStep asyncOk s) ops)).ds.thread_
        = some (TaskPc.flushing s.ds.sleeper_.wait_for (pushesOf ops)) ∧
      (DeferSync.runTask asyncOk 3 (runOps asyncOk (DeferSync.SyncTaskStep asyncOk s) ops)).ds.pending_
        = []) := by
  have hstep := DeferSync.step_woken asyncOk s r hth
  obtain ⟨t1, ht1⟩ : ∃ t1, DeferSync.SyncTaskStep asyncOk s = t1 := ⟨_, rfl⟩
  have g1 : t1.ds.thread_ = some (TaskPc.flushing r s.ds.pending_) := by rw [← ht1, hstep]
  have g2 : t1.ds.pending_ = [] := by rw [← ht1, hstep]
  have g3 : t1.trace = s.trace := by rw [← ht1, hstep]
  have g4 : t1.ds.inodes_ = s.ds.inodes_ := by rw [← ht1, hstep]
  have g5 : t1.ds.sleeper_ = s.ds.sleeper_ := by rw [← ht1, hstep]
  obtain ⟨h1, h2, h3, h4, h5⟩ := flush_interleaved asyncOk ops t1 r s.ds.pending_ g1 hsteps
  rw [ht1]
  rw [g2, List.nil_append] at h2
  rw [g3] at h4
  rw [g5] at h3
  refine ⟨g1, g2, h4, h1, h2, ?_, ?_⟩
  · intro h hh hx out
    have := h5 (g4 ▸ hwf) h hh hx
    simp [DeferSync.IsDefered, DeferInodes.Get, this]
  · intro hr
    subst hr
    obtain ⟨t2, ht2⟩ : ∃ t2, runOps asyncOk t1 ops = t2 := ⟨_, rfl⟩
    rw [ht2] at h1 h2 h3 ⊢
    have e1 := DeferSync.step_flush_nil asyncOk t2 true h1
    obtain ⟨t3, ht3⟩ : ∃ t3, DeferSync.SyncTaskStep asyncOk t2 = t3 := ⟨_, rfl⟩
    have k1 : t3.ds.thread_ = some TaskPc.sleeping := by rw [← ht3, e1]; rfl
    have k2 : t3.ds.pending_ = pushesOf ops := by rw [← ht3, e1]; exact h2
    have k3 : t3.ds.sleeper_ = s.ds.sleeper_ := by rw [← ht3, e1]; exact h3
    have e2 := DeferSync.step_sleeping asyncOk t3 k1
    obtain ⟨t4, ht4⟩ : ∃ t4, DeferSync.SyncTaskStep asyncOk t3 = t4 := ⟨_, rfl⟩
    have m1 : t4.ds.thread_ = some (TaskPc.woken s.ds.sleeper_.wait_for) := by
      rw [← ht4, e2, ← k3]
    have m2 : t4.ds.pending_ = pushesOf ops := by rw [← ht4, e2]; exact k2
    have e3 := DeferSync.step_woken asyncOk t4 _ m1
    have hrun : DeferSync.runTask asyncOk 3 t2 = DeferSync.SyncTaskStep asyncOk t4 := by
      simp only [DeferSync.runTask]
      rw [ht3, ht4]
    rw [hrun, e3]
    exact ⟨by simp only [m2], rfl⟩

/-- C5 as amended, at a concrete interleaving: two handles pending at the swap, a third
pushed between their flushes. -/
theorem DeferSync.flush_cycle_takes_pending_witness :
    (asyncCalls (runOps (fun _ => true) (DeferSync.SyncTaskStep (fun _ => true)
      { ds := { running_ := true, thread_ := some (TaskPc.woken true),
                sleeper_ := { interrupted := false },
                inodes_ := { inodes_ := [(7, sampleInode), (9, ⟨300, 9⟩)] },
                pending_ := [sampleInode, ⟨300, 9⟩] },
        heap := sampleHeap, trace := [] })
      [Op.task, Op.push ⟨400, 11⟩, Op.task]).trace).map Prod.fst
      = [sampleInode, ⟨300, 9⟩] ∧
    (runOps (fun _ => true) (DeferSync.SyncTaskStep (fun _ => true)
      { ds := { running_ := true, thread_ := some (TaskPc.woken true),
                sleeper_ := { interrupted := false },
                inodes_ := { inodes_ := [(7, sampleInode), (9, ⟨300, 9⟩)] },
                pending_ := [sampleInode, ⟨300, 9⟩] },
        heap := sampleHeap, trace := [] })
      [Op.task, Op.push ⟨400, 11⟩, Op.task]).ds.pending_ = [⟨400, 11⟩] := by
  have h := DeferSync.flush_cycle_takes_pending (fun _ => true)
    { ds := { running_ := true, thread_ := some (TaskPc.woken true),
              sleeper_ := { interrupted := false },
              inodes_ := { inodes_ := [(7, sampleInode), (9, ⟨300, 9⟩)] },
              pending_ := [sampleInode, ⟨300, 9⟩] },
      heap := sampleHeap, trace := [] }
    true [Op.task, Op.push ⟨400, 11⟩, Op.task] rfl (by decide) rfl
  exact ⟨h.2.2.1, h.2.2.2.2.1⟩

/-- C9 (idempotent lifecycle): every sequence of `Start()`, `Stop()` and steps in
between, from a fresh `DeferSync`, runs without a failing call (no thread is assigned
over a joinable one, every join is of a joinable thread and returns).  In the state
reached, a thread object is joinable exactly when the running flag is set, the
launches are the joins plus the one live task if the flag is set (so at most one task
is live and each is joined once), every interrupt was followed by its join, `Start()`
when the flag is set changes nothing and `Stop()` when it is clear changes nothing.
`Start()` when the flag is clear sets it and launches one task, asleep at first, and
changes nothing else.  `Stop()` when the flag is set returns with the flag clear, the
sleeper interrupted and the thread joined, hence no longer joinable; what it adds to
the trace is one interrupt, then only `Async` calls of the task on its way out, then
one join.  Started twice and then stopped twice, a fresh `DeferSync` has launched,
interrupted and joined exactly once. -/
theorem DeferSync.start_stop_idempotent (asyncOk : Nat → Bool) (heap : Nat → InodeAttr)
    (calls : List Call) :
    ∃ s, runCalls asyncOk (System.init heap) calls = some s ∧
      (s.ds.thread_.isSome = s.ds.running_) ∧
      countEv Ev.launch s.trace = countEv Ev.join s.trace + (if s.ds.running_ then 1 else 0) ∧
      countEv Ev.interrupt s.trace = countEv Ev.join s.trace ∧
      (s.ds.running_ = true → DeferSync.Start s = some s) ∧
      (s.ds.running_ = false → DeferSync.Stop asyncOk s = some s) ∧
      (s.ds.running_ = false →
        DeferSync.Start s =
          some { s with ds := { s.ds with running_ := true, thread_ := some TaskPc.sleeping },
                        trace := s.trace ++ [Ev.launch] }) ∧
      (s.ds.running_ = true →
        ∃ s2 mid, DeferSync.Stop asyncOk s = some s2 ∧ s2.ds.running_ = false ∧
          s2.ds.thread_ = none ∧ s2.ds.sleeper_.interrupted = true ∧
          s2.trace = s.trace ++ [Ev.interrupt] ++ mid ++ [Ev.join] ∧
          ∀ e ∈ mid, ∃ inode state ok, e = Ev.async inode state ok) ∧
      (runCalls asyncOk (System.init heap)
          [Call.start, Call.start, Call.stop, Call.stop]).map (fun t => (t.ds, t.trace))
        = some ({ running_ := false, thread_ := none, sleeper_ := { interrupted := true },
                  inodes_ := { inodes_ := [] }, pending_ := [] },
                [Ev.launch, Ev.interrupt, Ev.join]) := by
  have h0 : LifeInv (System.init heap) := by
    refine ⟨?_, ?_, ?_, ?_⟩
    · intro h; exact Bool.noConfusion h
    · intro _; rfl
    · rfl
    · rfl
  obtain ⟨s, hs, hinv⟩ := LifeInv_runCalls asyncOk calls _ h0
  have hinv2 := hinv
  obtain ⟨h1, h2, h3, h4⟩ := hinv2
  refine ⟨s, hs, ?_, h3, h4, ?_, ?_, ?_, ?_, rfl⟩
  · cases hr : s.ds.running_ with
    | true =>
      obtain ⟨pc, hpc⟩ := h1 hr
      simp [hpc]
    | false => simp [h2 hr]
  · intro hr
    simp [DeferSync.Start, hr]
  · intro hr
    simp [DeferSync.Stop, hr]
  · intro hr
    exact Start_stopped s hinv hr
  · intro hr
    exact Stop_running asyncOk s hinv hr

/-! ## Lemmas on the path walk -/

theorem LookupBody_last_link (env : Env)
    (recur : VFS → String → Bool → Entry → Option LookupResult)
    (names : List String) (i : Nat) (name : String) (parent : Ino) (entry : Entry) (vfs : VFS)
    (r1 : CURVEFS_ERROR × Ino × VFS) (r2 : CURVEFS_ERROR × InodeAttr × VFS)
    (hperm : parent ≠ ROOT_INO →
      env.permission_.Check entry.attr WANT_EXEC = CURVEFS_ERROR.OK)
    (h1 : r1 = VFS.DoLookup env
      (if parent ≠ ROOT_INO then vfs.record (VfsEv.permCheck entry.attr WANT_EXEC) else vfs)
      parent name entry.ino)
    (h2 : r2 = VFS.DoGetAttr env r1.2.2 r1.2.1 entry.attr)
    (hr1 : r1.1 = CURVEFS_ERROR.OK) (hr2 : r2.1 = CURVEFS_ERROR.OK)
    (hlast : i + 1 = names.length) :
    VFS.LookupBody env recur names false i name parent entry vfs
      = Flow.next r1.2.1 { ino := r1.2.1, attr := r2.2.1 } r2.2.2 ∧
    (IsSymlink r2.2.1 = false →
      VFS.LookupBody env recur names true i name parent entry vfs
        = Flow.next r1.2.1 { ino := r1.2.1, attr := r2.2.1 } r2.2.2) ∧
    (IsSymlink r2.2.1 = true →
      ∀ (r3 : CURVEFS_ERROR × String × VFS) (r4 : LookupResult),
        r3 = VFS.DoReadLink env r2.2.2 r1.2.1 (strings.JoinRange names 0 i "/") "" →
        r3.1 = CURVEFS_ERROR.OK →
        recur r3.2.2 r3.2.1 true { ino := r1.2.1, attr := r2.2.1 } = some r4 →
        r4.rc = CURVEFS_ERROR.OK →
        VFS.LookupBody env recur names true i name parent entry vfs
          = Flow.next r4.entry.ino r4.entry r4.vfs) := by
  have hden : ¬ (parent ≠ ROOT_INO ∧
      env.permission_.Check entry.attr WANT_EXEC ≠ CURVEFS_ERROR.OK) :=
    fun h => h.2 (hperm h.1)
  have hpen : ¬ (i + 2 = names.length) := by omega
  have c1 : ¬ (r1.1 ≠ CURVEFS_ERROR.OK) := fun h => h hr1
  have c2 : ¬ (r2.1 ≠ CURVEFS_ERROR.OK) := fun h => h hr2
  refine ⟨?_, ?_, ?_⟩
  · unfold VFS.LookupBody
    simp only []
    rw [if_neg hden, ← h1, if_neg c1, ← h2, if_neg c2]
    simp [hlast, hpen]
  · intro hsym
    unfold VFS.LookupBody
    simp only []
    rw [if_neg hden, ← h1, if_neg c1, ← h2, if_neg c2]
    simp [hlast, hpen, hsym]
  · intro hsym r3 r4 h3 hr3 h4 hr4
    have c3 : ¬ (r3.1 ≠ CURVEFS_ERROR.OK) := fun h => h hr3
    have c4 : ¬ (r4.rc ≠ CURVEFS_ERROR.OK) := fun h => h hr4
    unfold VFS.LookupBody
    simp only []
    rw [if_neg hden, ← h1, if_neg c1, ← h2, if_neg c2]
    have hcond : ((!decide (i + 1 = names.length) || true) && IsSymlink r2.2.1) = true := by
      simp [hsym]
    rw [if_pos hcond, ← h3, if_neg c3, h4]
    simp only []
    rw [if_neg c4, if_neg hpen]

theorem HasPrefix_slash (link : String) :
    strings.HasPrefix link "/" = true ↔ ∃ rest, link.data = '/' :: rest := by
  unfold strings.HasPrefix
  have hd : ("/" : String).data = ['/'] := rfl
  rw [hd]
  cases hl : link.data with
  | nil => simp
  | cons c rest =>
    simp only [List.isPrefixOf, Bool.and_eq_true, beq_iff_eq, List.cons.injEq, exists_eq_right',
      and_true]
    constructor
    · intro h; exact h.symm
    · intro h; exact h.symm

theorem Join_pair (dir link : String) : strings.Join [dir, link] "/" = dir ++ "/" ++ link := rfl

theorem JoinRange_zero (names : List String) (i : Nat) :
    strings.JoinRange names 0 i "/" = strings.Join (names.take i) "/" := by
  simp [strings.JoinRange, strings.Join]

theorem DoReadLink_cases (env : Env) (vfs : VFS) (ino : Ino) (dir target : String) :
    ((env.op_.ReadLink ino).1 ≠ CURVEFS_ERROR.OK →
      VFS.DoReadLink env vfs ino dir target
        = ((env.op_.ReadLink ino).1, target, vfs.record (VfsEv.opReadLink ino))) ∧
    ((env.op_.ReadLink ino).1 = CURVEFS_ERROR.OK →
      (∃ rest, (env.op_.ReadLink ino).2.data = '/' :: rest) →
      VFS.DoReadLink env vfs ino dir target
        = (CURVEFS_ERROR.OK, (env.op_.ReadLink ino).2, vfs.record (VfsEv.opReadLink ino))) ∧
    ((env.op_.ReadLink ino).1 = CURVEFS_ERROR.OK →
      (¬ ∃ rest, (env.op_.ReadLink ino).2.data = '/' :: rest) →
      VFS.DoReadLink env vfs ino dir target
        = (CURVEFS_ERROR.OK, dir ++ "/" ++ (env.op_.ReadLink ino).2,
            vfs.record (VfsEv.opReadLink ino))) := by
  refine ⟨?_, ?_, ?_⟩
  · intro h
    unfold VFS.DoReadLink
    simp only []
    rw [if_pos h]
  · intro h hp
    unfold VFS.DoReadLink
    simp only []
    rw [if_neg (fun hc => hc h), if_pos ((HasPrefix_slash _).2 hp)]
  · intro h hp
    unfold VFS.DoReadLink
    simp only []
    rw [if_neg (fun hc => hc h), if_neg (fun hc => hp ((HasPrefix_slash _).1 hc)), Join_pair]

theorem LookupBody_link (env : Env)
    (recur : VFS → String → Bool → Entry → Option LookupResult)
    (names : List String) (followSymlink : Bool) (i : Nat) (name : String) (parent : Ino)
    (entry : Entry) (vfs : VFS)
    (r1 : CURVEFS_ERROR × Ino × VFS) (r2 : CURVEFS_ERROR × InodeAttr × VFS)
    (r3 : CURVEFS_ERROR × String × VFS)
    (hperm : parent ≠ ROOT_INO →
      env.permission_.Check entry.attr WANT_EXEC = CURVEFS_ERROR.OK)
    (h1 : r1 = VFS.DoLookup env
      (if parent ≠ ROOT_INO then vfs.record (VfsEv.permCheck entry.attr WANT_EXEC) else vfs)
      parent name entry.ino)
    (h2 : r2 = VFS.DoGetAttr env r1.2.2 r1.2.1 entry.attr)
    (hr1 : r1.1 = CURVEFS_ERROR.OK) (hr2 : r2.1 = CURVEFS_ERROR.OK)
    (hfollow : i + 1 ≠ names.length ∨ followSymlink = true)
    (hsym : IsSymlink r2.2.1 = true)
    (h3 : r3 = VFS.DoReadLink env r2.2.2 r1.2.1 (strings.Join (names.take i) "/") "") :
    (r3.1 ≠ CURVEFS_ERROR.OK →
      VFS.LookupBody env recur names followSymlink i name parent entry vfs
        = Flow.brk r3.1 { ino := r1.2.1, attr := r2.2.1 } r3.2.2) ∧
    (r3.1 = CURVEFS_ERROR.OK →
      recur r3.2.2 r3.2.1 followSymlink { ino := r1.2.1, attr := r2.2.1 } = none →
      VFS.LookupBody env recur names followSymlink i name parent entry vfs = Flow.diverge) ∧
    (r3.1 = CURVEFS_ERROR.OK → ∀ r4,
      recur r3.2.2 r3.2.1 followSymlink { ino := r1.2.1, attr := r2.2.1 } = some r4 →
      r4.rc ≠ CURVEFS_ERROR.OK →
      VFS.LookupBody env recur names followSymlink i name parent entry vfs
        = Flow.brk r4.rc r4.entry r4.vfs) := by
  have hden : ¬ (parent ≠ ROOT_INO ∧
      env.permission_.Check entry.attr WANT_EXEC ≠ CURVEFS_ERROR.OK) :=
    fun h => h.2 (hperm h.1)
  have c1 : ¬ (r1.1 ≠ CURVEFS_ERROR.OK) := fun h => h hr1
  have c2 : ¬ (r2.1 ≠ CURVEFS_ERROR.OK) := fun h => h hr2
  have hcond : ((!decide (i + 1 = names.length) || followSymlink) && IsSymlink r2.2.1) = true := by
    rcases hfollow with h | h
    · simp [h, hsym]
    · simp [h, hsym]
  rw [← JoinRange_zero] at h3
  have hbody : VFS.LookupBody env recur names followSymlink i name parent entry vfs
      = if r3.1 ≠ CURVEFS_ERROR.OK then Flow.brk r3.1 { ino := r1.2.1, attr := r2.2.1 } r3.2.2
        else match recur r3.2.2 r3.2.1 followSymlink { ino := r1.2.1, attr := r2.2.1 } with
          | none => Flow.diverge
          | some r4 =>
            if r4.rc ≠ CURVEFS_ERROR.OK then Flow.brk r4.rc r4.entry r4.vfs
            else if i + 2 = names.length then
              if (!env.permission_.CheckIno r4.entry.ino WANT_EXEC r4.entry.attr) = true then
                Flow.ret CURVEFS_ERROR.NO_PERMISSION r4.entry
                  (r4.vfs.record (VfsEv.permCheckIno r4.entry.ino WANT_EXEC r4.entry.attr))
              else Flow.next r4.entry.ino r4.entry
                (r4.vfs.record (VfsEv.permCheckIno r4.entry.ino WANT_EXEC r4.entry.attr))
            else Flow.next r4.entry.ino r4.entry r4.vfs := by
    unfold VFS.LookupBody
    simp only []
    rw [if_neg hden, ← h1, if_neg c1, ← h2, if_neg c2, if_pos hcond, ← h3]
  refine ⟨?_, ?_, ?_⟩
  · intro h
    rw [hbody, if_pos h]
  · intro h hn
    rw [hbody, if_neg (fun hc => hc h), hn]
  · intro h r4 h4 hr4
    rw [hbody, if_neg (fun hc => hc h), h4]
    simp only []
    rw [if_pos hr4]

theorem EntryCache_Get_hit (c : EntryCache) (now : Nat) (parent : Ino) (name : String)
    (out : Ino) (h : (c.Get now parent name out).1 = true) :
    ∃ r ∈ c.records, r.parent = parent ∧ r.name = name ∧ now < r.expire ∧
      (c.Get now parent name out).2.1 = r.ino := by
  unfold EntryCache.Get at h ⊢
  cases hf : c.records.find? (EntryRecord.isKey parent name) with
  | none => simp [hf] at h
  | some r =>
    have hm : r ∈ c.records := List.mem_of_find?_eq_some hf
    have hk : EntryRecord.isKey parent name r = true := List.find?_some hf
    have hk2 : r.parent = parent ∧ r.name = name := by
      simpa [EntryRecord.isKey] using hk
    by_cases hx : now < r.expire
    · refine ⟨r, hm, hk2.1, hk2.2, hx, ?_⟩
      simp [hx]
    · simp [hf, hx] at h

theorem EntryCache_Get_miss (c : EntryCache) (now : Nat) (parent : Ino) (name : String)
    (out : Ino) (h : (c.Get now parent name out).1 = false) :
    (c.Get now parent name out).2.1 = out ∧
    ∀ r ∈ (c.Get now parent name out).2.2.records, r ∈ c.records := by
  unfold EntryCache.Get at h ⊢
  cases hf : c.records.find? (EntryRecord.isKey parent name) with
  | none => simp
  | some r =>
    by_cases hx : now < r.expire
    · simp [hf, hx] at h
    · simp only [hx, if_false, true_and]
      intro x hxm
      exact (List.mem_filter.1 hxm).1

theorem EntryCache_Get_expired (c : EntryCache) (now : Nat) (parent : Ino) (name : String)
    (out : Ino) (h : ∀ r ∈ c.records, r.expire ≤ now) :
    (c.Get now parent name out).1 = false ∧ (c.Get now parent name out).2.1 = out ∧
    ∀ r ∈ (c.Get now parent name out).2.2.records, r.expire ≤ now := by
  unfold EntryCache.Get
  cases hf : c.records.find? (EntryRecord.isKey parent name) with
  | none => exact ⟨rfl, rfl, h⟩
  | some r =>
    have hm : r ∈ c.records := List.mem_of_find?_eq_some hf
    have hx : ¬ now < r.expire := Nat.not_lt.2 (h r hm)
    simp only [hx, if_false, true_and]
    intro x hxm
    exact h x (List.mem_filter.1 hxm).1

theorem AttrCache_Get_expired (c : AttrCache) (now : Nat) (ino : Ino) (out : InodeAttr)
    (h : ∀ r ∈ c.records, r.expire ≤ now) :
    (c.Get now ino out).1 = false ∧ (c.Get now ino out).2.1 = out ∧
    ∀ r ∈ (c.Get now ino out).2.2.records, r.expire ≤ now := by
  unfold AttrCache.Get
  cases hf : c.records.find? (fun x => decide (x.ino = ino)) with
  | none => exact ⟨rfl, rfl, h⟩
  | some r =>
    have hm : r ∈ c.records := List.mem_of_find?_eq_some hf
    have hx : ¬ now < r.expire := Nat.not_lt.2 (h r hm)
    simp only [hx, if_false, true_and]
    intro x hxm
    exact h x (List.mem_filter.1 hxm).1

theorem EntryCache_Put_expired (c : EntryCache) (now : Nat) (parent : Ino) (name : String)
    (ino : Ino) (h : ∀ r ∈ c.records, r.expire ≤ now) :
    ∀ r ∈ (c.Put now parent name ino 0).records, r.expire ≤ now := by
  intro r hr
  unfold EntryCache.Put at hr
  have hr1 := List.mem_of_mem_take hr
  rcases List.mem_cons.1 hr1 with h1 | h1
  · rw [h1]
    exact Nat.le_refl _
  · exact h r (List.mem_filter.1 h1).1

theorem AttrCache_Put_expired (c : AttrCache) (now : Nat) (ino : Ino) (attr : InodeAttr)
    (h : ∀ r ∈ c.records, r.expire ≤ now) :
    ∀ r ∈ (c.Put now ino attr 0).records, r.expire ≤ now := by
  intro r hr
  unfold AttrCache.Put at hr
  have hr1 := List.mem_of_mem_take hr
  rcases List.mem_cons.1 hr1 with h1 | h1
  · rw [h1]
    exact Nat.le_refl _
  · exact h r (List.mem_filter.1 h1).1

theorem DoLookup_expired (env : Env) (vfs : VFS) (parent : Ino) (name : String) (ino : Ino)
    (attr : InodeAttr) (hexp : AllExpired vfs)
    (hop : env.op_.Lookup parent name
      = (CURVEFS_ERROR.OK, { attr := attr, entryTimeout := 0, attrTimeout := 0 })) :
    (VFS.DoLookup env vfs parent name ino).1 = CURVEFS_ERROR.OK ∧
    (VFS.DoLookup env vfs parent name ino).2.1 = attr.inodeid ∧
    AllExpired (VFS.DoLookup env vfs parent name ino).2.2 := by
  obtain ⟨g1, _, g3⟩ := EntryCache_Get_expired vfs.entryCache_ vfs.now parent name ino hexp.1
  have hn : ¬ ((vfs.entryCache_.Get vfs.now parent name ino).1 = true) := by simp [g1]
  unfold VFS.DoLookup
  simp only []
  rw [if_neg hn, hop]
  simp only [ne_eq, not_true_eq_false, if_false, true_and]
  refine ⟨?_, ?_⟩
  · exact EntryCache_Put_expired _ _ _ _ _ g3
  · exact AttrCache_Put_expired _ _ _ _ hexp.2

theorem DoGetAttr_expired (env : Env) (vfs : VFS) (ino : Ino) (out attr : InodeAttr)
    (hexp : AllExpired vfs)
    (hop : env.op_.GetAttr ino = (CURVEFS_ERROR.OK, { attr := attr, attrTimeout := 0 })) :
    (VFS.DoGetAttr env vfs ino out).1 = CURVEFS_ERROR.OK ∧
    (VFS.DoGetAttr env vfs ino out).2.1 = attr ∧
    AllExpired (VFS.DoGetAttr env vfs ino out).2.2 := by
  obtain ⟨g1, _, g3⟩ := AttrCache_Get_expired vfs.attrCache_ vfs.now ino out hexp.2
  have hn : ¬ ((vfs.attrCache_.Get vfs.now ino out).1 = true) := by simp [g1]
  unfold VFS.DoGetAttr
  simp only []
  rw [if_neg hn, hop]
  simp only [ne_eq, not_true_eq_false, if_false, true_and]
  exact ⟨hexp.1, AttrCache_Put_expired _ _ _ _ g3⟩

theorem loop_Lookup_none (fuel : Nat) :
    ∀ (vfs : VFS) (entry : Entry), AllExpired vfs →
      VFS.Lookup loopEnv fuel vfs "/l" true entry = none := by
  induction fuel with
  | zero => intro vfs entry _; rfl
  | succ fuel ih =>
    intro vfs entry hexp
    have hpath : ¬ (("/l" : String) = "/") := by decide
    have hsplit : filepath.Split "/l" = ["l"] := by decide
    have hattr : (loopEnv.op_.Lookup ROOT_INO "l")
        = (CURVEFS_ERROR.OK, { attr := sampleAttrOf 2 FsFileType.TYPE_SYM_LINK 511 2,
                               entryTimeout := 0, attrTimeout := 0 }) := by decide
    have hget : (loopEnv.op_.GetAttr 2)
        = (CURVEFS_ERROR.OK, { attr := sampleAttrOf 2 FsFileType.TYPE_SYM_LINK 511 2,
                               attrTimeout := 0 }) := by decide
    have hlink : loopEnv.op_.ReadLink 2 = (CURVEFS_ERROR.OK, "/l") := by decide
    have hv0 : (if ROOT_INO ≠ ROOT_INO then vfs.record (VfsEv.permCheck entry.attr WANT_EXEC)
        else vfs) = vfs := by simp
    obtain ⟨r1, h1⟩ : ∃ r1, r1 = VFS.DoLookup loopEnv
        (if ROOT_INO ≠ ROOT_INO then vfs.record (VfsEv.permCheck entry.attr WANT_EXEC) else vfs)
        ROOT_INO "l" entry.ino := ⟨_, rfl⟩
    have a := DoLookup_expired loopEnv vfs ROOT_INO "l" entry.ino _ hexp hattr
    rw [← hv0, ← h1] at a
    obtain ⟨a1, a2, a3⟩ := a
    have a2b : r1.2.1 = 2 := a2
    obtain ⟨r2, h2⟩ : ∃ r2, r2 = VFS.DoGetAttr loopEnv r1.2.2 r1.2.1 entry.attr := ⟨_, rfl⟩
    have h2b : r2 = VFS.DoGetAttr loopEnv r1.2.2 2 entry.attr := by rw [h2, a2b]
    have b := DoGetAttr_expired loopEnv r1.2.2 2 entry.attr _ a3 hget
    rw [← h2b] at b
    obtain ⟨b1, b2, b3⟩ := b
    obtain ⟨r3, h3⟩ : ∃ r3, r3 = VFS.DoReadLink loopEnv r2.2.2 r1.2.1
        (strings.Join (["l"].take 0) "/") "" := ⟨_, rfl⟩
    have c : r3 = (CURVEFS_ERROR.OK, "/l", r2.2.2.record (VfsEv.opReadLink 2)) := by
      rw [h3, a2b]
      unfold VFS.DoReadLink
      simp only []
      rw [hlink]
      have hp : strings.HasPrefix "/l" "/" = true := by decide
      simp [hp]
    have c3 : AllExpired r3.2.2 := by
      rw [c]
      exact b3
    have hrec := ih r3.2.2 { ino := r1.2.1, attr := r2.2.1 } c3
    have hr3 : r3.2.1 = "/l" := by rw [c]
    have hbody := (LookupBody_link loopEnv (VFS.Lookup loopEnv fuel) ["l"] true 0 "l" ROOT_INO
      entry vfs r1 r2 r3 (fun h => absurd rfl h) h1 h2 a1 b1 (Or.inr rfl)
      (by rw [b2]; decide) h3).2.1 (by rw [c]) (by rw [hr3]; exact hrec)
    unfold VFS.Lookup
    rw [if_neg hpath, hsplit]
    simp only [VFS.LookupLoop]
    rw [hbody]

theorem LookupBody_mono (env : Env)
    (recur recur2 : VFS → String → Bool → Entry → Option LookupResult)
    (hsub : ∀ v t f e r, recur v t f e = some r → recur2 v t f e = some r)
    (names : List String) (followSymlink : Bool) (i : Nat) (name : String)
    (parent : Ino) (entry : Entry) (vfs : VFS)
    (hnd : VFS.LookupBody env recur names followSymlink i name parent entry vfs ≠ Flow.diverge) :
    VFS.LookupBody env recur2 names followSymlink i name parent entry vfs
      = VFS.LookupBody env recur names followSymlink i name parent entry vfs := by
  unfold VFS.LookupBody at hnd ⊢
  simp only [] at hnd ⊢
  by_cases hchk : parent ≠ ROOT_INO ∧ env.permission_.Check entry.attr WANT_EXEC ≠ CURVEFS_ERROR.OK
  · simp only [if_pos hchk]
  · simp only [if_neg hchk] at hnd ⊢
    generalize VFS.DoLookup env
      (if parent ≠ ROOT_INO then vfs.record (VfsEv.permCheck entry.attr WANT_EXEC) else vfs)
      parent name entry.ino = r1 at hnd ⊢
    by_cases c1 : r1.1 ≠ CURVEFS_ERROR.OK
    · simp only [if_pos c1]
    · simp only [if_neg c1] at hnd ⊢
      generalize VFS.DoGetAttr env r1.2.2 r1.2.1 entry.attr = r2 at hnd ⊢
      by_cases c2 : r2.1 ≠ CURVEFS_ERROR.OK
      · simp only [if_pos c2]
      · simp only [if_neg c2] at hnd ⊢
        by_cases hcond : ((!decide (i + 1 = names.length) || followSymlink) &&
            IsSymlink r2.2.1) = true
        · simp only [if_pos hcond] at hnd ⊢
          generalize VFS.DoReadLink env r2.2.2 r1.2.1 (strings.JoinRange names 0 i "/") "" = r3
            at hnd ⊢
          by_cases c3 : r3.1 ≠ CURVEFS_ERROR.OK
          · simp only [if_pos c3]
          · simp only [if_neg c3] at hnd ⊢
            cases h4 : recur r3.2.2 r3.2.1 followSymlink { ino := r1.2.1, attr := r2.2.1 } with
            | none =>
              rw [h4] at hnd
              exact absurd rfl hnd
            | some r4 =>
              rw [hsub _ _ _ _ _ h4]
        · simp only [if_neg hcond]

theorem LookupLoop_mono (env : Env)
    (recur recur2 : VFS → String → Bool → Entry → Option LookupResult)
    (hsub : ∀ v t f e r, recur v t f e = some r → recur2 v t f e = some r)
    (names : List String) (followSymlink : Bool) (rest : List String) :
    ∀ (i : Nat) (parent : Ino) (rc : CURVEFS_ERROR) (entry : Entry) (vfs : VFS) (r : LookupResult),
      VFS.LookupLoop env recur names followSymlink rest i parent rc entry vfs = some r →
      VFS.LookupLoop env recur2 names followSymlink rest i parent rc entry vfs = some r := by
  induction rest with
  | nil =>
    intro i parent rc entry vfs r h
    simpa [VFS.LookupLoop] using h
  | cons name rest ih =>
    intro i parent rc entry vfs r h
    simp only [VFS.LookupLoop] at h ⊢
    have hnd : VFS.LookupBody env recur names followSymlink i name parent entry vfs
        ≠ Flow.diverge := by
      intro hc
      rw [hc] at h
      exact Option.noConfusion h
    rw [LookupBody_mono env recur recur2 hsub names followSymlink i name parent entry vfs hnd]
    cases hf : VFS.LookupBody env recur names followSymlink i name parent entry vfs with
    | next p e v =>
      rw [hf] at h
      exact ih _ _ _ _ _ _ h
    | brk rc1 e v =>
      rw [hf] at h
      exact h
    | ret rc1 e v =>
      rw [hf] at h
      exact h
    | diverge => exact absurd hf hnd

theorem Lookup_mono_succ (env : Env) (fuel : Nat) :
    ∀ (vfs : VFS) (path : String) (followSymlink : Bool) (entry : Entry) (r : LookupResult),
      VFS.Lookup env fuel vfs path followSymlink entry = some r →
      VFS.Lookup env (fuel + 1) vfs path followSymlink entry = some r := by
  induction fuel with
  | zero =>
    intro vfs path followSymlink entry r h
    exact Option.noConfusion h
  | succ fuel ih =>
    intro vfs path followSymlink entry r h
    unfold VFS.Lookup at h ⊢
    by_cases hp : path = "/"
    · rw [if_pos hp] at h ⊢
      exact h
    · rw [if_neg hp] at h ⊢
      exact LookupLoop_mono env (VFS.Lookup env fuel) (VFS.Lookup env (fuel + 1)) ih
        _ _ _ _ _ _ _ _ _ h

theorem Lookup_mono (env : Env) (fuel more : Nat) (vfs : VFS) (path : String)
    (followSymlink : Bool) (entry : Entry) (r : LookupResult)
    (h : VFS.Lookup env fuel vfs path followSymlink entry = some r) :
    VFS.Lookup env (fuel + more) vfs path followSymlink entry = some r := by
  induction more with
  | zero => exact h
  | succ more ih => exact Lookup_mono_succ env (fuel + more) vfs path followSymlink entry r ih

theorem LookupBody_total (env : Env)
    (recur : VFS → String → Bool → Entry → Option LookupResult)
    (htot : ∀ v t f e, (recur v t f e).isSome = true)
    (names : List String) (followSymlink : Bool) (i : Nat) (name : String)
    (parent : Ino) (entry : Entry) (vfs : VFS) :
    VFS.LookupBody env recur names followSymlink i name parent entry vfs ≠ Flow.diverge := by
  unfold VFS.LookupBody
  simp only []
  by_cases hchk : parent ≠ ROOT_INO ∧ env.permission_.Check entry.attr WANT_EXEC ≠ CURVEFS_ERROR.OK
  · simp only [if_pos hchk]
    exact fun h => Flow.noConfusion h
  · simp only [if_neg hchk]
    generalize VFS.DoLookup env
      (if parent ≠ ROOT_INO then vfs.record (VfsEv.permCheck entry.attr WANT_EXEC) else vfs)
      parent name entry.ino = r1
    by_cases c1 : r1.1 ≠ CURVEFS_ERROR.OK
    · simp only [if_pos c1]
      exact fun h => Flow.noConfusion h
    · simp only [if_neg c1]
      generalize VFS.DoGetAttr env r1.2.2 r1.2.1 entry.attr = r2
      by_cases c2 : r2.1 ≠ CURVEFS_ERROR.OK
      · simp only [if_pos c2]
        exact fun h => Flow.noConfusion h
      · simp only [if_neg c2]
        by_cases hcond : ((!decide (i + 1 = names.length) || followSymlink) &&
            IsSymlink r2.2.1) = true
        · simp only [if_pos hcond]
          generalize VFS.DoReadLink env r2.2.2 r1.2.1 (strings.JoinRange names 0 i "/") "" = r3
          by_cases c3 : r3.1 ≠ CURVEFS_ERROR.OK
          · simp only [if_pos c3]
            exact fun h => Flow.noConfusion h
          · simp only [if_neg c3]
            cases h4 : recur r3.2.2 r3.2.1 followSymlink { ino := r1.2.1, attr := r2.2.1 } with
            | none =>
              have := htot r3.2.2 r3.2.1 followSymlink { ino := r1.2.1, attr := r2.2.1 }
              rw [h4] at this
              exact Bool.noConfusion this
            | some r4 =>
              simp only []
              split
              · exact fun h => Flow.noConfusion h
              · split
                · split <;> exact fun h => Flow.noConfusion h
                · exact fun h => Flow.noConfusion h
        · simp only [if_neg hcond]
          split
          · split <;> exact fun h => Flow.noConfusion h
          · exact fun h => Flow.noConfusion h

theorem LookupLoop_total (env : Env)
    (recur : VFS → String → Bool → Entry → Option LookupResult)
    (htot : ∀ v t f e, (recur v t f e).isSome = true)
    (names : List String) (followSymlink : Bool) (rest : List String) :
    ∀ (i : Nat) (parent : Ino) (rc : CURVEFS_ERROR) (entry : Entry) (vfs : VFS),
      (VFS.LookupLoop env recur names followSymlink rest i parent rc entry vfs).isSome = true := by
  induction rest with
  | nil =>
    intro i parent rc entry vfs
    rfl
  | cons name rest ih =>
    intro i parent rc entry vfs
    simp only [VFS.LookupLoop]
    have hnd := LookupBody_total env recur htot names followSymlink i name parent entry vfs
    cases hf : VFS.LookupBody env recur names followSymlink i name parent entry vfs with
    | next p e v => exact ih _ _ _ _ _
    | brk rc1 e v => rfl
    | ret rc1 e v => rfl
    | diverge => exact absurd hf hnd

theorem AttrCache_Get_nolink (c : AttrCache) (now : Nat) (ino : Ino) (out : InodeAttr)
    (h : ∀ r ∈ c.records, IsSymlink r.attr = false) :
    ((c.Get now ino out).1 = true → IsSymlink (c.Get now ino out).2.1 = false) ∧
    ∀ r ∈ (c.Get now ino out).2.2.records, IsSymlink r.attr = false := by
  unfold AttrCache.Get
  cases hf : c.records.find? (fun x => decide (x.ino = ino)) with
  | none =>
    refine ⟨fun hc => ?_, h⟩
    exact Bool.noConfusion hc
  | some r =>
    have hm : r ∈ c.records := List.mem_of_find?_eq_some hf
    by_cases hx : now < r.expire
    · simp only [hx, if_true]
      refine ⟨fun _ => h r hm, ?_⟩
      intro x hxm
      rcases List.mem_cons.1 hxm with h1 | h1
      · rw [h1]; exact h r hm
      · exact h x (List.mem_filter.1 h1).1
    · simp only [hx, if_false]
      refine ⟨fun hc => Bool.noConfusion hc, ?_⟩
      intro x hxm
      exact h x (List.mem_filter.1 hxm).1

theorem AttrCache_Put_nolink (c : AttrCache) (now : Nat) (ino : Ino) (attr : InodeAttr)
    (timeout : Nat) (ha : IsSymlink attr = false)
    (h : ∀ r ∈ c.records, IsSymlink r.attr = false) :
    ∀ r ∈ (c.Put now ino attr timeout).records, IsSymlink r.attr = false := by
  intro r hr
  unfold AttrCache.Put at hr
  have hr1 := List.mem_of_mem_take hr
  rcases List.mem_cons.1 hr1 with h1 | h1
  · rw [h1]
    exact ha
  · exact h r (List.mem_filter.1 h1).1

theorem DoLookup_nolink (env : Env) (vfs : VFS) (parent : Ino) (name : String) (ino : Ino)
    (hL : ∀ p n, IsSymlink (env.op_.Lookup p n).2.attr = false) (h : NoLinkCached vfs) :
    NoLinkCached (VFS.DoLookup env vfs parent name ino).2.2 := by
  unfold VFS.DoLookup
  simp only []
  split
  · exact h
  · split
    · exact h
    · exact AttrCache_Put_nolink _ _ _ _ _ (hL parent name) h

theorem DoGetAttr_nolink (env : Env) (vfs : VFS) (ino : Ino) (attr : InodeAttr)
    (hG : ∀ i, IsSymlink (env.op_.GetAttr i).2.attr = false) (h : NoLinkCached vfs) :
    ((VFS.DoGetAttr env vfs ino attr).1 = CURVEFS_ERROR.OK →
      IsSymlink (VFS.DoGetAttr env vfs ino attr).2.1 = false) ∧
    NoLinkCached (VFS.DoGetAttr env vfs ino attr).2.2 := by
  obtain ⟨g1, g2⟩ := AttrCache_Get_nolink vfs.attrCache_ vfs.now ino attr h
  unfold VFS.DoGetAttr
  simp only []
  by_cases hhit : (vfs.attrCache_.Get vfs.now ino attr).1 = true
  · rw [if_pos hhit]
    exact ⟨fun _ => g1 hhit, g2⟩
  · rw [if_neg hhit]
    by_cases hfail : (env.op_.GetAttr ino).1 ≠ CURVEFS_ERROR.OK
    · rw [if_pos hfail]
      exact ⟨fun hc => absurd hc hfail, g2⟩
    · rw [if_neg hfail]
      exact ⟨fun _ => hG ino, AttrCache_Put_nolink _ _ _ _ _ (hG ino) g2⟩

theorem LookupBody_nolink (env : Env)
    (recur : VFS → String → Bool → Entry → Option LookupResult)
    (hL : ∀ p n, IsSymlink (env.op_.Lookup p n).2.attr = false)
    (hG : ∀ i, IsSymlink (env.op_.GetAttr i).2.attr = false)
    (names : List String) (followSymlink : Bool) (i : Nat) (name : String)
    (parent : Ino) (entry : Entry) (vfs : VFS) (h : NoLinkCached vfs) :
    Flow.Keeps NoLinkCached
      (VFS.LookupBody env recur names followSymlink i name parent entry vfs) := by
  unfold VFS.LookupBody
  simp only []
  by_cases hchk : parent ≠ ROOT_INO ∧ env.permission_.Check entry.attr WANT_EXEC ≠ CURVEFS_ERROR.OK
  · simp only [if_pos hchk]
    exact h
  · simp only [if_neg hchk]
    have h0 : NoLinkCached
        (if parent ≠ ROOT_INO then vfs.record (VfsEv.permCheck entry.attr WANT_EXEC) else vfs) := by
      split
      · exact h
      · exact h
    have h1 := DoLookup_nolink env _ parent name entry.ino hL h0
    generalize VFS.DoLookup env
      (if parent ≠ ROOT_INO then vfs.record (VfsEv.permCheck entry.attr WANT_EXEC) else vfs)
      parent name entry.ino = r1 at h1 ⊢
    by_cases c1 : r1.1 ≠ CURVEFS_ERROR.OK
    · simp only [if_pos c1]
      exact h1
    · simp only [if_neg c1]
      have h2 := DoGetAttr_nolink env r1.2.2 r1.2.1 entry.attr hG h1
      generalize VFS.DoGetAttr env r1.2.2 r1.2.1 entry.attr = r2 at h2 ⊢
      by_cases c2 : r2.1 ≠ CURVEFS_ERROR.OK
      · simp only [if_pos c2]
        exact h2.2
      · simp only [if_neg c2]
        have hns : IsSymlink r2.2.1 = false := h2.1 (by simpa using c2)
        have hcond : ¬ (((!decide (i + 1 = names.length) || followSymlink) &&
            IsSymlink r2.2.1) = true) := by simp [hns]
        simp only [if_neg hcond]
        split
        · split
          · exact h2.2
          · exact h2.2
        · exact h2.2

theorem LookupLoop_nolink (env : Env)
    (recur : VFS → String → Bool → Entry → Option LookupResult)
    (hL : ∀ p n, IsSymlink (env.op_.Lookup p n).2.attr = false)
    (hG : ∀ i, IsSymlink (env.op_.GetAttr i).2.attr = false)
    (names : List String) (followSymlink : Bool) (rest : List String) :
    ∀ (i : Nat) (parent : Ino) (rc : CURVEFS_ERROR) (entry : Entry) (vfs : VFS),
      NoLinkCached vfs →
      (VFS.LookupLoop env recur names followSymlink rest i parent rc entry vfs).isSome = true := by
  induction rest with
  | nil =>
    intro i parent rc entry vfs _
    rfl
  | cons name rest ih =>
    intro i parent rc entry vfs h
    simp only [VFS.LookupLoop]
    have hk := LookupBody_nolink env recur hL hG names followSymlink i name parent entry vfs h
    cases hf : VFS.LookupBody env recur names followSymlink i name parent entry vfs with
    | next p e v =>
      rw [hf] at hk
      exact ih _ _ _ _ _ hk
    | brk rc1 e v => rfl
    | ret rc1 e v => rfl
    | diverge =>
      rw [hf] at hk
      exact False.elim hk

theorem tableOp_nolink (nodes : List SampleNode) (timeout : Nat)
    (h : ∀ n ∈ nodes, IsSymlink n.attr = false) :
    (∀ p name, IsSymlink ((tableOp nodes timeout).Lookup p name).2.attr = false) ∧
    (∀ i, IsSymlink ((tableOp nodes timeout).GetAttr i).2.attr = false) := by
  refine ⟨?_, ?_⟩
  · intro p name
    simp only [tableOp]
    cases hf : nodes.find? (fun n => decide (n.parent = p) && decide (n.name = name)) with
    | none => rfl
    | some n => exact h n (List.mem_of_find?_eq_some hf)
  · intro i
    simp only [tableOp]
    by_cases hi : i = ROOT_INO
    · rw [if_pos hi]
      rfl
    · rw [if_neg hi]
      cases hf : nodes.find? (fun n => decide (n.ino = i)) with
      | none => rfl
      | some n => exact h n (List.mem_of_find?_eq_some hf)

/-- C11, the code at the failing inputs.  In the example file system, for a caller to
whom every permission check fails, `Lookup("/a/b")` is denied by
`Check(parent, WANT_EXEC, &attr)` after `a` and `Lookup("/a/b/x")` by
`Check(attr, WANT_EXEC)` before `b`: both return NO_PERMISSION through a `return` inside
the loop and leave inode 2 with the attributes of `a` in `*entry`.  With the metadata
side unreachable, `Lookup("/")` returns INTERNAL and leaves the root inode id in
`*entry`.  A missing component, which leaves the loop by `break`, does reset `*entry`. -/
theorem VFS.lookup_error_leaves_entry :
    (VFS.Lookup exampleDenyEnv 1 sampleVfs "/a/b" true Entry.empty).map
        (fun r => (r.rc, r.entry))
      = some (CURVEFS_ERROR.NO_PERMISSION, { ino := 2, attr := sampleAttrOf 2 FsFileType.TYPE_DIRECTORY 493 0 }) ∧
    (VFS.Lookup exampleDenyEnv 1 sampleVfs "/a/b/x" true Entry.empty).map
        (fun r => (r.rc, r.entry))
      = some (CURVEFS_ERROR.NO_PERMISSION, { ino := 2, attr := sampleAttrOf 2 FsFileType.TYPE_DIRECTORY 493 0 }) ∧
    (VFS.Lookup failingEnv 1 sampleVfs "/" true Entry.empty).map (fun r => (r.rc, r.entry))
      = some (CURVEFS_ERROR.INTERNAL, { ino := ROOT_INO, attr := InodeAttr.empty }) ∧
    (VFS.Lookup exampleEnv 1 sampleVfs "/a/zz" true Entry.empty).map (fun r => (r.rc, r.entry))
      = some (CURVEFS_ERROR.NOTEXIST, Entry.empty) := by
  decide

/-- C12 (final-symlink flag).  In the example file system with empty caches,
`Lookup("/a/b", true)` returns OK with inode 4 and the attributes of `a/c`, and
`Lookup("/a/b", false)` returns OK with inode 3, the link itself, and its attributes.
In general, when the last component of a path resolves (name lookup and attribute
fetch return OK): with the flag false the iteration ends with the resolved inode and
attributes, whatever they are and without any recursive call; with the flag true it
does the same for an inode that is not a link, and for a link whose text is read it
ends with the entry that the recursive call on the target returned. -/
theorem VFS.lookup_final_symlink_flag :
    (VFS.Lookup exampleEnv 2 sampleVfs "/a/b" true Entry.empty).map (fun r => (r.rc, r.entry))
      = some (CURVEFS_ERROR.OK,
          { ino := 4, attr := sampleAttrOf 4 FsFileType.TYPE_FILE 420 0 }) ∧
    (VFS.Lookup exampleEnv 2 sampleVfs "/a/b" false Entry.empty).map
        (fun r => (r.rc, r.entry))
      = some (CURVEFS_ERROR.OK,
          { ino := 3, attr := sampleAttrOf 3 FsFileType.TYPE_SYM_LINK 511 1 }) ∧
    (∀ (env : Env) (recur : VFS → String → Bool → Entry → Option LookupResult)
        (names : List String) (i : Nat) (name : String) (parent : Ino) (entry : Entry)
        (vfs : VFS) (r1 : CURVEFS_ERROR × Ino × VFS) (r2 : CURVEFS_ERROR × InodeAttr × VFS),
      (parent ≠ ROOT_INO → env.permission_.Check entry.attr WANT_EXEC = CURVEFS_ERROR.OK) →
      r1 = VFS.DoLookup env
        (if parent ≠ ROOT_INO then vfs.record (VfsEv.permCheck entry.attr WANT_EXEC) else vfs)
        parent name entry.ino →
      r2 = VFS.DoGetAttr env r1.2.2 r1.2.1 entry.attr →
      r1.1 = CURVEFS_ERROR.OK → r2.1 = CURVEFS_ERROR.OK → i + 1 = names.length →
      VFS.LookupBody env recur names false i name parent entry vfs
        = Flow.next r1.2.1 { ino := r1.2.1, attr := r2.2.1 } r2.2.2 ∧
      (IsSymlink r2.2.1 = false →
        VFS.LookupBody env recur names true i name parent entry vfs
          = Flow.next r1.2.1 { ino := r1.2.1, attr := r2.2.1 } r2.2.2) ∧
      (IsSymlink r2.2.1 = true →
        ∀ (r3 : CURVEFS_ERROR × String × VFS) (r4 : LookupResult),
          r3 = VFS.DoReadLink env r2.2.2 r1.2.1 (strings.JoinRange names 0 i "/") "" →
          r3.1 = CURVEFS_ERROR.OK →
          recur r3.2.2 r3.2.1 true { ino := r1.2.1, attr := r2.2.1 } = some r4 →
          r4.rc = CURVEFS_ERROR.OK →
          VFS.LookupBody env recur names true i name parent entry vfs
            = Flow.next r4.entry.ino r4.entry r4.vfs)) := by
  refine ⟨by decide, by decide, ?_⟩
  intro env recur names i name parent entry vfs r1 r2 hperm h1 h2 hr1 hr2 hlast
  exact LookupBody_last_link env recur names i name parent entry vfs r1 r2 hperm h1 h2 hr1 hr2
    hlast

/-- C13, the code at the failing input.  In the chain file system `/l1` is a link to
`/l2`, itself a link to the directory `/d`.  `Lookup("/l1/f", false)` follows `l1`, but
the recursive call on its target gets the caller's flag and returns the link `l2`
(inode 3) unresolved; the walk then looks `f` up under inode 3, a symbolic link, and
returns NOTEXIST.  With the flag true the same path resolves to the file, inode 5. -/
theorem VFS.lookup_intermediate_link_chain :
    IsSymlink (chainEnv.op_.GetAttr 3).2.attr = true ∧
    (VFS.Lookup chainEnv 2 sampleVfs "/l1/f" false Entry.empty).map
        (fun r => (r.rc, r.entry, r.vfs.log.drop 9))
      = some (CURVEFS_ERROR.NOTEXIST, Entry.empty,
          [VfsEv.entryCacheGet 3 "f", VfsEv.opLookup 3 "f"]) ∧
    (VFS.Lookup chainEnv 3 sampleVfs "/l1/f" true Entry.empty).map
        (fun r => (r.rc, r.entry.ino))
      = some (CURVEFS_ERROR.OK, 5) := by
  decide

/-- C14 (link target construction).  For every inode, directory string `dir` and prior
value of `*target`: when `ReadLink` fails, `VFS::DoReadLink` returns its code and leaves
`*target`; when it succeeds with a text starting with a slash the target is that text;
otherwise the target is `dir`, a slash and the text.  And when the walk follows the link
that component `i` resolved to, it calls `DoReadLink` with the join by slashes of the
components before index `i` as `dir`: a failure of that call ends the loop with its
code, and otherwise the recursive call is made on the target it produced. -/
theorem VFS.readlink_target_construction (env : Env) :
    (∀ (vfs : VFS) (ino : Ino) (dir target : String),
      ((env.op_.ReadLink ino).1 ≠ CURVEFS_ERROR.OK →
        VFS.DoReadLink env vfs ino dir target
          = ((env.op_.ReadLink ino).1, target, vfs.record (VfsEv.opReadLink ino))) ∧
      ((env.op_.ReadLink ino).1 = CURVEFS_ERROR.OK →
        (∃ rest, (env.op_.ReadLink ino).2.data = '/' :: rest) →
        VFS.DoReadLink env vfs ino dir target
          = (CURVEFS_ERROR.OK, (env.op_.ReadLink ino).2, vfs.record (VfsEv.opReadLink ino))) ∧
      ((env.op_.ReadLink ino).1 = CURVEFS_ERROR.OK →
        (¬ ∃ rest, (env.op_.ReadLink ino).2.data = '/' :: rest) →
        VFS.DoReadLink env vfs ino dir target
          = (CURVEFS_ERROR.OK, dir ++ "/" ++ (env.op_.ReadLink ino).2,
              vfs.record (VfsEv.opReadLink ino)))) ∧
    (∀ (recur : VFS → String → Bool → Entry → Option LookupResult) (names : List String)
        (followSymlink : Bool) (i : Nat) (name : String) (parent : Ino) (entry : Entry)
        (vfs : VFS) (r1 : CURVEFS_ERROR × Ino × VFS) (r2 : CURVEFS_ERROR × InodeAttr × VFS)
        (r3 : CURVEFS_ERROR × String × VFS),
      (parent ≠ ROOT_INO → env.permission_.Check entry.attr WANT_EXEC = CURVEFS_ERROR.OK) →
      r1 = VFS.DoLookup env
        (if parent ≠ ROOT_INO then vfs.record (VfsEv.permCheck entry.attr WANT_EXEC) else vfs)
        parent name entry.ino →
      r2 = VFS.DoGetAttr env r1.2.2 r1.2.1 entry.attr →
      r1.1 = CURVEFS_ERROR.OK → r2.1 = CURVEFS_ERROR.OK →
      (i + 1 ≠ names.length ∨ followSymlink = true) →
      IsSymlink r2.2.1 = true →
      r3 = VFS.DoReadLink env r2.2.2 r1.2.1 (strings.Join (names.take i) "/") "" →
      (r3.1 ≠ CURVEFS_ERROR.OK →
        VFS.LookupBody env recur names followSymlink i name parent entry vfs
          = Flow.brk r3.1 { ino := r1.2.1, attr := r2.2.1 } r3.2.2) ∧
      (r3.1 = CURVEFS_ERROR.OK →
        recur r3.2.2 r3.2.1 followSymlink { ino := r1.2.1, attr := r2.2.1 } = none →
        VFS.LookupBody env recur names followSymlink i name parent entry vfs = Flow.diverge) ∧
      (r3.1 = CURVEFS_ERROR.OK → ∀ r4,
        recur r3.2.2 r3.2.1 followSymlink { ino := r1.2.1, attr := r2.2.1 } = some r4 →
        r4.rc ≠ CURVEFS_ERROR.OK →
        VFS.LookupBody env recur names followSymlink i name parent entry vfs
          = Flow.brk r4.rc r4.entry r4.vfs)) := by
  refine ⟨?_, ?_⟩
  · intro vfs ino dir target
    exact DoReadLink_cases env vfs ino dir target
  · intro recur names followSymlink i name parent entry vfs r1 r2 r3 hperm h1 h2 hr1 hr2 hf hs h3
    exact LookupBody_link env recur names followSymlink i name parent entry vfs r1 r2 r3 hperm
      h1 h2 hr1 hr2 hf hs h3

/-- C14 at the example file system: the link `/a/b` (inode 3) has the text `c`, read with
the directory `a`. -/
theorem VFS.readlink_target_construction_witness :
    VFS.DoReadLink exampleEnv sampleVfs 3 "a" ""
      = (CURVEFS_ERROR.OK, "a" ++ "/" ++ "c", sampleVfs.record (VfsEv.opReadLink 3)) := by
  have e : (exampleEnv.op_.ReadLink 3).2 = "c" := by decide
  have hrel : ¬ ∃ rest, (exampleEnv.op_.ReadLink 3).2.data = '/' :: rest := by
    rw [e]
    rintro ⟨rest, h⟩
    have h2 : ['c'] = '/' :: rest := h
    injection h2 with h3
    exact absurd h3 (by decide)
  have h := ((VFS.readlink_target_construction exampleEnv).1 sampleVfs 3 "a" "").2.2
    (by decide) hrel
  rw [e] at h
  exact h

/-- C16 (cache, then remote).  `VFS::DoLookup` first asks the entry cache.  On a hit it
returns OK with the inode id of an unexpired record of the key, and does nothing else:
no remote call, the attribute cache untouched.  On a miss it makes the remote lookup;
when that succeeds it returns OK with the inode id of the answer and puts the key with
that id and the entry timeout into the entry cache and the id with the attributes and
the attribute timeout into the attribute cache; when it fails (NOTEXIST included) it
returns that code, leaves `*ino`, and puts nothing: the attribute cache is the same and
the entry cache is what the missed `Get` left, which holds no record it had not. -/
theorem VFS.dolookup_cache_then_remote (env : Env) (vfs : VFS) (parent : Ino) (name : String)
    (ino : Ino) :
    ((vfs.entryCache_.Get vfs.now parent name ino).1 = true →
      VFS.DoLookup env vfs parent name ino
        = (CURVEFS_ERROR.OK, (vfs.entryCache_.Get vfs.now parent name ino).2.1,
            { vfs with entryCache_ := (vfs.entryCache_.Get vfs.now parent name ino).2.2,
                       log := vfs.log ++ [VfsEv.entryCacheGet parent name] }) ∧
      ∃ r ∈ vfs.entryCache_.records, r.parent = parent ∧ r.name = name ∧ vfs.now < r.expire ∧
        (vfs.entryCache_.Get vfs.now parent name ino).2.1 = r.ino) ∧
    ((vfs.entryCache_.Get vfs.now parent name ino).1 = false →
      (env.op_.Lookup parent name).1 = CURVEFS_ERROR.OK →
      VFS.DoLookup env vfs parent name ino
        = (CURVEFS_ERROR.OK, (env.op_.Lookup parent name).2.attr.inodeid,
            { vfs with
              entryCache_ := (vfs.entryCache_.Get vfs.now parent name ino).2.2.Put vfs.now
                parent name (env.op_.Lookup parent name).2.attr.inodeid
                (env.op_.Lookup parent name).2.entryTimeout,
              attrCache_ := vfs.attrCache_.Put vfs.now
                (env.op_.Lookup parent name).2.attr.inodeid (env.op_.Lookup parent name).2.attr
                (env.op_.Lookup parent name).2.attrTimeout,
              log := vfs.log ++ [VfsEv.entryCacheGet parent name, VfsEv.opLookup parent name] })) ∧
    ((vfs.entryCache_.Get vfs.now parent name ino).1 = false →
      (env.op_.Lookup parent name).1 ≠ CURVEFS_ERROR.OK →
      VFS.DoLookup env vfs parent name ino
        = ((env.op_.Lookup parent name).1, ino,
            { vfs with entryCache_ := (vfs.entryCache_.Get vfs.now parent name ino).2.2,
                       log := vfs.log ++ [VfsEv.entryCacheGet parent name,
                                          VfsEv.opLookup parent name] }) ∧
      ∀ r ∈ (vfs.entryCache_.Get vfs.now parent name ino).2.2.records,
        r ∈ vfs.entryCache_.records) := by
  refine ⟨?_, ?_, ?_⟩
  · intro h
    refine ⟨?_, EntryCache_Get_hit _ _ _ _ _ h⟩
    unfold VFS.DoLookup
    simp only []
    rw [if_pos h]
    rfl
  · intro h hok
    have hn : ¬ ((vfs.entryCache_.Get vfs.now parent name ino).1 = true) := by simp [h]
    unfold VFS.DoLookup
    simp only []
    rw [if_neg hn, if_neg (fun hc => hc hok)]
    simp [VFS.record]
  · intro h hfail
    have hn : ¬ ((vfs.entryCache_.Get vfs.now parent name ino).1 = true) := by simp [h]
    obtain ⟨hout, hsub⟩ := EntryCache_Get_miss _ _ _ _ _ h
    refine ⟨?_, hsub⟩
    unfold VFS.DoLookup
    simp only []
    rw [if_neg hn, if_pos hfail, hout]
    simp [VFS.record]

/-- C16 at the sample file system: a miss with a successful remote lookup of `/b`, then
a hit on the state it left. -/
theorem VFS.dolookup_cache_then_remote_witness :
    (VFS.DoLookup sampleEnv sampleVfs 1 "b" 0).1 = CURVEFS_ERROR.OK ∧
    (VFS.DoLookup sampleEnv sampleVfs 1 "b" 0).2.1 = 3 ∧
    VFS.DoLookup sampleEnv (VFS.DoLookup sampleEnv sampleVfs 1 "b" 0).2.2 1 "b" 0
      = (CURVEFS_ERROR.OK, 3,
          { (VFS.DoLookup sampleEnv sampleVfs 1 "b" 0).2.2 with
            log := [VfsEv.entryCacheGet 1 "b", VfsEv.opLookup 1 "b",
                    VfsEv.entryCacheGet 1 "b"] }) := by
  have h1 := (VFS.dolookup_cache_then_remote sampleEnv sampleVfs 1 "b" 0).2.1
    (by decide) (by decide)
  have h2 := ((VFS.dolookup_cache_then_remote sampleEnv
    (VFS.DoLookup sampleEnv sampleVfs 1 "b" 0).2.2 1 "b" 0).1 (by decide)).1
  refine ⟨by rw [h1], by rw [h1]; decide, ?_⟩
  rw [h2]
  decide

/-- C15 fails as stated: in the file system whose only object is `/l`, a symbolic link
to `/l`, no depth of recursion is enough for `Lookup("/l", true)` to return. -/
theorem VFS.lookup_link_cycle_counterexample :
    ¬ ∃ fuel, (VFS.Lookup loopEnv fuel sampleVfs "/l" true Entry.empty).isSome = true := by
  rintro ⟨fuel, h⟩
  have hexp : AllExpired sampleVfs := by
    refine ⟨?_, ?_⟩ <;> intro r hr <;> simp [sampleVfs] at hr
  rw [loop_Lookup_none fuel sampleVfs Entry.empty hexp] at h
  exact Bool.noConfusion h

/-- C15 as amended (no depth bound; termination follows the links).  The walk over the
components of one path always ends when the recursive calls on link targets return, so
a call of `VFS::Lookup` that may recurse one level deeper returns whenever every call
of the shallower depth returns; a call that returns with some depth of recursion returns
the same result with any greater depth; and when neither the metadata side nor the
attribute cache ever reports the attributes of a symbolic link, the call returns
without recursion. -/
theorem VFS.lookup_terminates_when_links_do (env : Env) :
    (∀ (recur : VFS → String → Bool → Entry → Option LookupResult)
        (names rest : List String) (followSymlink : Bool) (i : Nat) (parent : Ino)
        (rc : CURVEFS_ERROR) (entry : Entry) (vfs : VFS),
      (∀ v t f e, (recur v t f e).isSome = true) →
      (VFS.LookupLoop env recur names followSymlink rest i parent rc entry vfs).isSome = true) ∧
    (∀ (fuel : Nat),
      (∀ vfs path followSymlink entry,
        (VFS.Lookup env fuel vfs path followSymlink entry).isSome = true) →
      ∀ vfs path followSymlink entry,
        (VFS.Lookup env (fuel + 1) vfs path followSymlink entry).isSome = true) ∧
    (∀ (fuel more : Nat) (vfs : VFS) (path : String) (followSymlink : Bool) (entry : Entry)
        (r : LookupResult),
      VFS.Lookup env fuel vfs path followSymlink entry = some r →
      VFS.Lookup env (fuel + more) vfs path followSymlink entry = some r) ∧
    ((∀ p n, IsSymlink (env.op_.Lookup p n).2.attr = false) →
      (∀ i, IsSymlink (env.op_.GetAttr i).2.attr = false) →
      ∀ (vfs : VFS) (path : String) (followSymlink : Bool) (entry : Entry),
        (∀ r ∈ vfs.attrCache_.records, IsSymlink r.attr = false) →
        (VFS.Lookup env 1 vfs path followSymlink entry).isSome = true) := by
  refine ⟨?_, ?_, ?_, ?_⟩
  · intro recur names rest followSymlink i parent rc entry vfs htot
    exact LookupLoop_total env recur htot names followSymlink rest i parent rc entry vfs
  · intro fuel htot vfs path followSymlink entry
    unfold VFS.Lookup
    by_cases hp : path = "/"
    · rw [if_pos hp]
      rfl
    · rw [if_neg hp]
      exact LookupLoop_total env (VFS.Lookup env fuel) htot _ _ _ _ _ _ _ _
  · intro fuel more vfs path followSymlink entry r h
    exact Lookup_mono env fuel more vfs path followSymlink entry r h
  · intro hL hG vfs path followSymlink entry hc
    unfold VFS.Lookup
    by_cases hp : path = "/"
    · rw [if_pos hp]
      rfl
    · rw [if_neg hp]
      exact LookupLoop_nolink env (VFS.Lookup env 0) hL hG _ _ _ _ _ _ _ _ hc

/-- C15 as amended, at the link-free sample file system: the walk of `/d/f` returns
without recursion. -/
theorem VFS.lookup_terminates_when_links_do_witness :
    (VFS.Lookup plainEnv 1 sampleVfs "/d/f" true Entry.empty).isSome = true := by
  have hn : ∀ n ∈ plainNodes, IsSymlink n.attr = false := by decide
  have hL : ∀ p n, IsSymlink (plainEnv.op_.Lookup p n).2.attr = false :=
    (tableOp_nolink plainNodes 1 hn).1
  have hG : ∀ i, IsSymlink (plainEnv.op_.GetAttr i).2.attr = false :=
    (tableOp_nolink plainNodes 1 hn).2
  exact (VFS.lookup_terminates_when_links_do plainEnv).2.2.2 hL hG sampleVfs "/d/f" true
    Entry.empty (by intro r hr; simp [sampleVfs] at hr)

/-! ## Permission contexts -/

/-- C18, the code at the empty gid list: `VFS::SetPermission` reads `gids[0]` in the
initialiser of its option whatever the size of the vector, so that with an empty list
the read is out of bounds and no option is built (first conjunct, and the third at
uid 1000 and umask 18); with a non-empty list it stores `gids[0]` as primary gid and
returns OK.  Its sibling `OperationsImpl::NewFuseContext` tests the size first and
takes 0 for the same empty list (last conjunct). -/
theorem VFS.setPermission_reads_first_gid :
    (∀ uid umask needCheck, VFS.SetPermission uid [] umask needCheck = none) ∧
    (∀ uid g rest umask needCheck,
      VFS.SetPermission uid (g :: rest) umask needCheck =
        some (CURVEFS_ERROR.OK,
          { uid := uid, gid := g, gids := g :: rest, umask := umask,
            needCheck := needCheck })) ∧
    VFS.SetPermission 1000 [] 18 true = none ∧
    (OperationsImpl.NewFuseContext { uid := 1000, gids := [], umask := 18 }).gid = 0 := by
  refine ⟨?_, ?_, ?_, ?_⟩
  · intro uid umask needCheck; simp [VFS.SetPermission]
  · intro uid g rest umask needCheck; simp [VFS.SetPermission]
  · rfl
  · rfl

/-- C19: the context that `OperationsImpl::NewFuseContext` builds copies the uid and the
umask of the user permission option, and its gid is the first element of the gid list
when there is one and 0 when the list is empty; the function is total, the read of the
first element being made under the size test only. -/
theorem OperationsImpl.newFuseContext_primary_gid (userPerm : UserPermissionOption) :
    (OperationsImpl.NewFuseContext userPerm).uid = userPerm.uid ∧
    (OperationsImpl.NewFuseContext userPerm).umask = userPerm.umask ∧
    (OperationsImpl.NewFuseContext userPerm).gid = (userPerm.gids[0]?).getD 0 ∧
    (userPerm.gids = [] → (OperationsImpl.NewFuseContext userPerm).gid = 0) ∧
    (∀ g rest, userPerm.gids = g :: rest →
      (OperationsImpl.NewFuseContext userPerm).gid = g) := by
  obtain ⟨uid, gids, umask⟩ := userPerm
  cases gids with
  | nil => simp [OperationsImpl.NewFuseContext]
  | cons g rest => simp [OperationsImpl.NewFuseContext]

/-! ## `FuseClient`: name length and directory removal -/

/-- The calls made by `UpdateParentMCTimeAndNlink` come after those made before it. -/
theorem UpdateParent_continues (w : FuseWorld) (option_ : FuseClientOption) (tr : List FuseEv)
    (parent : Ino) (type : FsFileType) (nlink : NlinkChange) :
    tr <+: (FuseClient.UpdateParentMCTimeAndNlink w option_ tr parent type nlink).2 := by
  unfold FuseClient.UpdateParentMCTimeAndNlink
  simp only
  split_ifs <;> simp [List.append_assoc]

/-- The calls made by a run of rename steps come after those made before it. -/
theorem returnIfUnsuccess_continues (w : FuseWorld) (steps : List RenameStep) :
    ∀ tr : List FuseEv, tr <+: (FuseClient.returnIfUnsuccess w steps tr).2 := by
  induction steps with
  | nil => intro tr; simp [FuseClient.returnIfUnsuccess]
  | cons step rest ih =>
    intro tr
    unfold FuseClient.returnIfUnsuccess
    simp only
    split_ifs
    · simp
    · exact (List.prefix_append tr _).trans (ih _)

/-- A name within the limit: `MakeNode` goes on to `CreateInode` with the parameters it
filled. -/
theorem MakeNode_continues (w : FuseWorld) (option_ : FuseClientOption) (ctx : FuseCtx)
    (tr : List FuseEv) (parent : Ino) (name : String) (mode : Nat) (type : FsFileType)
    (rdev : Nat) (inodeWrapper : Option Ino) (h : strlen name ≤ option_.maxNameLength) :
    tr ++ [FuseEv.createInode
        { fsId := option_.fsid,
          length := if FsFileType.TYPE_DIRECTORY = type then 4096 else 0,
          uid := ctx.uid, gid := ctx.gid, mode := mode, type := type, rdev := rdev,
          parent := parent, symlink := "" }] <+:
      (FuseClient.MakeNode w option_ ctx tr parent name mode type rdev inodeWrapper).2.2 := by
  have hn : ¬ strlen name > option_.maxNameLength := Nat.not_lt.mpr h
  unfold FuseClient.MakeNode
  rw [if_neg hn]
  simp only
  generalize tr ++ [FuseEv.createInode _] = tr1
  split_ifs
  · exact List.prefix_refl _
  · simp [List.append_assoc]
  · exact (List.prefix_append _ _).trans (UpdateParent_continues _ _ _ _ _ _)
  · exact ((List.prefix_append _ _).trans (UpdateParent_continues _ _ _ _ _ _)).trans
      (List.prefix_append _ _)
  · exact (List.prefix_append _ _).trans (UpdateParent_continues _ _ _ _ _ _)

/-- A name within the limit: `RemoveNode` goes on to `GetDentry`. -/
theorem RemoveNode_continues (w : FuseWorld) (option_ : FuseClientOption)
    (tr : List FuseEv) (parent : Ino) (name : String) (type : FsFileType)
    (h : strlen name ≤ option_.maxNameLength) :
    tr ++ [FuseEv.getDentry parent name] <+:
      (FuseClient.RemoveNode w option_ tr parent name type).2 := by
  have hn : ¬ strlen name > option_.maxNameLength := Nat.not_lt.mpr h
  unfold FuseClient.RemoveNode
  rw [if_neg hn]
  simp only
  generalize tr ++ [FuseEv.getDentry parent name] = tr1
  have h2 : tr1 <+: (if FsFileType.TYPE_DIRECTORY = type
      then tr1 ++ [FuseEv.listDentry (w.dentryOf tr1).inodeid option_.listDentryLimit]
      else tr1) := by
    split_ifs
    · exact List.prefix_append _ _
    · exact List.prefix_refl _
  generalize (if FsFileType.TYPE_DIRECTORY = type
      then tr1 ++ [FuseEv.listDentry (w.dentryOf tr1).inodeid option_.listDentryLimit]
      else tr1) = tr2 at h2
  have h3 : tr1 <+: tr2 ++ [FuseEv.deleteDentry parent name type] :=
    h2.trans (List.prefix_append _ _)
  generalize tr2 ++ [FuseEv.deleteDentry parent name type] = tr3 at h3
  have h4 := h3.trans (UpdateParent_continues w option_ tr3 parent type NlinkChange.kSubOne)
  generalize FuseClient.UpdateParentMCTimeAndNlink w option_ tr3 parent type
    NlinkChange.kSubOne = up at h4
  split_ifs
  · exact List.prefix_refl _
  · exact h2
  · exact h2
  · exact h3
  · exact h4
  · exact h4.trans (List.prefix_append _ _)
  · exact (h4.trans (List.prefix_append _ _)).trans
      ((List.prefix_append _ _).trans (List.prefix_append _ _))
  · exact (h4.trans (List.prefix_append _ _)).trans (List.prefix_append _ _)

/-- A name within the limit: `FuseOpSymlink` goes on to `CreateInode` with the parameters
it filled. -/
theorem FuseOpSymlink_continues (w : FuseWorld) (option_ : FuseClientOption) (ctx : FuseCtx)
    (tr : List FuseEv) (link : String) (parent : Ino) (name : String) (attr : InodeAttr)
    (h : strlen name ≤ option_.maxNameLength) :
    tr ++ [FuseEv.createInode
        { fsId := option_.fsid, length := strlen link, uid := ctx.uid, gid := ctx.gid,
          mode := 40960 + 511, type := FsFileType.TYPE_SYM_LINK, rdev := 0,
          parent := parent, symlink := link }] <+:
      (FuseClient.FuseOpSymlink w option_ ctx tr link parent name attr).2.2 := by
  have hn : ¬ strlen name > option_.maxNameLength := Nat.not_lt.mpr h
  unfold FuseClient.FuseOpSymlink
  rw [if_neg hn]
  simp only
  generalize tr ++ [FuseEv.createInode _] = tr1
  split_ifs
  · exact List.prefix_refl _
  · simp [List.append_assoc]
  · exact (List.prefix_append _ _).trans (UpdateParent_continues _ _ _ _ _ _)
  · exact ((List.prefix_append _ _).trans (UpdateParent_continues _ _ _ _ _ _)).trans
      (List.prefix_append _ _)
  · exact (List.prefix_append _ _).trans (UpdateParent_continues _ _ _ _ _ _)

/-- A name within the limit: `FuseOpLink` goes on to `GetInode`. -/
theorem FuseOpLink_continues (w : FuseWorld) (option_ : FuseClientOption)
    (tr : List FuseEv) (ino : Ino) (newparent : Ino) (newname : String) (type : FsFileType)
    (attr : InodeAttr) (h : strlen newname ≤ option_.maxNameLength) :
    tr ++ [FuseEv.getInode ino] <+:
      (FuseClient.FuseOpLink w option_ tr ino newparent newname type attr).2.2 := by
  have hn : ¬ strlen newname > option_.maxNameLength := Nat.not_lt.mpr h
  unfold FuseClient.FuseOpLink
  rw [if_neg hn]
  simp only
  generalize tr ++ [FuseEv.getInode ino] = tr1
  split_ifs
  · exact List.prefix_refl _
  · exact List.prefix_append _ _
  · simp [List.append_assoc]
  · exact ((List.prefix_append _ _).trans (List.prefix_append _ _)).trans
      (UpdateParent_continues _ _ _ _ _ _)
  · exact (((List.prefix_append _ _).trans (List.prefix_append _ _)).trans
      (UpdateParent_continues _ _ _ _ _ _)).trans (List.prefix_append _ _)
  · exact ((List.prefix_append _ _).trans (List.prefix_append _ _)).trans
      (UpdateParent_continues _ _ _ _ _ _)

/-- Both names within the limit and no flag: `FuseOpRename` constructs the operator and
calls its `GetTxId`. -/
theorem FuseOpRename_continues (w : FuseWorld) (option_ : FuseClientOption)
    (tr : List FuseEv) (parent : Ino) (name : String) (newparent : Ino) (newname : String)
    (h : strlen name ≤ option_.maxNameLength) (h2 : strlen newname ≤ option_.maxNameLength) :
    tr ++ [FuseEv.renameOperator parent name newparent newname,
           FuseEv.rename RenameStep.GetTxId] <+:
      (FuseClient.FuseOpRename w option_ tr parent name newparent newname 0).2 := by
  have hn : ¬ (strlen name > option_.maxNameLength ∨ strlen newname > option_.maxNameLength) := by
    rintro (h3 | h3)
    · exact Nat.not_lt.mpr h h3
    · exact Nat.not_lt.mpr h2 h3
  unfold FuseClient.FuseOpRename
  rw [if_neg (by simp), if_neg hn]
  simp only
  have h0 : tr ++ [FuseEv.renameOperator parent name newparent newname,
           FuseEv.rename RenameStep.GetTxId] <+:
      (FuseClient.returnIfUnsuccess w
        [RenameStep.GetTxId, RenameStep.Precheck, RenameStep.RecordOldInodeInfo,
         RenameStep.LinkDestParentInode, RenameStep.PrepareTx, RenameStep.CommitTx]
        (tr ++ [FuseEv.renameOperator parent name newparent newname])).2 := by
    have e : tr ++ [FuseEv.renameOperator parent name newparent newname,
           FuseEv.rename RenameStep.GetTxId] =
        (tr ++ [FuseEv.renameOperator parent name newparent newname]) ++
          [FuseEv.rename RenameStep.GetTxId] := by simp
    rw [e]
    generalize tr ++ [FuseEv.renameOperator parent name newparent newname] = tr0
    rw [FuseClient.returnIfUnsuccess]
    split_ifs
    · exact List.prefix_refl _
    · exact returnIfUnsuccess_continues w _ _
  generalize FuseClient.returnIfUnsuccess w _ _ = tx at h0
  split_ifs
  · exact h0
  · exact (h0.trans (List.prefix_append _ _)).trans
      ((List.prefix_append _ _).trans ((List.prefix_append _ _).trans (List.prefix_append _ _)))
  · exact (h0.trans (List.prefix_append _ _)).trans
      ((List.prefix_append _ _).trans (List.prefix_append _ _))
  · exact (h0.trans (List.prefix_append _ _)).trans
      ((List.prefix_append _ _).trans (List.prefix_append _ _))
  · exact (h0.trans (List.prefix_append _ _)).trans (List.prefix_append _ _)

/-- C17: a name longer than `maxNameLength` makes `MakeNode`, `RemoveNode`, `FuseOpSymlink`
and `FuseOpLink` return NAMETOOLONG, and `FuseOpRename` with flags 0 return NAMETOOLONG
whether it is the old or the new name, with no call made on the inode manager, the dentry
manager, an inode wrapper or the rename operator (the calls recorded are those recorded
before); a name whose length is exactly `maxNameLength` passes the check, each function
going on to its first call on a collaborator. -/
theorem FuseClient.name_too_long_rejected (w : FuseWorld) (option_ : FuseClientOption)
    (ctx : FuseCtx) (tr : List FuseEv) (parent newparent ino : Ino)
    (name fit link : String) (mode rdev : Nat) (type : FsFileType)
    (inodeWrapper : Option Ino) (attr : InodeAttr)
    (hlong : strlen name > option_.maxNameLength)
    (hfit : strlen fit = option_.maxNameLength) :
    (FuseClient.MakeNode w option_ ctx tr parent name mode type rdev inodeWrapper =
        (CURVEFS_ERROR.NAMETOOLONG, inodeWrapper, tr) ∧
      FuseClient.RemoveNode w option_ tr parent name type =
        (CURVEFS_ERROR.NAMETOOLONG, tr) ∧
      FuseClient.FuseOpSymlink w option_ ctx tr link parent name attr =
        (CURVEFS_ERROR.NAMETOOLONG, attr, tr) ∧
      FuseClient.FuseOpLink w option_ tr ino newparent name type attr =
        (CURVEFS_ERROR.NAMETOOLONG, attr, tr) ∧
      (∀ other : String, FuseClient.FuseOpRename w option_ tr parent name newparent other 0 =
        (CURVEFS_ERROR.NAMETOOLONG, tr)) ∧
      (∀ other : String, FuseClient.FuseOpRename w option_ tr parent other newparent name 0 =
        (CURVEFS_ERROR.NAMETOOLONG, tr))) ∧
    (tr ++ [FuseEv.createInode
          { fsId := option_.fsid,
            length := if FsFileType.TYPE_DIRECTORY = type then 4096 else 0,
            uid := ctx.uid, gid := ctx.gid, mode := mode, type := type, rdev := rdev,
            parent := parent, symlink := "" }] <+:
        (FuseClient.MakeNode w option_ ctx tr parent fit mode type rdev inodeWrapper).2.2 ∧
      tr ++ [FuseEv.getDentry parent fit] <+:
        (FuseClient.RemoveNode w option_ tr parent fit type).2 ∧
      tr ++ [FuseEv.createInode
          { fsId := option_.fsid, length := strlen link, uid := ctx.uid, gid := ctx.gid,
            mode := 40960 + 511, type := FsFileType.TYPE_SYM_LINK, rdev := 0,
            parent := parent, symlink := link }] <+:
        (FuseClient.FuseOpSymlink w option_ ctx tr link parent fit attr).2.2 ∧
      tr ++ [FuseEv.getInode ino] <+:
        (FuseClient.FuseOpLink w option_ tr ino newparent fit type attr).2.2 ∧
      tr ++ [FuseEv.renameOperator parent fit newparent fit,
             FuseEv.rename RenameStep.GetTxId] <+:
        (FuseClient.FuseOpRename w option_ tr parent fit newparent fit 0).2) := by
  have hle : strlen fit ≤ option_.maxNameLength := Nat.le_of_eq hfit
  refine ⟨⟨?_, ?_, ?_, ?_, ?_, ?_⟩, ?_, ?_, ?_, ?_, ?_⟩
  · unfold FuseClient.MakeNode
    rw [if_pos hlong]
  · unfold FuseClient.RemoveNode
    rw [if_pos hlong]
  · unfold FuseClient.FuseOpSymlink
    rw [if_pos hlong]
  · unfold FuseClient.FuseOpLink
    rw [if_pos hlong]
  · intro other
    unfold FuseClient.FuseOpRename
    rw [if_neg (by simp), if_pos (Or.inl hlong)]
  · intro other
    unfold FuseClient.FuseOpRename
    rw [if_neg (by simp), if_pos (Or.inr hlong)]
  · exact MakeNode_continues w option_ ctx tr parent fit mode type rdev inodeWrapper hle
  · exact RemoveNode_continues w option_ tr parent fit type hle
  · exact FuseOpSymlink_continues w option_ ctx tr link parent fit attr hle
  · exact FuseOpLink_continues w option_ tr ino newparent fit type attr hle
  · exact FuseOpRename_continues w option_ tr parent fit newparent fit hle hle

/-- C17 at a limit of 3 bytes: the name `abcd` is rejected by `MakeNode` and `RemoveNode`
with nothing called, the name `abc` is not. -/
theorem FuseClient.name_too_long_rejected_witness :
    strlen "abcd" > sampleOption.maxNameLength ∧
    strlen "abc" = sampleOption.maxNameLength ∧
    FuseClient.MakeNode sampleWorld sampleOption { uid := 0, gid := 0 } [] 1 "abcd" 420
        FsFileType.TYPE_FILE 0 none = (CURVEFS_ERROR.NAMETOOLONG, none, []) ∧
    FuseClient.RemoveNode sampleWorld sampleOption [] 1 "abcd" FsFileType.TYPE_FILE =
        (CURVEFS_ERROR.NAMETOOLONG, []) ∧
    [] ++ [FuseEv.getDentry 1 "abc"] <+:
        (FuseClient.RemoveNode sampleWorld sampleOption [] 1 "abc" FsFileType.TYPE_FILE).2 :=
  have h := FuseClient.name_too_long_rejected sampleWorld sampleOption { uid := 0, gid := 0 }
    [] 1 2 5 "abcd" "abc" "tgt" 420 0 FsFileType.TYPE_FILE none InodeAttr.empty
    (by decide) (by decide)
  ⟨by decide, by decide, h.1.1, h.1.2.1, h.2.2.1⟩

/-- C20, the claim as stated fails for a name over the limit: with a limit of 3 bytes,
the dentry of `long` under the root exists and the listing of its inode succeeds with
one entry, and `RemoveNode` with type directory, hence `FuseOpRmDir`, returns
NAMETOOLONG, not NOTEMPTY. -/
theorem FuseClient.rmdir_long_name_counterexample :
    sampleWorld.rc ([] ++ [FuseEv.getDentry 1 "long"]) = CURVEFS_ERROR.OK ∧
    (sampleWorld.dentryOf ([] ++ [FuseEv.getDentry 1 "long"])).name = "long" ∧
    (sampleWorld.dentryOf ([] ++ [FuseEv.getDentry 1 "long"])).inodeid = 10 ∧
    sampleWorld.rc ([] ++ [FuseEv.getDentry 1 "long"] ++ [FuseEv.listDentry 10 1]) =
      CURVEFS_ERROR.OK ∧
    (sampleWorld.dentries
      ([] ++ [FuseEv.getDentry 1 "long"] ++ [FuseEv.listDentry 10 1])).length = 1 ∧
    FuseClient.RemoveNode sampleWorld sampleOption [] 1 "long" FsFileType.TYPE_DIRECTORY =
      (CURVEFS_ERROR.NAMETOOLONG, []) ∧
    FuseClient.FuseOpRmDir sampleWorld sampleOption [] 1 "long" =
      (CURVEFS_ERROR.NAMETOOLONG, []) := by
  decide

/-- C20 as amended: when the name is within `maxNameLength`, `GetDentry` finds the dentry
and `ListDentry` on its inode succeeds with a non-empty list, `RemoveNode` with type
directory, hence `FuseOpRmDir`, returns NOTEMPTY having called `GetDentry` and
`ListDentry` and nothing else: no `DeleteDentry`, no update of the parent's times or
nlink, no `GetInode` and no `UnLink`. -/
theorem FuseClient.rmdir_not_empty (w : FuseWorld) (option_ : FuseClientOption)
    (tr : List FuseEv) (parent : Ino) (name : String)
    (hlen : strlen name ≤ option_.maxNameLength)
    (hget : w.rc (tr ++ [FuseEv.getDentry parent name]) = CURVEFS_ERROR.OK)
    (hlist : w.rc (tr ++ [FuseEv.getDentry parent name] ++
      [FuseEv.listDentry (w.dentryOf (tr ++ [FuseEv.getDentry parent name])).inodeid
        option_.listDentryLimit]) = CURVEFS_ERROR.OK)
    (hne : w.dentries (tr ++ [FuseEv.getDentry parent name] ++
      [FuseEv.listDentry (w.dentryOf (tr ++ [FuseEv.getDentry parent name])).inodeid
        option_.listDentryLimit]) ≠ []) :
    FuseClient.RemoveNode w option_ tr parent name FsFileType.TYPE_DIRECTORY =
      (CURVEFS_ERROR.NOTEMPTY, tr ++ [FuseEv.getDentry parent name] ++
        [FuseEv.listDentry (w.dentryOf (tr ++ [FuseEv.getDentry parent name])).inodeid
          option_.listDentryLimit]) ∧
    FuseClient.FuseOpRmDir w option_ tr parent name =
      (CURVEFS_ERROR.NOTEMPTY, tr ++ [FuseEv.getDentry parent name] ++
        [FuseEv.listDentry (w.dentryOf (tr ++ [FuseEv.getDentry parent name])).inodeid
          option_.listDentryLimit]) ∧
    (∀ ev ∈ (FuseClient.RemoveNode w option_ tr parent name FsFileType.TYPE_DIRECTORY).2,
      ev ∈ tr ∨ ev = FuseEv.getDentry parent name ∨
      ev = FuseEv.listDentry (w.dentryOf (tr ++ [FuseEv.getDentry parent name])).inodeid
        option_.listDentryLimit) := by
  have hn : ¬ strlen name > option_.maxNameLength := Nat.not_lt.mpr hlen
  have key : FuseClient.RemoveNode w option_ tr parent name FsFileType.TYPE_DIRECTORY =
      (CURVEFS_ERROR.NOTEMPTY, tr ++ [FuseEv.getDentry parent name] ++
        [FuseEv.listDentry (w.dentryOf (tr ++ [FuseEv.getDentry parent name])).inodeid
          option_.listDentryLimit]) := by
    unfold FuseClient.RemoveNode
    rw [if_neg hn]
    simp only
    rw [if_neg (by rw [hget]; simp)]
    simp only [if_true, true_and]
    rw [if_neg (by rw [hlist]; simp), if_pos hne]
  refine ⟨key, ?_, ?_⟩
  · unfold FuseClient.FuseOpRmDir
    exact key
  · intro ev hev
    rw [key] at hev
    simp only [List.mem_append, List.mem_singleton] at hev
    rcases hev with (h | h) | h
    · exact Or.inl h
    · exact Or.inr (Or.inl h)
    · exact Or.inr (Or.inr h)

/-- C20 as amended, at a limit of 3 bytes: removing the directory `dir` of the root,
whose listing holds one entry, returns NOTEMPTY after `GetDentry` and `ListDentry`. -/
theorem FuseClient.rmdir_not_empty_witness :
    strlen "dir" ≤ sampleOption.maxNameLength ∧
    FuseClient.RemoveNode sampleWorld sampleOption [] 1 "dir" FsFileType.TYPE_DIRECTORY =
      (CURVEFS_ERROR.NOTEMPTY, [FuseEv.getDentry 1 "dir", FuseEv.listDentry 10 1]) :=
  ⟨by decide,
   (FuseClient.rmdir_not_empty sampleWorld sampleOption [] 1 "dir" (by decide) (by decide)
     (by decide) (by decide)).1⟩

/-! ## The rename transaction -/

/-- A run of steps whose answers are all OK invokes every step and ends OK. -/
theorem returnIfUnsuccess_all (w : FuseWorld) (steps : List RenameStep) :
    ∀ tr : List FuseEv,
      (∀ k, k < steps.length → w.rc (tr ++ (steps.take (k + 1)).map FuseEv.rename)
        = CURVEFS_ERROR.OK) →
      FuseClient.returnIfUnsuccess w steps tr
        = (CURVEFS_ERROR.OK, tr ++ steps.map FuseEv.rename) := by
  induction steps with
  | nil => intro tr _; simp [FuseClient.returnIfUnsuccess]
  | cons step rest ih =>
    intro tr h
    have h0 : w.rc (tr ++ [FuseEv.rename step]) = CURVEFS_ERROR.OK := by
      simpa using h 0 (by simp)
    unfold FuseClient.returnIfUnsuccess
    simp only
    rw [if_neg (by rw [h0]; simp)]
    rw [ih (tr ++ [FuseEv.rename step])]
    · simp
    · intro k hk
      have := h (k + 1) (by simpa using hk)
      simpa [List.append_assoc] using this

/-- A run of steps stops at the first step whose answer is not OK, with that answer. -/
theorem returnIfUnsuccess_first (w : FuseWorld) (steps : List RenameStep) :
    ∀ (tr : List FuseEv) (k : Nat), k < steps.length →
      (∀ j, j < k → w.rc (tr ++ (steps.take (j + 1)).map FuseEv.rename)
        = CURVEFS_ERROR.OK) →
      w.rc (tr ++ (steps.take (k + 1)).map FuseEv.rename) ≠ CURVEFS_ERROR.OK →
      FuseClient.returnIfUnsuccess w steps tr
        = (w.rc (tr ++ (steps.take (k + 1)).map FuseEv.rename),
           tr ++ (steps.take (k + 1)).map FuseEv.rename) := by
  induction steps with
  | nil => intro tr k hk; simp at hk
  | cons step rest ih =>
    intro tr k hk hok hbad
    unfold FuseClient.returnIfUnsuccess
    simp only
    cases k with
    | zero =>
      have hb : w.rc (tr ++ [FuseEv.rename step]) ≠ CURVEFS_ERROR.OK := by simpa using hbad
      rw [if_pos hb]
      simp
    | succ k =>
      have h0 : w.rc (tr ++ [FuseEv.rename step]) = CURVEFS_ERROR.OK := by
        simpa using hok 0 (by omega)
      rw [if_neg (by rw [h0]; simp)]
      have := ih (tr ++ [FuseEv.rename step]) k (by simpa using hk)
        (by
          intro j hj
          have := hok (j + 1) (by omega)
          simpa [List.append_assoc] using this)
        (by simpa [List.append_assoc] using hbad)
      simpa [List.append_assoc] using this

/-- C26: whatever the parents and names, also names over the length limit,
`FuseOpRename` with flags other than 0 returns INVALIDPARAM with the calls recorded
being those recorded before: the flags are tested first, and no rename operator is
constructed nor any of its steps invoked. -/
theorem FuseClient.rename_flags_rejected (w : FuseWorld) (option_ : FuseClientOption)
    (tr : List FuseEv) (parent : Ino) (name : String) (newparent : Ino) (newname : String)
    (flags : Nat) (hflags : flags ≠ 0) :
    FuseClient.FuseOpRename w option_ tr parent name newparent newname flags =
      (CURVEFS_ERROR.INVALIDPARAM, tr) := by
  unfold FuseClient.FuseOpRename
  rw [if_pos hflags]

/-- C26 at a limit of 3 bytes: with flags 1 the names `abcd` and `efgh`, both over the
limit, give INVALIDPARAM and not NAMETOOLONG. -/
theorem FuseClient.rename_flags_rejected_witness :
    (1 : Nat) ≠ 0 ∧ strlen "abcd" > sampleOption.maxNameLength ∧
    FuseClient.FuseOpRename sampleWorld sampleOption [] 1 "abcd" 2 "efgh" 1 =
      (CURVEFS_ERROR.INVALIDPARAM, []) :=
  ⟨by decide, by decide,
   FuseClient.rename_flags_rejected sampleWorld sampleOption [] 1 "abcd" 2 "efgh" 1
     (by decide)⟩



/-- C27: with flags 0 and both names within the limit, `FuseOpRename` constructs the
operator and invokes GetTxId, Precheck, RecordOldInodeInfo, LinkDestParentInode,
PrepareTx and CommitTx in that order.  The first of them to answer a code other than OK
ends the function with that code and is the last call made; hence CommitTx is among the
calls only if the five steps before it, LinkDestParentInode included, answered OK.
When all six answer OK the result is OK whatever the later calls answer, and these are
UnlinkSrcParentInode, UnlinkOldInode, UpdateInodeParent exactly when the two parents
differ, UpdateCache, and the summary update when it is enabled. -/
theorem FuseClient.rename_steps_in_order (w : FuseWorld) (option_ : FuseClientOption)
    (tr : List FuseEv) (parent : Ino) (name : String) (newparent : Ino) (newname : String)
    (hname : strlen name ≤ option_.maxNameLength)
    (hnew : strlen newname ≤ option_.maxNameLength) :
    (∀ k, k < 6 →
      (∀ j, j < k → w.rc (txLog tr parent name newparent newname (j + 1)) = CURVEFS_ERROR.OK) →
      w.rc (txLog tr parent name newparent newname (k + 1)) ≠ CURVEFS_ERROR.OK →
      FuseClient.FuseOpRename w option_ tr parent name newparent newname 0 =
        (w.rc (txLog tr parent name newparent newname (k + 1)),
         txLog tr parent name newparent newname (k + 1))) ∧
    ((∀ k, k < 6 → w.rc (txLog tr parent name newparent newname (k + 1)) = CURVEFS_ERROR.OK) →
      FuseClient.FuseOpRename w option_ tr parent name newparent newname 0 =
        (CURVEFS_ERROR.OK,
         txLog tr parent name newparent newname 6 ++
           postCommit option_ parent newparent newname)) ∧
    (∀ evs : List FuseEv,
      (FuseClient.FuseOpRename w option_ tr parent name newparent newname 0).2 =
        txLog tr parent name newparent newname 0 ++ evs →
      FuseEv.rename RenameStep.CommitTx ∈ evs →
      ∀ j, j < 5 → w.rc (txLog tr parent name newparent newname (j + 1)) = CURVEFS_ERROR.OK) ∧
    (FuseEv.rename RenameStep.UpdateInodeParent ∈ postCommit option_ parent newparent newname
      ↔ parent ≠ newparent) := by
  have hn : ¬ (strlen name > option_.maxNameLength ∨
      strlen newname > option_.maxNameLength) := by
    rintro (h3 | h3)
    · exact Nat.not_lt.mpr hname h3
    · exact Nat.not_lt.mpr hnew h3
  have hfirst : ∀ k, k < 6 →
      (∀ j, j < k → w.rc (txLog tr parent name newparent newname (j + 1)) = CURVEFS_ERROR.OK) →
      w.rc (txLog tr parent name newparent newname (k + 1)) ≠ CURVEFS_ERROR.OK →
      FuseClient.FuseOpRename w option_ tr parent name newparent newname 0 =
        (w.rc (txLog tr parent name newparent newname (k + 1)),
         txLog tr parent name newparent newname (k + 1)) := by
    intro k hk hok hbad
    have hr := returnIfUnsuccess_first w txSteps
      (tr ++ [FuseEv.renameOperator parent name newparent newname]) k
      (by simpa [txSteps] using hk) hok hbad
    unfold FuseClient.FuseOpRename
    rw [if_neg (by simp), if_neg hn]
    simp only
    have e : [RenameStep.GetTxId, RenameStep.Precheck, RenameStep.RecordOldInodeInfo,
       RenameStep.LinkDestParentInode, RenameStep.PrepareTx, RenameStep.CommitTx] = txSteps := rfl
    rw [e, hr]
    dsimp only
    have hbad2 := hbad
    unfold txLog at hbad2
    rw [if_pos hbad2]
    rfl
  refine ⟨hfirst, ?_, ?_, ?_⟩
  · intro hall
    have hr := returnIfUnsuccess_all w txSteps
      (tr ++ [FuseEv.renameOperator parent name newparent newname])
      (by
        intro k hk
        exact hall k (by simpa [txSteps] using hk))
    unfold FuseClient.FuseOpRename
    rw [if_neg (by simp), if_neg hn]
    simp only
    have e : [RenameStep.GetTxId, RenameStep.Precheck, RenameStep.RecordOldInodeInfo,
       RenameStep.LinkDestParentInode, RenameStep.PrepareTx, RenameStep.CommitTx] = txSteps := rfl
    rw [e, hr]
    dsimp only
    rw [if_neg (by simp)]
    unfold txLog postCommit
    by_cases hp : parent ≠ newparent <;> by_cases hs : option_.enableSumInDir_ = true <;>
      simp [hp, hs, txSteps]
  · intro evs hevs hmem j hj
    by_contra hbad
    have hex : ∃ k, k < 5 ∧
        w.rc (txLog tr parent name newparent newname (k + 1)) ≠ CURVEFS_ERROR.OK :=
      ⟨j, hj, hbad⟩
    classical
    let k := Nat.find hex
    have hk : k < 5 ∧ w.rc (txLog tr parent name newparent newname (k + 1)) ≠ CURVEFS_ERROR.OK :=
      Nat.find_spec hex
    have hmin : ∀ i, i < k →
        w.rc (txLog tr parent name newparent newname (i + 1)) = CURVEFS_ERROR.OK := by
      intro i hi
      by_contra hc
      exact Nat.find_min hex hi ⟨by omega, hc⟩
    have hres := hfirst k (by omega) hmin hk.2
    rw [hres] at hevs
    have hevs2 : (txSteps.take (k + 1)).map FuseEv.rename = evs := by
      have : txLog tr parent name newparent newname 0 ++
          (txSteps.take (k + 1)).map FuseEv.rename =
          txLog tr parent name newparent newname 0 ++ evs := by
        rw [← hevs]
        simp [txLog]
      exact List.append_cancel_left this
    rw [← hevs2] at hmem
    have hk5 : k < 5 := hk.1
    clear_value k
    interval_cases k <;> simp [txSteps] at hmem
  · unfold postCommit
    by_cases hp : parent = newparent <;> by_cases hs : option_.enableSumInDir_ = true <;>
      simp [hp, hs]

/-- C27 on sample collaborators with a limit of 3 bytes: moving `a` of directory 1 to
`b` of directory 2 runs the six steps and the four later calls and returns OK, also
when every call after CommitTx answers INTERNAL; when PrepareTx answers INTERNAL that
code is returned and CommitTx is not invoked. -/
theorem FuseClient.rename_steps_in_order_witness :
    strlen "a" ≤ sampleOption.maxNameLength ∧ strlen "b" ≤ sampleOption.maxNameLength ∧
    FuseClient.FuseOpRename sampleWorld sampleOption [] 1 "a" 2 "b" 0 =
      (CURVEFS_ERROR.OK,
       txLog [] 1 "a" 2 "b" 6 ++ postCommit sampleOption 1 2 "b") ∧
    FuseClient.FuseOpRename postCommitFailWorld sampleOption [] 1 "a" 2 "b" 0 =
      (CURVEFS_ERROR.OK,
       [FuseEv.renameOperator 1 "a" 2 "b", FuseEv.rename RenameStep.GetTxId,
        FuseEv.rename RenameStep.Precheck, FuseEv.rename RenameStep.RecordOldInodeInfo,
        FuseEv.rename RenameStep.LinkDestParentInode, FuseEv.rename RenameStep.PrepareTx,
        FuseEv.rename RenameStep.CommitTx, FuseEv.rename RenameStep.UnlinkSrcParentInode,
        FuseEv.rename RenameStep.UnlinkOldInode, FuseEv.rename RenameStep.UpdateInodeParent,
        FuseEv.rename RenameStep.UpdateCache]) ∧
    FuseClient.FuseOpRename prepareFailWorld sampleOption [] 1 "a" 2 "b" 0 =
      (CURVEFS_ERROR.INTERNAL,
       [FuseEv.renameOperator 1 "a" 2 "b", FuseEv.rename RenameStep.GetTxId,
        FuseEv.rename RenameStep.Precheck, FuseEv.rename RenameStep.RecordOldInodeInfo,
        FuseEv.rename RenameStep.LinkDestParentInode, FuseEv.rename RenameStep.PrepareTx]) :=
  ⟨by decide, by decide,
   (FuseClient.rename_steps_in_order sampleWorld sampleOption [] 1 "a" 2 "b"
     (by decide) (by decide)).2.1 (fun _ _ => rfl),
   by decide, by decide⟩

/-! ## Reading a directory through the FUSE client -/

/-- A handler whose flag is set is served without a fetch and left as it is. -/
theorem FuseOpReadDir_padded (fs_ : FileSystem) (tr : List FuseEv) (handler : DirHandler)
    (ino : Ino) (fh size off : Nat) (plus : Bool) (bufferOut : Option Nat) (rSize : Nat)
    (hpad : handler.padding = true) :
    FuseClient.FuseOpReadDir fs_ tr handler ino fh size off plus bufferOut rSize =
      { rc := CURVEFS_ERROR.OK,
        bufferOut := if off < handler.buffer.length then some off else none,
        rSize := if off < handler.buffer.length then min (handler.buffer.length - off) size
                 else 0,
        handler := handler, calls := tr } := by
  unfold FuseClient.FuseOpReadDir
  simp only [hpad, Bool.not_true, Bool.false_eq_true, if_false, ne_eq, not_true_eq_false]
  by_cases h : off < handler.buffer.length
  · simp [h]
  · simp [h]

/-- Calls on a handler whose flag is set leave the handler and the calls made. -/
theorem readDirCalls_padded (fs_ : FileSystem) (ino : Ino) (fh : Nat)
    (calls : List (Nat × Nat × Bool)) :
    ∀ (handler : DirHandler) (tr : List FuseEv), handler.padding = true →
      (FuseClient.readDirCalls fs_ ino fh calls handler tr).2 = (handler, tr) ∧
      ∀ out ∈ (FuseClient.readDirCalls fs_ ino fh calls handler tr).1,
        out.rc = CURVEFS_ERROR.OK ∧ out.handler = handler ∧ out.calls = tr := by
  induction calls with
  | nil => intro handler tr _; simp [FuseClient.readDirCalls]
  | cons c rest ih =>
    intro handler tr hpad
    obtain ⟨size, off, plus⟩ := c
    unfold FuseClient.readDirCalls
    simp only
    rw [FuseOpReadDir_padded fs_ tr handler ino fh size off plus none 0 hpad]
    simp only
    have h := ih handler tr hpad
    refine ⟨h.1, ?_⟩
    intro out hout
    rcases List.mem_cons.mp hout with h1 | h1
    · rw [h1]
      exact ⟨rfl, rfl, rfl⟩
    · exact h.2 out h1



/-- C24: a call of `FuseOpReadDir` on the handler of an open directory fetches the entry
list, by one `fs_->ReadDir`, exactly when the handler's flag `padding` is false.  A
failed fetch returns its code and leaves the flag, the buffer and the out-parameters; a
successful one adds every entry to the buffer in order and sets the flag.  A call that
does not fail serves the bytes of the buffer from `off`, at most `size` of them: for
`off` below the buffer size the pointer at `off` with length
`min (buffer size - off) size`, otherwise the null pointer with length 0.  Once the flag
is set, any further calls fetch nothing and leave the buffer unchanged.  On the sample
file system, whose first fetch fails, four calls make two fetches. -/
theorem FuseClient.readdir_fetches_until_filled (fs_ : FileSystem) (tr : List FuseEv)
    (handler : DirHandler) (ino : Ino) (fh size off : Nat) (plus : Bool)
    (bufferOut : Option Nat) (rSize : Nat) :
    (handler.padding = true →
      FuseClient.FuseOpReadDir fs_ tr handler ino fh size off plus bufferOut rSize =
        { rc := CURVEFS_ERROR.OK,
          bufferOut := if off < handler.buffer.length then some off else none,
          rSize := if off < handler.buffer.length
                   then min (handler.buffer.length - off) size else 0,
          handler := handler, calls := tr }) ∧
    (handler.padding = false →
      (fs_.ReadDir (tr ++ [FuseEv.fsReadDir ino fh])).1 ≠ CURVEFS_ERROR.OK →
      FuseClient.FuseOpReadDir fs_ tr handler ino fh size off plus bufferOut rSize =
        { rc := (fs_.ReadDir (tr ++ [FuseEv.fsReadDir ino fh])).1,
          bufferOut := bufferOut, rSize := rSize, handler := handler,
          calls := tr ++ [FuseEv.fsReadDir ino fh] }) ∧
    (handler.padding = false →
      (fs_.ReadDir (tr ++ [FuseEv.fsReadDir ino fh])).1 = CURVEFS_ERROR.OK →
      ∀ filled : List Nat,
        filled = (fs_.ReadDir (tr ++ [FuseEv.fsReadDir ino fh])).2.foldl
          (fun buffer dirEntry =>
            if plus then fs_.AddDirEntryPlus buffer dirEntry
            else fs_.AddDirEntry buffer dirEntry) handler.buffer →
        FuseClient.FuseOpReadDir fs_ tr handler ino fh size off plus bufferOut rSize =
          { rc := CURVEFS_ERROR.OK,
            bufferOut := if off < filled.length then some off else none,
            rSize := if off < filled.length then min (filled.length - off) size else 0,
            handler := { buffer := filled, padding := true },
            calls := tr ++ [FuseEv.fsReadDir ino fh] }) ∧
    ((FuseClient.FuseOpReadDir fs_ tr handler ino fh size off plus bufferOut rSize).rc =
        CURVEFS_ERROR.OK →
      (FuseClient.FuseOpReadDir fs_ tr handler ino fh size off plus bufferOut rSize).handler.padding
        = true ∧
      (FuseClient.FuseOpReadDir fs_ tr handler ino fh size off plus bufferOut rSize).window
        (FuseClient.FuseOpReadDir fs_ tr handler ino fh size off plus bufferOut rSize).handler.buffer
        = ((FuseClient.FuseOpReadDir fs_ tr handler ino fh size off plus bufferOut
            rSize).handler.buffer.drop off).take size) ∧
    (∀ calls : List (Nat × Nat × Bool), handler.padding = true →
      (FuseClient.readDirCalls fs_ ino fh calls handler tr).2 = (handler, tr) ∧
      ∀ out ∈ (FuseClient.readDirCalls fs_ ino fh calls handler tr).1,
        out.rc = CURVEFS_ERROR.OK ∧ out.handler = handler ∧ out.calls = tr) ∧
    FuseClient.readDirCalls sampleFs 7 1 [(10, 0, false), (10, 0, false), (10, 2, false),
        (10, 4, false)] { buffer := [], padding := false } [] =
      ([{ rc := CURVEFS_ERROR.INTERNAL, bufferOut := none, rSize := 0,
          handler := { buffer := [], padding := false }, calls := [FuseEv.fsReadDir 7 1] },
        { rc := CURVEFS_ERROR.OK, bufferOut := some 0, rSize := 4,
          handler := { buffer := [11, 0, 12, 0], padding := true },
          calls := [FuseEv.fsReadDir 7 1, FuseEv.fsReadDir 7 1] },
        { rc := CURVEFS_ERROR.OK, bufferOut := some 2, rSize := 2,
          handler := { buffer := [11, 0, 12, 0], padding := true },
          calls := [FuseEv.fsReadDir 7 1, FuseEv.fsReadDir 7 1] },
        { rc := CURVEFS_ERROR.OK, bufferOut := none, rSize := 0,
          handler := { buffer := [11, 0, 12, 0], padding := true },
          calls := [FuseEv.fsReadDir 7 1, FuseEv.fsReadDir 7 1] }],
       { buffer := [11, 0, 12, 0], padding := true },
       [FuseEv.fsReadDir 7 1, FuseEv.fsReadDir 7 1]) := by
  have hfail : handler.padding = false →
      (fs_.ReadDir (tr ++ [FuseEv.fsReadDir ino fh])).1 ≠ CURVEFS_ERROR.OK →
      FuseClient.FuseOpReadDir fs_ tr handler ino fh size off plus bufferOut rSize =
        { rc := (fs_.ReadDir (tr ++ [FuseEv.fsReadDir ino fh])).1,
          bufferOut := bufferOut, rSize := rSize, handler := handler,
          calls := tr ++ [FuseEv.fsReadDir ino fh] } := by
    intro hpad hrc
    unfold FuseClient.FuseOpReadDir
    simp only [hpad, Bool.not_false, if_true]
    rw [if_pos hrc]
    dsimp only
    rw [if_pos hrc]
  have hok : handler.padding = false →
      (fs_.ReadDir (tr ++ [FuseEv.fsReadDir ino fh])).1 = CURVEFS_ERROR.OK →
      ∀ filled : List Nat,
        filled = (fs_.ReadDir (tr ++ [FuseEv.fsReadDir ino fh])).2.foldl
          (fun buffer dirEntry =>
            if plus then fs_.AddDirEntryPlus buffer dirEntry
            else fs_.AddDirEntry buffer dirEntry) handler.buffer →
        FuseClient.FuseOpReadDir fs_ tr handler ino fh size off plus bufferOut rSize =
          { rc := CURVEFS_ERROR.OK,
            bufferOut := if off < filled.length then some off else none,
            rSize := if off < filled.length then min (filled.length - off) size else 0,
            handler := { buffer := filled, padding := true },
            calls := tr ++ [FuseEv.fsReadDir ino fh] } := by
    intro hpad hrc filled hfilled
    unfold FuseClient.FuseOpReadDir
    simp only [hpad, hrc, Bool.not_false, if_true, ne_eq, not_true_eq_false, if_false]
    rw [← hfilled]
    by_cases h : off < filled.length
    · simp [h]
    · simp [h]
  have hwin : ∀ (buffer : List Nat),
      (if off < buffer.length then
          ((buffer.drop off).take (min (buffer.length - off) size))
        else []) = (buffer.drop off).take size := by
    intro buffer
    by_cases h : off < buffer.length
    · rw [if_pos h]
      apply List.ext_getElem
      · simp [Nat.min_comm]
      · intro i h1 h2
        simp
    · rw [if_neg h, List.drop_eq_nil_of_le (Nat.le_of_not_lt h)]
      simp
  refine ⟨FuseOpReadDir_padded fs_ tr handler ino fh size off plus bufferOut rSize, hfail, hok,
    ?_, ?_, by decide⟩
  · intro hrc
    cases hpad : handler.padding with
    | true =>
      rw [FuseOpReadDir_padded fs_ tr handler ino fh size off plus bufferOut rSize hpad]
      refine ⟨hpad, ?_⟩
      unfold ReadDirOut.window
      dsimp only
      rw [← hwin handler.buffer]
      by_cases h : off < handler.buffer.length <;> simp [h]
    | false =>
      by_cases hf : (fs_.ReadDir (tr ++ [FuseEv.fsReadDir ino fh])).1 = CURVEFS_ERROR.OK
      · rw [hok hpad hf _ rfl]
        refine ⟨rfl, ?_⟩
        unfold ReadDirOut.window
        dsimp only
        rw [← hwin]
        split_ifs <;> rfl
      · rw [hfail hpad hf] at hrc
        exact absurd hrc hf
  · intro calls hpad
    exact readDirCalls_padded fs_ ino fh calls handler tr hpad

/-! ## Cache invalidation by the operations of VFS -/

/-- After `PurgeAttrCache` the attribute cache holds no record of the inode. -/
theorem PurgeAttrCache_absent (vfs : VFS) (ino : Ino) :
    ∀ r ∈ (vfs.PurgeAttrCache ino).attrCache_.records, r.ino ≠ ino := by
  intro r hr
  simp only [VFS.PurgeAttrCache, VFS.record, AttrCache.Delete, List.mem_filter] at hr
  simpa using hr.2

/-- After `PurgeAttrCache` a `Get` of the inode misses. -/
theorem PurgeAttrCache_miss (vfs : VFS) (ino : Ino) (now : Nat) (out : InodeAttr) :
    ((vfs.PurgeAttrCache ino).attrCache_.Get now ino out).1 = false := by
  have h : (vfs.PurgeAttrCache ino).attrCache_.records.find? (fun x => decide (x.ino = ino))
      = none := by
    rw [List.find?_eq_none]
    intro r hr
    simpa using PurgeAttrCache_absent vfs ino r hr
  unfold AttrCache.Get
  rw [h]

/-- C21, the code.  When `SetAttr`, `Chmod` or `Write` returns OK, the last thing it
did was `PurgeAttrCache` of the inode it changed, and the attribute cache holds no
record of that inode: a `Get` of it misses.  `Chown` makes the same remote `SetAttr`
call and returns its code with both caches as the path walk left them: on the example
file system `Chown("/a", 1000, 1000)` returns OK and leaves the record of inode 2, with
the owner 0 that the walk cached, in the attribute cache, where a `Get` hits it, while
`Chmod` of the same path leaves no record. -/
theorem VFS.attr_cache_purged_except_chown :
    (∀ (w : World) (fuel : Nat) (vfs : VFS) (path : String) (stat : Stat) (toSet : Nat)
        (r1 : LookupResult),
      VFS.Lookup (w.env vfs.log) fuel vfs path true Entry.empty = some r1 →
      ∃ res, VFS.SetAttr w fuel vfs path stat toSet = some res ∧
        (res.1 = CURVEFS_ERROR.OK →
          (∃ v0 : VFS, res.2 = v0.PurgeAttrCache r1.entry.ino) ∧
          (∀ now out, (res.2.attrCache_.Get now r1.entry.ino out).1 = false))) ∧
    (∀ (w : World) (fuel : Nat) (vfs : VFS) (path : String) (mode : Nat) (r1 : LookupResult),
      VFS.Lookup (w.env vfs.log) fuel vfs path true Entry.empty = some r1 →
      ∃ res, VFS.Chmod w fuel vfs path mode = some res ∧
        (res.1 = CURVEFS_ERROR.OK →
          (∃ v0 : VFS, res.2 = v0.PurgeAttrCache r1.entry.ino) ∧
          (∀ now out, (res.2.attrCache_.Get now r1.entry.ino out).1 = false))) ∧
    (∀ (w : World) (vfs : VFS) (handlers_ : FileHandlers) (fd count nwritten : Nat)
        (fh : FileHandler),
      handlers_.GetHandler fd = some fh →
      (VFS.Write w vfs handlers_ fd count nwritten).1 = CURVEFS_ERROR.OK →
      (∃ v0 : VFS, (VFS.Write w vfs handlers_ fd count nwritten).2.2.1
          = v0.PurgeAttrCache fh.ino) ∧
      (∀ now out, ((VFS.Write w vfs handlers_ fd count nwritten).2.2.1.attrCache_.Get now
          fh.ino out).1 = false)) ∧
    (∀ (w : World) (fuel : Nat) (vfs : VFS) (path : String) (uid gid : Nat)
        (r1 : LookupResult),
      VFS.Lookup (w.env vfs.log) fuel vfs path true Entry.empty = some r1 →
      ∃ res, VFS.Chown w fuel vfs path uid gid = some res ∧
        res.2.attrCache_ = r1.vfs.attrCache_ ∧ res.2.entryCache_ = r1.vfs.entryCache_) ∧
    (VFS.Chown exampleWorld 2 sampleVfs "/a" 1000 1000).map
        (fun res => (res.1, res.2.attrCache_.records,
          res.2.attrCache_.Get res.2.now 2 InodeAttr.empty))
      = some (CURVEFS_ERROR.OK,
          [{ ino := 2, attr := sampleAttrOf 2 FsFileType.TYPE_DIRECTORY 493 0, expire := 1 }],
          (true, sampleAttrOf 2 FsFileType.TYPE_DIRECTORY 493 0,
            { capacity := 8,
              records := [{ ino := 2, attr := sampleAttrOf 2 FsFileType.TYPE_DIRECTORY 493 0,
                            expire := 1 }] })) ∧
    (VFS.Chmod exampleWorld 2 sampleVfs "/a" 448).map
        (fun res => (res.1, res.2.attrCache_.records))
      = some (CURVEFS_ERROR.OK, []) := by
  refine ⟨?_, ?_, ?_, ?_, by decide, by decide⟩
  · intro w fuel vfs path stat toSet r1 h
    simp only [VFS.SetAttr, h]
    split_ifs with h1 h2 h3
    · exact ⟨_, rfl, fun hc => absurd hc h1⟩
    · exact ⟨_, rfl, fun hc => absurd hc (by simp)⟩
    · exact ⟨_, rfl, fun _ => ⟨⟨_, rfl⟩, fun now out => PurgeAttrCache_miss _ _ now out⟩⟩
    · exact ⟨_, rfl, fun hc => absurd hc h3⟩
  · intro w fuel vfs path mode r1 h
    simp only [VFS.Chmod, h]
    split_ifs with h1 h2 h3
    · exact ⟨_, rfl, fun hc => absurd hc h1⟩
    · exact ⟨_, rfl, fun hc => absurd hc (by simp)⟩
    · exact ⟨_, rfl, fun _ => ⟨⟨_, rfl⟩, fun now out => PurgeAttrCache_miss _ _ now out⟩⟩
    · exact ⟨_, rfl, fun hc => absurd hc h3⟩
  · intro w vfs handlers_ fd count nwritten fh hfh
    simp only [VFS.Write, hfh]
    split_ifs with h1 h2 h3
    · intro hc; exact absurd hc h1
    · intro hc; exact absurd hc (by simp)
    · intro _; exact ⟨⟨_, rfl⟩, fun now out => PurgeAttrCache_miss _ _ now out⟩
    · intro hc; exact absurd hc h3
  · intro w fuel vfs path uid gid r1 h
    simp only [VFS.Chown, h]
    split_ifs with h1 h2
    · exact ⟨_, rfl, rfl, rfl⟩
    · exact ⟨_, rfl, rfl, rfl⟩
    · exact ⟨_, rfl, rfl, rfl⟩

/-- After `PurgeEntryCache` the entry cache holds no record of the key. -/
theorem PurgeEntryCache_absent (vfs : VFS) (parent : Ino) (name : String) :
    (vfs.PurgeEntryCache parent name).entryCache_.records.find?
      (EntryRecord.isKey parent name) = none := by
  rw [List.find?_eq_none]
  intro r hr
  simp only [VFS.PurgeEntryCache, VFS.record, EntryCache.Delete, List.mem_filter] at hr
  simpa using hr.2

/-- A second `PurgeEntryCache` keeps the key of the first absent. -/
theorem PurgeEntryCache_keeps_absent (vfs : VFS) (parent : Ino) (name : String)
    (parent2 : Ino) (name2 : String) :
    ((vfs.PurgeEntryCache parent name).PurgeEntryCache parent2 name2).entryCache_.records.find?
      (EntryRecord.isKey parent name) = none := by
  rw [List.find?_eq_none]
  intro r hr
  simp only [VFS.PurgeEntryCache, VFS.record, EntryCache.Delete, List.mem_filter] at hr
  simpa using hr.1.2

/-- A key without record misses in `Get`, which leaves the cache as it is. -/
theorem EntryCache_Get_absent (c : EntryCache) (now : Nat) (parent : Ino) (name : String)
    (out : Ino) (h : c.records.find? (EntryRecord.isKey parent name) = none) :
    c.Get now parent name out = (false, out, c) := by
  unfold EntryCache.Get
  rw [h]



/-- A key that is listed, or already absent, is absent after the listed purges. -/
theorem purges_absent (keys : List (Ino × String)) (parent : Ino) (name : String) :
    ∀ vfs : VFS,
      ((parent, name) ∈ keys ∨
        vfs.entryCache_.records.find? (EntryRecord.isKey parent name) = none) →
      (keys.foldl (fun v k => v.PurgeEntryCache k.1 k.2) vfs).entryCache_.records.find?
        (EntryRecord.isKey parent name) = none := by
  induction keys with
  | nil =>
    intro vfs h
    rcases h with h | h
    · simp at h
    · exact h
  | cons k rest ih =>
    intro vfs h
    rw [List.foldl_cons]
    apply ih
    by_cases hk : (parent, name) = k
    · right
      rw [← hk]
      exact PurgeEntryCache_absent vfs parent name
    · rcases h with h | h
      · left
        rcases List.mem_cons.mp h with h1 | h1
        · exact absurd h1 hk
        · exact h1
      · right
        rw [List.find?_eq_none] at h ⊢
        intro r hr
        simp only [VFS.PurgeEntryCache, VFS.record, EntryCache.Delete, List.mem_filter] at hr
        exact h r hr.1



/-- C22: once the path walks and the permission check of `DoMkDir`, `RmDir`, `Create`,
`Unlink` or `Rename` have passed, the function makes its remote mutation and returns
its code; when that code is OK it has called `PurgeEntryCache` for the parent's inode
and `Filename(path)`, for `Rename` for the old parent and old name and then for the new
parent and new name, and otherwise it has called nothing more, the state being the one
in which the mutation was answered.  After these purges a `Get` of each purged key
misses. -/
theorem VFS.entry_cache_purged_after_mutation (w : World) (fuel : Nat) :
    (∀ (vfs : VFS) (path : String) (mode : Nat) (r1 r2 : LookupResult),
      VFS.Lookup (w.env vfs.log) fuel vfs path true Entry.empty = some r1 →
      r1.rc ≠ CURVEFS_ERROR.OK →
      VFS.Lookup (w.env r1.vfs.log) fuel r1.vfs (w.ParentDir path) true Entry.empty
        = some r2 →
      r2.rc = CURVEFS_ERROR.OK → IsDir r2.entry.attr = true →
      (w.env r2.vfs.log).permission_.Check r2.entry.attr WANT_WRITE = CURVEFS_ERROR.OK →
      VFS.DoMkDir w fuel vfs path mode =
        some (VFS.mutated
          ((w.ops (r2.vfs.record (VfsEv.permCheck r2.entry.attr WANT_WRITE)).log).MkDir
            r2.entry.ino (w.Filename path) (w.GetMode S_IFDIR mode % 65536)).1
          ((r2.vfs.record (VfsEv.permCheck r2.entry.attr WANT_WRITE)).record
            (VfsEv.opMkDir r2.entry.ino (w.Filename path) (w.GetMode S_IFDIR mode % 65536)))
          [(r2.entry.ino, w.Filename path)])) ∧
    (∀ (vfs : VFS) (path : String) (r1 r2 : LookupResult),
      VFS.Lookup (w.env vfs.log) fuel vfs (w.ParentDir path) true Entry.empty = some r1 →
      r1.rc = CURVEFS_ERROR.OK →
      VFS.Lookup (w.env r1.vfs.log) fuel r1.vfs path true Entry.empty = some r2 →
      r2.rc = CURVEFS_ERROR.OK →
      (w.env r2.vfs.log).permission_.Check r1.entry.attr WANT_WRITE = CURVEFS_ERROR.OK →
      VFS.RmDir w fuel vfs path =
        some (VFS.mutated
          ((w.ops (r2.vfs.record (VfsEv.permCheck r1.entry.attr WANT_WRITE)).log).RmDir
            r1.entry.ino (w.Filename path))
          ((r2.vfs.record (VfsEv.permCheck r1.entry.attr WANT_WRITE)).record
            (VfsEv.opRmDir r1.entry.ino (w.Filename path)))
          [(r1.entry.ino, w.Filename path)])) ∧
    (∀ (vfs : VFS) (path : String) (mode : Nat) (r1 : LookupResult),
      VFS.Lookup (w.env vfs.log) fuel vfs (w.ParentDir path) true Entry.empty = some r1 →
      r1.rc = CURVEFS_ERROR.OK →
      (w.env r1.vfs.log).permission_.Check r1.entry.attr WANT_WRITE = CURVEFS_ERROR.OK →
      VFS.Create w fuel vfs path mode =
        some (VFS.mutated
          ((w.ops (r1.vfs.record (VfsEv.permCheck r1.entry.attr WANT_WRITE)).log).Create
            r1.entry.ino (w.Filename path) (w.GetMode S_IFREG mode % 65536)).1
          ((r1.vfs.record (VfsEv.permCheck r1.entry.attr WANT_WRITE)).record
            (VfsEv.opCreate r1.entry.ino (w.Filename path) (w.GetMode S_IFREG mode % 65536)))
          [(r1.entry.ino, w.Filename path)])) ∧
    (∀ (vfs : VFS) (path : String) (r1 : LookupResult),
      VFS.Lookup (w.env vfs.log) fuel vfs (w.ParentDir path) true Entry.empty = some r1 →
      r1.rc = CURVEFS_ERROR.OK →
      (w.env r1.vfs.log).permission_.CheckIno r1.entry.ino WANT_WRITE r1.entry.attr = true →
      VFS.Unlink w fuel vfs path =
        some (VFS.mutated
          ((w.ops (r1.vfs.record
              (VfsEv.permCheckIno r1.entry.ino WANT_WRITE r1.entry.attr)).log).Unlink
            r1.entry.ino (w.Filename path))
          ((r1.vfs.record (VfsEv.permCheckIno r1.entry.ino WANT_WRITE r1.entry.attr)).record
            (VfsEv.opUnlink r1.entry.ino (w.Filename path)))
          [(r1.entry.ino, w.Filename path)])) ∧
    (∀ (vfs : VFS) (oldpath newpath : String) (r1 r3 r4 : LookupResult),
      VFS.Lookup (w.env vfs.log) fuel vfs oldpath true Entry.empty = some r1 →
      r1.rc = CURVEFS_ERROR.OK →
      (w.env r1.vfs.log).permission_.CheckIno r1.entry.ino WANT_WRITE r1.entry.attr = true →
      VFS.Lookup
          (w.env (r1.vfs.record (VfsEv.permCheckIno r1.entry.ino WANT_WRITE r1.entry.attr)).log)
          fuel (r1.vfs.record (VfsEv.permCheckIno r1.entry.ino WANT_WRITE r1.entry.attr))
          (w.ParentDir oldpath) true Entry.empty = some r3 →
      r3.rc = CURVEFS_ERROR.OK →
      VFS.Lookup (w.env r3.vfs.log) fuel r3.vfs (w.ParentDir newpath) true Entry.empty
        = some r4 →
      r4.rc = CURVEFS_ERROR.OK →
      VFS.Rename w fuel vfs oldpath newpath =
        some (VFS.mutated
          ((w.ops r4.vfs.log).Rename r3.entry.ino (w.Filename oldpath) r4.entry.ino
            (w.Filename newpath))
          (r4.vfs.record (VfsEv.opRename r3.entry.ino (w.Filename oldpath) r4.entry.ino
            (w.Filename newpath)))
          [(r3.entry.ino, w.Filename oldpath), (r4.entry.ino, w.Filename newpath)])) ∧
    (∀ (rc : CURVEFS_ERROR) (vfs : VFS) (keys : List (Ino × String)),
      (rc = CURVEFS_ERROR.OK → ∀ k ∈ keys, ∀ now out,
        (VFS.mutated rc vfs keys).2.entryCache_.Get now k.1 k.2 out
          = (false, out, (VFS.mutated rc vfs keys).2.entryCache_)) ∧
      (rc ≠ CURVEFS_ERROR.OK → VFS.mutated rc vfs keys = (rc, vfs))) := by
  refine ⟨?_, ?_, ?_, ?_, ?_, ?_⟩
  · intro vfs path mode r1 r2 h1 hr1 h2 hr2 hdir hperm
    simp only [VFS.DoMkDir, h1, h2, hr1, hr2, hdir, hperm, VFS.mutated, if_false, ne_eq,
      not_true_eq_false, Bool.not_true, Bool.false_eq_true, List.foldl_cons, List.foldl_nil]
    split_ifs <;> rfl
  · intro vfs path r1 r2 h1 hr1 h2 hr2 hperm
    simp only [VFS.RmDir, h1, h2, hr1, hr2, hperm, VFS.mutated, if_false, ne_eq,
      not_true_eq_false, List.foldl_cons, List.foldl_nil]
    split_ifs <;> rfl
  · intro vfs path mode r1 h1 hr1 hperm
    simp only [VFS.Create, h1, hr1, hperm, VFS.mutated, if_false, ne_eq,
      not_true_eq_false, List.foldl_cons, List.foldl_nil]
    split_ifs <;> rfl
  · intro vfs path r1 h1 hr1 hperm
    simp only [VFS.Unlink, h1, hr1, hperm, VFS.mutated, if_false, ne_eq,
      not_true_eq_false, Bool.not_true, Bool.false_eq_true, List.foldl_cons, List.foldl_nil]
    split_ifs <;> rfl
  · intro vfs oldpath newpath r1 r3 r4 h1 hr1 hperm h3 hr3 h4 hr4
    simp only [VFS.Rename, h1, hr1, hperm, h3, hr3, h4, hr4, VFS.mutated, if_false, ne_eq,
      not_true_eq_false, Bool.not_true, Bool.false_eq_true, List.foldl_cons, List.foldl_nil]
    split_ifs <;> rfl
  · intro rc vfs keys
    constructor
    · intro hrc k hk now out
      apply EntryCache_Get_absent
      unfold VFS.mutated
      rw [if_pos hrc]
      exact purges_absent keys k.1 k.2 vfs (Or.inl hk)
    · intro hrc
      unfold VFS.mutated
      rw [if_neg hrc]

/-- C22 on the example file system: `Unlink("/a/c")` with the entry of `c` cached
returns OK and leaves no record of it, and with a failing metadata side returns
INTERNAL and leaves the record; `Rename("/a/c", "/a/d")` purges both names. -/
theorem VFS.entry_cache_purged_after_mutation_witness :
    ((VFS.Lookup exampleEnv 2 sampleVfs "/a/c" true Entry.empty).bind
        (fun r => VFS.Unlink exampleWorld 2 r.vfs "/a/c")).map
        (fun res => (res.1, res.2.entryCache_.records.map (fun x => (x.parent, x.name))))
      = some (CURVEFS_ERROR.OK, [(1, "a")]) ∧
    ((VFS.Lookup exampleEnv 2 sampleVfs "/a/c" true Entry.empty).bind
        (fun r => VFS.Unlink exampleFailWorld 2 r.vfs "/a/c")).map
        (fun res => (res.1, res.2.entryCache_.records.map (fun x => (x.parent, x.name))))
      = some (CURVEFS_ERROR.INTERNAL, [(1, "a"), (2, "c")]) ∧
    (VFS.Rename exampleWorld 2 sampleVfs "/a/c" "/a/d").map
        (fun res => (res.1, res.2.log.drop (res.2.log.length - 3)))
      = some (CURVEFS_ERROR.OK,
          [VfsEv.opRename 2 "c" 2 "d", VfsEv.entryCacheDelete 2 "c",
           VfsEv.entryCacheDelete 2 "d"]) ∧
    VFS.mutated CURVEFS_ERROR.INTERNAL sampleVfs [(2, "c")] = (CURVEFS_ERROR.INTERNAL, sampleVfs) :=
  ⟨by decide, by decide, by decide,
   ((VFS.entry_cache_purged_after_mutation exampleWorld 2).2.2.2.2.2 CURVEFS_ERROR.INTERNAL
     sampleVfs [(2, "c")]).2 (by decide)⟩

/-! ## Directory streams -/

/-- With a fetch that always answers the same list, the calls of `ReadDir` from an
offset within the list return the remaining entries in order and stop at its end. -/
theorem readDirs_rest (w : World) (entries : List DirEntry) (ino : Ino) (fh : Nat)
    (hfetch : ∀ log, (w.ops log).ReadDir ino fh = (CURVEFS_ERROR.OK, entries)) :
    ∀ (m offset : Nat) (vfs : VFS) (dirEntry : DirEntry), offset + m = entries.length →
      (readDirs w m vfs { ino := ino, fh := fh, offset := offset } dirEntry).1
        = (entries.drop offset).map (fun e => (CURVEFS_ERROR.OK, e)) ∧
      (readDirs w m vfs { ino := ino, fh := fh, offset := offset } dirEntry).2.1
        = { ino := ino, fh := fh, offset := entries.length } := by
  intro m
  induction m with
  | zero =>
    intro offset vfs dirEntry h
    have h0 : offset = entries.length := by omega
    subst h0
    simp [readDirs]
  | succ m ih =>
    intro offset vfs dirEntry h
    have hlt : offset < entries.length := by omega
    have hstep : VFS.ReadDir w vfs { ino := ino, fh := fh, offset := offset } dirEntry
        = (CURVEFS_ERROR.OK, { ino := ino, fh := fh, offset := offset + 1 },
            entries.getD offset dirEntry, vfs.record (VfsEv.opReadDir ino fh)) := by
      unfold VFS.ReadDir
      simp only [hfetch]
      rw [if_neg (by simp), if_neg (by simpa using hlt)]
    unfold readDirs
    simp only [hstep]
    have h2 := ih (offset + 1) (vfs.record (VfsEv.opReadDir ino fh))
      (entries.getD offset dirEntry) (by omega)
    refine ⟨?_, h2.2⟩
    rw [h2.1]
    have hd : entries.drop offset = entries[offset] :: entries.drop (offset + 1) :=
      List.drop_eq_getElem_cons hlt
    rw [hd, List.map_cons]
    congr 2
    simp [List.getD_eq_getElem?_getD, List.getElem?_eq_getElem hlt]

/-- With a fetch that always answers the same list, the calls of `ReadDir` from an
offset at or beyond its end return END_OF_FILE and leave the stream. -/
theorem readDirs_end (w : World) (entries : List DirEntry) (ino : Ino) (fh : Nat)
    (hfetch : ∀ log, (w.ops log).ReadDir ino fh = (CURVEFS_ERROR.OK, entries)) :
    ∀ (k offset : Nat) (vfs : VFS) (dirEntry : DirEntry), entries.length ≤ offset →
      (readDirs w k vfs { ino := ino, fh := fh, offset := offset } dirEntry).1
        = List.replicate k (CURVEFS_ERROR.END_OF_FILE, dirEntry) ∧
      (readDirs w k vfs { ino := ino, fh := fh, offset := offset } dirEntry).2.1
        = { ino := ino, fh := fh, offset := offset } := by
  intro k
  induction k with
  | zero => intro offset vfs dirEntry _; simp [readDirs]
  | succ k ih =>
    intro offset vfs dirEntry h
    have hstep : VFS.ReadDir w vfs { ino := ino, fh := fh, offset := offset } dirEntry
        = (CURVEFS_ERROR.END_OF_FILE, { ino := ino, fh := fh, offset := offset },
            dirEntry, vfs.record (VfsEv.opReadDir ino fh)) := by
      unfold VFS.ReadDir
      simp only [hfetch]
      rw [if_neg (by simp), if_pos (by simpa using h)]
    unfold readDirs
    simp only [hstep]
    have h2 := ih offset (vfs.record (VfsEv.opReadDir ino fh)) dirEntry h
    refine ⟨?_, h2.2⟩
    rw [h2.1, List.replicate_succ]



/-- C23: a call of `ReadDir` whose fetch fails returns that code and leaves the stream;
one whose fetch gives a list holding an entry at the stream's offset returns OK with
that entry and advances the offset by one; one whose offset is at or beyond the size of
the list returns END_OF_FILE and leaves the stream.  Hence, for a stream as `OpenDir`
leaves it (offset 0) whose fetch gives the same `n` entries at every call, `n` calls
return OK with the entries in order and leave the offset `n`, and any later calls
return END_OF_FILE with the offset unchanged. -/
theorem VFS.readdir_iterates_in_order (w : World) (vfs : VFS) (stream : DirStream)
    (dirEntry : DirEntry) :
    (((w.ops vfs.log).ReadDir stream.ino stream.fh).1 ≠ CURVEFS_ERROR.OK →
      VFS.ReadDir w vfs stream dirEntry =
        (((w.ops vfs.log).ReadDir stream.ino stream.fh).1, stream, dirEntry,
          vfs.record (VfsEv.opReadDir stream.ino stream.fh))) ∧
    (∀ (entries : List DirEntry) (e : DirEntry),
      (w.ops vfs.log).ReadDir stream.ino stream.fh = (CURVEFS_ERROR.OK, entries) →
      entries[stream.offset]? = some e →
      VFS.ReadDir w vfs stream dirEntry =
        (CURVEFS_ERROR.OK, { stream with offset := stream.offset + 1 }, e,
          vfs.record (VfsEv.opReadDir stream.ino stream.fh))) ∧
    (∀ entries : List DirEntry,
      (w.ops vfs.log).ReadDir stream.ino stream.fh = (CURVEFS_ERROR.OK, entries) →
      entries.length ≤ stream.offset →
      VFS.ReadDir w vfs stream dirEntry =
        (CURVEFS_ERROR.END_OF_FILE, stream, dirEntry,
          vfs.record (VfsEv.opReadDir stream.ino stream.fh))) ∧
    (∀ entries : List DirEntry,
      (∀ log, (w.ops log).ReadDir stream.ino stream.fh = (CURVEFS_ERROR.OK, entries)) →
      (readDirs w entries.length vfs { stream with offset := 0 } dirEntry).1
        = entries.map (fun e => (CURVEFS_ERROR.OK, e)) ∧
      (readDirs w entries.length vfs { stream with offset := 0 } dirEntry).2.1
        = { stream with offset := entries.length } ∧
      ∀ (k : Nat) (vfs1 : VFS) (d : DirEntry),
        (readDirs w k vfs1 { stream with offset := entries.length } d).1
          = List.replicate k (CURVEFS_ERROR.END_OF_FILE, d) ∧
        (readDirs w k vfs1 { stream with offset := entries.length } d).2.1
          = { stream with offset := entries.length }) ∧
    (∀ (fuel : Nat) (path : String) (res : CURVEFS_ERROR × DirStream × VFS),
      VFS.OpenDir w fuel vfs path stream = some res → res.1 = CURVEFS_ERROR.OK →
      res.2.1.offset = 0) := by
  refine ⟨?_, ?_, ?_, ?_, ?_⟩
  · intro h
    unfold VFS.ReadDir
    simp only
    rw [if_pos h]
  · intro entries e hf he
    have hlt : stream.offset < entries.length := by
      rcases Nat.lt_or_ge stream.offset entries.length with h | h
      · exact h
      · rw [List.getElem?_eq_none h] at he
        exact absurd he (by simp)
    unfold VFS.ReadDir
    simp only [hf]
    rw [if_neg (by simp), if_neg (by simpa using hlt)]
    simp [List.getD_eq_getElem?_getD, he]
  · intro entries hf hge
    unfold VFS.ReadDir
    simp only [hf]
    rw [if_neg (by simp), if_pos (by simpa using hge)]
  · intro entries hfetch
    have h1 := readDirs_rest w entries stream.ino stream.fh hfetch entries.length 0 vfs dirEntry
      (by omega)
    refine ⟨by simpa using h1.1, h1.2, ?_⟩
    intro k vfs1 d
    exact readDirs_end w entries stream.ino stream.fh hfetch k entries.length vfs1 d
      (Nat.le_refl _)
  · intro fuel path res hres hok
    unfold VFS.OpenDir at hres
    cases hl : VFS.Lookup (w.env vfs.log) fuel vfs path true Entry.empty with
    | none => rw [hl] at hres; exact absurd hres (by simp)
    | some r =>
      rw [hl] at hres
      simp only at hres
      by_cases hr : r.rc ≠ CURVEFS_ERROR.OK
      · rw [if_pos hr] at hres
        have e := Option.some.inj hres
        rw [← e] at hok
        exact absurd hok hr
      · rw [if_neg hr] at hres
        have e := Option.some.inj hres
        rw [← e]

/-- C23 on the example file system, whose fetch lists the inodes 11 and 12: two calls
on the stream of directory 2, offset 0, return the two entries in order and leave the
offset 2, and the next call returns END_OF_FILE. -/
theorem VFS.readdir_iterates_in_order_witness :
    (readDirs exampleWorld sampleEntries.length sampleVfs { ino := 2, fh := 5, offset := 0 }
        { ino := 0, name := "", attr := InodeAttr.empty }).1
      = sampleEntries.map (fun e => (CURVEFS_ERROR.OK, e)) ∧
    (readDirs exampleWorld 3 sampleVfs { ino := 2, fh := 5, offset := 0 }
        { ino := 0, name := "", attr := InodeAttr.empty }).1.map (fun r => (r.1, r.2.ino))
      = [(CURVEFS_ERROR.OK, 11), (CURVEFS_ERROR.OK, 12), (CURVEFS_ERROR.END_OF_FILE, 12)] ∧
    (VFS.OpenDir exampleWorld 2 sampleVfs "/a" { ino := 0, fh := 0, offset := 9 }).map
        (fun res => (res.1, res.2.1))
      = some (CURVEFS_ERROR.OK, { ino := 2, fh := 5, offset := 0 }) :=
  ⟨((VFS.readdir_iterates_in_order exampleWorld sampleVfs { ino := 2, fh := 5, offset := 0 }
      { ino := 0, name := "", attr := InodeAttr.empty }).2.2.2.1 sampleEntries
      (fun _ => rfl)).1,
   by decide, by decide⟩

/-! ## The handle table -/

/-- A freed descriptor is not found. -/
theorem GetHandler_FreeHandler (h : FileHandlers) (fd : Nat) :
    (h.FreeHandler fd).GetHandler fd = none := by
  unfold FileHandlers.GetHandler FileHandlers.FreeHandler
  have : (h.handlers.filter (fun x => !decide (x.1 = fd))).find? (fun x => decide (x.1 = fd))
      = none := by
    rw [List.find?_eq_none]
    intro x hx
    simp only [List.mem_filter] at hx
    simpa using hx.2
  simp only [this, Option.map_none']

/-- The list form of `GetHandler_setOffset` below. -/
theorem find_setOffset (fd offset : Nat) (fh : FileHandler) :
    ∀ l : List (Nat × FileHandler),
      (l.find? (fun x => decide (x.1 = fd))).map (fun x => x.2) = some fh →
      ((l.map (fun x => if x.1 = fd then (x.1, { x.2 with offset := offset }) else x)).find?
        (fun x => decide (x.1 = fd))).map (fun x => x.2) = some { fh with offset := offset } := by
  intro l
  induction l with
  | nil => intro h; simp at h
  | cons x rest ih =>
    intro h
    by_cases hx : x.1 = fd
    · have hfh : x.2 = fh := by simpa [List.find?_cons, hx] using h
      simp [List.find?_cons, hx, hfh]
    · have hrest : (rest.find? (fun x => decide (x.1 = fd))).map (fun x => x.2) = some fh := by
        simpa [List.find?_cons, hx] using h
      have := ih hrest
      simpa [List.find?_cons, hx] using this

/-- After an assignment to the cursor of an open descriptor, the descriptor is found
with that cursor and the same inode. -/
theorem GetHandler_setOffset (h : FileHandlers) (fd offset : Nat) (fh : FileHandler)
    (hfh : h.GetHandler fd = some fh) :
    (h.setOffset fd offset).GetHandler fd = some { fh with offset := offset } := by
  unfold FileHandlers.GetHandler at hfh
  unfold FileHandlers.GetHandler FileHandlers.setOffset
  exact find_setOffset fd offset fh h.handlers hfh



/-- C25: for a descriptor that the handle table does not find, `Read`, `Write`, `FSync`,
`FStat` and `Close` return BAD_FD and leave the state, the log of calls included, and
the table as they are.  `LSeek` does not: it sets BAD_FD, and on its return the message
of its access log guard reads the offset through the handle, which is null, so that it
has no defined return for any `offset` and `whence`.  For a descriptor that is found,
`LSeek` has a defined return whatever `offset` and `whence` are, and `Close` returns the code of the flush when it fails, without the remote close, and
otherwise the code of the remote close; it frees the descriptor exactly when both return
OK, after which the descriptor is not found and a further `Close` returns BAD_FD; a
`Close` that does not return OK leaves the table, so that the descriptor is still
found. -/
theorem VFS.bad_descriptor (w : World) (vfs : VFS) (handlers_ : FileHandlers) (fd : Nat) :
    (handlers_.GetHandler fd = none →
      (∀ offset whence,
        VFS.LSeekMessage fd offset whence CURVEFS_ERROR.BAD_FD (handlers_.GetHandler fd) = none ∧
        VFS.LSeek w vfs handlers_ fd offset whence = none) ∧
      (∀ count nread,
        VFS.Read w vfs handlers_ fd count nread
          = (CURVEFS_ERROR.BAD_FD, nread, vfs, handlers_)) ∧
      (∀ count nwritten,
        VFS.Write w vfs handlers_ fd count nwritten
          = (CURVEFS_ERROR.BAD_FD, nwritten, vfs, handlers_)) ∧
      VFS.FSync w vfs handlers_ fd = (CURVEFS_ERROR.BAD_FD, vfs, handlers_) ∧
      (∀ stat,
        VFS.FStat w vfs handlers_ fd stat = (CURVEFS_ERROR.BAD_FD, stat, vfs, handlers_)) ∧
      VFS.Close w vfs handlers_ fd = (CURVEFS_ERROR.BAD_FD, vfs, handlers_)) ∧
    (∀ fh : FileHandler, handlers_.GetHandler fd = some fh →
      (∀ offset whence, (VFS.LSeek w vfs handlers_ fd offset whence).isSome = true) ∧
      ((w.ops vfs.log).Flush fh.ino ≠ CURVEFS_ERROR.OK →
        VFS.Close w vfs handlers_ fd =
          ((w.ops vfs.log).Flush fh.ino, vfs.record (VfsEv.opFlush fh.ino), handlers_)) ∧
      ((w.ops vfs.log).Flush fh.ino = CURVEFS_ERROR.OK →
        (w.ops (vfs.record (VfsEv.opFlush fh.ino)).log).Close fh.ino ≠ CURVEFS_ERROR.OK →
        VFS.Close w vfs handlers_ fd =
          ((w.ops (vfs.record (VfsEv.opFlush fh.ino)).log).Close fh.ino,
            (vfs.record (VfsEv.opFlush fh.ino)).record (VfsEv.opClose fh.ino), handlers_)) ∧
      ((w.ops vfs.log).Flush fh.ino = CURVEFS_ERROR.OK →
        (w.ops (vfs.record (VfsEv.opFlush fh.ino)).log).Close fh.ino = CURVEFS_ERROR.OK →
        VFS.Close w vfs handlers_ fd =
          (CURVEFS_ERROR.OK,
            (vfs.record (VfsEv.opFlush fh.ino)).record (VfsEv.opClose fh.ino),
            handlers_.FreeHandler fd) ∧
        (handlers_.FreeHandler fd).GetHandler fd = none ∧
        ∀ vfs1 : VFS,
          VFS.Close w vfs1 (handlers_.FreeHandler fd) fd =
            (CURVEFS_ERROR.BAD_FD, vfs1, handlers_.FreeHandler fd)) ∧
      ((VFS.Close w vfs handlers_ fd).1 ≠ CURVEFS_ERROR.OK →
        (VFS.Close w vfs handlers_ fd).2.2 = handlers_ ∧
        (VFS.Close w vfs handlers_ fd).2.2.GetHandler fd = some fh)) := by
  constructor
  · intro h
    refine ⟨?_, ?_, ?_, ?_, ?_, ?_⟩
    · intro offset whence
      constructor
      · rw [h]; rfl
      · simp only [VFS.LSeek, h, VFS.LSeekReturn, VFS.LSeekMessage]
    · intro count nread
      simp only [VFS.Read, h]
    · intro count nwritten
      simp only [VFS.Write, h]
    · simp only [VFS.FSync, h]
    · intro stat
      simp only [VFS.FStat, h]
    · simp only [VFS.Close, h]
  · intro fh hfh
    refine ⟨?_, ?_, ?_, ?_, ?_⟩
    · intro offset whence
      simp only [VFS.LSeek, VFS.LSeekReturn, VFS.LSeekMessage, hfh]
      split_ifs <;> rfl
    · intro hf
      simp only [VFS.Close, hfh]
      rw [if_pos hf]
    · intro hf hc
      simp only [VFS.Close, hfh]
      rw [if_neg (by rw [hf]; simp), if_neg hc]
    · intro hf hc
      refine ⟨?_, GetHandler_FreeHandler handlers_ fd, ?_⟩
      · simp only [VFS.Close, hfh]
        rw [if_neg (by rw [hf]; simp), if_pos hc, hc]
      · intro vfs1
        simp only [VFS.Close, GetHandler_FreeHandler handlers_ fd]
    · simp only [VFS.Close, hfh]
      split_ifs with h1 h2
      · intro _; exact ⟨rfl, hfh⟩
      · intro hc; exact absurd h2 hc
      · intro _; exact ⟨rfl, hfh⟩

/-- C25 on the sample table, where descriptor 3 is open and descriptor 9 is not: a seek
of 9 has no defined return, whereas a seek of 3 returns OK; a read and a close of 9
return BAD_FD with nothing called; a close of 3 returns OK and a second one BAD_FD; with
a failing metadata side the close of 3 fails and 3 stays open. -/
theorem VFS.bad_descriptor_witness :
    sampleHandlers.GetHandler 9 = none ∧
    VFS.LSeek exampleWorld sampleVfs sampleHandlers 9 0 SEEK_SET = none ∧
    (VFS.LSeek exampleWorld sampleVfs sampleHandlers 3 0 SEEK_SET).map (fun r => r.1)
      = some CURVEFS_ERROR.OK ∧
    VFS.Read exampleWorld sampleVfs sampleHandlers 9 1 0
      = (CURVEFS_ERROR.BAD_FD, 0, sampleVfs, sampleHandlers) ∧
    VFS.Close exampleWorld sampleVfs sampleHandlers 9
      = (CURVEFS_ERROR.BAD_FD, sampleVfs, sampleHandlers) ∧
    (VFS.Close exampleWorld sampleVfs sampleHandlers 3).1 = CURVEFS_ERROR.OK ∧
    (VFS.Close exampleWorld (VFS.Close exampleWorld sampleVfs sampleHandlers 3).2.1
        (VFS.Close exampleWorld sampleVfs sampleHandlers 3).2.2 3).1 = CURVEFS_ERROR.BAD_FD ∧
    (VFS.Close exampleFailWorld sampleVfs sampleHandlers 3).1 = CURVEFS_ERROR.INTERNAL ∧
    (VFS.Close exampleFailWorld sampleVfs sampleHandlers 3).2.2.GetHandler 3
      = some { ino := 4, offset := 5 } :=
  have h := (VFS.bad_descriptor exampleWorld sampleVfs sampleHandlers 9).1 (by decide)
  ⟨by decide, (h.1 0 SEEK_SET).2, by decide, h.2.1 1 0, h.2.2.2.2.2, by decide, by decide,
    by decide, by decide⟩

/-- C29: for an open descriptor, when the attribute fetch fails `LSeek` returns its code
and leaves the handle table.  When the fetch and the permission check succeed, `LSeek`
with SEEK_SET leaves the cursor at `offset`, with SEEK_CUR at the cursor plus `offset`,
with SEEK_END at the length that a second attribute fetch gives plus `offset`, each
modulo 2^64 and returning OK, a failure of the second fetch being returned with the
table left; with any other `whence` it returns INVALID_PARAM and leaves the table. -/
theorem VFS.lseek_sets_cursor (w : World) (vfs : VFS) (handlers_ : FileHandlers)
    (fd offset : Nat) (whence : Int) (fh : FileHandler)
    (hfh : handlers_.GetHandler fd = some fh) :
    (((w.env vfs.log).op_.GetAttr fh.ino).1 ≠ CURVEFS_ERROR.OK →
      VFS.LSeek w vfs handlers_ fd offset whence =
        some (((w.env vfs.log).op_.GetAttr fh.ino).1, vfs.record (VfsEv.opGetAttr fh.ino),
          handlers_)) ∧
    (∀ (attr : InodeAttr) (vfs2 : VFS),
      ((w.env vfs.log).op_.GetAttr fh.ino).1 = CURVEFS_ERROR.OK →
      attr = ((w.env vfs.log).op_.GetAttr fh.ino).2.attr →
      (w.env (vfs.record (VfsEv.opGetAttr fh.ino)).log).permission_.CheckIno fh.ino
        WANT_WRITE attr = true →
      vfs2 = (vfs.record (VfsEv.opGetAttr fh.ino)).record
        (VfsEv.permCheckIno fh.ino WANT_WRITE attr) →
      (whence = SEEK_SET →
        VFS.LSeek w vfs handlers_ fd offset whence =
          some (CURVEFS_ERROR.OK, vfs2, handlers_.setOffset fd offset) ∧
        (handlers_.setOffset fd offset).GetHandler fd = some { fh with offset := offset }) ∧
      (whence = SEEK_CUR →
        VFS.LSeek w vfs handlers_ fd offset whence =
          some (CURVEFS_ERROR.OK, vfs2,
            handlers_.setOffset fd ((fh.offset + offset) % 2 ^ 64)) ∧
        (handlers_.setOffset fd ((fh.offset + offset) % 2 ^ 64)).GetHandler fd
          = some { fh with offset := (fh.offset + offset) % 2 ^ 64 }) ∧
      (whence = SEEK_END →
        ((w.env vfs2.log).op_.GetAttr fh.ino).1 = CURVEFS_ERROR.OK →
        VFS.LSeek w vfs handlers_ fd offset whence =
          some (CURVEFS_ERROR.OK, vfs2.record (VfsEv.opGetAttr fh.ino),
            handlers_.setOffset fd
              ((((w.env vfs2.log).op_.GetAttr fh.ino).2.attr.length + offset) % 2 ^ 64)) ∧
        (handlers_.setOffset fd
            ((((w.env vfs2.log).op_.GetAttr fh.ino).2.attr.length + offset) % 2 ^ 64)).GetHandler
          fd = some { fh with offset :=
            (((w.env vfs2.log).op_.GetAttr fh.ino).2.attr.length + offset) % 2 ^ 64 }) ∧
      (whence = SEEK_END →
        ((w.env vfs2.log).op_.GetAttr fh.ino).1 ≠ CURVEFS_ERROR.OK →
        VFS.LSeek w vfs handlers_ fd offset whence =
          some (((w.env vfs2.log).op_.GetAttr fh.ino).1, vfs2.record (VfsEv.opGetAttr fh.ino),
            handlers_)) ∧
      (whence ≠ SEEK_SET → whence ≠ SEEK_CUR → whence ≠ SEEK_END →
        VFS.LSeek w vfs handlers_ fd offset whence =
          some (CURVEFS_ERROR.INVALID_PARAM, vfs2, handlers_))) := by
  constructor
  · intro h
    simp only [VFS.LSeek, VFS.LSeekReturn, VFS.LSeekMessage, hfh]
    rw [if_pos h]
  · intro attr vfs2 hok hattr hperm hvfs2
    subst hattr
    subst hvfs2
    have hne : ¬ (((w.env vfs.log).op_.GetAttr fh.ino).1 ≠ CURVEFS_ERROR.OK) := by
      rw [hok]; simp
    refine ⟨?_, ?_, ?_, ?_, ?_⟩
    · intro hw
      refine ⟨?_, GetHandler_setOffset handlers_ fd offset fh hfh⟩
      simp only [VFS.LSeek, VFS.LSeekReturn, VFS.LSeekMessage, hfh]
      rw [if_neg hne]
      simp only [hperm, Bool.not_true, Bool.false_eq_true, if_false]
      rw [if_pos hw]
    · intro hw
      have h0 : whence ≠ SEEK_SET := by rw [hw]; decide
      refine ⟨?_, GetHandler_setOffset handlers_ fd _ fh hfh⟩
      simp only [VFS.LSeek, VFS.LSeekReturn, VFS.LSeekMessage, hfh]
      rw [if_neg hne]
      simp only [hperm, Bool.not_true, Bool.false_eq_true, if_false]
      rw [if_neg h0, if_pos hw]
    · intro hw hok2
      have h0 : whence ≠ SEEK_SET := by rw [hw]; decide
      have h1 : whence ≠ SEEK_CUR := by rw [hw]; decide
      refine ⟨?_, GetHandler_setOffset handlers_ fd _ fh hfh⟩
      simp only [VFS.LSeek, VFS.LSeekReturn, VFS.LSeekMessage, hfh]
      rw [if_neg hne]
      simp only [hperm, Bool.not_true, Bool.false_eq_true, if_false]
      rw [if_neg h0, if_neg h1, if_pos hw, if_neg (by rw [hok2]; simp)]
    · intro hw hbad
      have h0 : whence ≠ SEEK_SET := by rw [hw]; decide
      have h1 : whence ≠ SEEK_CUR := by rw [hw]; decide
      simp only [VFS.LSeek, VFS.LSeekReturn, VFS.LSeekMessage, hfh]
      rw [if_neg hne]
      simp only [hperm, Bool.not_true, Bool.false_eq_true, if_false]
      rw [if_neg h0, if_neg h1, if_pos hw, if_pos hbad]
    · intro h0 h1 h2
      simp only [VFS.LSeek, VFS.LSeekReturn, VFS.LSeekMessage, hfh]
      rw [if_neg hne]
      simp only [hperm, Bool.not_true, Bool.false_eq_true, if_false]
      rw [if_neg h0, if_neg h1, if_neg h2]



/-- C29 on the sample table, descriptor 3 being open on inode 4 (length 0) with its
cursor at 5: SEEK_SET to 7 leaves the cursor at 7; SEEK_CUR by 2^64 - 1 leaves it at 4;
SEEK_END with offset 7 leaves it at 7; `whence` 3 returns INVALID_PARAM and leaves it
at 5. -/
theorem VFS.lseek_sets_cursor_witness :
    sampleHandlers.GetHandler 3 = some { ino := 4, offset := 5 } ∧
    (VFS.LSeek exampleWorld sampleVfs sampleHandlers 3 7 SEEK_SET =
        some (CURVEFS_ERROR.OK,
          (sampleVfs.record (VfsEv.opGetAttr 4)).record
            (VfsEv.permCheckIno 4 WANT_WRITE (exampleEnv.op_.GetAttr 4).2.attr),
          sampleHandlers.setOffset 3 7) ∧
      (sampleHandlers.setOffset 3 7).GetHandler 3 = some { ino := 4, offset := 7 }) ∧
    (VFS.LSeek exampleWorld sampleVfs sampleHandlers 3 (2 ^ 64 - 1) SEEK_CUR).map
        (fun r => (r.1, r.2.2.GetHandler 3))
      = some (CURVEFS_ERROR.OK, some { ino := 4, offset := 4 }) ∧
    (VFS.LSeek exampleWorld sampleVfs sampleHandlers 3 7 SEEK_END).map
        (fun r => (r.1, r.2.2.GetHandler 3))
      = some (CURVEFS_ERROR.OK, some { ino := 4, offset := 7 }) ∧
    (VFS.LSeek exampleWorld sampleVfs sampleHandlers 3 7 3).map
        (fun r => (r.1, r.2.2.GetHandler 3))
      = some (CURVEFS_ERROR.INVALID_PARAM, some { ino := 4, offset := 5 }) :=
  ⟨by decide,
   ((VFS.lseek_sets_cursor exampleWorld sampleVfs sampleHandlers 3 7 SEEK_SET
      { ino := 4, offset := 5 } (by decide)).2 (exampleEnv.op_.GetAttr 4).2.attr
      ((sampleVfs.record (VfsEv.opGetAttr 4)).record
        (VfsEv.permCheckIno 4 WANT_WRITE (exampleEnv.op_.GetAttr 4).2.attr))
      (by decide) rfl (by decide) rfl).1 rfl,
   by decide, by decide, by decide⟩

/-! ## Recursive directory creation -/

theorem WalkExt_refl (v : VFS) : WalkExt v v :=
  ⟨[], by simp, fun e he => by simp at he⟩

theorem WalkExt_trans (v1 v2 v3 : VFS) (h12 : WalkExt v1 v2) (h23 : WalkExt v2 v3) :
    WalkExt v1 v3 := by
  obtain ⟨a, ha, ga⟩ := h12
  obtain ⟨b, hb, gb⟩ := h23
  refine ⟨a ++ b, by rw [hb, ha, List.append_assoc], ?_⟩
  intro e he
  rcases List.mem_append.mp he with h | h
  · exact ga e h
  · exact gb e h

theorem WalkExt_record (v : VFS) (e : VfsEv) (he : e.isWalk = true) :
    WalkExt v (v.record e) := by
  refine ⟨[e], rfl, ?_⟩
  intro x hx
  have : x = e := by simpa using hx
  rw [this]
  exact he

theorem DoLookup_walks (env : Env) (vfs : VFS) (parent : Ino) (name : String) (ino : Ino) :
    WalkExt vfs (VFS.DoLookup env vfs parent name ino).2.2 := by
  unfold VFS.DoLookup
  simp only []
  split
  · exact ⟨[VfsEv.entryCacheGet parent name], by simp [VFS.record], by simp [VfsEv.isWalk]⟩
  · split
    · exact ⟨[VfsEv.entryCacheGet parent name, VfsEv.opLookup parent name],
        by simp [VFS.record], by simp [VfsEv.isWalk]⟩
    · exact ⟨[VfsEv.entryCacheGet parent name, VfsEv.opLookup parent name],
        by simp [VFS.record], by simp [VfsEv.isWalk]⟩

theorem DoGetAttr_walks (env : Env) (vfs : VFS) (ino : Ino) (attr : InodeAttr) :
    WalkExt vfs (VFS.DoGetAttr env vfs ino attr).2.2 := by
  unfold VFS.DoGetAttr
  simp only []
  split
  · exact ⟨[VfsEv.attrCacheGet ino], by simp [VFS.record], by simp [VfsEv.isWalk]⟩
  · split
    · exact ⟨[VfsEv.attrCacheGet ino, VfsEv.opGetAttr ino], by simp [VFS.record],
        by simp [VfsEv.isWalk]⟩
    · exact ⟨[VfsEv.attrCacheGet ino, VfsEv.opGetAttr ino], by simp [VFS.record],
        by simp [VfsEv.isWalk]⟩

theorem DoReadLink_walks (env : Env) (vfs : VFS) (ino : Ino) (dir target : String) :
    WalkExt vfs (VFS.DoReadLink env vfs ino dir target).2.2 := by
  have h : (VFS.DoReadLink env vfs ino dir target).2.2 = vfs.record (VfsEv.opReadLink ino) := by
    unfold VFS.DoReadLink
    simp only []
    split
    · rfl
    · split <;> rfl
  rw [h]
  exact WalkExt_record vfs _ rfl

theorem LookupBody_walks (env : Env)
    (recur : VFS → String → Bool → Entry → Option LookupResult)
    (hrec : ∀ v t f e r, recur v t f e = some r → WalkExt v r.vfs)
    (names : List String) (followSymlink : Bool) (i : Nat) (name : String)
    (parent : Ino) (entry : Entry) (vfs : VFS) :
    Flow.Walks vfs (VFS.LookupBody env recur names followSymlink i name parent entry vfs) := by
  have hrecord : ∀ (v : VFS) (p : Ino) (a : InodeAttr), WalkExt vfs v →
      WalkExt vfs (v.record (VfsEv.permCheckIno p WANT_EXEC a)) := fun v p a hv =>
    WalkExt_trans _ _ _ hv (WalkExt_record _ _ rfl)
  have hpen : ∀ (p : Ino) (e : Entry) (v : VFS), WalkExt vfs v →
      Flow.Walks vfs
        (if i + 2 = names.length then
          if (!env.permission_.CheckIno p WANT_EXEC e.attr) = true then
            Flow.ret CURVEFS_ERROR.NO_PERMISSION e (v.record (VfsEv.permCheckIno p WANT_EXEC e.attr))
          else Flow.next p e (v.record (VfsEv.permCheckIno p WANT_EXEC e.attr))
        else Flow.next p e v) := by
    intro p e v hv
    split
    · split
      · exact hrecord v p e.attr hv
      · exact hrecord v p e.attr hv
    · exact hv
  unfold VFS.LookupBody
  simp only []
  by_cases hchk : parent ≠ ROOT_INO ∧ env.permission_.Check entry.attr WANT_EXEC ≠ CURVEFS_ERROR.OK
  · rw [if_pos hchk]
    exact WalkExt_record vfs _ rfl
  · rw [if_neg hchk]
    have h0 : WalkExt vfs
        (if parent ≠ ROOT_INO then vfs.record (VfsEv.permCheck entry.attr WANT_EXEC) else vfs) := by
      split
      · exact WalkExt_record vfs _ rfl
      · exact WalkExt_refl vfs
    have h1 := WalkExt_trans _ _ _ h0 (DoLookup_walks env
      (if parent ≠ ROOT_INO then vfs.record (VfsEv.permCheck entry.attr WANT_EXEC) else vfs)
      parent name entry.ino)
    generalize VFS.DoLookup env
      (if parent ≠ ROOT_INO then vfs.record (VfsEv.permCheck entry.attr WANT_EXEC) else vfs)
      parent name entry.ino = r1 at h1 ⊢
    by_cases c1 : r1.1 ≠ CURVEFS_ERROR.OK
    · rw [if_pos c1]
      exact h1
    · rw [if_neg c1]
      have h2 := WalkExt_trans _ _ _ h1 (DoGetAttr_walks env r1.2.2 r1.2.1 entry.attr)
      generalize VFS.DoGetAttr env r1.2.2 r1.2.1 entry.attr = r2 at h2 ⊢
      by_cases c2 : r2.1 ≠ CURVEFS_ERROR.OK
      · rw [if_pos c2]
        exact h2
      · rw [if_neg c2]
        split
        · have h3 := WalkExt_trans _ _ _ h2
            (DoReadLink_walks env r2.2.2 r1.2.1 (strings.JoinRange names 0 i "/") "")
          generalize VFS.DoReadLink env r2.2.2 r1.2.1 (strings.JoinRange names 0 i "/") "" = r3
            at h3 ⊢
          by_cases c3 : r3.1 ≠ CURVEFS_ERROR.OK
          · rw [if_pos c3]
            exact h3
          · rw [if_neg c3]
            split
            · trivial
            · next r4 hr4 =>
              have h4 := WalkExt_trans _ _ _ h3 (hrec _ _ _ _ _ hr4)
              by_cases c4 : r4.rc ≠ CURVEFS_ERROR.OK
              · rw [if_pos c4]
                exact h4
              · rw [if_neg c4]
                exact hpen _ _ _ h4
        · exact hpen _ _ _ h2

theorem LookupLoop_walks (env : Env)
    (recur : VFS → String → Bool → Entry → Option LookupResult)
    (hrec : ∀ v t f e r, recur v t f e = some r → WalkExt v r.vfs)
    (names : List String) (followSymlink : Bool) (rest : List String) :
    ∀ (i : Nat) (parent : Ino) (rc : CURVEFS_ERROR) (entry : Entry) (vfs : VFS) (r : LookupResult),
      VFS.LookupLoop env recur names followSymlink rest i parent rc entry vfs = some r →
      WalkExt vfs r.vfs := by
  have hend : ∀ rc entry vfs, (VFS.LookupEnd rc entry vfs).vfs = vfs := by
    intro rc entry vfs
    unfold VFS.LookupEnd
    split <;> rfl
  induction rest with
  | nil =>
    intro i parent rc entry vfs r h
    simp only [VFS.LookupLoop, Option.some.injEq] at h
    rw [← h, hend]
    exact WalkExt_refl vfs
  | cons name rest ih =>
    intro i parent rc entry vfs r h
    have hb := LookupBody_walks env recur hrec names followSymlink i name parent entry vfs
    simp only [VFS.LookupLoop] at h
    cases hf : VFS.LookupBody env recur names followSymlink i name parent entry vfs with
    | next p e v =>
      rw [hf] at h hb
      exact WalkExt_trans _ _ _ hb (ih _ _ _ _ _ _ h)
    | brk rc1 e v =>
      rw [hf] at h hb
      simp only [Option.some.injEq] at h
      rw [← h, hend]
      exact hb
    | ret rc1 e v =>
      rw [hf] at h hb
      simp only [Option.some.injEq] at h
      rw [← h]
      exact hb
    | diverge =>
      rw [hf] at h
      exact Option.noConfusion h

/-- A path walk logs calls of a path walk only. -/
theorem Lookup_walks (env : Env) (fuel : Nat) :
    ∀ (vfs : VFS) (path : String) (followSymlink : Bool) (entry : Entry) (r : LookupResult),
      VFS.Lookup env fuel vfs path followSymlink entry = some r → WalkExt vfs r.vfs := by
  induction fuel with
  | zero =>
    intro vfs path followSymlink entry r h
    exact Option.noConfusion h
  | succ fuel ih =>
    intro vfs path followSymlink entry r h
    unfold VFS.Lookup at h
    by_cases hp : path = "/"
    · rw [if_pos hp] at h
      simp only [Option.some.injEq] at h
      rw [← h]
      exact DoGetAttr_walks env vfs _ _
    · rw [if_neg hp] at h
      exact LookupLoop_walks env (VFS.Lookup env fuel) ih _ _ _ _ _ _ _ _ _ h

/-- When the walk of the path returns OK, `DoMkDir` returns EXISTS in the state that the
walk left. -/
theorem DoMkDir_exists (w : World) (fuel : Nat) (vfs : VFS) (path : String) (mode : Nat)
    (r : LookupResult)
    (h : VFS.Lookup (w.env vfs.log) fuel vfs path true Entry.empty = some r)
    (hr : r.rc = CURVEFS_ERROR.OK) :
    VFS.DoMkDir w fuel vfs path mode = some (CURVEFS_ERROR.EXISTS, r.vfs) := by
  simp only [VFS.DoMkDir, h, hr, if_true]

/-- When every path walk returns, so does `DoMkDir`. -/
theorem DoMkDir_total (w : World) (fuel : Nat)
    (htot : ∀ (vfs : VFS) (path : String),
      (VFS.Lookup (w.env vfs.log) fuel vfs path true Entry.empty).isSome = true)
    (vfs : VFS) (path : String) (mode : Nat) :
    (VFS.DoMkDir w fuel vfs path mode).isSome = true := by
  obtain ⟨r1, h1⟩ := Option.isSome_iff_exists.mp (htot vfs path)
  obtain ⟨r2, h2⟩ := Option.isSome_iff_exists.mp (htot r1.vfs (w.ParentDir path))
  simp only [VFS.DoMkDir, h1, h2]
  split_ifs <;> rfl

/-- When every path walk returns and the ancestor `depth` levels up is the root,
`MkDirs` returns within that depth. -/
theorem MkDirs_total (w : World) (fuel : Nat)
    (htot : ∀ (vfs : VFS) (path : String),
      (VFS.Lookup (w.env vfs.log) fuel vfs path true Entry.empty).isSome = true)
    (mode : Nat) :
    ∀ (depth : Nat) (vfs : VFS) (path : String), w.ancestor depth path = "/" →
      (VFS.MkDirs w fuel (depth + 1) vfs path mode).isSome = true := by
  intro depth
  induction depth with
  | zero =>
    intro vfs path h
    have hp : path = "/" := h
    simp [VFS.MkDirs, hp]
  | succ depth ih =>
    intro vfs path h
    unfold VFS.MkDirs
    by_cases hp : path = "/"
    · rw [if_pos hp]; rfl
    · rw [if_neg hp]
      obtain ⟨r, hr⟩ := Option.isSome_iff_exists.mp (ih vfs (w.ParentDir path) h)
      rw [hr]
      simp only
      split_ifs
      · rfl
      · exact DoMkDir_total w fuel htot r.2 path mode



/-- With a metadata side on which no link can be read, an iteration of the walk ends
whatever the recursive call does. -/
theorem LookupBody_noread (env : Env)
    (recur : VFS → String → Bool → Entry → Option LookupResult)
    (hno : ∀ ino, (env.op_.ReadLink ino).1 ≠ CURVEFS_ERROR.OK)
    (names : List String) (followSymlink : Bool) (i : Nat) (name : String)
    (parent : Ino) (entry : Entry) (vfs : VFS) :
    VFS.LookupBody env recur names followSymlink i name parent entry vfs ≠ Flow.diverge := by
  have hrl : ∀ (v : VFS) (ino : Ino) (dir target : String),
      (VFS.DoReadLink env v ino dir target).1 ≠ CURVEFS_ERROR.OK := by
    intro v ino dir target
    unfold VFS.DoReadLink
    simp only
    rw [if_pos (hno ino)]
    exact hno ino
  unfold VFS.LookupBody
  simp only []
  by_cases hchk : parent ≠ ROOT_INO ∧ env.permission_.Check entry.attr WANT_EXEC ≠ CURVEFS_ERROR.OK
  · simp only [if_pos hchk]
    exact fun h => Flow.noConfusion h
  · simp only [if_neg hchk]
    generalize VFS.DoLookup env
      (if parent ≠ ROOT_INO then vfs.record (VfsEv.permCheck entry.attr WANT_EXEC) else vfs)
      parent name entry.ino = r1
    by_cases c1 : r1.1 ≠ CURVEFS_ERROR.OK
    · simp only [if_pos c1]
      exact fun h => Flow.noConfusion h
    · simp only [if_neg c1]
      generalize VFS.DoGetAttr env r1.2.2 r1.2.1 entry.attr = r2
      by_cases c2 : r2.1 ≠ CURVEFS_ERROR.OK
      · simp only [if_pos c2]
        exact fun h => Flow.noConfusion h
      · simp only [if_neg c2]
        by_cases hcond : ((!decide (i + 1 = names.length) || followSymlink) &&
            IsSymlink r2.2.1) = true
        · simp only [if_pos hcond]
          have c3 := hrl r2.2.2 r1.2.1 (strings.JoinRange names 0 i "/") ""
          generalize VFS.DoReadLink env r2.2.2 r1.2.1 (strings.JoinRange names 0 i "/") "" = r3
            at c3
          simp only [if_pos c3]
          exact fun h => Flow.noConfusion h
        · simp only [if_neg hcond]
          split
          · split <;> exact fun h => Flow.noConfusion h
          · exact fun h => Flow.noConfusion h

/-- With a metadata side on which no link can be read, the loop of the walk ends. -/
theorem LookupLoop_noread (env : Env)
    (recur : VFS → String → Bool → Entry → Option LookupResult)
    (hno : ∀ ino, (env.op_.ReadLink ino).1 ≠ CURVEFS_ERROR.OK)
    (names : List String) (followSymlink : Bool) (rest : List String) :
    ∀ (i : Nat) (parent : Ino) (rc : CURVEFS_ERROR) (entry : Entry) (vfs : VFS),
      (VFS.LookupLoop env recur names followSymlink rest i parent rc entry vfs).isSome = true := by
  induction rest with
  | nil =>
    intro i parent rc entry vfs
    rfl
  | cons name rest ih =>
    intro i parent rc entry vfs
    simp only [VFS.LookupLoop]
    have hnd := LookupBody_noread env recur hno names followSymlink i name parent entry vfs
    cases hf : VFS.LookupBody env recur names followSymlink i name parent entry vfs with
    | next p e v => exact ih _ _ _ _ _
    | brk rc1 e v => rfl
    | ret rc1 e v => rfl
    | diverge => exact absurd hf hnd

/-- With a metadata side on which no link can be read, every walk returns without
recursion, whatever the caches hold. -/
theorem Lookup_noread (env : Env) (hno : ∀ ino, (env.op_.ReadLink ino).1 ≠ CURVEFS_ERROR.OK)
    (vfs : VFS) (path : String) (followSymlink : Bool) (entry : Entry) :
    (VFS.Lookup env 1 vfs path followSymlink entry).isSome = true := by
  unfold VFS.Lookup
  by_cases hp : path = "/"
  · rw [if_pos hp]
    rfl
  · rw [if_neg hp]
    exact LookupLoop_noread env (VFS.Lookup env 0) hno _ _ _ _ _ _ _ _

/-- The objects that the growing sample file system holds are directories. -/
theorem madeDirs_dirs (log : List VfsEv) :
    ∀ (i : Nat), ∀ n ∈ madeDirs log i, n.type = FsFileType.TYPE_DIRECTORY := by
  induction log with
  | nil => intro i n hn; simp [madeDirs] at hn
  | cons e rest ih =>
    intro i n hn
    cases e <;> simp only [madeDirs, List.mem_cons] at hn <;>
      first
      | exact ih _ n hn
      | (rcases hn with h | h
         · rw [h]
         · exact ih _ n h)

/-- The growing sample file system holds no link to read. -/
theorem growingWorld_noread (log : List VfsEv) (ino : Ino) :
    ((growingWorld.env log).op_.ReadLink ino).1 ≠ CURVEFS_ERROR.OK := by
  simp only [growingWorld, tableOp]
  cases hf : (madeDirs log 0).find? (fun n => decide (n.ino = ino) &&
      decide (n.type = FsFileType.TYPE_SYM_LINK)) with
  | none => simp
  | some n =>
    have hm := List.mem_of_find?_eq_some hf
    have hp := List.find?_some hf
    have ht := madeDirs_dirs log 0 n hm
    rw [ht] at hp
    simp at hp



/-- C28: `MkDirs("/")` returns OK and leaves the state, the log of calls included, as it
is.  For any other path it first runs `MkDirs` on `ParentDir(path)`: when that returns a
code that is neither OK nor EXISTS, this code and the state it left are the result, so
that nothing is done for `path` itself; otherwise the result is that of `DoMkDir(path)`
in the state it left.  Then, if the walk of `path` returns OK, the result is EXISTS in
the state that the walk left, whose log has gained calls of the walk only: no remote
`MkDir` is made for `path`.  When every path walk returns and the ancestor `depth`
levels up is the root, `MkDirs` returns within that depth. -/
theorem VFS.mkdirs_parent_first (w : World) (fuel : Nat) (mode : Nat) :
    (∀ (depth : Nat) (vfs : VFS),
      VFS.MkDirs w fuel (depth + 1) vfs "/" mode = some (CURVEFS_ERROR.OK, vfs)) ∧
    (∀ (depth : Nat) (vfs : VFS) (path : String) (r : CURVEFS_ERROR × VFS), path ≠ "/" →
      VFS.MkDirs w fuel depth vfs (w.ParentDir path) mode = some r →
      r.1 ≠ CURVEFS_ERROR.OK → r.1 ≠ CURVEFS_ERROR.EXISTS →
      VFS.MkDirs w fuel (depth + 1) vfs path mode = some r) ∧
    (∀ (depth : Nat) (vfs : VFS) (path : String) (r : CURVEFS_ERROR × VFS), path ≠ "/" →
      VFS.MkDirs w fuel depth vfs (w.ParentDir path) mode = some r →
      (r.1 = CURVEFS_ERROR.OK ∨ r.1 = CURVEFS_ERROR.EXISTS) →
      VFS.MkDirs w fuel (depth + 1) vfs path mode = VFS.DoMkDir w fuel r.2 path mode) ∧
    (∀ (depth : Nat) (vfs : VFS) (path : String) (r : CURVEFS_ERROR × VFS)
        (r2 : LookupResult), path ≠ "/" →
      VFS.MkDirs w fuel depth vfs (w.ParentDir path) mode = some r →
      (r.1 = CURVEFS_ERROR.OK ∨ r.1 = CURVEFS_ERROR.EXISTS) →
      VFS.Lookup (w.env r.2.log) fuel r.2 path true Entry.empty = some r2 →
      r2.rc = CURVEFS_ERROR.OK →
      VFS.MkDirs w fuel (depth + 1) vfs path mode = some (CURVEFS_ERROR.EXISTS, r2.vfs) ∧
      WalkExt r.2 r2.vfs) ∧
    ((∀ (vfs : VFS) (path : String),
        (VFS.Lookup (w.env vfs.log) fuel vfs path true Entry.empty).isSome = true) →
      ∀ (depth : Nat) (vfs : VFS) (path : String), w.ancestor depth path = "/" →
        (VFS.MkDirs w fuel (depth + 1) vfs path mode).isSome = true) := by
  have hstep : ∀ (depth : Nat) (vfs : VFS) (path : String) (r : CURVEFS_ERROR × VFS),
      path ≠ "/" →
      VFS.MkDirs w fuel depth vfs (w.ParentDir path) mode = some r →
      (r.1 = CURVEFS_ERROR.OK ∨ r.1 = CURVEFS_ERROR.EXISTS) →
      VFS.MkDirs w fuel (depth + 1) vfs path mode = VFS.DoMkDir w fuel r.2 path mode := by
    intro depth vfs path r hp hr hok
    rw [VFS.MkDirs, if_neg hp, hr]
    simp only
    rw [if_neg]
    rintro ⟨h1, h2⟩
    rcases hok with h | h
    · exact h1 h
    · exact h2 h
  refine ⟨?_, ?_, hstep, ?_, ?_⟩
  · intro depth vfs
    rw [VFS.MkDirs, if_pos rfl]
  · intro depth vfs path r hp hr h1 h2
    rw [VFS.MkDirs, if_neg hp, hr]
    simp only
    rw [if_pos ⟨h1, h2⟩]
  · intro depth vfs path r r2 hp hr hok hl hr2
    rw [hstep depth vfs path r hp hr hok]
    exact ⟨DoMkDir_exists w fuel r.2 path mode r2 hl hr2,
      Lookup_walks (w.env r.2.log) fuel r.2 path true Entry.empty r2 hl⟩
  · intro htot depth vfs path h
    exact MkDirs_total w fuel htot mode depth vfs path h

/-- C28 on a metadata side that starts with the root alone: `MkDirs("/x/y/z")` returns
within depth 4, making the remote `MkDir` of `x`, of `y` and of `z` in that order, each
followed by the purge of its name, and returns OK; run again in the state it left, it
returns EXISTS and makes no call other than those of path walks. -/
theorem VFS.mkdirs_parent_first_witness :
    (VFS.MkDirs growingWorld 1 4 sampleVfs "/x/y/z" 493).isSome = true ∧
    (VFS.MkDirs growingWorld 1 4 sampleVfs "/x/y/z" 493).map
        (fun r => (r.1, r.2.log.filter (fun e => !e.isWalk)))
      = some (CURVEFS_ERROR.OK,
          [VfsEv.opMkDir 1 "x" 16877, VfsEv.entryCacheDelete 1 "x",
           VfsEv.opMkDir 105 "y" 16877, VfsEv.entryCacheDelete 105 "y",
           VfsEv.opMkDir 120 "z" 16877, VfsEv.entryCacheDelete 120 "z"]) ∧
    ((VFS.MkDirs growingWorld 1 4 sampleVfs "/x/y/z" 493).bind
        (fun r => (VFS.MkDirs growingWorld 1 4 r.2 "/x/y/z" 493).map
          (fun r2 => (r2.1, (r2.2.log.drop r.2.log.length).filter (fun e => !e.isWalk)))))
      = some (CURVEFS_ERROR.EXISTS, []) ∧
    VFS.MkDirs growingWorld 1 4 sampleVfs "/" 493 = some (CURVEFS_ERROR.OK, sampleVfs) :=
  ⟨(VFS.mkdirs_parent_first growingWorld 1 493).2.2.2.2
      (fun vfs path => Lookup_noread (growingWorld.env vfs.log)
        (growingWorld_noread vfs.log) vfs path true Entry.empty)
      3 sampleVfs "/x/y/z" (by decide),
   by decide, by decide, by decide⟩

/-! ## Paged accounting of segments -/

/-- The loop over values that all decode adds every segment and reports success. -/
theorem decodeFrom_all (codec : SegmentCodec) :
    ∀ (vals : List String) (segs : List PageFileSegment) (out : AllocMap),
      vals.map codec.DecodeSegment = segs.map some →
      AllocStatisticHelper.decodeFrom codec vals out = (true, out.addAll segs) := by
  intro vals
  induction vals with
  | nil =>
    intro segs out h
    cases segs with
    | nil => rfl
    | cons s rest => simp at h
  | cons v rest ih =>
    intro segs out h
    cases segs with
    | nil => simp at h
    | cons s srest =>
      simp only [List.map_cons, List.cons.injEq] at h
      unfold AllocStatisticHelper.decodeFrom
      rw [h.1]
      simp only
      rw [ih srest _ h.2]
      rfl

/-- The loop over values stops at the first that does not decode and reports failure. -/
theorem decodeFrom_fails (codec : SegmentCodec) :
    ∀ (vals : List String) (out : AllocMap),
      (∃ v ∈ vals, codec.DecodeSegment v = none) →
      (AllocStatisticHelper.decodeFrom codec vals out).1 = false := by
  intro vals
  induction vals with
  | nil => intro out h; obtain ⟨v, hv, _⟩ := h; simp at hv
  | cons v rest ih =>
    intro out h
    unfold AllocStatisticHelper.decodeFrom
    cases hd : codec.DecodeSegment v with
    | none => rfl
    | some seg =>
      simp only
      apply ih
      obtain ⟨x, hx, hxn⟩ := h
      rcases List.mem_cons.mp hx with h1 | h1
      · rw [h1, hd] at hxn
        exact absurd hxn (by simp)
      · exact ⟨x, h1, hxn⟩

/-- Adding segments one by one adds, for each pool, the sum of their sizes modulo 2^64. -/
theorem addAll_sum : ∀ (segs : List PageFileSegment) (out : AllocMap),
    (∀ p, out p < 2 ^ 64) →
    ∀ p, out.addAll segs p = (out p + sumPool segs p) % 2 ^ 64 := by
  intro segs
  induction segs with
  | nil =>
    intro out hb p
    have e : out.addAll [] p = out p := rfl
    have e2 : sumPool [] p = 0 := rfl
    rw [e, e2, Nat.add_zero, Nat.mod_eq_of_lt (hb p)]
  | cons s rest ih =>
    intro out hb p
    have hb2 : ∀ q, (out.add s.logicalpoolid s.segmentsize) q < 2 ^ 64 := by
      intro q
      unfold AllocMap.add
      split_ifs
      · exact Nat.mod_lt _ (by decide)
      · exact hb q
    have h := ih (out.add s.logicalpoolid s.segmentsize) hb2 p
    have e : out.addAll (s :: rest) = (out.add s.logicalpoolid s.segmentsize).addAll rest := rfl
    rw [e, h]
    unfold AllocMap.add sumPool
    by_cases hp : p = s.logicalpoolid
    · have hs : s.logicalpoolid = p := hp.symm
      simp only [hp, if_true, List.filter_cons, decide_True, List.map_cons, List.sum_cons]
      rw [Nat.mod_add_mod, Nat.add_assoc]
    · have hs : ¬ s.logicalpoolid = p := fun hc => hp hc.symm
      simp only [hp, if_false, List.filter_cons, hs, decide_False, Bool.false_eq_true]

/-- Adding two runs of segments is adding their concatenation. -/
theorem addAll_append (out : AllocMap) (a b : List PageFileSegment) :
    (out.addAll a).addAll b = out.addAll (a ++ b) := by
  unfold AllocMap.addAll
  rw [List.foldl_append]



/-- The values of the page listed from position `i`, from `startPos` on, decode to the
segments at the same positions. -/
theorem page_values_decode (codec : SegmentCodec) (kvs : List (String × String))
    (segs : List PageFileSegment)
    (hdec : kvs.map (fun kv => codec.DecodeSegment kv.2) = segs.map some)
    (bundle i startPos : Nat) :
    ((pageOf bundle (kvs.drop i)).values.drop startPos).map codec.DecodeSegment
      = ((((segs.drop i).take bundle).drop startPos)).map some := by
  have e : (((segs.drop i).take bundle).drop startPos).map some
      = (((segs.map some).drop i).take bundle).drop startPos := by
    simp [List.map_drop, List.map_take]
  rw [e, ← hdec]
  simp only [pageOf, List.map_drop, List.map_take, List.map_map]
  rfl

/-- The last key of a full page listed from position `i`. -/
theorem pageOf_lastKey (kvs : List (String × String)) (bundle i : Nat) (hb : 1 ≤ bundle)
    (h : i + bundle - 1 < kvs.length) :
    (pageOf bundle (kvs.drop i)).lastKey = (kvs[i + bundle - 1]).1 := by
  unfold pageOf
  simp only
  rw [List.getLast?_eq_getElem?]
  have hl : ((kvs.drop i).take bundle).length = bundle := by
    simp only [List.length_take, List.length_drop]
    omega
  rw [hl, List.getElem?_take_of_lt (by omega), List.getElem?_drop]
  have e : i + (bundle - 1) = i + bundle - 1 := by omega
  rw [e, List.getElem?_eq_getElem h]
  rfl



/-- The loop from a later page: listing from the key at position `i` of a store whose
listings answer by position, it adds the segments after position `i` and returns 0. -/
theorem CalculateLoop_rest (codec : SegmentCodec) (bundle : Nat) (hb : 2 ≤ bundle)
    (revision : Int) (client : EtcdClient) (kvs : List (String × String))
    (segs : List PageFileSegment)
    (hdec : kvs.map (fun kv => codec.DecodeSegment kv.2) = segs.map some)
    (hnext : ∀ (i : Nat) (h : i < kvs.length),
      client (kvs[i]).1 codec.SEGMENTINFOKEYEND bundle revision = pageOf bundle (kvs.drop i))
    (hkeys : ∀ (i : Nat) (h : i < kvs.length), 0 < i →
      (kvs[i]).1 ≠ codec.SEGMENTINFOKEYPREFIX) :
    ∀ (n i : Nat) (out : AllocMap) (listed : List String) (h : i < kvs.length), 0 < i →
      kvs.length - i ≤ n →
      ∃ listed1, AllocStatisticHelper.CalculateLoop codec bundle revision client n
        (kvs[i]).1 out listed = some (0, out.addAll (segs.drop (i + 1)), listed1) := by
  have hlen : kvs.length = segs.length := by
    have := congrArg List.length hdec
    simpa using this
  intro n
  induction n with
  | zero =>
    intro i out listed h _ hn
    omega
  | succ n ih =>
    intro i out listed h hpos hn
    unfold AllocStatisticHelper.CalculateLoop
    simp only
    rw [hnext i h]
    have hres : (pageOf bundle (kvs.drop i)).res = EtcdErrCode.OK := rfl
    rw [if_neg (by rw [hres]; simp), if_neg (hkeys i h hpos)]
    rw [decodeFrom_all codec _ _ out (page_values_decode codec kvs segs hdec bundle i 1)]
    simp only [Bool.not_true, Bool.false_eq_true, if_false]
    have hvl : (pageOf bundle (kvs.drop i)).values.length = min bundle (kvs.length - i) := by
      simp [pageOf]
    by_cases hfull : bundle ≤ kvs.length - i
    · rw [if_pos (by rw [hvl]; simp [hfull])]
      have hi2 : i + bundle - 1 < kvs.length := by omega
      rw [pageOf_lastKey kvs bundle i (by omega) hi2]
      obtain ⟨listed1, h1⟩ := ih (i + bundle - 1)
        (out.addAll (((segs.drop i).take bundle).drop 1)) (listed ++ [(kvs[i]).1]) hi2
        (by omega) (by omega)
      refine ⟨listed1, ?_⟩
      rw [h1, addAll_append]
      have e1 : ((segs.drop i).take bundle).drop 1 = (segs.drop (i + 1)).take (bundle - 1) := by
        rw [List.drop_take, List.drop_drop]
      have e2 : segs.drop (i + bundle - 1 + 1) = (segs.drop (i + 1)).drop (bundle - 1) := by
        rw [List.drop_drop]
        congr 1
        omega
      rw [e1, e2, List.take_append_drop]
    · rw [if_neg (by rw [hvl]; simp; omega)]
      refine ⟨listed ++ [(kvs[i]).1], ?_⟩
      have e1 : ((segs.drop i).take bundle).drop 1 = segs.drop (i + 1) := by
        rw [List.take_of_length_le (by simp only [List.length_drop]; omega), List.drop_drop]
      rw [e1]



/-- The loop from the first page: listing from the prefix of a store whose listings
answer by position, it adds every segment and returns 0. -/
theorem CalculateLoop_first (codec : SegmentCodec) (bundle : Nat) (hb : 2 ≤ bundle)
    (revision : Int) (client : EtcdClient) (kvs : List (String × String))
    (segs : List PageFileSegment)
    (hdec : kvs.map (fun kv => codec.DecodeSegment kv.2) = segs.map some)
    (hfirst : client codec.SEGMENTINFOKEYPREFIX codec.SEGMENTINFOKEYEND bundle revision
      = pageOf bundle kvs)
    (hnext : ∀ (i : Nat) (h : i < kvs.length),
      client (kvs[i]).1 codec.SEGMENTINFOKEYEND bundle revision = pageOf bundle (kvs.drop i))
    (hkeys : ∀ (i : Nat) (h : i < kvs.length), 0 < i →
      (kvs[i]).1 ≠ codec.SEGMENTINFOKEYPREFIX)
    (n : Nat) (out : AllocMap) (hn : kvs.length + 1 ≤ n) :
    ∃ listed, AllocStatisticHelper.CalculateLoop codec bundle revision client n
      codec.SEGMENTINFOKEYPREFIX out [] = some (0, out.addAll segs, listed) := by
  have hlen : kvs.length = segs.length := by
    have := congrArg List.length hdec
    simpa using this
  obtain ⟨m, rfl⟩ : ∃ m, n = m + 1 := ⟨n - 1, by omega⟩
  unfold AllocStatisticHelper.CalculateLoop
  simp only
  rw [hfirst]
  have hres : (pageOf bundle kvs).res = EtcdErrCode.OK := rfl
  rw [if_neg (by rw [hres]; simp)]
  simp only [if_true]
  have hd := page_values_decode codec kvs segs hdec bundle 0 0
  simp only [List.drop_zero] at hd
  rw [List.drop_zero, decodeFrom_all codec _ _ out hd]
  simp only [Bool.not_true, Bool.false_eq_true, if_false]
  have hvl : (pageOf bundle kvs).values.length = min bundle kvs.length := by
    simp [pageOf]
  by_cases hfull : bundle ≤ kvs.length
  · rw [if_pos (by rw [hvl]; simp [hfull])]
    have hi2 : 0 + bundle - 1 < kvs.length := by omega
    have hl := pageOf_lastKey kvs bundle 0 (by omega) hi2
    simp only [List.drop_zero] at hl
    rw [hl]
    obtain ⟨listed1, h1⟩ := CalculateLoop_rest codec bundle hb revision client kvs segs hdec
      hnext hkeys m (0 + bundle - 1) (out.addAll (segs.take bundle))
      ([] ++ [codec.SEGMENTINFOKEYPREFIX]) hi2 (by omega) (by omega)
    refine ⟨listed1, ?_⟩
    rw [h1, addAll_append]
    have e : segs.drop (0 + bundle - 1 + 1) = segs.drop bundle := by
      congr 1
      omega
    rw [e, List.take_append_drop]
  · rw [if_neg (by rw [hvl]; simp; omega)]
    refine ⟨[] ++ [codec.SEGMENTINFOKEYPREFIX], ?_⟩
    rw [List.take_of_length_le (by omega)]



/-- In a list in strict key order, the pairs whose key is at or after the key at
position `i` are those from position `i` on. -/
theorem filter_from_position (endKey : String) :
    ∀ (kvs : List (String × String)) (i : Nat) (h : i < kvs.length),
      kvs.Pairwise (fun a b => a.1 < b.1) → (∀ kv ∈ kvs, kv.1 < endKey) →
      kvs.filter (fun kv => decide ((kvs[i]).1 ≤ kv.1) && decide (kv.1 < endKey))
        = kvs.drop i := by
  intro kvs
  induction kvs with
  | nil => intro i h; simp at h
  | cons a rest ih =>
    intro i h hs hr
    have hs2 := List.pairwise_cons.mp hs
    cases i with
    | zero =>
      simp only [List.getElem_cons_zero, List.drop_zero]
      rw [List.filter_eq_self]
      intro kv hkv
      have h2 : kv.1 < endKey := hr kv hkv
      have h1 : a.1 ≤ kv.1 := by
        rcases List.mem_cons.mp hkv with e | e
        · rw [e]
        · exact le_of_lt (hs2.1 kv e)
      simp [h1, h2]
    | succ j =>
      have hj : j < rest.length := by simpa using h
      have hlt : a.1 < (rest[j]).1 := hs2.1 _ (List.getElem_mem hj)
      simp only [List.getElem_cons_succ, List.drop_succ_cons]
      rw [List.filter_cons]
      have hna : ¬ ((rest[j]).1 ≤ a.1) := not_le.mpr hlt
      simp only [hna, decide_False, Bool.false_and, Bool.false_eq_true, if_false]
      exact ih j hj hs2.2 (fun kv hkv => hr kv (List.mem_cons_of_mem a hkv))

/-- A client that lists a store in strict key order, all of whose keys lie in the range
from the prefix to the end key, answers by position, and no key after the first is the
prefix. -/
theorem rangeClient_by_position (codec : SegmentCodec) (kvs : List (String × String))
    (bundle : Nat) (revision : Int)
    (hs : kvs.Pairwise (fun a b => a.1 < b.1))
    (hr : ∀ kv ∈ kvs, codec.SEGMENTINFOKEYPREFIX ≤ kv.1 ∧ kv.1 < codec.SEGMENTINFOKEYEND) :
    rangeClient kvs codec.SEGMENTINFOKEYPREFIX codec.SEGMENTINFOKEYEND bundle revision
      = pageOf bundle kvs ∧
    (∀ (i : Nat) (h : i < kvs.length),
      rangeClient kvs (kvs[i]).1 codec.SEGMENTINFOKEYEND bundle revision
        = pageOf bundle (kvs.drop i)) ∧
    (∀ (i : Nat) (h : i < kvs.length), 0 < i →
      (kvs[i]).1 ≠ codec.SEGMENTINFOKEYPREFIX) := by
  refine ⟨?_, ?_, ?_⟩
  · unfold rangeClient
    rw [List.filter_eq_self.mpr]
    intro kv hkv
    simp [(hr kv hkv).1, (hr kv hkv).2]
  · intro i h
    unfold rangeClient
    rw [filter_from_position codec.SEGMENTINFOKEYEND kvs i h hs (fun kv hkv => (hr kv hkv).2)]
  · intro i h hpos hc
    have h0 : 0 < kvs.length := by omega
    have hlt : (kvs[0]).1 < (kvs[i]).1 := by
      have := List.pairwise_iff_getElem.mp hs 0 i h0 h hpos
      exact this
    have hge : codec.SEGMENTINFOKEYPREFIX ≤ (kvs[0]).1 := (hr _ (List.getElem_mem h0)).1
    rw [hc] at hlt
    exact absurd hlt (not_lt.mpr hge)

/-- C30.  Let `kvs` be the keys and values of the segments of the range at the given
revision, in key order, none after the first having the prefix itself as key, and let
the client answer a listing from the prefix, or from the key at a position of `kvs`,
with code OK, at most GETBUNDLE values from that position on and the key of the last of
them.  When every value decodes, to the segments `segs`, `CalculateSegmentAlloc`
returns 0 (within `kvs.length + 1` iterations) and leaves in `out`, for every pool, its
former value plus the sum of the sizes of the segments of that pool, modulo 2^64: each
segment is counted once, the first value of every page after the first being skipped.
Whatever the client, an iteration whose listing fails returns -1 and leaves the map; one
whose page holds, from the start position on, a value that does not decode returns -1;
and one whose values all decode and are fewer than GETBUNDLE returns 0 without listing
again.  In particular the sums are obtained with the client that lists, in key order,
the pairs of a store in strict key order whose keys lie between the prefix and the end
key. -/
theorem AllocStatisticHelper.segment_alloc_paged (codec : SegmentCodec) (revision : Int)
    (client : EtcdClient) (out : AllocMap) (kvs : List (String × String))
    (segs : List PageFileSegment)
    (hdec : kvs.map (fun kv => codec.DecodeSegment kv.2) = segs.map some)
    (hfirst : client codec.SEGMENTINFOKEYPREFIX codec.SEGMENTINFOKEYEND GETBUNDLE revision
      = pageOf GETBUNDLE kvs)
    (hnext : ∀ (i : Nat) (h : i < kvs.length),
      client (kvs[i]).1 codec.SEGMENTINFOKEYEND GETBUNDLE revision
        = pageOf GETBUNDLE (kvs.drop i))
    (hkeys : ∀ (i : Nat) (h : i < kvs.length), 0 < i →
      (kvs[i]).1 ≠ codec.SEGMENTINFOKEYPREFIX)
    (hout : ∀ pool, out pool < 2 ^ 64) :
    (∀ fuel, kvs.length + 1 ≤ fuel →
      ∃ (out1 : AllocMap) (listed : List String),
        AllocStatisticHelper.CalculateSegmentAlloc codec fuel revision client out
          = some (0, out1, listed) ∧
        ∀ pool, out1 pool = (out pool + sumPool segs pool) % 2 ^ 64) ∧
    (∀ (other : EtcdClient) (fuel : Nat) (startKey : String) (out0 : AllocMap)
        (listed : List String),
      (other startKey codec.SEGMENTINFOKEYEND GETBUNDLE revision).res ≠ EtcdErrCode.OK →
      AllocStatisticHelper.CalculateLoop codec GETBUNDLE revision other (fuel + 1) startKey
        out0 listed = some (-1, out0, listed ++ [startKey])) ∧
    (∀ (other : EtcdClient) (fuel : Nat) (startKey : String) (out0 : AllocMap)
        (listed : List String),
      (other startKey codec.SEGMENTINFOKEYEND GETBUNDLE revision).res = EtcdErrCode.OK →
      (∃ v ∈ (other startKey codec.SEGMENTINFOKEYEND GETBUNDLE revision).values.drop
          (if startKey = codec.SEGMENTINFOKEYPREFIX then 0 else 1),
        codec.DecodeSegment v = none) →
      ∃ out1, AllocStatisticHelper.CalculateLoop codec GETBUNDLE revision other (fuel + 1)
        startKey out0 listed = some (-1, out1, listed ++ [startKey])) ∧
    (∀ (other : EtcdClient) (fuel : Nat) (startKey : String) (out0 : AllocMap)
        (listed : List String) (page : List PageFileSegment),
      (other startKey codec.SEGMENTINFOKEYEND GETBUNDLE revision).res = EtcdErrCode.OK →
      ((other startKey codec.SEGMENTINFOKEYEND GETBUNDLE revision).values.drop
          (if startKey = codec.SEGMENTINFOKEYPREFIX then 0 else 1)).map codec.DecodeSegment
        = page.map some →
      (other startKey codec.SEGMENTINFOKEYEND GETBUNDLE revision).values.length < GETBUNDLE →
      AllocStatisticHelper.CalculateLoop codec GETBUNDLE revision other (fuel + 1) startKey
        out0 listed = some (0, out0.addAll page, listed ++ [startKey])) ∧
    (∀ (store : List (String × String)) (found : List PageFileSegment),
      store.Pairwise (fun a b => a.1 < b.1) →
      (∀ kv ∈ store,
        codec.SEGMENTINFOKEYPREFIX ≤ kv.1 ∧ kv.1 < codec.SEGMENTINFOKEYEND) →
      store.map (fun kv => codec.DecodeSegment kv.2) = found.map some →
      ∀ fuel, store.length + 1 ≤ fuel →
        ∃ (out1 : AllocMap) (listed : List String),
          AllocStatisticHelper.CalculateSegmentAlloc codec fuel revision (rangeClient store)
            out = some (0, out1, listed) ∧
          ∀ pool, out1 pool = (out pool + sumPool found pool) % 2 ^ 64) := by
  refine ⟨?_, ?_, ?_, ?_, ?_⟩
  · intro fuel hfuel
    obtain ⟨listed, h⟩ := CalculateLoop_first codec GETBUNDLE (by decide) revision client kvs
      segs hdec hfirst hnext hkeys fuel out hfuel
    exact ⟨out.addAll segs, listed, h, addAll_sum segs out hout⟩
  · intro other fuel startKey out0 listed hres
    unfold AllocStatisticHelper.CalculateLoop
    simp only
    rw [if_pos hres]
  · intro other fuel startKey out0 listed hres hbad
    unfold AllocStatisticHelper.CalculateLoop
    simp only
    rw [if_neg (by rw [hres]; simp)]
    have hf := decodeFrom_fails codec _ out0 hbad
    rw [if_pos (by rw [hf]; rfl)]
    exact ⟨_, rfl⟩
  · intro other fuel startKey out0 listed page hres hpage hshort
    unfold AllocStatisticHelper.CalculateLoop
    simp only
    rw [if_neg (by rw [hres]; simp)]
    rw [decodeFrom_all codec _ _ out0 hpage]
    simp only [Bool.not_true, Bool.false_eq_true, if_false]
    rw [if_neg (by omega)]
  · intro store found hs hr hd fuel hfuel
    obtain ⟨h1, h2, h3⟩ := rangeClient_by_position codec store GETBUNDLE revision hs hr
    obtain ⟨listed, h⟩ := CalculateLoop_first codec GETBUNDLE (by decide) revision
      (rangeClient store) store found hd h1 h2 h3 fuel out hfuel
    exact ⟨out.addAll found, listed, h, addAll_sum found out hout⟩

/-- C30 on a store of five segments, sizes 1, 2 and 4 in pool 1 and 3 and 5 in pool 2:
the accounting returns 0 with 7 for pool 1, 8 for pool 2 and 0 for pool 3 after one
listing; and the same loop with pages of two values lists five times, from the prefix
and from the last key of each page, and gives the same sums. -/
theorem AllocStatisticHelper.segment_alloc_paged_witness :
    (∃ (out1 : AllocMap) (listed : List String),
      AllocStatisticHelper.CalculateSegmentAlloc sampleCodec 6 7
          (storeClient "03" sampleStore) (fun _ => 0) = some (0, out1, listed) ∧
      ∀ pool, out1 pool = (0 + sumPool
        [{ logicalpoolid := 1, segmentsize := 1 }, { logicalpoolid := 2, segmentsize := 3 },
         { logicalpoolid := 1, segmentsize := 2 }, { logicalpoolid := 2, segmentsize := 5 },
         { logicalpoolid := 1, segmentsize := 4 }] pool) % 2 ^ 64) ∧
    (AllocStatisticHelper.CalculateSegmentAlloc sampleCodec 6 7
        (storeClient "03" sampleStore) (fun _ => 0)).map
        (fun r => (r.1, r.2.1 1, r.2.1 2, r.2.1 3, r.2.2))
      = some (0, 7, 8, 0, ["03"]) ∧
    (AllocStatisticHelper.CalculateLoop sampleCodec 2 7 (storeClient "03" sampleStore) 6 "03"
        (fun _ => 0) []).map (fun r => (r.1, r.2.1 1, r.2.1 2, r.2.1 3, r.2.2))
      = some (0, 7, 8, 0, ["03", "03b", "03c", "03d", "03e"]) :=
  ⟨(AllocStatisticHelper.segment_alloc_paged sampleCodec 7 (storeClient "03" sampleStore)
      (fun _ => 0) sampleStore
      [{ logicalpoolid := 1, segmentsize := 1 }, { logicalpoolid := 2, segmentsize := 3 },
       { logicalpoolid := 1, segmentsize := 2 }, { logicalpoolid := 2, segmentsize := 5 },
       { logicalpoolid := 1, segmentsize := 4 }]
      (by decide) (by decide) (by decide) (by decide)
      (fun _ => Nat.two_pow_pos 64)).1 6 (by decide),
   by decide, by decide⟩

end CurveFS
